import Mathlib

/-! # A8PicoCart: flash translation layer, block adapter, file loader, ATR images,
directory service, command channel and mapper emulators

A shallow embedding of the 512-byte-sector translation layer that the
cartridge firmware puts on top of the 4 KiB erase blocks of the Pico's flash
(`Pico VSCode Project/a8_pico_cart/flash_fs.c`), of the block adapter above it
(`fatfs_disk.c`), and of the file loader, the ATR sector functions, the
directory listing and search, the command channel and the mapper emulators of
`atari_cart.c`, followed by the properties proved about them.

Modelling conventions.

* C arrays (`fs_map`, `used_bitmap`, `fs_map_needs_written`, the flash window)
  are total functions on `Nat`; only the indices inside the C array bounds are
  meaningful.
* `fs_map` is kept as the raw bytes of the C struct `sector_map`
  (8 header bytes, then 30716 little-endian `uint16_t` entries), because
  `write_fs_map` and `flash_fs_mount` copy it to and from flash bytewise.
* Flash addresses are offsets from `HW_FLASH_STORAGE_BASE`.
* The function-local static `search_start_pos` of `getNextWriteSector` is a
  field of the state.
* `trace` is a ghost field: the list of erase / program commands issued to the
  flash chip so far, oldest first.
* An emulator loop is a function of one turn of the loop, applied along a list
  of turns; a turn carries the GPIO words that the loop samples.
-/

namespace A8PicoCart

/-! ## Constants -/

abbrev NUM_FAT_SECTORS : Nat := 30716

abbrev NUM_FLASH_SECTORS : Nat := 3840

abbrev FLASH_SECTOR_SIZE : Nat := 4096

/-- The eight characters of "RHE!FS30". -/
abbrev MAGIC_8_BYTES : List Nat := [0x52, 0x48, 0x45, 0x21, 0x46, 0x53, 0x33, 0x30]

/-! ## State -/

/-- One command sent to the flash chip. -/
inductive FlashOp where
  | erase (sector : Nat)
  | program (sector offset size : Nat)
deriving DecidableEq, Repr

/-- The 4 KiB flash sector a command acts on. -/
def FlashOp.sector : FlashOp → Nat
  | FlashOp.erase p => p
  | FlashOp.program p _ _ => p

/-- The globals of `flash_fs.c` together with the flash contents. -/
structure FS where
  flash : Nat → Nat
  fs_map : Nat → Nat
  fs_map_needs_written : Nat → Bool
  used_bitmap : Nat → Nat
  write_sector : Nat
  write_sector_bitmap : Nat
  search_start_pos : Nat
  trace : List FlashOp

/-- Array store `a[i] = v`. -/
def store {α : Type} (a : Nat → α) (i : Nat) (v : α) : Nat → α :=
  fun k => if k = i then v else a k

/-- The C expression `~v` on a 32-bit `int`, as a bit pattern. -/
def bnot32 (v : Nat) : Nat := 0xFFFFFFFF ^^^ v

/-- The loop `for (i = start; i < start + n; i++) if (c i) break;`: the value of `i`
after the loop. -/
def scan (c : Nat → Bool) : Nat → Nat → Nat
  | 0, i => i
  | n + 1, i => if c i then i else scan c n (i + 1)

/-! ## Map entries -/

def getMapSector (mapEntry : Nat) : Nat := (mapEntry &&& 0xFFF8) >>> 3

def getMapOffset (mapEntry : Nat) : Nat := mapEntry &&& 0x7

def makeMapEntry (sector offset : Nat) : Nat := ((sector <<< 3) ||| offset) % 65536

/-- The entry `fs_map.sectors[i]`: the little-endian `uint16_t` at byte `8 + 2 * i`. -/
def sectors (fs_map : Nat → Nat) (i : Nat) : Nat :=
  fs_map (8 + 2 * i) + 256 * fs_map (8 + 2 * i + 1)

/-- The assignment `fs_map.sectors[i] = v`. -/
def set_sectors (fs_map : Nat → Nat) (i v : Nat) : Nat → Nat :=
  store (store fs_map (8 + 2 * i) (v % 256)) (8 + 2 * i + 1) (v / 256 % 256)

/-! ## Low level flash functions -/

/-- What one flash byte holds after programming `d` onto `old`: an erased byte
takes the data, any other byte can only lose bits. -/
def flash_program_byte (old d : Nat) : Nat := if old = 0xFF then d else old &&& d

def flash_read_sector (s : FS) (sector offset size : Nat) : List Nat :=
  (List.range size).map (fun k => s.flash (sector * FLASH_SECTOR_SIZE + offset * 512 + k))

def flash_erase_sector (s : FS) (sector : Nat) : FS :=
  { s with
    flash := fun a =>
      if sector * FLASH_SECTOR_SIZE ≤ a ∧ a < sector * FLASH_SECTOR_SIZE + FLASH_SECTOR_SIZE
      then 0xFF else s.flash a
    trace := s.trace ++ [FlashOp.erase sector] }

def flash_write_sector (s : FS) (sector offset : Nat) (buffer : List Nat) (size : Nat) : FS :=
  { s with
    flash := fun a =>
      if sector * FLASH_SECTOR_SIZE + offset * 512 ≤ a ∧
          a < sector * FLASH_SECTOR_SIZE + offset * 512 + size
      then flash_program_byte (s.flash a)
        (buffer.getD (a - (sector * FLASH_SECTOR_SIZE + offset * 512)) 0)
      else s.flash a
    trace := s.trace ++ [FlashOp.program sector offset size] }

/-- One iteration of the loop of `flash_erase_with_copy_sector`. -/
def copy_back_step (sector preserve_bitmap : Nat) (buf : List Nat) (s : FS) (i : Nat) : FS :=
  if preserve_bitmap &&& (1 <<< i) ≠ 0 then
    flash_write_sector s sector i (buf.drop (i * 512)) 512
  else s

def flash_erase_with_copy_sector (s : FS) (sector preserve_bitmap : Nat) : FS :=
  let buf := flash_read_sector s sector 0 FLASH_SECTOR_SIZE
  (List.range 8).foldl (copy_back_step sector preserve_bitmap buf) (flash_erase_sector s sector)

/-! ## The sector map on flash -/

/-- One iteration of the loop of `write_fs_map`. -/
def write_fs_map_step (s : FS) (i : Nat) : FS :=
  if s.fs_map_needs_written i then
    let s1 := flash_erase_sector s i
    let s2 := flash_write_sector s1 i 0
      ((List.range 4096).map (fun k => s1.fs_map (4096 * i + k))) 4096
    { s2 with fs_map_needs_written := store s2.fs_map_needs_written i false }
  else s

def write_fs_map (s : FS) : FS := (List.range 15).foldl write_fs_map_step s

/-- The call `flash_read_sector(i, 0, (uint8_t*)&fs_map + 4096 * i, 4096)`. -/
def load_fs_map_block (s : FS) (i : Nat) : FS :=
  { s with
    fs_map := fun k =>
      if 4096 * i ≤ k ∧ k < 4096 * i + 4096
      then (flash_read_sector s i 0 4096).getD (k - 4096 * i) 0
      else s.fs_map k }

/-! ## Allocation -/

/-- The second loop of `init_used_bitmap`, run over the entries `0 .. n - 1`. The source
has no test on the index of the store. The array `used_bitmap` has `NUM_FLASH_SECTORS`
bytes; in the model an index from 3840 on, which a map entry from `0x7800` on gives, stands
for the memory behind the array, where the C code writes out of bounds (`StoresInBounds`
says that no entry does so). -/
def mark_used (fs_map : Nat → Nat) : Nat → (Nat → Nat) → (Nat → Nat)
  | 0, used => used
  | n + 1, used =>
    let u := mark_used fs_map n used
    let mapEntry := sectors fs_map n
    if mapEntry ≠ 0 then
      store u (getMapSector mapEntry) (u (getMapSector mapEntry) ||| (1 <<< getMapOffset mapEntry))
    else u

/-- The function `init_used_bitmap`: `memset` of the 3840 bytes, `0xFF` for the 15
metadata sectors, then one store for every nonzero map entry, at the index
`getMapSector(mapEntry)` with no bounds test (see `mark_used`). -/
def init_used_bitmap (s : FS) : FS :=
  { s with
    used_bitmap := mark_used s.fs_map NUM_FAT_SECTORS
      (fun i => if i < 15 then 0xFF else if i < NUM_FLASH_SECTORS then 0 else s.used_bitmap i)
    write_sector := 0 }

/-- The part of `getNextWriteSector` inside `if (write_sector == 0 || write_sector_bitmap == 0)`:
the search for a sector to open. -/
def open_next_sector (s : FS) : FS :=
  let i := scan (fun i => s.used_bitmap ((i + s.search_start_pos) % NUM_FLASH_SECTORS) == 0)
    NUM_FLASH_SECTORS 0
  if i < NUM_FLASH_SECTORS then
    let ws := (i + s.search_start_pos) % NUM_FLASH_SECTORS
    let s1 := flash_erase_sector { s with write_sector := ws, write_sector_bitmap := 0xFF } ws
    { s1 with search_start_pos := (i + s.search_start_pos) % NUM_FLASH_SECTORS }
  else
    let i := scan (fun i => s.used_bitmap ((i + s.search_start_pos) % NUM_FLASH_SECTORS) != 0xFF)
      NUM_FLASH_SECTORS 0
    let ws := (i + s.search_start_pos) % NUM_FLASH_SECTORS
    let s1 := flash_erase_with_copy_sector
      { s with write_sector := ws, write_sector_bitmap := bnot32 (s.used_bitmap ws) % 256 }
      ws (s.used_bitmap ws)
    { s1 with search_start_pos := (i + s.search_start_pos) % NUM_FLASH_SECTORS }

/-- The tail of `getNextWriteSector`: the scan for the lowest bit set in
`write_sector_bitmap`, the clearing of that bit, and the entry returned. -/
def take_free_slot (s : FS) : FS × Nat :=
  let i := scan (fun i => s.write_sector_bitmap &&& (1 <<< i) != 0) 8 0
  ({ s with write_sector_bitmap := s.write_sector_bitmap &&& bnot32 (1 <<< i) },
    makeMapEntry s.write_sector i)

/-- The allocator: the new state and the returned map entry. -/
def getNextWriteSector (s : FS) : FS × Nat :=
  take_free_slot
    (if s.write_sector = 0 ∨ s.write_sector_bitmap = 0 then open_next_sector s else s)

/-! ## Public interface -/

def flash_fs_mount (s : FS) : FS × Nat :=
  let s1 := { s with
    fs_map_needs_written := fun i => if i < 15 then false else s.fs_map_needs_written i }
  let s2 := load_fs_map_block s1 0
  if (List.range 8).map s2.fs_map ≠ MAGIC_8_BYTES then (s2, 1)
  else (init_used_bitmap ((List.range' 1 14).foldl load_fs_map_block s2), 0)

def flash_fs_sync (s : FS) : FS := write_fs_map s

/-- The function `flash_fs_create`: `memset` clears the 61440 bytes of `fs_map`, `strcpy` copies
the eight magic characters and the terminating NUL. -/
def flash_fs_create (s : FS) : FS :=
  let s1 := { s with
    fs_map := fun k =>
      if k < 9 then (MAGIC_8_BYTES ++ [0]).getD k 0 else if k < 61440 then 0 else s.fs_map k
    fs_map_needs_written := fun i => if i < 15 then true else s.fs_map_needs_written i }
  init_used_bitmap (write_fs_map s1)

def flash_fs_read_FAT_sector (s : FS) (fat_sector : Nat) : List Nat :=
  let mapEntry := sectors s.fs_map fat_sector
  if mapEntry ≠ 0 then
    flash_read_sector s (getMapSector mapEntry) (getMapOffset mapEntry) 512
  else List.replicate 512 0

/-- The index of `fs_map_needs_written` that `flash_fs_write_FAT_sector` sets. -/
def dirty_index (fat_sector : Nat) : Nat :=
  if fat_sector < 2044 then 0 else 1 + (fat_sector - 2044) / 2048

/-- The first statement of `flash_fs_write_FAT_sector`: mark the previous slot unused. -/
def release_previous (s : FS) (fat_sector : Nat) : FS :=
  let mapEntry := sectors s.fs_map fat_sector
  if mapEntry ≠ 0 then
    { s with
      used_bitmap := store s.used_bitmap (getMapSector mapEntry)
        (s.used_bitmap (getMapSector mapEntry) &&& bnot32 (1 <<< getMapOffset mapEntry)) }
  else s

def flash_fs_write_FAT_sector (s : FS) (fat_sector : Nat) (buffer : List Nat) : FS :=
  let s1 := release_previous s fat_sector
  let r := getNextWriteSector s1
  let s2 := r.1
  let mapEntry := r.2
  let s3 := { s2 with
    fs_map := set_sectors s2.fs_map fat_sector mapEntry
    fs_map_needs_written := store s2.fs_map_needs_written (dirty_index fat_sector) true
    used_bitmap := store s2.used_bitmap (getMapSector mapEntry)
      (s2.used_bitmap (getMapSector mapEntry) ||| (1 <<< getMapOffset mapEntry)) }
  flash_write_sector s3 (getMapSector mapEntry) (getMapOffset mapEntry) buffer 512

/-! ## Specification predicates -/

/-- The RAM variables of `r` are those of `s`. -/
def SameRam (s r : FS) : Prop :=
  r.fs_map = s.fs_map ∧ r.fs_map_needs_written = s.fs_map_needs_written ∧
  r.used_bitmap = s.used_bitmap ∧ r.write_sector = s.write_sector ∧
  r.write_sector_bitmap = s.write_sector_bitmap ∧ r.search_start_pos = s.search_start_pos

/-- The flash commands issued between state `s` and state `r`: `r.trace` is `s.trace`
followed by `ops`. -/
def Issued (s r : FS) (ops : List FlashOp) : Prop := r.trace = s.trace ++ ops

/-- The bitmap that `init_used_bitmap` derives from a map, bit by bit: bit `j` of byte `p`
is set when `p` is one of the 15 metadata sectors, or when some nonzero map entry names
sector `p` and offset `j`. -/
def RebuiltBit (fs_map : Nat → Nat) (p j : Nat) : Prop :=
  (p < 15 ∧ j < 8) ∨
  ∃ l, l < NUM_FAT_SECTORS ∧ sectors fs_map l ≠ 0 ∧
    getMapSector (sectors fs_map l) = p ∧ getMapOffset (sectors fs_map l) = j

/-- The bytes that `flash_fs_create` puts into the RAM map. -/
def create_map (old : Nat → Nat) : Nat → Nat :=
  fun k => if k < 9 then (MAGIC_8_BYTES ++ [0]).getD k 0 else if k < 61440 then 0 else old k

/-- Path 1 of `getNextWriteSector`: the open sector still has a free sub-slot, the lowest
one, `o`, is handed out; no flash command is issued. -/
def TookOpenSlot (s : FS) (o : Nat) : Prop :=
  s.write_sector ≠ 0 ∧ s.write_sector_bitmap ≠ 0 ∧ o < 8 ∧
  s.write_sector_bitmap.testBit o = true ∧
  (∀ j, j < o → s.write_sector_bitmap.testBit j = false) ∧
  (getNextWriteSector s).2 = makeMapEntry s.write_sector o ∧
  (getNextWriteSector s).1.write_sector = s.write_sector ∧
  (getNextWriteSector s).1.write_sector_bitmap = s.write_sector_bitmap &&& bnot32 (1 <<< o) ∧
  (getNextWriteSector s).1.search_start_pos = s.search_start_pos ∧
  (getNextWriteSector s).1.flash = s.flash ∧
  (getNextWriteSector s).1.trace = s.trace

/-- Path 2 of `getNextWriteSector`: sector `p`, the first completely free sector in
circular order from `search_start_pos`, is erased and opened; its sub-slot 0 is handed
out. -/
def OpenedFresh (s : FS) (p : Nat) : Prop :=
  (s.write_sector = 0 ∨ s.write_sector_bitmap = 0) ∧ p < 3840 ∧
  (∃ i, i < 3840 ∧ p = (i + s.search_start_pos) % 3840 ∧
    ∀ j, j < i → s.used_bitmap ((j + s.search_start_pos) % 3840) ≠ 0) ∧
  s.used_bitmap p = 0 ∧
  (getNextWriteSector s).2 = makeMapEntry p 0 ∧
  (getNextWriteSector s).1.write_sector = p ∧
  (getNextWriteSector s).1.write_sector_bitmap = 254 ∧
  (getNextWriteSector s).1.search_start_pos = p ∧
  (∀ a, (getNextWriteSector s).1.flash a =
    if 4096 * p ≤ a ∧ a < 4096 * p + 4096 then 255 else s.flash a) ∧
  (getNextWriteSector s).1.trace = s.trace ++ [FlashOp.erase p]

/-- Path 3 of `getNextWriteSector`: no sector is completely free; sector `p`, the first one
in circular order with a free sub-slot, is erased with copy and opened; its lowest free
sub-slot `o` is handed out. -/
def Reclaimed (s : FS) (p o : Nat) : Prop :=
  (s.write_sector = 0 ∨ s.write_sector_bitmap = 0) ∧
  (∀ q, q < 3840 → s.used_bitmap q ≠ 0) ∧ p < 3840 ∧
  (∃ i, i < 3840 ∧ p = (i + s.search_start_pos) % 3840 ∧
    ∀ j, j < i → s.used_bitmap ((j + s.search_start_pos) % 3840) = 255) ∧
  s.used_bitmap p ≠ 255 ∧ o < 8 ∧
  (s.used_bitmap p).testBit o = false ∧
  (∀ j, j < o → (s.used_bitmap p).testBit j = true) ∧
  (getNextWriteSector s).2 = makeMapEntry p o ∧
  (getNextWriteSector s).1.write_sector = p ∧
  (getNextWriteSector s).1.write_sector_bitmap =
    (bnot32 (s.used_bitmap p) % 256) &&& bnot32 (1 <<< o) ∧
  (getNextWriteSector s).1.search_start_pos = p ∧
  (∀ a, (getNextWriteSector s).1.flash a =
    if 4096 * p ≤ a ∧ a < 4096 * p + 4096
    then (if (s.used_bitmap p).testBit ((a - 4096 * p) / 512) = true then s.flash a else 255)
    else s.flash a) ∧
  ∃ ops, (getNextWriteSector s).1.trace = s.trace ++ FlashOp.erase p :: ops ∧
    ∀ op, op ∈ ops → ∃ j, op = FlashOp.program p j 512

/-- Path 4 of `getNextWriteSector`: every byte of `used_bitmap` is `0xFF`. Both searches run
off the end, the sector at `search_start_pos` is erased and copied back in full, the bit
scan runs off the end as well (`i = 8`) and the entry returned is built from offset 8. -/
def NoFreeSlot (s : FS) : Prop :=
  (s.write_sector = 0 ∨ s.write_sector_bitmap = 0) ∧
  (∀ q, q < 3840 → s.used_bitmap q = 255) ∧
  (getNextWriteSector s).2 = makeMapEntry ((3840 + s.search_start_pos) % 3840) 8 ∧
  (getNextWriteSector s).1.write_sector = (3840 + s.search_start_pos) % 3840 ∧
  (getNextWriteSector s).1.write_sector_bitmap = 0 ∧
  (getNextWriteSector s).1.search_start_pos = (3840 + s.search_start_pos) % 3840 ∧
  (∀ a, (getNextWriteSector s).1.flash a = s.flash a) ∧
  ∃ ops, (getNextWriteSector s).1.trace =
      s.trace ++ FlashOp.erase ((3840 + s.search_start_pos) % 3840) :: ops ∧
    ∀ op, op ∈ ops → ∃ j, op = FlashOp.program ((3840 + s.search_start_pos) % 3840) j 512

/-- The states reachable from `flash_fs_create` by `flash_fs_write_FAT_sector` on logical
sectors below 30716 and by `flash_fs_sync`. -/
inductive Reachable : FS → Prop
  | create (s0 : FS) : Reachable (flash_fs_create s0)
  | write {s : FS} (l : Nat) (buf : List Nat) :
      Reachable s → l < NUM_FAT_SECTORS → Reachable (flash_fs_write_FAT_sector s l buf)
  | sync {s : FS} : Reachable s → Reachable (flash_fs_sync s)

/-- The states reachable from `flash_fs_create` or from a successful `flash_fs_mount`
by `flash_fs_write_FAT_sector` on logical sectors below 30716 and by `flash_fs_sync`. -/
inductive ReachableOrMounted : FS → Prop
  | create (s0 : FS) : ReachableOrMounted (flash_fs_create s0)
  | mount (s0 : FS) : (flash_fs_mount s0).2 = 0 → ReachableOrMounted (flash_fs_mount s0).1
  | write {s : FS} (l : Nat) (buf : List Nat) :
      ReachableOrMounted s → l < NUM_FAT_SECTORS →
      ReachableOrMounted (flash_fs_write_FAT_sector s l buf)
  | sync {s : FS} : ReachableOrMounted s → ReachableOrMounted (flash_fs_sync s)

/-- The invariant that every state reachable from `flash_fs_create` satisfies, whether or
not the allocator ever ran out of free sub-slots. -/
structure MetaInv (s : FS) : Prop where
  header : (List.range 8).map s.fs_map = MAGIC_8_BYTES
  clean : ∀ i, i < 15 → s.fs_map_needs_written i = false →
    ∀ k, k < 4096 → s.flash (4096 * i + k) = s.fs_map (4096 * i + k)
  used_meta : ∀ p, p < 15 → s.used_bitmap p = 255
  used_byte : ∀ p, p < 3840 → s.used_bitmap p < 256
  entry_range : ∀ l, l < 30716 →
    sectors s.fs_map l = 0 ∨ (120 ≤ sectors s.fs_map l ∧ sectors s.fs_map l < 30720)
  cursor : (s.write_sector = 0 ∧ ∃ p, 15 ≤ p ∧ p < 3840 ∧ s.used_bitmap p = 0) ∨
    (15 ≤ s.write_sector ∧ s.write_sector < 3840 ∧ s.search_start_pos = s.write_sector ∧
      s.write_sector_bitmap < 256)

/-- The state at power-on: erased flash, zero-initialised globals. -/
def boot : FS :=
  { flash := fun _ => 0xFF
    fs_map := fun _ => 0
    fs_map_needs_written := fun _ => false
    used_bitmap := fun _ => 0
    write_sector := 0
    write_sector_bitmap := 0
    search_start_pos := 0
    trace := [] }

/-- A sequence of `flash_fs_write_FAT_sector` calls, each given as the logical sector and
the payload. -/
def write_all (s : FS) (ws : List (Nat × List Nat)) : FS :=
  ws.foldl (fun st w => flash_fs_write_FAT_sector st w.1 w.2) s

/-- The invariant of the translation layer as long as the allocator has never run out of
free sub-slots: entries name slots of the data region, no two logical sectors share a
slot, `used_bitmap` marks exactly the slots named by the map, and every slot still
offered by `write_sector_bitmap` is unused and erased. -/
structure Good (s : FS) : Prop where
  entry_range : ∀ l, l < 30716 →
    sectors s.fs_map l = 0 ∨ (120 ≤ sectors s.fs_map l ∧ sectors s.fs_map l < 30720)
  entry_inj : ∀ l l', l < 30716 → l' < 30716 → sectors s.fs_map l ≠ 0 →
    sectors s.fs_map l = sectors s.fs_map l' → l = l'
  used_meta : ∀ p, p < 15 → s.used_bitmap p = 255
  used_byte : ∀ p, p < 3840 → s.used_bitmap p < 256
  used_iff : ∀ p o, 15 ≤ p → p < 3840 → o < 8 →
    ((s.used_bitmap p).testBit o = true ↔ ∃ l, l < 30716 ∧ sectors s.fs_map l = 8 * p + o)
  cursor : s.write_sector ≠ 0 →
    15 ≤ s.write_sector ∧ s.write_sector < 3840 ∧ s.write_sector_bitmap < 256 ∧
    ∀ o, o < 8 → s.write_sector_bitmap.testBit o = true →
      (s.used_bitmap s.write_sector).testBit o = false ∧
      ∀ k, k < 512 → s.flash (4096 * s.write_sector + 512 * o + k) = 255

/-- The write of logical sector `l` can be served: `l` already has a slot (which the write
releases first), or some byte of `used_bitmap` is not `0xFF`. -/
def HasRoom (s : FS) (l : Nat) : Prop :=
  sectors s.fs_map l ≠ 0 ∨ ∃ q, q < 3840 ∧ s.used_bitmap q ≠ 255

/-- The logical sectors that currently have a slot. -/
@[irreducible]
def mapped (s : FS) : Finset Nat :=
  (Finset.range NUM_FAT_SECTORS).filter (fun l => sectors s.fs_map l ≠ 0)

/-- Reference model of the disk, following the specification: a write replaces the
contents of its logical sector and of no other. -/
def model_write (m : Nat → List Nat) (w : Nat × List Nat) : Nat → List Nat :=
  fun l => if l = w.1 then w.2 else m l

/-- The reference disk after a sequence of writes: every logical sector holds the last
payload written to it. -/
def model_all (m : Nat → List Nat) (ws : List (Nat × List Nat)) : Nat → List Nat :=
  ws.foldl model_write m

/-- The reference disk after a format: every logical sector holds 512 zero bytes. -/
def blank_disk : Nat → List Nat := fun _ => List.replicate 512 0

/-- A sector map, given as the bytes of the 15 metadata sectors, is well formed when every
nonzero entry names a slot of the data region (sectors 15 .. 3839) and no two logical
sectors name the same slot. -/
def WellFormedMap (m : Nat → Nat) : Prop :=
  (∀ l, l < NUM_FAT_SECTORS →
    sectors m l = 0 ∨ (120 ≤ sectors m l ∧ sectors m l < 30720)) ∧
  ∀ l l', l < NUM_FAT_SECTORS → l' < NUM_FAT_SECTORS → sectors m l ≠ 0 →
    sectors m l = sectors m l' → l = l'

/-- Writing logical sector `l` keeps the number of mapped logical sectors at or below
30600, the number of 512-byte slots of the data region (3825 sectors of 8 slots). -/
def WithinCapacity (s : FS) (l : Nat) : Prop := (insert l (mapped s)).card ≤ 30600

/-- The states reachable from `flash_fs_create`, or from a successful `flash_fs_mount` of
a well-formed map, by `flash_fs_sync` and by `flash_fs_write_FAT_sector` on logical sectors
below 30716 within the capacity of the data region. -/
inductive ReachableWithin : FS → Prop
  | create (s0 : FS) : ReachableWithin (flash_fs_create s0)
  | mount (s0 : FS) : (flash_fs_mount s0).2 = 0 → WellFormedMap s0.flash →
      ReachableWithin (flash_fs_mount s0).1
  | write {s : FS} (l : Nat) (buf : List Nat) :
      ReachableWithin s → l < NUM_FAT_SECTORS → WithinCapacity s l →
      ReachableWithin (flash_fs_write_FAT_sector s l buf)
  | sync {s : FS} : ReachableWithin s → ReachableWithin (flash_fs_sync s)

/-- The RAM map carries the magic header, and every metadata sector whose dirty flag is
clear holds on flash the bytes of its block of the RAM map. -/
structure MapOnFlash (s : FS) : Prop where
  header : (List.range 8).map s.fs_map = MAGIC_8_BYTES
  clean : ∀ i, i < 15 → s.fs_map_needs_written i = false →
    ∀ k, k < 4096 → s.flash (4096 * i + k) = s.fs_map (4096 * i + k)

/-- The map/bitmap invariant in the words of the specification: `used_bitmap` is the bitmap
that `init_used_bitmap` rebuilds from the map, the bit of every nonzero entry is set, and
every set bit of the data region belongs to exactly one logical sector. -/
def MapBitmapInvariant (s : FS) : Prop :=
  (∀ p, p < NUM_FLASH_SECTORS → s.used_bitmap p = (init_used_bitmap s).used_bitmap p) ∧
  (∀ l, l < NUM_FAT_SECTORS → sectors s.fs_map l ≠ 0 →
    (s.used_bitmap (getMapSector (sectors s.fs_map l))).testBit
      (getMapOffset (sectors s.fs_map l)) = true) ∧
  ∀ p o, 15 ≤ p → p < NUM_FLASH_SECTORS → o < 8 → (s.used_bitmap p).testBit o = true →
    ∃! l, l < NUM_FAT_SECTORS ∧ sectors s.fs_map l ≠ 0 ∧
      getMapSector (sectors s.fs_map l) = p ∧ getMapOffset (sectors s.fs_map l) = o

/-- The contract of `flash_fs_sync` in the words of the specification, at a state `s`:
every metadata sector whose dirty flag is clear already holds its block of the RAM map;
after the sync every flag is clear and the 15 metadata sectors hold the RAM map; the sync
erases and programs only sectors whose flag was set and leaves the bytes of the others
alone. -/
def SyncContract (s : FS) : Prop :=
  (∀ i, i < 15 → s.fs_map_needs_written i = false →
    ∀ k, k < 4096 → s.flash (4096 * i + k) = s.fs_map (4096 * i + k)) ∧
  (∀ i, i < 15 → (flash_fs_sync s).fs_map_needs_written i = false) ∧
  (∀ k, k < 61440 → (flash_fs_sync s).flash k = (flash_fs_sync s).fs_map k) ∧
  (flash_fs_sync s).fs_map = s.fs_map ∧
  (∃ ops, (flash_fs_sync s).trace = s.trace ++ ops ∧
    ∀ op, op ∈ ops → op.sector < 15 ∧ s.fs_map_needs_written op.sector = true) ∧
  ∀ i, i < 15 → s.fs_map_needs_written i = false →
    ∀ k, k < 4096 → (flash_fs_sync s).flash (4096 * i + k) = s.flash (4096 * i + k)

/-- A state in which the allocator has to fall back to erase-with-copy: no 4 KiB sector is
completely free, sector 15 holds one logical sector (number 0, in sub-slot 0) and has seven
free sub-slots. -/
def reclaim_demo : FS :=
  { flash := fun a => a % 251
    fs_map := set_sectors (fun _ => 0) 0 120
    fs_map_needs_written := fun _ => false
    used_bitmap := fun q => if q = 15 then 1 else 0xFF
    write_sector := 0
    write_sector_bitmap := 0
    search_start_pos := 0
    trace := [] }

/-- The state after formatting at power-on and writing logical sector 5 once. -/
def one_write_demo : FS :=
  flash_fs_write_FAT_sector (flash_fs_create boot) 5 (List.replicate 512 1)

/-- A payload of 512 bytes that carries the number of its logical sector in its first two
bytes. -/
def fill_payload (l : Nat) : List Nat := [l % 256, l / 256 % 256] ++ List.replicate 510 0xAA

/-- One write to each of the logical sectors 0 .. 30600, in this order: one more than the
data region has slots. -/
@[irreducible]
def fill_writes : List (Nat × List Nat) :=
  (List.range 30601).map (fun l => (l, fill_payload l))

/-- A flash image with the magic header whose map gives the logical sectors 0 and 1 the
same slot (sub-slot 0 of physical sector 15). -/
def alias_image : Nat → Nat :=
  fun a => if a < 8 then MAGIC_8_BYTES.getD a 0 else if a = 8 ∨ a = 10 then 120 else 0

/-- The state after mounting `alias_image` at power-on. -/
def alias_demo : FS := (flash_fs_mount { boot with flash := alias_image }).1

/-- The map entries of `stray_image`: logical sector 0 names sub-slot 0 of physical sector
1, a metadata sector; the logical sectors 1 .. 3825 name sub-slot 0 of the physical sectors
15 .. 3839. -/
def stray_entry (l : Nat) : Nat :=
  if l = 0 then 8 else if l < 3826 then 8 * (14 + l) else 0

/-- A flash image with the magic header and the map `stray_entry`. -/
def stray_image : Nat → Nat :=
  fun a =>
    if a < 8 then MAGIC_8_BYTES.getD a 0
    else if a % 2 = 0 then stray_entry ((a - 8) / 2) % 256
    else stray_entry ((a - 8) / 2) / 256

/-- The state after mounting `stray_image` at power-on. -/
def stray_mounted : FS := (flash_fs_mount { boot with flash := stray_image }).1

/-- The state after mounting `stray_image` at power-on and writing logical sector 0. -/
def stray_demo : FS := flash_fs_write_FAT_sector stray_mounted 0 (List.replicate 512 1)

/-! ## The block adapter of `fatfs_disk.c` -/

abbrev SECTOR_NUM : Nat := 30716
abbrev SECTOR_SIZE : Nat := 512

/-- Modelled from the spec: the result codes of the disk layer of the FAT library
(`DRESULT` in its `diskio.h`, which is not among the sources): success, a read/write
error, write protection, drive not ready, and the parameter error. -/
inductive DRESULT where
  | RES_OK
  | RES_ERROR
  | RES_WRPRT
  | RES_NOTRDY
  | RES_PARERR
  deriving DecidableEq, Repr

/-- A call of the translation layer made by the block adapter, with the logical sector
it was given. -/
inductive FtlCall where
  | read (fat_sector : Nat)
  | write (fat_sector : Nat)
  | verify (fat_sector : Nat)
  deriving DecidableEq, Repr

/-- The state of the block adapter: the translation layer below it, the flag
`flashfs_is_mounted`, and a ghost field `calls`, the calls made to the translation layer
so far, oldest first. -/
structure Disk where
  fs : FS
  flashfs_is_mounted : Bool
  calls : List FtlCall

/-- The function `flash_fs_verify_FAT_sector`: `memcmp` over the 512 bytes of the buffer
and of the sector read back. -/
def flash_fs_verify_FAT_sector (s : FS) (fat_sector : Nat) (buffer : List Nat) : Bool :=
  let read_buf := flash_fs_read_FAT_sector s fat_sector
  decide ((List.range 512).map (fun k => buffer.getD k 0) = read_buf)

/-- The logical sector that iteration `i` of the adapter loops passes on: `sector + i`
is computed in 32 bits and converted to the `uint16_t` parameter of the layer below. -/
def loop_sector (sector i : Nat) : Nat := (sector + i) % 2 ^ 32 % 65536

/-- One iteration of the loop of `fatfs_disk_read`; `buff` is the memory at the caller's
buffer, indexed from its start. -/
def fatfs_disk_read_step (sector : Nat) (acc : Disk × (Nat → Nat)) (i : Nat) :
    Disk × (Nat → Nat) :=
  let data := flash_fs_read_FAT_sector acc.1.fs (loop_sector sector i)
  ({ acc.1 with calls := acc.1.calls ++ [FtlCall.read (loop_sector sector i)] },
    fun k =>
      if i * SECTOR_SIZE ≤ k ∧ k < i * SECTOR_SIZE + 512
      then data.getD (k - i * SECTOR_SIZE) 0 else acc.2 k)

/-- The function `fatfs_disk_read`. The test `sector < 0` of the source is never true for
the unsigned `sector` and is left out. The result is the adapter, the caller's buffer and
the value returned. -/
def fatfs_disk_read (d : Disk) (buff : Nat → Nat) (sector count : Nat) :
    Disk × (Nat → Nat) × DRESULT :=
  if d.flashfs_is_mounted = false then (d, buff, DRESULT.RES_ERROR)
  else if sector ≥ SECTOR_NUM then (d, buff, DRESULT.RES_PARERR)
  else
    let r := (List.range count).foldl (fatfs_disk_read_step sector) (d, buff)
    (r.1, r.2, DRESULT.RES_OK)

/-- The loop of `fatfs_disk_write` from iteration `i` on, with `n` iterations left. -/
def fatfs_disk_write_loop (buff : Nat → Nat) (sector : Nat) : Nat → Nat → Disk → Disk × DRESULT
  | 0, _, d => (d, DRESULT.RES_OK)
  | n + 1, i, d =>
    let payload := (List.range 512).map (fun k => buff (i * SECTOR_SIZE + k))
    let fs1 := flash_fs_write_FAT_sector d.fs (loop_sector sector i) payload
    let d1 : Disk := { d with
      fs := fs1
      calls := d.calls ++
        [FtlCall.write (loop_sector sector i), FtlCall.verify (loop_sector sector i)] }
    if flash_fs_verify_FAT_sector fs1 (loop_sector sector i) payload = false then
      (d1, DRESULT.RES_ERROR)
    else fatfs_disk_write_loop buff sector n (i + 1) d1

/-- The function `fatfs_disk_write`; the loop returns `RES_ERROR` at the first sector that
does not verify. -/
def fatfs_disk_write (d : Disk) (buff : Nat → Nat) (sector count : Nat) : Disk × DRESULT :=
  if d.flashfs_is_mounted = false then (d, DRESULT.RES_ERROR)
  else if sector ≥ SECTOR_NUM then (d, DRESULT.RES_PARERR)
  else fatfs_disk_write_loop buff sector count 0 d

/-- An adapter on a blank device on which nothing has been mounted yet. -/
def unmounted_disk : Disk := { fs := boot, flashfs_is_mounted := false, calls := [] }

/-- An adapter after `create_fatfs_disk` has formatted a blank device. -/
def fresh_disk : Disk := { fs := flash_fs_create boot, flashfs_is_mounted := true, calls := [] }
/-! ## The file loader of `atari_cart.c` -/

abbrev CART_TYPE_NONE : Nat := 0
abbrev CART_TYPE_8K : Nat := 1
abbrev CART_TYPE_16K : Nat := 2
abbrev CART_TYPE_XEGS_32K : Nat := 3
abbrev CART_TYPE_XEGS_64K : Nat := 4
abbrev CART_TYPE_XEGS_128K : Nat := 5
abbrev CART_TYPE_SW_XEGS_32K : Nat := 6
abbrev CART_TYPE_SW_XEGS_64K : Nat := 7
abbrev CART_TYPE_SW_XEGS_128K : Nat := 8
abbrev CART_TYPE_MEGACART_16K : Nat := 9
abbrev CART_TYPE_MEGACART_32K : Nat := 10
abbrev CART_TYPE_MEGACART_64K : Nat := 11
abbrev CART_TYPE_MEGACART_128K : Nat := 12
abbrev CART_TYPE_BOUNTY_BOB : Nat := 13
abbrev CART_TYPE_ATARIMAX_1MBIT : Nat := 14
abbrev CART_TYPE_WILLIAMS_64K : Nat := 15
abbrev CART_TYPE_OSS_16K_TYPE_B : Nat := 16
abbrev CART_TYPE_OSS_8K : Nat := 17
abbrev CART_TYPE_OSS_16K_034M : Nat := 18
abbrev CART_TYPE_OSS_16K_043M : Nat := 19
abbrev CART_TYPE_SIC_128K : Nat := 20
abbrev CART_TYPE_SDX_64K : Nat := 21
abbrev CART_TYPE_SDX_128K : Nat := 22
abbrev CART_TYPE_DIAMOND_64K : Nat := 23
abbrev CART_TYPE_EXPRESS_64K : Nat := 24
abbrev CART_TYPE_BLIZZARD_16K : Nat := 25
abbrev CART_TYPE_4K : Nat := 26
abbrev CART_TYPE_TURBOSOFT_64K : Nat := 27
abbrev CART_TYPE_TURBOSOFT_128K : Nat := 28
abbrev CART_TYPE_ATRAX_128K : Nat := 29
abbrev CART_TYPE_MICROCALC : Nat := 30
abbrev CART_TYPE_2K : Nat := 31
abbrev CART_TYPE_PHOENIX_8K : Nat := 32
abbrev CART_TYPE_BLIZZARD_4K : Nat := 33
abbrev CART_TYPE_ADAWLIAH_32k : Nat := 34
abbrev CART_TYPE_ATR : Nat := 254
abbrev CART_TYPE_XEX : Nat := 255

/-- A call made on a file object of the FAT library. -/
inductive FileOp where
  | lseek (ofs : Nat)
  | read (btr : Nat)
  | write (btw : Nat)
  | sync
  deriving DecidableEq, Repr

/-- Modelled from the spec: an open file of the FAT library (`FIL` of `ff.h`; the library
is not among the sources). The file is a byte array `data` of `size` bytes with a
read/write pointer `fptr`. `fails k` says whether the call number `k` on this object
reports a disk error instead of `FR_OK`. `ops` is a ghost field: the calls made on the
object so far, oldest first. -/
structure FIL where
  data : Nat → Nat
  size : Nat
  fptr : Nat
  fails : Nat → Bool
  ops : List FileOp

/-- Modelled from the spec: `f_read(fp, buff, btr, &br)` of the FAT library. The result is
`none` when the call does not return `FR_OK`; otherwise the bytes read, at most `btr` and
no more than are left before the end of the file (`br` is their number), and the
read/write pointer moves past them. -/
def f_read (f : FIL) (btr : Nat) : FIL × Option (List Nat) :=
  if f.fails f.ops.length = true then
    ({ f with ops := f.ops ++ [FileOp.read btr] }, none)
  else
    ({ f with fptr := f.fptr + min btr (f.size - f.fptr), ops := f.ops ++ [FileOp.read btr] },
      some ((List.range (min btr (f.size - f.fptr))).map (fun k => f.data (f.fptr + k))))

/-- Modelled from the spec: `f_lseek(fp, ofs)` of the FAT library on a file open for
writing: the read/write pointer moves to `ofs`; a position beyond the end extends the
file. The result says whether the call returned `FR_OK`. -/
def f_lseek (f : FIL) (ofs : Nat) : FIL × Bool :=
  if f.fails f.ops.length = true then
    ({ f with ops := f.ops ++ [FileOp.lseek ofs] }, false)
  else
    ({ f with fptr := ofs, size := max f.size ofs, ops := f.ops ++ [FileOp.lseek ofs] }, true)

/-- Modelled from the spec: `f_write(fp, buff, btw, &bw)` of the FAT library. The result is
`none` when the call does not return `FR_OK`; otherwise the number `bw` of bytes written,
here all of them; the bytes replace the contents at the read/write pointer, which moves
past them. -/
def f_write (f : FIL) (buff : List Nat) : FIL × Option Nat :=
  if f.fails f.ops.length = true then
    ({ f with ops := f.ops ++ [FileOp.write buff.length] }, none)
  else
    ({ f with
        data := fun k =>
          if f.fptr ≤ k ∧ k < f.fptr + buff.length then buff.getD (k - f.fptr) 0 else f.data k
        size := max f.size (f.fptr + buff.length)
        fptr := f.fptr + buff.length
        ops := f.ops ++ [FileOp.write buff.length] },
      some buff.length)

/-- Modelled from the spec: `f_sync(fp)` of the FAT library; the result says whether the
call returned `FR_OK`. -/
def f_sync (f : FIL) : FIL × Bool :=
  if f.fails f.ops.length = true then ({ f with ops := f.ops ++ [FileOp.sync] }, false)
  else ({ f with ops := f.ops ++ [FileOp.sync] }, true)

/-- The file object that `f_open` returns for a file with the bytes `content`: the
read/write pointer is at the start and no call has been made yet. -/
def open_file (content : List Nat) (fails : Nat → Bool) : FIL :=
  { data := fun k => content.getD k 0, size := content.length, fptr := 0,
    fails := fails, ops := [] }

/-- The globals that `load_file` writes. -/
structure Loader where
  cart_ram : Nat → Nat
  errorBuf : String

/-- The function `tolower` of the C library on a character code. -/
def tolower (c : Nat) : Nat := if 65 ≤ c ∧ c ≤ 90 then c + 32 else c

/-- The test `strncasecmp(filename + strlen(filename) - 4, ext, 4) == 0` for a
four-character `ext`. For a name of fewer than four characters the C expression reads
before the start of the string; the model answers `false` there. -/
def has_ext (filename ext : String) : Bool :=
  decide (4 ≤ filename.length) &&
  decide ((filename.toList.drop (filename.length - 4)).map (fun c => tolower c.toNat) =
    ext.toList.map (fun c => tolower c.toNat))

/-- The chain of tests on the CAR type in `load_file`: the mapper kind and the expected
size of a supported type, `none` for the final `else`. -/
def car_table (car_type : Nat) : Option (Nat × Nat) :=
  if car_type = 1 then some (CART_TYPE_8K, 8192)
  else if car_type = 2 then some (CART_TYPE_16K, 16384)
  else if car_type = 3 then some (CART_TYPE_OSS_16K_034M, 16384)
  else if car_type = 8 then some (CART_TYPE_WILLIAMS_64K, 65536)
  else if car_type = 9 then some (CART_TYPE_EXPRESS_64K, 65536)
  else if car_type = 10 then some (CART_TYPE_DIAMOND_64K, 65536)
  else if car_type = 11 then some (CART_TYPE_SDX_64K, 65536)
  else if car_type = 12 then some (CART_TYPE_XEGS_32K, 32768)
  else if car_type = 13 then some (CART_TYPE_XEGS_64K, 65536)
  else if car_type = 14 then some (CART_TYPE_XEGS_128K, 131072)
  else if car_type = 15 then some (CART_TYPE_OSS_16K_TYPE_B, 16384)
  else if car_type = 17 then some (CART_TYPE_ATRAX_128K, 131072)
  else if car_type = 18 then some (CART_TYPE_BOUNTY_BOB, 40960)
  else if car_type = 22 then some (CART_TYPE_WILLIAMS_64K, 32768)
  else if car_type = 26 then some (CART_TYPE_MEGACART_16K, 16384)
  else if car_type = 27 then some (CART_TYPE_MEGACART_32K, 32768)
  else if car_type = 28 then some (CART_TYPE_MEGACART_64K, 65536)
  else if car_type = 29 then some (CART_TYPE_MEGACART_128K, 131072)
  else if car_type = 33 then some (CART_TYPE_SW_XEGS_32K, 32768)
  else if car_type = 34 then some (CART_TYPE_SW_XEGS_64K, 65536)
  else if car_type = 35 then some (CART_TYPE_SW_XEGS_128K, 131072)
  else if car_type = 39 then some (CART_TYPE_PHOENIX_8K, 8192)
  else if car_type = 40 then some (CART_TYPE_BLIZZARD_16K, 16384)
  else if car_type = 41 then some (CART_TYPE_ATARIMAX_1MBIT, 131072)
  else if car_type = 43 then some (CART_TYPE_SDX_128K, 131072)
  else if car_type = 44 then some (CART_TYPE_OSS_8K, 8192)
  else if car_type = 45 then some (CART_TYPE_OSS_16K_043M, 16384)
  else if car_type = 46 then some (CART_TYPE_BLIZZARD_4K, 4096)
  else if car_type = 50 then some (CART_TYPE_TURBOSOFT_64K, 65536)
  else if car_type = 51 then some (CART_TYPE_TURBOSOFT_128K, 131072)
  else if car_type = 52 then some (CART_TYPE_MICROCALC, 32768)
  else if car_type = 54 then some (CART_TYPE_SIC_128K, 131072)
  else if car_type = 57 then some (CART_TYPE_2K, 2048)
  else if car_type = 58 then some (CART_TYPE_4K, 4096)
  else if car_type = 69 then some (CART_TYPE_ADAWLIAH_32k, 32768)
  else none
/-- The bytes `bytes` stored into `ram` from index `dst` on. -/
def store_bytes (ram : Nat → Nat) (dst : Nat) (bytes : List Nat) : Nat → Nat :=
  fun k => if dst ≤ k ∧ k < dst + bytes.length then bytes.getD (k - dst) 0 else ram k

/-- The call `memcpy(&ram[dst], &ram[src], n)` for regions that do not overlap. -/
def memcpy_ram (ram : Nat → Nat) (dst src n : Nat) : Nat → Nat :=
  fun k => if dst ≤ k ∧ k < dst + n then ram (src + (k - dst)) else ram k

/-- The call `memset(&ram[dst], v, n)`. -/
def memset_ram (ram : Nat → Nat) (dst v n : Nat) : Nat → Nat :=
  fun k => if dst ≤ k ∧ k < dst + n then v else ram k

/-- The part of `load_file` that reads the CAR header: the file object after the read,
the mapper kind and the expected size; for a file that is not a CAR file nothing is read
and the kind stays `CART_TYPE_NONE`. An error is the text copied to `errorBuf` before the
jump to `closefile`. -/
def read_car_header (car_file : Bool) (fil : FIL) : Except String (FIL × Nat × Nat) :=
  if car_file = true then
    match f_read fil 16 with
    | (_, none) => Except.error "Bad CAR file"
    | (fil1, some carFileHeader) =>
      if carFileHeader.length ≠ 16 then Except.error "Bad CAR file"
      else
        match car_table (carFileHeader.getD 7 0) with
        | some (cart_type, expectedSize) => Except.ok (fil1, cart_type, expectedSize)
        | none => Except.error "Unsupported CAR type"
  else Except.ok (fil, CART_TYPE_NONE, 0)

/-- The part of `load_file` after the size has been read: the size check of a CAR file,
the length prefix of an XEX file, the guess by size for any other file. The result is
`none` for a jump to `closefile`, otherwise the mapper kind. -/
def classify (g : Loader) (car_file xex_file : Bool) (cart_type expectedSize size : Nat) :
    Loader × Option Nat :=
  if car_file = true then
    if size ≠ expectedSize then ({ g with errorBuf := "CAR file is wrong size" }, none)
    else (g, some cart_type)
  else if xex_file = true then
    let ram0 := store g.cart_ram 0 (size &&& 0xFF)
    let ram1 := store ram0 1 ((size >>> 8) &&& 0xFF)
    let ram2 := store ram1 2 ((size >>> 16) &&& 0xFF)
    ({ g with cart_ram := store ram2 3 0 }, some CART_TYPE_XEX)
  else
    if size = 8 * 1024 then (g, some CART_TYPE_8K)
    else if size = 16 * 1024 then (g, some CART_TYPE_16K)
    else if size = 32 * 1024 then (g, some CART_TYPE_XEGS_32K)
    else if size = 64 * 1024 then (g, some CART_TYPE_XEGS_64K)
    else if size = 128 * 1024 then (g, some CART_TYPE_XEGS_128K)
    else ({ g with errorBuf := "Unsupported ROM size " }, none)

/-- The part of `load_file` that reads the image into `cart_ram`, checks for bytes beyond
128 KiB and classifies the file. The result is `none` for a jump to `closefile`, otherwise
the mapper kind. -/
def read_image (g : Loader) (car_file xex_file : Bool) (fil1 : FIL)
    (cart_type expectedSize : Nat) : Loader × Option Nat :=
  let g1 : Loader := { g with errorBuf := "Can't read file" }
  let dst := if xex_file = true then 4 else 0
  let bytes_to_read := 128 * 1024 - dst
  match f_read fil1 bytes_to_read with
  | (_, none) => (g1, none)
  | (fil2, some bytes) =>
    let g2 : Loader := { g1 with cart_ram := store_bytes g1.cart_ram dst bytes }
    let size := bytes.length
    if bytes.length = bytes_to_read then
      match f_read fil2 1 with
      | (_, none) => (g2, none)
      | (_, some more) =>
        if more.length = 1 then
          ({ g2 with errorBuf := "Cart file/XEX too big (>128k)" }, none)
        else classify g2 car_file xex_file cart_type expectedSize size
    else classify g2 car_file xex_file cart_type expectedSize size

/-- The function `load_file` from the first `f_read` up to the special cases for small
cartridges. The result is `none` for a jump to `closefile` (the function then returns
`CART_TYPE_NONE`), otherwise the mapper kind found. -/
def load_image (g : Loader) (car_file xex_file : Bool) (fil : FIL) : Loader × Option Nat :=
  match read_car_header car_file fil with
  | Except.error msg => ({ g with errorBuf := msg }, none)
  | Except.ok (fil1, cart_type, expectedSize) =>
    read_image g car_file xex_file fil1 cart_type expectedSize

/-- The three special cases at the end of `load_file`. -/
def small_cart_layout (ram : Nat → Nat) (cart_type : Nat) : Nat → Nat :=
  let ram1 := if cart_type = CART_TYPE_4K
    then memset_ram (memcpy_ram ram 4096 0 4096) 0 0xFF 4096 else ram
  let ram2 := if cart_type = CART_TYPE_2K
    then memset_ram (memcpy_ram ram1 6144 0 6144) 0 0xFF 6144 else ram1
  if cart_type = CART_TYPE_BLIZZARD_4K then memcpy_ram ram2 4096 0 4096 else ram2

/-- The function `load_file`. `mount_ok` says whether `f_mount` returned `FR_OK`; `file`
is the file object that `f_open` returns, `none` when it does not return `FR_OK`. The
result is the pair of the globals written and the value returned. -/
def load_file (g : Loader) (filename : String) (mount_ok : Bool) (file : Option FIL) :
    Loader × Nat :=
  let car_file := has_ext filename ".CAR"
  let xex_file := has_ext filename ".XEX"
  if mount_ok = false then ({ g with errorBuf := "Can't read flash memory" }, 0)
  else
    match file with
    | none => ({ g with errorBuf := "Can't open file" }, CART_TYPE_NONE)
    | some fil =>
      match load_image g car_file xex_file fil with
      | (g1, none) => (g1, CART_TYPE_NONE)
      | (g1, some cart_type) =>
        ({ g1 with cart_ram := small_cart_layout g1.cart_ram cart_type }, cart_type)

/-- The globals at power-on: `cart_ram` and `errorBuf` are zero-initialised. -/
def loader_boot : Loader := { cart_ram := fun _ => 0, errorBuf := "" }

/-- The payload of a file: the bytes after the 16-byte header of a CAR file, every byte of
any other file. -/
def payload (car_file : Bool) (content : List Nat) : List Nat :=
  if car_file = true then content.drop 16 else content

/-- The index of `cart_ram` at which `load_file` stores the first byte it reads: 4 for an
XEX file, 0 for any other. -/
def load_offset (xex_file : Bool) : Nat := if xex_file = true then 4 else 0

/-- The CAR types that the specification lists as supported. -/
def supported_car_types : List Nat :=
  [1, 2, 3, 8, 9, 10, 11, 12, 13, 14, 15, 17, 18, 22, 26, 27, 28, 29, 33, 34, 35, 39, 40, 41,
    43, 44, 45, 46, 50, 51, 52, 54, 57, 58, 69]

/-- A 16-byte CAR header with the type `t` in byte 7 and zero elsewhere. -/
def car_header (t : Nat) : List Nat := List.replicate 7 0 ++ [t] ++ List.replicate 8 0

/-- A disk on which no call reports an error. -/
def never_fails : Nat → Bool := fun _ => false
/-! ## ATR disk images (`atari_cart.c`) -/

abbrev ATR_HEADER_SIZE : Nat := 16

/-- The entry `mountedATRs[0]`: the path of the mounted image (the empty string when
nothing is mounted, `path[0] == 0`), the field `secSize` of its header, the file size
recorded by `mount_atr`, and the open file. -/
structure MountedATR where
  path : String
  secSize : Nat
  filesize : Int
  fil : FIL

/-- A value of the C type `int` after an arithmetic operation: signed overflow is
undefined in C; the model wraps to 32 bits in two's complement, as the code compiled for
the Cortex-M0+ does. -/
def int32 (x : Int) : Int := (x + 2 ^ 31) % 2 ^ 32 - 2 ^ 31

/-- The conversion of an `int` to the 32-bit unsigned file position `FSIZE_t` that
`f_lseek` takes. -/
def to_fsize (x : Int) : Nat := (x % 2 ^ 32).toNat

/-- The variable `offset` of `read_atr_sector` after the `if`/`else` on the sector
number; wrapping once at the end gives the same value as wrapping every operation. -/
def read_atr_offset (secSize sector page : Nat) : Int :=
  if sector ≤ 3 then
    int32 (ATR_HEADER_SIZE + ((sector : Int) - 1) * 128)
  else
    int32 (ATR_HEADER_SIZE + ((3 * 128) + (((sector : Int) - 4) * secSize) + (page * 128)))

/-- The function `read_atr_sector`. The result is the entry `mountedATRs[0]`, the
caller's buffer and the value returned. -/
def read_atr_sector (m : MountedATR) (sector page : Nat) (buf : List Nat) :
    MountedATR × List Nat × Nat :=
  if m.path = "" then (m, buf, 1)
  else if sector = 0 then (m, buf, 2)
  else if read_atr_offset m.secSize sector page > m.filesize - 128 then
    (m, List.replicate 128 0 ++ buf.drop 128, 0)
  else
    match f_lseek m.fil (to_fsize (read_atr_offset m.secSize sector page)) with
    | (fil1, false) => ({ m with fil := fil1 }, buf, 2)
    | (fil1, true) =>
      match f_read fil1 128 with
      | (fil2, none) => ({ m with fil := fil2 }, buf, 2)
      | (fil2, some bytes) =>
        ({ m with fil := fil2 }, bytes ++ buf.drop bytes.length,
          if bytes.length ≠ 128 then 2 else 0)

/-- The variable `offset` of `write_atr_sector` after the `if`/`else` on the sector
number. -/
def write_atr_offset (secSize sector page : Nat) : Int :=
  if sector ≤ 3 then
    int32 (ATR_HEADER_SIZE + ((sector : Int) - 1) * 128)
  else
    int32 (ATR_HEADER_SIZE + ((3 * 128) + (((sector : Int) - 4) * secSize) + (page * 128)))

/-- The function `write_atr_sector`; the first 128 bytes of `buf` are written. -/
def write_atr_sector (m : MountedATR) (sector page : Nat) (buf : List Nat) :
    MountedATR × Nat :=
  if m.path = "" then (m, 1)
  else if sector = 0 then (m, 2)
  else if write_atr_offset m.secSize sector page > m.filesize - 128 then (m, 2)
  else
    match f_lseek m.fil (to_fsize (write_atr_offset m.secSize sector page)) with
    | (fil1, false) => ({ m with fil := fil1 }, 2)
    | (fil1, true) =>
      match f_write fil1 ((List.range 128).map (fun k => buf.getD k 0)) with
      | (fil2, none) => ({ m with fil := fil2 }, 2)
      | (fil2, some bw) =>
        match f_sync fil2 with
        | (fil3, false) => ({ m with fil := fil3 }, 2)
        | (fil3, true) => ({ m with fil := fil3 }, if bw ≠ 128 then 2 else 0)

/-- The byte offset of page `page` of sector `sector` in an ATR image with sector size
`S`, in the words of the specification: the first three sectors have 128 bytes each. -/
def atr_byte_offset (S sector page : Nat) : Nat :=
  if sector ≤ 3 then 16 + (sector - 1) * 128
  else 16 + 3 * 128 + (sector - 4) * S + page * 128

/-- The entry `mountedATRs[0]` after `mount_atr` has opened an image with the bytes
`content` and the sector size `secSize` in its header, on a disk on which no call
fails. -/
def atr_demo (secSize : Nat) (content : List Nat) : MountedATR :=
  { path := "DISK.ATR", secSize := secSize, filesize := content.length,
    fil := open_file content never_fails }

/-! ## The cartridge bus (`atari_cart.c`) -/

abbrev ADDR_GPIO_MASK : Nat := 0x00001FFF
abbrev DATA_GPIO_MASK : Nat := 0x001FE000
abbrev CCTL_GPIO_MASK : Nat := 0x00200000
abbrev PHI2_GPIO_MASK : Nat := 0x00400000
abbrev RW_GPIO_MASK : Nat := 0x00800000
abbrev S4_GPIO_MASK : Nat := 0x01000000
abbrev S5_GPIO_MASK : Nat := 0x02000000
abbrev S4_S5_GPIO_MASK : Nat := 0x03000000
abbrev CCTL_RW_GPIO_MASK : Nat := 0x00A00000

/-- One turn of the `while (1)` loop of an emulator: `pins` is the GPIO word that ended
the wait for PHI2 high (for the two standard cartridges, which poll S4 and S5 instead, one
sample of the GPIO word), and `last` is the last word sampled while PHI2 was still high,
from which a write branch takes its data byte. -/
structure Cycle where
  pins : Nat
  last : Nat

/-- The statement `addr = pins & ADDR_GPIO_MASK`. -/
def Cycle.addr (c : Cycle) : Nat := c.pins &&& ADDR_GPIO_MASK

/-- The statement `data = (last & DATA_GPIO_MASK) >> 13`. -/
def Cycle.data (c : Cycle) : Nat := (c.last &&& DATA_GPIO_MASK) >>> 13

/-- What a turn of the loop puts on the data bus with `gpio_put_masked`: nothing, the byte
`cart_ram[index]`, the byte `cart_d5xx[index]`, the byte `A8PicoCart_rom[index]` of the
menu ROM, or the value of a local. -/
inductive Drive where
  | idle
  | ram (index : Nat)
  | d5xx (index : Nat)
  | rom (index : Nat)
  | value (v : Nat)
deriving DecidableEq, Repr

/-- The two lines RD4 and RD5 that an emulator drives, and the locals of the emulator
functions: the 400/800 MMU flags `rd4_high` and `rd5_high`, `bank`, the offset from
`cart_ram` of the pointer `bankPtr`, `bankPtr1` or `ramPtr` (`ptr`) and of `bankPtr2`
(`ptr2`), `SIC_byte`, and, for the two standard cartridges, the inner loop the function is
in (`selected`: 0 in the wait for a select line, 1 in `while s4 low`, 2 in
`while s5 low`). A function that does not declare one of the flags leaves the field at the
level of the line. -/
structure Mapper where
  RD4 : Bool
  RD5 : Bool
  rd4_high : Bool
  rd5_high : Bool
  bank : Nat
  ptr : Nat
  ptr2 : Nat
  SIC_byte : Nat
  selected : Nat

/-- The state after the first statements of an emulator that drives RD4 and RD5 to the
given levels (`true` is high) and whose numeric locals start at zero. -/
def entry_levels (rd4 rd5 : Bool) : Mapper :=
  { RD4 := rd4, RD5 := rd5, rd4_high := rd4, rd5_high := rd5, bank := 0, ptr := 0, ptr2 := 0,
    SIC_byte := 0, selected := 0 }

/-- The statements `RD4_HIGH; rd4_high = true;` (for `true`) and
`RD4_LOW; rd4_high = false;` (for `false`). -/
def Mapper.set_rd4 (s : Mapper) (b : Bool) : Mapper := { s with RD4 := b, rd4_high := b }

/-- The statements `RD5_HIGH; rd5_high = true;` (for `true`) and
`RD5_LOW; rd5_high = false;` (for `false`). -/
def Mapper.set_rd5 (s : Mapper) (b : Bool) : Mapper := { s with RD5 := b, rd5_high := b }

/-- The result of `emulate_boot_rom` on a finite run of turns: the levels of RD4 and RD5,
the registers `cart_d5xx`, what each turn drove, the value returned (`none` while the loop
has not reached its `break`) and the turns not consumed. -/
structure BootRom where
  RD4 : Bool
  RD5 : Bool
  cart_d5xx : Nat → Nat
  driven : List Drive
  cmd : Option Nat
  rest : List Cycle

/-- One turn of the loop of `emulate_boot_rom`: the registers, what is driven, and the
value of `data` when the turn leaves the loop through `break`. -/
def boot_rom_turn (cart_d5xx : Nat → Nat) (c : Cycle) : (Nat → Nat) × Drive × Option Nat :=
  if c.pins &&& CCTL_GPIO_MASK = 0 then
    if c.pins &&& RW_GPIO_MASK ≠ 0 then
      (cart_d5xx, Drive.d5xx (c.addr &&& 0xFF), none)
    else
      (store cart_d5xx (c.pins &&& 0xFF) c.data, Drive.idle,
        if c.pins &&& 0xFF = 0xDF then some c.data else none)
  else if c.pins &&& S5_GPIO_MASK = 0 then
    (cart_d5xx, Drive.rom c.addr, none)
  else (cart_d5xx, Drive.idle, none)

/-- The loop of `emulate_boot_rom` on a finite run of turns. -/
def boot_rom_loop (rd4 rd5 : Bool) : (Nat → Nat) → List Cycle → BootRom
  | d, [] => { RD4 := rd4, RD5 := rd5, cart_d5xx := d, driven := [], cmd := none, rest := [] }
  | d, c :: cs =>
    match boot_rom_turn d c with
    | (d1, dr, some v) =>
      { RD4 := rd4, RD5 := rd5, cart_d5xx := d1, driven := [dr], cmd := some v, rest := cs }
    | (d1, dr, none) =>
      let r := boot_rom_loop rd4 rd5 d1 cs
      { r with driven := dr :: r.driven }

/-- The function `emulate_boot_rom`. -/
def emulate_boot_rom (atrMode : Bool) (cart_d5xx : Nat → Nat) (cycles : List Cycle) :
    BootRom :=
  boot_rom_loop false (!atrMode) (store cart_d5xx 0x00 0x11) cycles

/-- A turn in which the Atari writes to `$D5DF`: CCTL low, R/W low and the low address
byte `0xDF`. -/
def Cycle.is_command (c : Cycle) : Bool :=
  c.pins &&& CCTL_GPIO_MASK == 0 && c.pins &&& RW_GPIO_MASK == 0 && c.pins &&& 0xFF == 0xDF
/-! ## The mapper emulators (`atari_cart.c`)

Each function below is one turn of the `while (1)` loop of the C function of the same
name: it takes the locals and the turn and gives the locals afterwards and what was
driven on the data bus. -/

def emulate_standard_8k (s : Mapper) (c : Cycle) : Mapper × Drive :=
  if s.selected = 0 then
    if c.pins &&& S5_GPIO_MASK ≠ 0 then (s, Drive.idle)
    else ({ s with selected := 2 }, Drive.idle)
  else
    if c.pins &&& S5_GPIO_MASK = 0 then (s, Drive.ram c.addr)
    else ({ s with selected := 0 }, Drive.idle)

def emulate_standard_16k (s : Mapper) (c : Cycle) : Mapper × Drive :=
  if s.selected = 0 then
    if c.pins &&& S4_S5_GPIO_MASK = S4_S5_GPIO_MASK then (s, Drive.idle)
    else if c.pins &&& S4_GPIO_MASK = 0 then ({ s with selected := 1 }, Drive.idle)
    else ({ s with selected := 2 }, Drive.idle)
  else if s.selected = 1 then
    if c.pins &&& S4_GPIO_MASK = 0 then (s, Drive.ram c.addr)
    else ({ s with selected := 0 }, Drive.idle)
  else
    if c.pins &&& S5_GPIO_MASK = 0 then (s, Drive.ram (0x2000 ||| c.addr))
    else ({ s with selected := 0 }, Drive.idle)

/-- The common text of `emulate_XEGS_32k`, `emulate_XEGS_64k` and `emulate_XEGS_128k`,
which differ in the fixed bank of the S5 window (`fixed`) and in the mask applied to the
byte written (`mask`). -/
def emulate_XEGS (fixed mask : Nat) (switchable : Bool) (s : Mapper) (c : Cycle) :
    Mapper × Drive :=
  if c.pins &&& S4_GPIO_MASK = 0 ∧ s.rd4_high = true then (s, Drive.ram (s.ptr + c.addr))
  else if c.pins &&& S5_GPIO_MASK = 0 ∧ s.rd5_high = true then
    (s, Drive.ram (fixed ||| c.addr))
  else if c.pins &&& CCTL_RW_GPIO_MASK = 0 then
    let s1 := { s with ptr := 8192 * (c.data &&& mask) }
    if switchable = true then
      if c.data &&& 0x80 ≠ 0 then ((s1.set_rd4 false).set_rd5 false, Drive.idle)
      else ((s1.set_rd4 true).set_rd5 true, Drive.idle)
    else (s1, Drive.idle)
  else (s, Drive.idle)

def emulate_XEGS_32k (switchable : Bool) : Mapper → Cycle → Mapper × Drive :=
  emulate_XEGS 0x6000 3 switchable

def emulate_XEGS_64k (switchable : Bool) : Mapper → Cycle → Mapper × Drive :=
  emulate_XEGS 0xE000 7 switchable

def emulate_XEGS_128k (switchable : Bool) : Mapper → Cycle → Mapper × Drive :=
  emulate_XEGS 0x1E000 0xF switchable

def emulate_bounty_bob (s : Mapper) (c : Cycle) : Mapper × Drive :=
  if c.pins &&& S4_GPIO_MASK = 0 then
    if c.addr &&& 0x1000 ≠ 0 then
      ({ s with ptr2 :=
          if c.addr = 0x1FF6 then 0x4000
          else if c.addr = 0x1FF7 then 0x5000
          else if c.addr = 0x1FF8 then 0x6000
          else if c.addr = 0x1FF9 then 0x7000
          else s.ptr2 },
        Drive.ram (s.ptr2 + (c.addr &&& 0xFFF)))
    else
      ({ s with ptr :=
          if c.addr = 0x0FF6 then 0
          else if c.addr = 0x0FF7 then 0x1000
          else if c.addr = 0x0FF8 then 0x2000
          else if c.addr = 0x0FF9 then 0x3000
          else s.ptr },
        Drive.ram (s.ptr + (c.addr &&& 0xFFF)))
  else if c.pins &&& S5_GPIO_MASK = 0 then (s, Drive.ram (0x8000 ||| c.addr))
  else (s, Drive.idle)

def emulate_atarimax_128k (s : Mapper) (c : Cycle) : Mapper × Drive :=
  if c.pins &&& S5_GPIO_MASK = 0 ∧ s.rd5_high = true then
    (s, Drive.ram (8192 * (s.bank &&& 0xF) + c.addr))
  else if c.pins &&& CCTL_GPIO_MASK = 0 then
    if c.addr &&& 0xE0 = 0 then
      (({ s with bank := c.addr &&& 0xF }).set_rd5 (c.addr &&& 0x10 == 0), Drive.idle)
    else (s, Drive.idle)
  else (s, Drive.idle)

def emulate_williams (s : Mapper) (c : Cycle) : Mapper × Drive :=
  if c.pins &&& S5_GPIO_MASK = 0 ∧ s.rd5_high = true then
    (s, Drive.ram (8192 * s.bank + c.addr))
  else if c.pins &&& CCTL_GPIO_MASK = 0 then
    if c.addr &&& 0xF0 = 0 then
      (({ s with bank := c.addr &&& 0x07 }).set_rd5 (c.addr &&& 0x08 == 0), Drive.idle)
    else (s, Drive.idle)
  else (s, Drive.idle)

def emulate_OSS_B (s : Mapper) (c : Cycle) : Mapper × Drive :=
  if c.pins &&& S5_GPIO_MASK = 0 ∧ s.rd5_high = true then
    if c.addr &&& 0x1000 ≠ 0 then (s, Drive.ram (c.addr &&& 0xFFF))
    else (s, Drive.ram (4096 * s.bank + c.addr))
  else if c.pins &&& CCTL_GPIO_MASK = 0 then
    let a0 := c.addr &&& 1
    let a3 := c.addr &&& 8
    if a3 ≠ 0 ∧ a0 = 0 then (s.set_rd5 false, Drive.idle)
    else
      let s1 := s.set_rd5 true
      if a3 = 0 ∧ a0 = 0 then ({ s1 with bank := 1 }, Drive.idle)
      else if a3 = 0 ∧ a0 ≠ 0 then ({ s1 with bank := 3 }, Drive.idle)
      else if a3 ≠ 0 ∧ a0 ≠ 0 then ({ s1 with bank := 2 }, Drive.idle)
      else (s1, Drive.idle)
  else (s, Drive.idle)

def emulate_OSS_A (is034M : Bool) (s : Mapper) (c : Cycle) : Mapper × Drive :=
  if c.pins &&& S5_GPIO_MASK = 0 ∧ s.rd5_high = true then
    if c.addr &&& 0x1000 ≠ 0 then (s, Drive.ram (c.addr ||| 0x2000))
    else (s, Drive.ram (4096 * s.bank + c.addr))
  else if c.pins &&& CCTL_GPIO_MASK = 0 then
    let addr := c.pins &&& 0xF
    if addr &&& 0x8 ≠ 0 then (s.set_rd5 false, Drive.idle)
    else
      let s1 := s.set_rd5 true
      let b1 := if addr = 0x0 then 0 else s1.bank
      let b2 := if addr = 0x3 ∨ addr = 0x7 then (if is034M = true then 1 else 2) else b1
      let b3 := if addr = 0x4 then (if is034M = true then 2 else 1) else b2
      ({ s1 with bank := b3 }, Drive.idle)
  else (s, Drive.idle)

/-- The local `bank_mask` of `emulate_megacart`. -/
def megacart_bank_mask (size : Nat) : Nat :=
  if size = 32 then 0x1 else if size = 64 then 0x3 else if size = 128 then 0x7 else 0x00

def emulate_megacart (size : Nat) (s : Mapper) (c : Cycle) : Mapper × Drive :=
  if c.pins &&& S4_GPIO_MASK = 0 ∧ s.rd4_high = true then (s, Drive.ram (s.ptr + c.addr))
  else if c.pins &&& S5_GPIO_MASK = 0 ∧ s.rd5_high = true then
    (s, Drive.ram (s.ptr + (c.addr ||| 0x2000)))
  else if c.pins &&& CCTL_RW_GPIO_MASK = 0 then
    let bank := c.data &&& megacart_bank_mask size
    let s1 := { s with ptr := 16384 * (bank &&& 0x7) }
    if c.data &&& 0x80 ≠ 0 then ((s1.set_rd4 false).set_rd5 false, Drive.idle)
    else ((s1.set_rd4 true).set_rd5 true, Drive.idle)
  else (s, Drive.idle)

def emulate_SIC (s : Mapper) (c : Cycle) : Mapper × Drive :=
  if c.pins &&& S4_GPIO_MASK = 0 ∧ s.rd4_high = true then (s, Drive.ram (s.ptr + c.addr))
  else if c.pins &&& S5_GPIO_MASK = 0 ∧ s.rd5_high = true then
    (s, Drive.ram (s.ptr + (c.addr ||| 0x2000)))
  else if c.pins &&& CCTL_GPIO_MASK = 0 then
    if c.addr &&& 0xE0 = 0 then
      if c.pins &&& RW_GPIO_MASK ≠ 0 then (s, Drive.value s.SIC_byte)
      else
        let s1 := { s with SIC_byte := c.data, ptr := 16384 * (c.data &&& 0x7) }
        ((s1.set_rd5 (c.data &&& 0x40 == 0)).set_rd4 (c.data &&& 0x20 != 0), Drive.idle)
    else (s, Drive.idle)
  else (s, Drive.idle)
def emulate_SDX (size : Nat) (s : Mapper) (c : Cycle) : Mapper × Drive :=
  if c.pins &&& S5_GPIO_MASK = 0 ∧ s.rd5_high = true then (s, Drive.ram (s.ptr + c.addr))
  else if c.pins &&& CCTL_GPIO_MASK = 0 then
    let s1 :=
      if c.addr &&& 0xF0 = 0xE0 then
        ({ s with ptr := (if size = 64 then 0 else 65536) + (bnot32 c.addr &&& 0x7) * 8192 }).set_rd5
          (c.addr &&& 0x8 == 0)
      else s
    let s2 :=
      if size = 128 ∧ c.addr &&& 0xF0 = 0xF0 then
        ({ s1 with ptr := 0 + (bnot32 c.addr &&& 0x7) * 8192 }).set_rd5 (c.addr &&& 0x8 == 0)
      else s1
    (s2, Drive.idle)
  else (s, Drive.idle)

def emulate_diamond_express (cctlAddr : Nat) (s : Mapper) (c : Cycle) : Mapper × Drive :=
  if c.pins &&& S5_GPIO_MASK = 0 ∧ s.rd5_high = true then (s, Drive.ram (s.ptr + c.addr))
  else if c.pins &&& CCTL_GPIO_MASK = 0 then
    if c.addr &&& 0xF0 = cctlAddr then
      (({ s with ptr := 0 + (bnot32 c.addr &&& 0x7) * 8192 }).set_rd5 (c.addr &&& 0x8 == 0),
        Drive.idle)
    else (s, Drive.idle)
  else (s, Drive.idle)

def emulate_blizzard (s : Mapper) (c : Cycle) : Mapper × Drive :=
  if c.pins &&& S4_GPIO_MASK = 0 ∧ s.rd4_high = true then (s, Drive.ram c.addr)
  else if c.pins &&& S5_GPIO_MASK = 0 ∧ s.rd5_high = true then
    (s, Drive.ram (0x2000 ||| c.addr))
  else if c.pins &&& CCTL_GPIO_MASK = 0 then ((s.set_rd4 false).set_rd5 false, Drive.idle)
  else (s, Drive.idle)

/-- The local `bank_mask` of `emulate_turbosoft`. -/
def turbosoft_bank_mask (size : Nat) : Nat :=
  if size = 64 then 0x7 else if size = 128 then 0xF else 0x00

def emulate_turbosoft (size : Nat) (s : Mapper) (c : Cycle) : Mapper × Drive :=
  if c.pins &&& S5_GPIO_MASK = 0 ∧ s.rd5_high = true then
    (s, Drive.ram (8192 * s.bank + c.addr))
  else if c.pins &&& CCTL_GPIO_MASK = 0 then
    (({ s with bank := c.addr &&& turbosoft_bank_mask size }).set_rd5 (c.addr &&& 0x10 == 0),
      Drive.idle)
  else (s, Drive.idle)

def emulate_atrax (s : Mapper) (c : Cycle) : Mapper × Drive :=
  if c.pins &&& S5_GPIO_MASK = 0 ∧ s.rd5_high = true then
    (s, Drive.ram (8192 * s.bank + c.addr))
  else if c.pins &&& CCTL_RW_GPIO_MASK = 0 then
    (({ s with bank := c.data &&& 0xF }).set_rd5 (c.data &&& 0x80 == 0), Drive.idle)
  else (s, Drive.idle)

def emulate_microcalc (s : Mapper) (c : Cycle) : Mapper × Drive :=
  if c.pins &&& S5_GPIO_MASK = 0 ∧ s.rd5_high = true then
    (s, Drive.ram (8192 * s.bank + c.addr))
  else if c.pins &&& CCTL_GPIO_MASK = 0 then
    (({ s with bank := (s.bank + 1) % 5 }).set_rd5 ((s.bank + 1) % 5 != 4), Drive.idle)
  else (s, Drive.idle)

def emulate_phoenix_8k (s : Mapper) (c : Cycle) : Mapper × Drive :=
  if c.pins &&& S5_GPIO_MASK = 0 ∧ s.rd5_high = true then (s, Drive.ram c.addr)
  else if c.pins &&& CCTL_GPIO_MASK = 0 then (s.set_rd5 false, Drive.idle)
  else (s, Drive.idle)

def emulate_adawliah_32k (s : Mapper) (c : Cycle) : Mapper × Drive :=
  if c.pins &&& S5_GPIO_MASK = 0 ∧ s.rd5_high = true then
    (s, Drive.ram (8192 * s.bank + c.addr))
  else if c.pins &&& CCTL_GPIO_MASK = 0 then
    (({ s with bank := (s.bank + 1) &&& 3 }).set_rd5 ((s.bank + 1) &&& 3 != 4), Drive.idle)
  else (s, Drive.idle)

/-- One turn of the loop of `feed_XEX_loader`; `ptr` is `256 * (bank & 0x01FF)`. -/
def feed_XEX_loader (s : Mapper) (c : Cycle) : Mapper × Drive :=
  if c.pins &&& CCTL_GPIO_MASK = 0 then
    if c.pins &&& RW_GPIO_MASK ≠ 0 then (s, Drive.ram (s.ptr + (c.addr &&& 0xFF)))
    else
      let addr := c.pins &&& 0xFF
      let bank :=
        if addr = 0 then (s.bank &&& 0xFF00) ||| c.data
        else if addr = 1 then (s.bank &&& 0x00FF) ||| ((c.data <<< 8) &&& 0xFF00)
        else s.bank
      ({ s with bank := bank, ptr := 256 * (bank &&& 0x01FF) }, Drive.idle)
  else (s, Drive.idle)

/-- The emulator functions that `emulate_cartridge` can call, with their arguments;
`no_cartridge` is its last branch, which pulls RD4 and RD5 low and halts. -/
inductive Emulator where
  | standard_8k
  | standard_16k
  | XEGS_32k (switchable : Bool)
  | XEGS_64k (switchable : Bool)
  | XEGS_128k (switchable : Bool)
  | bounty_bob
  | atarimax_128k
  | williams
  | OSS_B
  | OSS_A (is034M : Bool)
  | megacart (size : Nat)
  | SIC
  | SDX (size : Nat)
  | diamond_express (cctlAddr : Nat)
  | blizzard
  | turbosoft (size : Nat)
  | atrax
  | microcalc
  | phoenix_8k
  | adawliah_32k
  | XEX_loader
  | no_cartridge
deriving DecidableEq, Repr

/-- The locals and the RD4/RD5 levels when the emulator enters its loop. -/
def Emulator.entry : Emulator → Mapper
  | Emulator.standard_8k => entry_levels false true
  | Emulator.standard_16k => entry_levels true true
  | Emulator.XEGS_32k _ => entry_levels true true
  | Emulator.XEGS_64k _ => entry_levels true true
  | Emulator.XEGS_128k _ => entry_levels true true
  | Emulator.bounty_bob => { entry_levels true true with ptr2 := 0x4000 }
  | Emulator.atarimax_128k => entry_levels false true
  | Emulator.williams => entry_levels false true
  | Emulator.OSS_B => { entry_levels false true with bank := 1 }
  | Emulator.OSS_A _ => entry_levels false true
  | Emulator.megacart _ => entry_levels true true
  | Emulator.SIC => entry_levels false true
  | Emulator.SDX _ => entry_levels false true
  | Emulator.diamond_express _ => entry_levels false true
  | Emulator.blizzard => entry_levels true true
  | Emulator.turbosoft _ => entry_levels false true
  | Emulator.atrax => entry_levels false true
  | Emulator.microcalc => entry_levels false true
  | Emulator.phoenix_8k => entry_levels false true
  | Emulator.adawliah_32k => entry_levels false true
  | Emulator.XEX_loader => entry_levels false false
  | Emulator.no_cartridge => entry_levels false false

/-- One turn of the loop of the emulator. -/
def Emulator.turn : Emulator → Mapper → Cycle → Mapper × Drive
  | Emulator.standard_8k => emulate_standard_8k
  | Emulator.standard_16k => emulate_standard_16k
  | Emulator.XEGS_32k switchable => emulate_XEGS_32k switchable
  | Emulator.XEGS_64k switchable => emulate_XEGS_64k switchable
  | Emulator.XEGS_128k switchable => emulate_XEGS_128k switchable
  | Emulator.bounty_bob => emulate_bounty_bob
  | Emulator.atarimax_128k => emulate_atarimax_128k
  | Emulator.williams => emulate_williams
  | Emulator.OSS_B => emulate_OSS_B
  | Emulator.OSS_A is034M => emulate_OSS_A is034M
  | Emulator.megacart size => emulate_megacart size
  | Emulator.SIC => emulate_SIC
  | Emulator.SDX size => emulate_SDX size
  | Emulator.diamond_express cctlAddr => emulate_diamond_express cctlAddr
  | Emulator.blizzard => emulate_blizzard
  | Emulator.turbosoft size => emulate_turbosoft size
  | Emulator.atrax => emulate_atrax
  | Emulator.microcalc => emulate_microcalc
  | Emulator.phoenix_8k => emulate_phoenix_8k
  | Emulator.adawliah_32k => emulate_adawliah_32k
  | Emulator.XEX_loader => feed_XEX_loader
  | Emulator.no_cartridge => fun s _ => (s, Drive.idle)
/-- The function `emulate_cartridge`: the emulator that a cart type starts. -/
def emulate_cartridge (cartType : Nat) : Emulator :=
  if cartType = CART_TYPE_8K then Emulator.standard_8k
  else if cartType = CART_TYPE_16K then Emulator.standard_16k
  else if cartType = CART_TYPE_XEGS_32K then Emulator.XEGS_32k false
  else if cartType = CART_TYPE_XEGS_64K then Emulator.XEGS_64k false
  else if cartType = CART_TYPE_XEGS_128K then Emulator.XEGS_128k false
  else if cartType = CART_TYPE_SW_XEGS_32K then Emulator.XEGS_32k true
  else if cartType = CART_TYPE_SW_XEGS_64K then Emulator.XEGS_64k true
  else if cartType = CART_TYPE_SW_XEGS_128K then Emulator.XEGS_128k true
  else if cartType = CART_TYPE_BOUNTY_BOB then Emulator.bounty_bob
  else if cartType = CART_TYPE_ATARIMAX_1MBIT then Emulator.atarimax_128k
  else if cartType = CART_TYPE_WILLIAMS_64K then Emulator.williams
  else if cartType = CART_TYPE_OSS_16K_TYPE_B then Emulator.OSS_B
  else if cartType = CART_TYPE_OSS_8K then Emulator.OSS_B
  else if cartType = CART_TYPE_OSS_16K_034M then Emulator.OSS_A true
  else if cartType = CART_TYPE_OSS_16K_043M then Emulator.OSS_A false
  else if cartType = CART_TYPE_MEGACART_16K then Emulator.megacart 16
  else if cartType = CART_TYPE_MEGACART_32K then Emulator.megacart 32
  else if cartType = CART_TYPE_MEGACART_64K then Emulator.megacart 64
  else if cartType = CART_TYPE_MEGACART_128K then Emulator.megacart 128
  else if cartType = CART_TYPE_SIC_128K then Emulator.SIC
  else if cartType = CART_TYPE_SDX_64K then Emulator.SDX 64
  else if cartType = CART_TYPE_SDX_128K then Emulator.SDX 128
  else if cartType = CART_TYPE_DIAMOND_64K then Emulator.diamond_express 0xD0
  else if cartType = CART_TYPE_EXPRESS_64K then Emulator.diamond_express 0x70
  else if cartType = CART_TYPE_BLIZZARD_16K then Emulator.blizzard
  else if cartType = CART_TYPE_4K then Emulator.standard_8k
  else if cartType = CART_TYPE_TURBOSOFT_64K then Emulator.turbosoft 64
  else if cartType = CART_TYPE_TURBOSOFT_128K then Emulator.turbosoft 128
  else if cartType = CART_TYPE_ATRAX_128K then Emulator.atrax
  else if cartType = CART_TYPE_MICROCALC then Emulator.microcalc
  else if cartType = CART_TYPE_2K then Emulator.standard_8k
  else if cartType = CART_TYPE_PHOENIX_8K then Emulator.phoenix_8k
  else if cartType = CART_TYPE_BLIZZARD_4K then Emulator.phoenix_8k
  else if cartType = CART_TYPE_ADAWLIAH_32k then Emulator.adawliah_32k
  else if cartType = CART_TYPE_XEX then Emulator.XEX_loader
  else Emulator.no_cartridge

/-- The locals of emulator `e` after the turns `cycles`, started from `s`. -/
def Emulator.run (e : Emulator) (s : Mapper) (cycles : List Cycle) : Mapper :=
  cycles.foldl (fun s c => (e.turn s c).1) s

/-- The emulators that declare the flag `rd4_high`. -/
def Emulator.tracks_rd4 : Emulator → Bool
  | Emulator.XEGS_32k _ => true
  | Emulator.XEGS_64k _ => true
  | Emulator.XEGS_128k _ => true
  | Emulator.megacart _ => true
  | Emulator.SIC => true
  | Emulator.blizzard => true
  | _ => false

/-- The emulators that declare the flag `rd5_high`. -/
def Emulator.tracks_rd5 : Emulator → Bool
  | Emulator.XEGS_32k _ => true
  | Emulator.XEGS_64k _ => true
  | Emulator.XEGS_128k _ => true
  | Emulator.atarimax_128k => true
  | Emulator.williams => true
  | Emulator.OSS_B => true
  | Emulator.OSS_A _ => true
  | Emulator.megacart _ => true
  | Emulator.SIC => true
  | Emulator.SDX _ => true
  | Emulator.diamond_express _ => true
  | Emulator.blizzard => true
  | Emulator.turbosoft _ => true
  | Emulator.atrax => true
  | Emulator.microcalc => true
  | Emulator.phoenix_8k => true
  | Emulator.adawliah_32k => true
  | _ => false

/-- An access to the S4 window (`$8000-$9FFF`): S4 is low, S5 and CCTL are high. -/
def Cycle.is_s4 (c : Cycle) : Prop :=
  c.pins &&& S4_GPIO_MASK = 0 ∧ c.pins &&& S5_GPIO_MASK ≠ 0 ∧ c.pins &&& CCTL_GPIO_MASK ≠ 0

/-- An access to the S5 window (`$A000-$BFFF`): S5 is low, S4 and CCTL are high. -/
def Cycle.is_s5 (c : Cycle) : Prop :=
  c.pins &&& S5_GPIO_MASK = 0 ∧ c.pins &&& S4_GPIO_MASK ≠ 0 ∧ c.pins &&& CCTL_GPIO_MASK ≠ 0

/-- An access to the control page (`$D5xx`): CCTL is low, S4 and S5 are high. -/
def Cycle.is_cctl (c : Cycle) : Prop :=
  c.pins &&& CCTL_GPIO_MASK = 0 ∧ c.pins &&& S4_GPIO_MASK ≠ 0 ∧ c.pins &&& S5_GPIO_MASK ≠ 0

instance (c : Cycle) : Decidable c.is_s4 := by
  unfold Cycle.is_s4
  infer_instance

instance (c : Cycle) : Decidable c.is_s5 := by
  unfold Cycle.is_s5
  infer_instance

instance (c : Cycle) : Decidable c.is_cctl := by
  unfold Cycle.is_cctl
  infer_instance

/-- The banking of an XEGS emulator `e switchable` with the fixed bank `fixed` in the S5
window and the bank mask `mask`. After a write of the byte `d` to the control page,
`bankPtr` is `cart_ram + 8192 * (d & mask)`; when switchable, RD4, RD5 and the two flags
are high exactly when bit `0x80` of `d` is clear, otherwise the write leaves them alone.
Turns that are not writes to the control page change no local, so this lasts until the
next such write; until then an S4 read at `a` drives `cart_ram[8192 * (d & mask) + a]` and
an S5 read drives `cart_ram[fixed | a]` if the cart is enabled, and nothing is driven if
it is disabled. When not switchable, no turn changes RD4, RD5 or the flags, the cart is
enabled in every state reached from entry and every S5 read drives `cart_ram[fixed | a]`. -/
def XEGSBanking (e : Bool → Emulator) (fixed mask : Nat) : Prop :=
  (∀ (switchable : Bool) (s : Mapper) (w : Cycle) (cs : List Cycle),
    w.is_cctl → w.pins &&& RW_GPIO_MASK = 0 →
    (∀ c, c ∈ cs → c.pins &&& CCTL_RW_GPIO_MASK ≠ 0) →
    ((e switchable).turn s w).2 = Drive.idle ∧
    (e switchable).run s (w :: cs) = ((e switchable).turn s w).1 ∧
    ((e switchable).turn s w).1.ptr = 8192 * (w.data &&& mask) ∧
    (switchable = true →
      ((e switchable).turn s w).1.RD4 = (w.data &&& 0x80 == 0) ∧
      ((e switchable).turn s w).1.RD5 = (w.data &&& 0x80 == 0) ∧
      ((e switchable).turn s w).1.rd4_high = (w.data &&& 0x80 == 0) ∧
      ((e switchable).turn s w).1.rd5_high = (w.data &&& 0x80 == 0)) ∧
    (switchable = false →
      ((e switchable).turn s w).1.RD4 = s.RD4 ∧ ((e switchable).turn s w).1.RD5 = s.RD5 ∧
      ((e switchable).turn s w).1.rd4_high = s.rd4_high ∧
      ((e switchable).turn s w).1.rd5_high = s.rd5_high) ∧
    ∀ r : Cycle,
      (r.is_s4 → (e switchable).turn ((e switchable).run s (w :: cs)) r =
        ((e switchable).run s (w :: cs),
          if ((e switchable).turn s w).1.rd4_high = true
          then Drive.ram (8192 * (w.data &&& mask) + r.addr) else Drive.idle)) ∧
      (r.is_s5 → (e switchable).turn ((e switchable).run s (w :: cs)) r =
        ((e switchable).run s (w :: cs),
          if ((e switchable).turn s w).1.rd5_high = true
          then Drive.ram (fixed ||| r.addr) else Drive.idle))) ∧
  (∀ (s : Mapper) (c : Cycle),
    ((e false).turn s c).1.RD4 = s.RD4 ∧ ((e false).turn s c).1.RD5 = s.RD5 ∧
    ((e false).turn s c).1.rd4_high = s.rd4_high ∧
    ((e false).turn s c).1.rd5_high = s.rd5_high) ∧
  ∀ (cs : List Cycle) (r : Cycle),
    ((e false).run (e false).entry cs).RD4 = true ∧
    ((e false).run (e false).entry cs).RD5 = true ∧
    (r.is_s5 → ((e false).turn ((e false).run (e false).entry cs) r).2 =
      Drive.ram (fixed ||| r.addr))
/-! ## Directory listing and search (`atari_cart.c`)

C strings are lists of characters without the terminating NUL. The records
`DIR_ENTRY dst[0 .. num_dir_entries)` at the start of `cart_ram` are a list of records. -/

/-- Modelled from the spec: an entry of a directory as the FAT library reports it
(`FILINFO` of `ff.h`, which is not among the sources): the attribute bits that the code
tests (`fattrib & AM_HID`, `fattrib & AM_SYS`, `fattrib & AM_DIR`), the long name `fname`
and the short name `altname`, empty when the long name is itself an 8.3 name. -/
structure FILINFO where
  hidden : Bool
  system : Bool
  directory : Bool
  fname : List Char
  altname : List Char

/-- Modelled from the spec: an open directory of the FAT library (`DIR` of `ff.h`): the
entries that successive calls of `f_readdir` yield, and whether the call after the last
of them reports an error (`true`) or the end of the directory, an entry with an empty
name (`false`). -/
structure DIR where
  entries : List FILINFO
  fails : Bool

/-- The type `DIR_ENTRY`. -/
structure DIR_ENTRY where
  isDir : Nat
  filename : List Char
  long_filename : List Char
  full_path : List Char
deriving DecidableEq, Repr

/-- The globals written by `read_directory` and `search_directory`: the first
`num_dir_entries` records of `cart_ram`, and `errorBuf`. -/
structure Listing where
  entries : List DIR_ENTRY
  errorBuf : String

/-- The codes of the characters of a string after `tolower`: the function `strlwr` of the
C library, and the form in which `strcasecmp` compares its arguments. -/
def strlwr (s : List Char) : List Nat := s.map (fun c => tolower c.toNat)

/-- The function `strcasecmp` of the C library: the difference of the first two
characters that differ after `tolower`, the end of a string counting as the code 0. -/
def strcasecmp : List Char → List Char → Int
  | [], [] => 0
  | [], b :: _ => 0 - (tolower b.toNat : Int)
  | a :: _, [] => (tolower a.toNat : Int) - 0
  | a :: s1, b :: s2 =>
    if tolower a.toNat = tolower b.toNat then strcasecmp s1 s2
    else (tolower a.toNat : Int) - (tolower b.toNat : Int)

def entry_compare (e1 e2 : DIR_ENTRY) : Int :=
  if e1.isDir ≠ 0 ∧ e2.isDir = 0 then -1
  else if e1.isDir = 0 ∧ e2.isDir ≠ 0 then 1
  else strcasecmp e1.long_filename e2.long_filename

/-- The function `qsort` of the C library with the comparator `entry_compare`, as a sort
by insertion; the properties below use only that the result is a rearrangement of the
records. -/
def qsort (dst : List DIR_ENTRY) : List DIR_ENTRY :=
  dst.insertionSort (fun e1 e2 => entry_compare e1 e2 ≤ 0)

/-- The function `strrchr` of the C library: the index of the last occurrence of `c`. -/
def strrchr : List Char → Char → Option Nat
  | [], _ => none
  | x :: xs, c =>
    match strrchr xs c with
    | some i => some (i + 1)
    | none => if x = c then some 0 else none

def get_filename_ext (filename : List Char) : List Char :=
  match strrchr filename '.' with
  | none => []
  | some 0 => []
  | some (i + 1) => filename.drop (i + 2)

def is_valid_file (filename : List Char) : Bool :=
  strcasecmp (get_filename_ext filename) ['C', 'A', 'R'] == 0 ||
  strcasecmp (get_filename_ext filename) ['R', 'O', 'M'] == 0 ||
  strcasecmp (get_filename_ext filename) ['X', 'E', 'X'] == 0 ||
  strcasecmp (get_filename_ext filename) ['A', 'T', 'R'] == 0

/-- The record that `read_directory` and `scan_files` fill in for the entry `fno`: the
long name cut to 31 characters, and the short name, which is `altname` or, when that is
empty, the long name cut to 12 characters. -/
def dir_record (fno : FILINFO) (isDir : Nat) (full_path : List Char) : DIR_ENTRY :=
  { isDir := isDir
    long_filename := fno.fname.take 31
    filename := if fno.altname ≠ [] then fno.altname else fno.fname.take 12
    full_path := full_path }

/-- The loop `while (num_dir_entries < 255)` of `read_directory` over the entries that
`f_readdir` yields; `dst` holds the records written so far. -/
def read_directory_loop : List FILINFO → List DIR_ENTRY → List DIR_ENTRY
  | [], dst => dst
  | fno :: rest, dst =>
    if ¬ dst.length < 255 then dst
    else if fno.fname = [] then dst
    else if (fno.hidden || fno.system) = true then read_directory_loop rest dst
    else if fno.directory = false ∧ is_valid_file fno.fname = false then
      read_directory_loop rest dst
    else
      read_directory_loop rest (dst ++ [dir_record fno (if fno.directory = true then 1 else 0) []])

/-- The function `read_directory`. `mount_ok` says whether `f_mount` returned `FR_OK`,
`dir` is the directory that `f_opendir` opens, `none` when it does not return `FR_OK`. The
call of `mount_fatfs_disk`, which acts on the flash translation layer only, is left
out. The result is the pair of the globals and the value returned. -/
def read_directory (g : Listing) (mount_ok : Bool) (dir : Option DIR) : Listing × Nat :=
  if mount_ok = true then
    match dir with
    | some d => ({ g with entries := qsort (read_directory_loop d.entries []) }, 1)
    | none => ({ entries := qsort [], errorBuf := "Can't read directory" }, 1)
  else ({ entries := [], errorBuf := "Can't read flash memory" }, 0)

/-- The loop `while (len && curPath[--len] != '/');` of the command `CART_CMD_UP_DIR`:
the value of `len` after the loop. -/
def up_dir_len (curPath : List Char) : Nat → Nat
  | 0 => 0
  | len + 1 => if curPath.getD len ' ' ≠ '/' then up_dir_len curPath len else len

/-- The command `CART_CMD_UP_DIR` of `atari_cart_main`: `curPath` afterwards. -/
def cmd_up_dir (curPath : List Char) : List Char :=
  curPath.take (up_dir_len curPath curPath.length)

/-- The command `CART_CMD_OPEN_ITEM` of `atari_cart_main` on a directory entry with the
short name `filename`: `curPath` after the two calls of `strcat`, `none` when the result
does not fit the 256 bytes of `curPath` (the behaviour of the C code is then undefined). -/
def cmd_open_item_dir (curPath filename : List Char) : Option (List Char) :=
  if curPath.length + 1 + filename.length < 256 then some (curPath ++ ['/'] ++ filename)
  else none

/-- The extension test in the words of the specification: the name contains a `'.'` that
is not its first character, and the text after the last `'.'` equals CAR, ROM, XEX or ATR
ignoring case. -/
def HasListedExtension (name : List Char) : Prop :=
  ∃ stem ext, name = stem ++ '.' :: ext ∧ stem ≠ [] ∧ '.' ∉ ext ∧
    (strlwr ext = strlwr ['C', 'A', 'R'] ∨ strlwr ext = strlwr ['R', 'O', 'M'] ∨
      strlwr ext = strlwr ['X', 'E', 'X'] ∨ strlwr ext = strlwr ['A', 'T', 'R'])

/-- A C string: no character of the list is NUL. -/
def IsCString (s : List Char) : Prop := ∀ c, c ∈ s → c.toNat ≠ 0

/-- A file that `read_directory` lists. -/
def demo_file : FILINFO :=
  { hidden := false, system := false, directory := false,
    fname := ['g', 'a', 'm', 'e', '.', 'X', 'e', 'x'], altname := [] }

/-- A directory with two files that `read_directory` lists, a subdirectory, a hidden
file, a text file and a file whose name is only an extension. -/
def demo_dir : DIR :=
  { entries :=
      [ demo_file,
        { hidden := true, system := false, directory := false,
          fname := ['s', 'e', 'c', 'r', 'e', 't', '.', 'c', 'a', 'r'], altname := [] },
        { hidden := false, system := false, directory := true,
          fname := ['D', 'e', 'm', 'o', 's'], altname := [] },
        { hidden := false, system := false, directory := false,
          fname := ['n', 'o', 't', 'e', 's', '.', 't', 'x', 't'], altname := [] },
        { hidden := false, system := false, directory := false,
          fname := ['.', 'c', 'a', 'r'], altname := [] },
        { hidden := false, system := false, directory := false,
          fname := ['a', '.', 'b', '.', 'R', 'O', 'M'], altname := [] } ]
    fails := false }

/-- A bound on the locals `bank`, `ptr` and `ptr2` that the loop of emulator `e` keeps;
for `emulate_microcalc` also that the cartridge is enabled only in banks 0..3. -/
def Emulator.Bounded : Emulator → Mapper → Prop
  | Emulator.XEGS_32k _, s => s.ptr ≤ 8192 * 3
  | Emulator.XEGS_64k _, s => s.ptr ≤ 8192 * 7
  | Emulator.XEGS_128k _, s => s.ptr ≤ 8192 * 15
  | Emulator.bounty_bob, s => s.ptr ≤ 0x3000 ∧ s.ptr2 ≤ 0x7000
  | Emulator.williams, s => s.bank ≤ 7
  | Emulator.OSS_B, s => s.bank ≤ 3
  | Emulator.OSS_A _, s => s.bank ≤ 2
  | Emulator.megacart size, s => s.ptr ≤ 16384 * megacart_bank_mask size
  | Emulator.SIC, s => s.ptr ≤ 16384 * 7
  | Emulator.SDX size, s => s.ptr ≤ (if size = 64 then 0 else 65536) + 7 * 8192
  | Emulator.diamond_express _, s => s.ptr ≤ 7 * 8192
  | Emulator.turbosoft size, s => s.bank ≤ turbosoft_bank_mask size
  | Emulator.atrax, s => s.bank ≤ 15
  | Emulator.microcalc, s => s.bank ≤ 4 ∧ (s.rd5_high = true → s.bank ≤ 3)
  | Emulator.adawliah_32k, s => s.bank ≤ 3
  | Emulator.XEX_loader, s => s.ptr ≤ 256 * 511
  | _, _ => True

/-- The size of the part of `cart_ram` that emulator `e` reads: every index it reads is
below this number. -/
def Emulator.window : Emulator → Nat
  | Emulator.standard_8k => 8192
  | Emulator.standard_16k => 16384
  | Emulator.XEGS_32k _ => 32768
  | Emulator.XEGS_64k _ => 65536
  | Emulator.XEGS_128k _ => 131072
  | Emulator.bounty_bob => 40960
  | Emulator.atarimax_128k => 131072
  | Emulator.williams => 65536
  | Emulator.OSS_B => 16384
  | Emulator.OSS_A _ => 16384
  | Emulator.megacart size => 16384 * (megacart_bank_mask size + 1)
  | Emulator.SIC => 131072
  | Emulator.SDX size => if size = 64 then 65536 else 131072
  | Emulator.diamond_express _ => 65536
  | Emulator.blizzard => 16384
  | Emulator.turbosoft size => 8192 * (turbosoft_bank_mask size + 1)
  | Emulator.atrax => 131072
  | Emulator.microcalc => 32768
  | Emulator.phoenix_8k => 8192
  | Emulator.adawliah_32k => 32768
  | Emulator.XEX_loader => 131072
  | Emulator.no_cartridge => 0

/-- A turn in which the host selects `$D500-$D5FF` at address `addr`, with S4 and S5
high. -/
def cctl_access (addr : Nat) : Cycle :=
  { pins := S4_GPIO_MASK ||| S5_GPIO_MASK ||| PHI2_GPIO_MASK ||| RW_GPIO_MASK ||| addr,
    last := 0 }

/-- A turn in which the host reads `$A000 + addr`: S5 is low, S4 and CCTL are high. -/
def s5_read (addr : Nat) : Cycle :=
  { pins := S4_GPIO_MASK ||| CCTL_GPIO_MASK ||| PHI2_GPIO_MASK ||| RW_GPIO_MASK ||| addr,
    last := 0 }
/-- One write to each of the logical sectors 0 .. 30599, in this order: as many as the
data region has slots. -/
@[irreducible]
def full_writes : List (Nat × List Nat) :=
  (List.range 30600).map (fun l => (l, fill_payload l))

/-- Every store of the second loop of `init_used_bitmap` is inside the array
`used_bitmap[NUM_FLASH_SECTORS]`: each nonzero map entry names a physical sector below
3840. The loop has no test of its own on the index; in the model `used_bitmap` is a
function on all indices, and an index from 3840 on stands for the memory behind the
array. -/
def StoresInBounds (fs_map : Nat → Nat) : Prop :=
  ∀ l, l < NUM_FAT_SECTORS → sectors fs_map l ≠ 0 →
    getMapSector (sectors fs_map l) < NUM_FLASH_SECTORS

/-- The flash of a new device when `flash_fs_create` is cut off after `write_fs_map` has
written metadata sector 0: the magic header and 2044 empty map entries, every other byte
still erased. -/
def torn_image : Nat → Nat :=
  fun a => if a < 8 then MAGIC_8_BYTES.getD a 0 else if a < 4096 then 0 else 0xFF

theorem testBit_bnot32 (v j : Nat) :
    (bnot32 v).testBit j = (decide (j < 32) ^^ v.testBit j) := by
  unfold bnot32
  rw [Nat.testBit_xor]
  have h : (0xFFFFFFFF : Nat) = 2 ^ 32 - 1 := by norm_num
  rw [h, Nat.testBit_two_pow_sub_one]

theorem testBit_one_shiftLeft (o j : Nat) : (1 <<< o).testBit j = decide (o = j) := by
  rw [Nat.one_shiftLeft, Nat.testBit_two_pow]

theorem and_one_shiftLeft_ne_zero (x i : Nat) : (x &&& (1 <<< i) != 0) = x.testBit i := by
  rw [Nat.one_shiftLeft, Nat.and_two_pow]
  have hp : 0 < 2 ^ i := Nat.two_pow_pos i
  cases h : x.testBit i
  · simp
  · simp only [Bool.toNat_true, Nat.one_mul, bne_iff_ne, ne_eq]
    omega

theorem and_one_shiftLeft_ne_zero_iff (x i : Nat) :
    x &&& (1 <<< i) ≠ 0 ↔ x.testBit i = true := by
  rw [← and_one_shiftLeft_ne_zero]; simp

/-- Clearing bit `o`, the C statement `x &= ~(1 << o)`. -/
theorem testBit_clear (x o j : Nat) (hj : j < 32) :
    (x &&& bnot32 (1 <<< o)).testBit j = (x.testBit j && !decide (o = j)) := by
  rw [Nat.testBit_and, testBit_bnot32, testBit_one_shiftLeft]
  simp [hj]

/-- Setting bit `o`, the C statement `x |= (1 << o)`. -/
theorem testBit_set (x o j : Nat) :
    (x ||| (1 <<< o)).testBit j = (x.testBit j || decide (o = j)) := by
  rw [Nat.testBit_or, testBit_one_shiftLeft]

/-- The byte `~x`. -/
theorem testBit_bnot8 (x j : Nat) :
    (bnot32 x % 256).testBit j = (decide (j < 8) && !x.testBit j) := by
  have h : (256 : Nat) = 2 ^ 8 := by norm_num
  rw [h, Nat.testBit_mod_two_pow, testBit_bnot32]
  by_cases h8 : j < 8
  · have : j < 32 := by omega
    simp [h8, this]
  · simp [h8]

theorem byte_testBit_high {x j : Nat} (hx : x < 256) (hj : 8 ≤ j) : x.testBit j = false := by
  apply Nat.testBit_lt_two_pow
  calc x < 2 ^ 8 := by simpa using hx
    _ ≤ 2 ^ j := Nat.pow_le_pow_right (by decide) hj

theorem byte_eq_of_testBit {x y : Nat} (hx : x < 256) (hy : y < 256)
    (h : ∀ j, j < 8 → x.testBit j = y.testBit j) : x = y := by
  apply Nat.eq_of_testBit_eq
  intro j
  by_cases hj : j < 8
  · exact h j hj
  · rw [byte_testBit_high hx (by omega), byte_testBit_high hy (by omega)]

theorem testBit_255 (j : Nat) : (255 : Nat).testBit j = decide (j < 8) := by
  have h : (255 : Nat) = 2 ^ 8 - 1 := by norm_num
  rw [h, Nat.testBit_two_pow_sub_one]

theorem byte_eq_255_iff {x : Nat} (hx : x < 256) :
    x = 255 ↔ ∀ j, j < 8 → x.testBit j = true := by
  constructor
  · intro h j hj
    rw [h, testBit_255]; simp [hj]
  · intro h
    apply byte_eq_of_testBit hx (by decide)
    intro j hj
    rw [h j hj, testBit_255]; simp [hj]

theorem byte_eq_zero_iff {x : Nat} (hx : x < 256) :
    x = 0 ↔ ∀ j, j < 8 → x.testBit j = false := by
  constructor
  · intro h j _
    rw [h]; simp
  · intro h
    apply byte_eq_of_testBit hx (by decide)
    intro j hj
    rw [h j hj]; simp

theorem clear_le (x o : Nat) : x &&& bnot32 (1 <<< o) ≤ x := Nat.and_le_left

theorem set_lt_256 {x o : Nat} (hx : x < 256) (ho : o < 8) : x ||| (1 <<< o) < 256 := by
  have h : (256 : Nat) = 2 ^ 8 := by norm_num
  rw [h]
  apply Nat.or_lt_two_pow
  · simpa using hx
  · rw [Nat.one_shiftLeft]
    exact Nat.pow_lt_pow_right (by decide) ho

/-! ## Map entries -/

theorem getMapOffset_eq (e : Nat) : getMapOffset e = e % 8 := by
  unfold getMapOffset
  exact Nat.and_pow_two_sub_one_eq_mod e 3

theorem getMapOffset_lt (e : Nat) : getMapOffset e < 8 := by
  rw [getMapOffset_eq]; omega

theorem getMapSector_eq (e : Nat) : getMapSector e = e / 8 % 8192 := by
  unfold getMapSector
  apply Nat.eq_of_testBit_eq
  intro j
  have h1 : (0xFFF8 : Nat) = (2 ^ 16 - 1) ^^^ (2 ^ 3 - 1) := by decide
  have h2 : e / 8 % 8192 = (e >>> 3) % 2 ^ 13 := by
    rw [Nat.shiftRight_eq_div_pow]; norm_num
  rw [h2, Nat.testBit_shiftRight, Nat.testBit_and, h1, Nat.testBit_xor,
    Nat.testBit_two_pow_sub_one, Nat.testBit_two_pow_sub_one, Nat.testBit_mod_two_pow,
    Nat.testBit_shiftRight]
  by_cases hj : j < 13
  · have a1 : 3 + j < 16 := by omega
    have a2 : ¬ 3 + j < 3 := by omega
    simp [hj, a1, a2]
  · have a1 : ¬ 3 + j < 16 := by omega
    have a2 : ¬ 3 + j < 3 := by omega
    simp [hj, a1, a2]

theorem getMapSector_lt (e : Nat) : getMapSector e < 8192 := by
  rw [getMapSector_eq]; omega

theorem shiftLeft3_or_eq {p o : Nat} (ho : o < 8) : (p <<< 3) ||| o = 8 * p + o := by
  have h := Nat.mul_add_lt_is_or (show o < 2 ^ 3 by simpa using ho) p
  rw [Nat.shiftLeft_eq, Nat.mul_comm, ← h]

theorem makeMapEntry_eq {p o : Nat} (hp : p < 8192) (ho : o < 8) :
    makeMapEntry p o = 8 * p + o := by
  unfold makeMapEntry
  rw [shiftLeft3_or_eq ho]
  omega

theorem getMapSector_makeMapEntry {p o : Nat} (hp : p < 8192) (ho : o < 8) :
    getMapSector (makeMapEntry p o) = p := by
  rw [getMapSector_eq, makeMapEntry_eq hp ho]; omega

theorem getMapOffset_makeMapEntry {p o : Nat} (hp : p < 8192) (ho : o < 8) :
    getMapOffset (makeMapEntry p o) = o := by
  rw [getMapOffset_eq, makeMapEntry_eq hp ho]; omega

theorem makeMapEntry_lt (p o : Nat) : makeMapEntry p o < 65536 := by
  unfold makeMapEntry; omega

/-- An entry below 65536 is determined by its sector and offset. -/
theorem entry_eq_of_slot {e : Nat} (he : e < 65536) :
    e = 8 * getMapSector e + getMapOffset e := by
  rw [getMapSector_eq, getMapOffset_eq]; omega

/-- The entry built when the bit scan of `getNextWriteSector` runs off the end (`i = 8`). -/
theorem makeMapEntry_eight {p : Nat} (hp : p < 8192) :
    makeMapEntry p 8 = 8 * (p ||| 1) := by
  unfold makeMapEntry
  have h : (p <<< 3) ||| 8 = (p ||| 1) <<< 3 := by
    apply Nat.eq_of_testBit_eq
    intro j
    have h8 : (8 : Nat) = 1 <<< 3 := by decide
    have h1 : (1 : Nat) = 1 <<< 0 := by decide
    have e1 : Nat.testBit 1 (j - 3) = decide (0 = j - 3) := by
      rw [← testBit_one_shiftLeft 0 (j - 3)]; rfl
    rw [Nat.testBit_or, Nat.testBit_shiftLeft, Nat.testBit_shiftLeft, Nat.testBit_or, h8,
      testBit_one_shiftLeft, e1]
    by_cases hj : j ≥ 3
    · by_cases hj3 : j = 3
      · subst hj3; simp
      · have a1 : ¬ 3 = j := by omega
        have a2 : ¬ 0 = j - 3 := by omega
        simp [hj, a1, a2]
    · have a1 : ¬ 3 = j := by omega
      simp [hj, a1]
  have hlt : p ||| 1 < 2 ^ 13 := Nat.or_lt_two_pow (by simpa using hp) (by norm_num)
  rw [h, Nat.shiftLeft_eq]
  omega

theorem or_one_bounds (p : Nat) : p ≤ p ||| 1 ∧ p ||| 1 ≤ p + 1 ∧ (p ||| 1) % 2 = 1 := by
  have h : p ||| 1 = 2 * (p / 2) + 1 := by
    apply Nat.eq_of_testBit_eq
    intro j
    have e1 : Nat.testBit 1 j = decide (0 = j) := by
      rw [← testBit_one_shiftLeft 0 j]; rfl
    rw [Nat.testBit_or, e1]
    cases j with
    | zero =>
      simp only [Nat.testBit_zero, decide_True, Bool.or_true, true_eq_decide_iff]
      omega
    | succ k =>
      rw [Nat.testBit_succ, Nat.testBit_succ]
      have : (2 * (p / 2) + 1) / 2 = p / 2 := by omega
      rw [this]; simp
  omega

/-! ## Entries of the RAM map -/

theorem sectors_set_sectors_same (m : Nat → Nat) (l v : Nat) :
    sectors (set_sectors m l v) l = v % 65536 := by
  simp only [sectors, set_sectors, store]
  have a1 : ¬ (8 + 2 * l = 8 + 2 * l + 1) := by omega
  simp only [a1, if_true, if_false]
  omega

theorem sectors_set_sectors_other (m : Nat → Nat) {l l' : Nat} (v : Nat) (h : l' ≠ l) :
    sectors (set_sectors m l v) l' = sectors m l' := by
  simp only [sectors, set_sectors, store]
  have a1 : ¬ (8 + 2 * l' = 8 + 2 * l + 1) := by omega
  have a2 : ¬ (8 + 2 * l' = 8 + 2 * l) := by omega
  have a3 : ¬ (8 + 2 * l' + 1 = 8 + 2 * l + 1) := by omega
  have a4 : ¬ (8 + 2 * l' + 1 = 8 + 2 * l) := by omega
  simp only [a1, a2, a3, a4, if_false]

theorem set_sectors_apply_other (m : Nat → Nat) (l v k : Nat)
    (h1 : k ≠ 8 + 2 * l) (h2 : k ≠ 8 + 2 * l + 1) : set_sectors m l v k = m k := by
  simp only [set_sectors, store, h1, h2, if_false]

/-! ## The search loop -/

theorem scan_spec (c : Nat → Bool) (n i : Nat) :
    i ≤ scan c n i ∧ scan c n i ≤ i + n ∧
    (∀ j, i ≤ j → j < scan c n i → c j = false) ∧
    (scan c n i < i + n → c (scan c n i) = true) := by
  induction n generalizing i with
  | zero =>
    simp only [scan]
    refine ⟨le_refl _, by omega, ?_, by omega⟩
    intro j h1 h2; omega
  | succ n ih =>
    simp only [scan]
    by_cases hc : c i = true
    · rw [if_pos hc]
      refine ⟨le_refl _, by omega, ?_, fun _ => hc⟩
      intro j h1 h2; omega
    · rw [if_neg hc]
      obtain ⟨h1, h2, h3, h4⟩ := ih (i + 1)
      refine ⟨by omega, by omega, ?_, ?_⟩
      · intro j hj1 hj2
        by_cases hji : j = i
        · subst hji; simpa using hc
        · exact h3 j (by omega) hj2
      · intro h; exact h4 (by omega)

theorem scan_eq_of_first (c : Nat → Bool) {n k : Nat} (hk : k < n)
    (h1 : ∀ j, j < k → c j = false) (h2 : c k = true) : scan c n 0 = k := by
  obtain ⟨_, _, h3, h4⟩ := scan_spec c n 0
  by_contra hne
  rcases Nat.lt_or_gt_of_ne hne with h | h
  · have := h1 _ h
    rw [h4 (by omega)] at this
    cases this
  · have := h3 k (Nat.zero_le _) h
    rw [h2] at this
    cases this

theorem scan_eq_of_none (c : Nat → Bool) {n : Nat} (h1 : ∀ j, j < n → c j = false) :
    scan c n 0 = n := by
  obtain ⟨_, h2, _, h4⟩ := scan_spec c n 0
  by_contra hne
  have hlt : scan c n 0 < 0 + n := by omega
  have := h1 (scan c n 0) (by omega)
  rw [h4 hlt] at this
  cases this

theorem scan_lt_of_exists (c : Nat → Bool) {n k : Nat} (hk : k < n) (h : c k = true) :
    scan c n 0 < n := by
  obtain ⟨_, h2, h3, _⟩ := scan_spec c n 0
  by_contra hge
  have := h3 k (Nat.zero_le _) (by omega)
  rw [h] at this
  cases this

/-! ## Low level flash functions: effects -/

theorem getD_map_range (f : Nat → Nat) {n k : Nat} (hk : k < n) :
    ((List.range n).map f).getD k 0 = f k := by
  simp [List.getD_eq_getElem?_getD, hk]

theorem getD_drop (l : List Nat) (m k : Nat) : (l.drop m).getD k 0 = l.getD (m + k) 0 := by
  simp [List.getD_eq_getElem?_getD, List.getElem?_drop]

theorem flash_program_byte_erased (d : Nat) : flash_program_byte 255 d = d := by
  simp [flash_program_byte]

theorem sameRam_refl (s : FS) : SameRam s s := ⟨rfl, rfl, rfl, rfl, rfl, rfl⟩

theorem sameRam_trans {a b c : FS} (h1 : SameRam a b) (h2 : SameRam b c) : SameRam a c := by
  obtain ⟨x1, x2, x3, x4, x5, x6⟩ := h1
  obtain ⟨y1, y2, y3, y4, y5, y6⟩ := h2
  exact ⟨y1.trans x1, y2.trans x2, y3.trans x3, y4.trans x4, y5.trans x5, y6.trans x6⟩

theorem issued_refl (s : FS) : Issued s s [] := by simp [Issued]

theorem issued_trans {a b c : FS} {o1 o2 : List FlashOp} (h1 : Issued a b o1)
    (h2 : Issued b c o2) : Issued a c (o1 ++ o2) := by
  unfold Issued at *
  rw [h2, h1, List.append_assoc]

theorem flash_erase_sector_ram (s : FS) (p : Nat) : SameRam s (flash_erase_sector s p) :=
  ⟨rfl, rfl, rfl, rfl, rfl, rfl⟩

theorem flash_erase_sector_flash (s : FS) (p a : Nat) :
    (flash_erase_sector s p).flash a =
      if 4096 * p ≤ a ∧ a < 4096 * p + 4096 then 255 else s.flash a := by
  simp only [flash_erase_sector, FLASH_SECTOR_SIZE, Nat.mul_comm p 4096]

theorem flash_erase_sector_issued (s : FS) (p : Nat) :
    Issued s (flash_erase_sector s p) [FlashOp.erase p] := rfl

theorem flash_write_sector_ram (s : FS) (p o : Nat) (buf : List Nat) (n : Nat) :
    SameRam s (flash_write_sector s p o buf n) :=
  ⟨rfl, rfl, rfl, rfl, rfl, rfl⟩

theorem flash_write_sector_flash (s : FS) (p o : Nat) (buf : List Nat) (n a : Nat) :
    (flash_write_sector s p o buf n).flash a =
      if 4096 * p + 512 * o ≤ a ∧ a < 4096 * p + 512 * o + n
      then flash_program_byte (s.flash a) (buf.getD (a - (4096 * p + 512 * o)) 0)
      else s.flash a := by
  simp only [flash_write_sector, FLASH_SECTOR_SIZE, Nat.mul_comm p 4096, Nat.mul_comm o 512]

theorem flash_write_sector_issued (s : FS) (p o : Nat) (buf : List Nat) (n : Nat) :
    Issued s (flash_write_sector s p o buf n) [FlashOp.program p o n] := rfl

theorem flash_read_sector_getD (s : FS) (p o n k : Nat) (hk : k < n) :
    (flash_read_sector s p o n).getD k 0 = s.flash (4096 * p + 512 * o + k) := by
  unfold flash_read_sector
  rw [getD_map_range _ hk]
  simp only [FLASH_SECTOR_SIZE, Nat.mul_comm p 4096, Nat.mul_comm o 512]

theorem flash_read_sector_length (s : FS) (p o n : Nat) :
    (flash_read_sector s p o n).length = n := by
  simp [flash_read_sector]

/-- Two reads return the same bytes when the flash agrees on the bytes read. -/
theorem flash_read_sector_congr (s r : FS) (p o n : Nat)
    (h : ∀ k, k < n → r.flash (4096 * p + 512 * o + k) = s.flash (4096 * p + 512 * o + k)) :
    flash_read_sector r p o n = flash_read_sector s p o n := by
  unfold flash_read_sector
  apply List.map_congr_left
  intro k hk
  have hk' : k < n := by simpa using hk
  have := h k hk'
  simpa only [FLASH_SECTOR_SIZE, Nat.mul_comm p 4096, Nat.mul_comm o 512] using this

/-- The copy-back loop of `flash_erase_with_copy_sector` after its first `n` iterations. -/
theorem copy_back_fold (p pres : Nat) (buf : List Nat) (s : FS) (n : Nat) :
    SameRam s ((List.range n).foldl (copy_back_step p pres buf) s) ∧
    (∀ a, ((List.range n).foldl (copy_back_step p pres buf) s).flash a =
      if 4096 * p ≤ a ∧ a < 4096 * p + 512 * n ∧ pres.testBit ((a - 4096 * p) / 512) = true
      then flash_program_byte (s.flash a) (buf.getD (a - 4096 * p) 0) else s.flash a) ∧
    ∃ ops, Issued s ((List.range n).foldl (copy_back_step p pres buf) s) ops ∧
      ∀ op, op ∈ ops → ∃ o, op = FlashOp.program p o 512 := by
  induction n with
  | zero =>
    refine ⟨sameRam_refl s, ?_, [], issued_refl s, by simp⟩
    intro a
    have : ¬ (4096 * p ≤ a ∧ a < 4096 * p + 512 * 0 ∧
        pres.testBit ((a - 4096 * p) / 512) = true) := by omega
    simp only [List.range_zero, List.foldl_nil, this, if_false]
  | succ n ih =>
    obtain ⟨h1, h2, ops, h3, h4⟩ := ih
    rw [List.range_succ, List.foldl_append, List.foldl_cons, List.foldl_nil]
    generalize (List.range n).foldl (copy_back_step p pres buf) s = r at h1 h2 h3
    unfold copy_back_step
    by_cases hb : pres &&& (1 <<< n) ≠ 0
    · rw [if_pos hb]
      have hb' := (and_one_shiftLeft_ne_zero_iff pres n).1 hb
      refine ⟨sameRam_trans h1 (flash_write_sector_ram _ _ _ _ _), ?_,
        ops ++ [FlashOp.program p n 512],
        issued_trans h3 (flash_write_sector_issued _ _ _ _ _), ?_⟩
      · intro a
        rw [flash_write_sector_flash, h2 a]
        by_cases hin : 4096 * p + 512 * n ≤ a ∧ a < 4096 * p + 512 * n + 512
        · have e1 : (a - 4096 * p) / 512 = n := by omega
          have c1 : ¬ (4096 * p ≤ a ∧ a < 4096 * p + 512 * n ∧
              pres.testBit ((a - 4096 * p) / 512) = true) := by omega
          have c2 : 4096 * p ≤ a ∧ a < 4096 * p + 512 * (n + 1) ∧
              pres.testBit ((a - 4096 * p) / 512) = true := by
            rw [e1]; exact ⟨by omega, by omega, hb'⟩
          rw [if_pos hin, if_neg c1, if_pos c2, getD_drop]
          congr 2
          omega
        · rw [if_neg hin]
          by_cases c1 : 4096 * p ≤ a ∧ a < 4096 * p + 512 * n ∧
              pres.testBit ((a - 4096 * p) / 512) = true
          · have c2 : 4096 * p ≤ a ∧ a < 4096 * p + 512 * (n + 1) ∧
                pres.testBit ((a - 4096 * p) / 512) = true := ⟨c1.1, by omega, c1.2.2⟩
            rw [if_pos c1, if_pos c2]
          · have c2 : ¬ (4096 * p ≤ a ∧ a < 4096 * p + 512 * (n + 1) ∧
                pres.testBit ((a - 4096 * p) / 512) = true) := by
              intro h
              apply c1
              exact ⟨h.1, by omega, h.2.2⟩
            rw [if_neg c1, if_neg c2]
      · intro op hop
        rcases List.mem_append.1 hop with h | h
        · exact h4 op h
        · exact ⟨n, by simpa using h⟩
    · rw [if_neg hb]
      have hb' : pres.testBit n = false := by
        have := (and_one_shiftLeft_ne_zero_iff pres n).not.1 hb
        simpa using this
      refine ⟨h1, ?_, ops, h3, h4⟩
      intro a
      rw [h2 a]
      by_cases c1 : 4096 * p ≤ a ∧ a < 4096 * p + 512 * n ∧
          pres.testBit ((a - 4096 * p) / 512) = true
      · have c2 : 4096 * p ≤ a ∧ a < 4096 * p + 512 * (n + 1) ∧
            pres.testBit ((a - 4096 * p) / 512) = true := ⟨c1.1, by omega, c1.2.2⟩
        rw [if_pos c1, if_pos c2]
      · have c2 : ¬ (4096 * p ≤ a ∧ a < 4096 * p + 512 * (n + 1) ∧
            pres.testBit ((a - 4096 * p) / 512) = true) := by
          intro h
          apply c1
          refine ⟨h.1, ?_, h.2.2⟩
          by_contra hge
          have e1 : (a - 4096 * p) / 512 = n := by omega
          rw [e1, hb'] at h
          exact Bool.noConfusion h.2.2
        rw [if_neg c1, if_neg c2]

/-- Erase-with-copy: the sub-slots whose bit is set in the preserved bitmap keep their
bytes, the others read as erased, every other sector and the RAM are untouched. -/
theorem flash_erase_with_copy_sector_spec (s : FS) (p pres : Nat) :
    SameRam s (flash_erase_with_copy_sector s p pres) ∧
    (∀ a, (flash_erase_with_copy_sector s p pres).flash a =
      if 4096 * p ≤ a ∧ a < 4096 * p + 4096
      then (if pres.testBit ((a - 4096 * p) / 512) = true then s.flash a else 255)
      else s.flash a) ∧
    ∃ ops, Issued s (flash_erase_with_copy_sector s p pres) (FlashOp.erase p :: ops) ∧
      ∀ op, op ∈ ops → ∃ o, op = FlashOp.program p o 512 := by
  unfold flash_erase_with_copy_sector
  obtain ⟨h1, h2, ops, h3, h4⟩ := copy_back_fold p pres
    (flash_read_sector s p 0 FLASH_SECTOR_SIZE) (flash_erase_sector s p) 8
  refine ⟨sameRam_trans (flash_erase_sector_ram s p) h1, ?_, ops, ?_, h4⟩
  · intro a
    rw [h2 a, flash_erase_sector_flash]
    by_cases hin : 4096 * p ≤ a ∧ a < 4096 * p + 4096
    · rw [if_pos hin, if_pos hin]
      by_cases hb : pres.testBit ((a - 4096 * p) / 512) = true
      · have c : 4096 * p ≤ a ∧ a < 4096 * p + 512 * 8 ∧
            pres.testBit ((a - 4096 * p) / 512) = true := ⟨hin.1, by omega, hb⟩
        rw [if_pos c, if_pos hb, flash_program_byte_erased,
          flash_read_sector_getD s p 0 4096 (a - 4096 * p) (by omega)]
        congr 1
        omega
      · have c : ¬ (4096 * p ≤ a ∧ a < 4096 * p + 512 * 8 ∧
            pres.testBit ((a - 4096 * p) / 512) = true) := fun h => hb h.2.2
        rw [if_neg c, if_neg hb]
    · have c : ¬ (4096 * p ≤ a ∧ a < 4096 * p + 512 * 8 ∧
          pres.testBit ((a - 4096 * p) / 512) = true) := by omega
      rw [if_neg c, if_neg hin, if_neg hin]
  · have := issued_trans (flash_erase_sector_issued s p) h3
    simpa using this

/-! ## Writing and loading the sector map -/

/-- The loop of `write_fs_map` after its first `n` iterations. -/
theorem write_fs_map_fold (s : FS) (n : Nat) :
    ((List.range n).foldl write_fs_map_step s).fs_map = s.fs_map ∧
    ((List.range n).foldl write_fs_map_step s).used_bitmap = s.used_bitmap ∧
    ((List.range n).foldl write_fs_map_step s).write_sector = s.write_sector ∧
    ((List.range n).foldl write_fs_map_step s).write_sector_bitmap = s.write_sector_bitmap ∧
    ((List.range n).foldl write_fs_map_step s).search_start_pos = s.search_start_pos ∧
    (∀ i, ((List.range n).foldl write_fs_map_step s).fs_map_needs_written i =
      if i < n then false else s.fs_map_needs_written i) ∧
    (∀ a, ((List.range n).foldl write_fs_map_step s).flash a =
      if a < 4096 * n ∧ s.fs_map_needs_written (a / 4096) = true then s.fs_map a
      else s.flash a) ∧
    ∃ ops, Issued s ((List.range n).foldl write_fs_map_step s) ops ∧
      ∀ op, op ∈ ops → op.sector < n ∧ s.fs_map_needs_written op.sector = true := by
  induction n with
  | zero =>
    refine ⟨rfl, rfl, rfl, rfl, rfl, ?_, ?_, [], issued_refl s, by simp⟩
    · intro i
      simp
    · intro a
      have : ¬ (a < 4096 * 0 ∧ s.fs_map_needs_written (a / 4096) = true) := by omega
      simp only [List.range_zero, List.foldl_nil, this, if_false]
  | succ n ih =>
    obtain ⟨h1, h2, h3, h4, h5, h6, h7, ops, h8, h9⟩ := ih
    rw [List.range_succ, List.foldl_append, List.foldl_cons, List.foldl_nil]
    generalize (List.range n).foldl write_fs_map_step s = r at h1 h2 h3 h4 h5 h6 h7 h8
    have hn : r.fs_map_needs_written n = s.fs_map_needs_written n := by
      rw [h6 n]; simp
    unfold write_fs_map_step
    by_cases hf : s.fs_map_needs_written n = true
    · rw [hn, if_pos hf]
      refine ⟨h1, h2, h3, h4, h5, ?_, ?_, ops ++ ([FlashOp.erase n] ++ [FlashOp.program n 0 4096]),
        ?_, ?_⟩
      · intro i
        show store _ n false i = _
        unfold store
        by_cases hi : i = n
        · subst hi; simp
        · have e : (flash_write_sector (flash_erase_sector r n) n 0
              (List.map (fun k => (flash_erase_sector r n).fs_map (4096 * n + k))
                (List.range 4096)) 4096).fs_map_needs_written i = r.fs_map_needs_written i := rfl
          rw [if_neg hi, e, h6 i]
          by_cases hlt : i < n
          · have : i < n + 1 := by omega
            simp [hlt, this]
          · have : ¬ i < n + 1 := by omega
            simp [hlt, this]
      · intro a
        show (flash_write_sector (flash_erase_sector r n) n 0 _ 4096).flash a = _
        rw [flash_write_sector_flash, flash_erase_sector_flash, h7 a]
        by_cases hin : 4096 * n + 512 * 0 ≤ a ∧ a < 4096 * n + 512 * 0 + 4096
        · have e1 : a / 4096 = n := by omega
          have c1 : 4096 * n ≤ a ∧ a < 4096 * n + 4096 := by omega
          have c2 : a < 4096 * (n + 1) ∧ s.fs_map_needs_written (a / 4096) = true := by
            rw [e1]; exact ⟨by omega, hf⟩
          rw [if_pos hin, if_pos c1, if_pos c2, flash_program_byte_erased,
            getD_map_range _ (by omega)]
          show r.fs_map _ = _
          rw [h1]
          congr 1
          omega
        · have c1 : ¬ (4096 * n ≤ a ∧ a < 4096 * n + 4096) := by omega
          rw [if_neg hin, if_neg c1]
          by_cases c2 : a < 4096 * n ∧ s.fs_map_needs_written (a / 4096) = true
          · have c3 : a < 4096 * (n + 1) ∧ s.fs_map_needs_written (a / 4096) = true :=
              ⟨by omega, c2.2⟩
            rw [if_pos c2, if_pos c3]
          · have c3 : ¬ (a < 4096 * (n + 1) ∧ s.fs_map_needs_written (a / 4096) = true) := by
              intro h
              apply c2
              exact ⟨by omega, h.2⟩
            rw [if_neg c2, if_neg c3]
      · exact issued_trans h8 (issued_trans (flash_erase_sector_issued r n)
          (flash_write_sector_issued (flash_erase_sector r n) n 0
            (List.map (fun k => (flash_erase_sector r n).fs_map (4096 * n + k))
              (List.range 4096)) 4096))
      · intro op hop
        rcases List.mem_append.1 hop with h | h
        · exact ⟨by have := (h9 op h).1; omega, (h9 op h).2⟩
        · have : op = FlashOp.erase n ∨ op = FlashOp.program n 0 4096 := by simpa using h
          rcases this with h | h <;> subst h <;> exact ⟨by simp [FlashOp.sector], hf⟩
    · rw [hn, if_neg hf]
      have hf' : s.fs_map_needs_written n = false := by simpa using hf
      refine ⟨h1, h2, h3, h4, h5, ?_, ?_, ops, h8, ?_⟩
      · intro i
        rw [h6 i]
        by_cases hi : i = n
        · subst hi; simp [hf']
        · by_cases hlt : i < n
          · have : i < n + 1 := by omega
            simp [hlt, this]
          · have : ¬ i < n + 1 := by omega
            simp [hlt, this]
      · intro a
        rw [h7 a]
        by_cases c2 : a < 4096 * n ∧ s.fs_map_needs_written (a / 4096) = true
        · have c3 : a < 4096 * (n + 1) ∧ s.fs_map_needs_written (a / 4096) = true :=
            ⟨by omega, c2.2⟩
          rw [if_pos c2, if_pos c3]
        · have c3 : ¬ (a < 4096 * (n + 1) ∧ s.fs_map_needs_written (a / 4096) = true) := by
            intro h
            apply c2
            refine ⟨?_, h.2⟩
            by_contra hge
            have e1 : a / 4096 = n := by omega
            rw [e1, hf'] at h
            exact Bool.noConfusion h.2
          rw [if_neg c2, if_neg c3]
      · intro op hop
        exact ⟨by have := (h9 op hop).1; omega, (h9 op hop).2⟩

/-- What `write_fs_map` (`flash_fs_sync`) does: only the flagged metadata sectors are erased
and rewritten from RAM, all flags end up clear, the RAM map and the allocator variables are
untouched. -/
theorem write_fs_map_spec (s : FS) :
    (write_fs_map s).fs_map = s.fs_map ∧
    (write_fs_map s).used_bitmap = s.used_bitmap ∧
    (write_fs_map s).write_sector = s.write_sector ∧
    (write_fs_map s).write_sector_bitmap = s.write_sector_bitmap ∧
    (write_fs_map s).search_start_pos = s.search_start_pos ∧
    (∀ i, (write_fs_map s).fs_map_needs_written i =
      if i < 15 then false else s.fs_map_needs_written i) ∧
    (∀ a, (write_fs_map s).flash a =
      if a < 61440 ∧ s.fs_map_needs_written (a / 4096) = true then s.fs_map a
      else s.flash a) ∧
    ∃ ops, Issued s (write_fs_map s) ops ∧
      ∀ op, op ∈ ops → op.sector < 15 ∧ s.fs_map_needs_written op.sector = true :=
  write_fs_map_fold s 15

theorem load_fs_map_block_fs_map (s : FS) (i k : Nat) :
    (load_fs_map_block s i).fs_map k =
      if 4096 * i ≤ k ∧ k < 4096 * i + 4096 then s.flash k else s.fs_map k := by
  unfold load_fs_map_block
  show (if 4096 * i ≤ k ∧ k < 4096 * i + 4096 then _ else _) = _
  by_cases h : 4096 * i ≤ k ∧ k < 4096 * i + 4096
  · rw [if_pos h, if_pos h, flash_read_sector_getD s i 0 4096 _ (by omega)]
    congr 1
    omega
  · rw [if_neg h, if_neg h]

/-- Loading the metadata sectors `1 .. n` into the RAM map. -/
theorem load_fs_map_fold (s : FS) (n : Nat) :
    ((List.range' 1 n).foldl load_fs_map_block s).flash = s.flash ∧
    ((List.range' 1 n).foldl load_fs_map_block s).fs_map_needs_written =
      s.fs_map_needs_written ∧
    ((List.range' 1 n).foldl load_fs_map_block s).used_bitmap = s.used_bitmap ∧
    ((List.range' 1 n).foldl load_fs_map_block s).write_sector = s.write_sector ∧
    ((List.range' 1 n).foldl load_fs_map_block s).write_sector_bitmap =
      s.write_sector_bitmap ∧
    ((List.range' 1 n).foldl load_fs_map_block s).search_start_pos = s.search_start_pos ∧
    ((List.range' 1 n).foldl load_fs_map_block s).trace = s.trace ∧
    ∀ k, ((List.range' 1 n).foldl load_fs_map_block s).fs_map k =
      if 4096 ≤ k ∧ k < 4096 * (n + 1) then s.flash k else s.fs_map k := by
  induction n with
  | zero =>
    refine ⟨rfl, rfl, rfl, rfl, rfl, rfl, rfl, ?_⟩
    intro k
    have : ¬ (4096 ≤ k ∧ k < 4096 * (0 + 1)) := by omega
    simp only [List.range'_zero, List.foldl_nil, this, if_false]
  | succ n ih =>
    obtain ⟨h1, h2, h3, h4, h5, h6, h7, h8⟩ := ih
    rw [List.range'_1_concat, List.foldl_append, List.foldl_cons, List.foldl_nil]
    generalize (List.range' 1 n).foldl load_fs_map_block s = r at h1 h2 h3 h4 h5 h6 h7 h8
    refine ⟨h1, h2, h3, h4, h5, h6, h7, ?_⟩
    intro k
    rw [load_fs_map_block_fs_map, h8 k, h1]
    by_cases c1 : 4096 * (1 + n) ≤ k ∧ k < 4096 * (1 + n) + 4096
    · have c2 : 4096 ≤ k ∧ k < 4096 * (n + 1 + 1) := by omega
      rw [if_pos c1, if_pos c2]
    · rw [if_neg c1]
      by_cases c2 : 4096 ≤ k ∧ k < 4096 * (n + 1)
      · have c3 : 4096 ≤ k ∧ k < 4096 * (n + 1 + 1) := by omega
        rw [if_pos c2, if_pos c3]
      · have c3 : ¬ (4096 ≤ k ∧ k < 4096 * (n + 1 + 1)) := by omega
        rw [if_neg c2, if_neg c3]

/-! ## Rebuilding the bitmap -/

theorem mark_used_testBit (m : Nat → Nat) (n : Nat) (u : Nat → Nat) (p j : Nat) :
    (mark_used m n u p).testBit j = true ↔
      (u p).testBit j = true ∨
      ∃ l, l < n ∧ sectors m l ≠ 0 ∧ getMapSector (sectors m l) = p ∧
        getMapOffset (sectors m l) = j := by
  induction n with
  | zero => simp [mark_used]
  | succ n ih =>
    simp only [mark_used]
    by_cases he : sectors m n ≠ 0
    · rw [if_pos he]
      unfold store
      by_cases hp : p = getMapSector (sectors m n)
      · rw [if_pos hp, testBit_set, Bool.or_eq_true, ← hp, ih]
        constructor
        · rintro (h | h)
          · rcases h with h | ⟨l, hl, h⟩
            · exact Or.inl h
            · exact Or.inr ⟨l, by omega, h⟩
          · exact Or.inr ⟨n, by omega, he, hp.symm, by simpa using h⟩
        · rintro (h | ⟨l, hl, h1, h2, h3⟩)
          · exact Or.inl (Or.inl h)
          · by_cases hln : l = n
            · subst hln
              exact Or.inr (by simpa using h3)
            · exact Or.inl (Or.inr ⟨l, by omega, h1, h2, h3⟩)
      · rw [if_neg hp, ih]
        constructor
        · rintro (h | ⟨l, hl, h⟩)
          · exact Or.inl h
          · exact Or.inr ⟨l, by omega, h⟩
        · rintro (h | ⟨l, hl, h1, h2, h3⟩)
          · exact Or.inl h
          · by_cases hln : l = n
            · subst hln
              exact absurd h2.symm hp
            · exact Or.inr ⟨l, by omega, h1, h2, h3⟩
    · rw [if_neg he, ih]
      constructor
      · rintro (h | ⟨l, hl, h⟩)
        · exact Or.inl h
        · exact Or.inr ⟨l, by omega, h⟩
      · rintro (h | ⟨l, hl, h1, h2, h3⟩)
        · exact Or.inl h
        · by_cases hln : l = n
          · subst hln
            exact absurd h1 he
          · exact Or.inr ⟨l, by omega, h1, h2, h3⟩

theorem mark_used_lt_256 (m : Nat → Nat) (n : Nat) (u : Nat → Nat) (p : Nat) (hu : u p < 256) :
    mark_used m n u p < 256 := by
  induction n with
  | zero => simpa [mark_used] using hu
  | succ n ih =>
    simp only [mark_used]
    by_cases he : sectors m n ≠ 0
    · rw [if_pos he]
      unfold store
      by_cases hp : p = getMapSector (sectors m n)
      · rw [if_pos hp, ← hp]
        exact set_lt_256 ih (getMapOffset_lt _)
      · rw [if_neg hp]; exact ih
    · rw [if_neg he]; exact ih

theorem mark_used_untouched (m : Nat → Nat) (n : Nat) (u : Nat → Nat) (p : Nat)
    (h : ∀ l, l < n → sectors m l ≠ 0 → getMapSector (sectors m l) ≠ p) :
    mark_used m n u p = u p := by
  induction n with
  | zero => simp [mark_used]
  | succ n ih =>
    simp only [mark_used]
    have ih' := ih (fun l hl => h l (by omega))
    by_cases he : sectors m n ≠ 0
    · rw [if_pos he]
      unfold store
      have hp : ¬ p = getMapSector (sectors m n) := fun e => h n (by omega) he e.symm
      rw [if_neg hp]; exact ih'
    · rw [if_neg he]; exact ih'

/-- The bitmap byte of a metadata sector stays `0xFF` through the rebuild. -/
theorem mark_used_meta (m : Nat → Nat) (n : Nat) (u : Nat → Nat) (p : Nat) (hu : u p = 255) :
    mark_used m n u p = 255 := by
  have hlt := mark_used_lt_256 m n u p (by omega)
  apply (byte_eq_255_iff hlt).2
  intro j hj
  rw [mark_used_testBit]
  left
  rw [hu, testBit_255]
  simp [hj]

/-! ## Mount and create -/

theorem map_range8_eq (f g : Nat → Nat) (h : ∀ k, k < 8 → f k = g k) :
    (List.range 8).map f = (List.range 8).map g := by
  apply List.map_congr_left
  intro k hk
  exact h k (by simpa using hk)

theorem load_block0_magic (s : FS) :
    (List.range 8).map (load_fs_map_block s 0).fs_map = (List.range 8).map s.flash := by
  apply map_range8_eq
  intro k hk
  rw [load_fs_map_block_fs_map]
  have : 4096 * 0 ≤ k ∧ k < 4096 * 0 + 4096 := by omega
  rw [if_pos this]

theorem flash_fs_mount_ok (s : FS) (hm : (List.range 8).map s.flash = MAGIC_8_BYTES) :
    flash_fs_mount s = (init_used_bitmap ((List.range' 1 14).foldl load_fs_map_block
      (load_fs_map_block { s with fs_map_needs_written :=
        fun i => if i < 15 then false else s.fs_map_needs_written i } 0)), 0) := by
  unfold flash_fs_mount
  have hb := load_block0_magic { s with fs_map_needs_written :=
        fun i => if i < 15 then false else s.fs_map_needs_written i }
  have hb' : (List.range 8).map (load_fs_map_block { s with fs_map_needs_written :=
        fun i => if i < 15 then false else s.fs_map_needs_written i } 0).fs_map = MAGIC_8_BYTES :=
    hb.trans hm
  rw [if_neg (fun h => h hb')]

theorem flash_fs_mount_fail (s : FS) (hm : (List.range 8).map s.flash ≠ MAGIC_8_BYTES) :
    flash_fs_mount s = (load_fs_map_block { s with fs_map_needs_written :=
        fun i => if i < 15 then false else s.fs_map_needs_written i } 0, 1) := by
  unfold flash_fs_mount
  have hb := load_block0_magic { s with fs_map_needs_written :=
        fun i => if i < 15 then false else s.fs_map_needs_written i }
  have hb' : (List.range 8).map (load_fs_map_block { s with fs_map_needs_written :=
        fun i => if i < 15 then false else s.fs_map_needs_written i } 0).fs_map ≠ MAGIC_8_BYTES := by
    rw [hb]; exact hm
  rw [if_pos hb']

theorem init_used_bitmap_frame (s : FS) :
    (init_used_bitmap s).flash = s.flash ∧ (init_used_bitmap s).fs_map = s.fs_map ∧
    (init_used_bitmap s).fs_map_needs_written = s.fs_map_needs_written ∧
    (init_used_bitmap s).write_sector = 0 ∧
    (init_used_bitmap s).write_sector_bitmap = s.write_sector_bitmap ∧
    (init_used_bitmap s).search_start_pos = s.search_start_pos ∧
    (init_used_bitmap s).trace = s.trace := ⟨rfl, rfl, rfl, rfl, rfl, rfl, rfl⟩

/-- The bitmap after `init_used_bitmap`, bit by bit. -/
theorem init_used_bitmap_testBit (s : FS) (p j : Nat) (hp : p < 3840) :
    ((init_used_bitmap s).used_bitmap p).testBit j = true ↔ RebuiltBit s.fs_map p j := by
  unfold init_used_bitmap RebuiltBit
  show (mark_used s.fs_map NUM_FAT_SECTORS _ p).testBit j = true ↔ _
  rw [mark_used_testBit]
  by_cases h15 : p < 15
  · simp only [h15, if_true, testBit_255, decide_eq_true_eq, true_and]
  · have : p < NUM_FLASH_SECTORS := hp
    simp only [h15, if_false, this, if_true, Nat.zero_testBit, false_and, Bool.false_eq_true]

theorem init_used_bitmap_lt_256 (s : FS) (p : Nat) (hp : p < 3840) :
    (init_used_bitmap s).used_bitmap p < 256 := by
  unfold init_used_bitmap
  apply mark_used_lt_256
  have : p < NUM_FLASH_SECTORS := hp
  by_cases h15 : p < 15
  · simp [h15]
  · simp [h15, this]

theorem init_used_bitmap_meta (s : FS) (p : Nat) (hp : p < 15) :
    (init_used_bitmap s).used_bitmap p = 255 := by
  unfold init_used_bitmap
  apply mark_used_meta
  simp [hp]

/-- Rebuilding the bitmap twice gives the same bitmap as rebuilding it once. -/
theorem init_used_bitmap_idem (s : FS) :
    (init_used_bitmap (init_used_bitmap s)).used_bitmap = (init_used_bitmap s).used_bitmap := by
  funext p
  apply Nat.eq_of_testBit_eq
  intro j
  rw [Bool.eq_iff_iff]
  show (mark_used s.fs_map NUM_FAT_SECTORS _ p).testBit j = true ↔
    (mark_used s.fs_map NUM_FAT_SECTORS _ p).testBit j = true
  rw [mark_used_testBit, mark_used_testBit]
  by_cases h15 : p < 15
  · simp only [h15, if_true]
  · by_cases h38 : p < NUM_FLASH_SECTORS
    · simp only [h15, if_false, h38, if_true]
    · simp only [h15, if_false, h38]
      show (mark_used s.fs_map NUM_FAT_SECTORS _ p).testBit j = true ∨ _ ↔ _
      rw [mark_used_testBit]
      simp only [h15, if_false, h38]
      tauto

/-- The state after `flash_fs_mount`, field by field. -/
theorem flash_fs_mount_spec (s : FS) :
    (flash_fs_mount s).1.flash = s.flash ∧ (flash_fs_mount s).1.trace = s.trace ∧
    (flash_fs_mount s).1.write_sector_bitmap = s.write_sector_bitmap ∧
    (flash_fs_mount s).1.search_start_pos = s.search_start_pos ∧
    (∀ i, i < 15 → (flash_fs_mount s).1.fs_map_needs_written i = false) ∧
    ((flash_fs_mount s).2 = 0 ↔ (List.range 8).map s.flash = MAGIC_8_BYTES) ∧
    ((flash_fs_mount s).2 = 0 →
      (∀ k, (flash_fs_mount s).1.fs_map k = if k < 61440 then s.flash k else s.fs_map k) ∧
      (flash_fs_mount s).1.write_sector = 0 ∧
      (flash_fs_mount s).1.used_bitmap =
        (init_used_bitmap (flash_fs_mount s).1).used_bitmap) := by
  by_cases hm : (List.range 8).map s.flash = MAGIC_8_BYTES
  · rw [flash_fs_mount_ok s hm]
    obtain ⟨h1, h2, h3, h4, h5, h6, h7, h8⟩ := load_fs_map_fold
      (load_fs_map_block { s with fs_map_needs_written :=
        fun i => if i < 15 then false else s.fs_map_needs_written i } 0) 14
    obtain ⟨g1, g2, g3, g4, g5, g6, g7⟩ := init_used_bitmap_frame
      ((List.range' 1 14).foldl load_fs_map_block
      (load_fs_map_block { s with fs_map_needs_written :=
        fun i => if i < 15 then false else s.fs_map_needs_written i } 0))
    simp only []
    refine ⟨?_, ?_, ?_, ?_, ?_, ?_, ?_⟩
    · rw [g1, h1]; rfl
    · rw [g7, h7]; rfl
    · rw [g5, h5]; rfl
    · rw [g6, h6]; rfl
    · intro i hi
      rw [g3, h2]
      show (if i < 15 then false else s.fs_map_needs_written i) = false
      rw [if_pos hi]
    · simp [hm]
    · intro _
      refine ⟨?_, g4, (init_used_bitmap_idem _).symm⟩
      intro k
      rw [g2, h8 k, load_fs_map_block_fs_map]
      show (if 4096 ≤ k ∧ k < 4096 * (14 + 1) then s.flash k
        else if 4096 * 0 ≤ k ∧ k < 4096 * 0 + 4096 then s.flash k else s.fs_map k) = _
      by_cases c1 : 4096 ≤ k ∧ k < 4096 * (14 + 1)
      · have c2 : k < 61440 := by omega
        rw [if_pos c1, if_pos c2]
      · rw [if_neg c1]
        by_cases c2 : 4096 * 0 ≤ k ∧ k < 4096 * 0 + 4096
        · have c3 : k < 61440 := by omega
          rw [if_pos c2, if_pos c3]
        · have c3 : ¬ k < 61440 := by omega
          rw [if_neg c2, if_neg c3]
  · rw [flash_fs_mount_fail s hm]
    simp only []
    refine ⟨rfl, rfl, rfl, rfl, ?_, ?_, ?_⟩
    · intro i hi
      show (if i < 15 then false else s.fs_map_needs_written i) = false
      rw [if_pos hi]
    · simp [hm]
    · intro h
      exact absurd h (by simp)

theorem create_map_magic (old : Nat → Nat) :
    (List.range 8).map (create_map old) = MAGIC_8_BYTES := by
  rfl

theorem create_map_sectors (old : Nat → Nat) (l : Nat) (hl : l < 30716) :
    sectors (create_map old) l = 0 := by
  unfold sectors create_map
  by_cases h0 : l = 0
  · subst h0
    rfl
  · have a1 : ¬ 8 + 2 * l < 9 := by omega
    have a2 : ¬ 8 + 2 * l + 1 < 9 := by omega
    have a3 : 8 + 2 * l < 61440 := by omega
    have a4 : 8 + 2 * l + 1 < 61440 := by omega
    simp only [a1, a2, a3, a4, if_true, if_false]

theorem flash_fs_create_eq (s : FS) :
    flash_fs_create s = init_used_bitmap (write_fs_map { s with
      fs_map := create_map s.fs_map
      fs_map_needs_written := fun i => if i < 15 then true else s.fs_map_needs_written i }) :=
  rfl

/-- The state after `flash_fs_create`, field by field. -/
theorem flash_fs_create_spec (s : FS) :
    (flash_fs_create s).fs_map = create_map s.fs_map ∧
    (∀ i, i < 15 → (flash_fs_create s).fs_map_needs_written i = false) ∧
    (∀ a, (flash_fs_create s).flash a =
      if a < 61440 then create_map s.fs_map a else s.flash a) ∧
    (∀ p, (flash_fs_create s).used_bitmap p =
      if p < 15 then 255 else if p < 3840 then 0 else s.used_bitmap p) ∧
    (flash_fs_create s).write_sector = 0 ∧
    (flash_fs_create s).write_sector_bitmap = s.write_sector_bitmap ∧
    (flash_fs_create s).search_start_pos = s.search_start_pos ∧
    ∃ ops, Issued s (flash_fs_create s) ops ∧ ∀ op, op ∈ ops → op.sector < 15 := by
  rw [flash_fs_create_eq]
  obtain ⟨h1, h2, h3, h4, h5, h6, h7, ops, h8, h9⟩ := write_fs_map_spec
    { s with
      fs_map := create_map s.fs_map
      fs_map_needs_written := fun i => if i < 15 then true else s.fs_map_needs_written i }
  obtain ⟨g1, g2, g3, g4, g5, g6, g7⟩ := init_used_bitmap_frame (write_fs_map
    { s with
      fs_map := create_map s.fs_map
      fs_map_needs_written := fun i => if i < 15 then true else s.fs_map_needs_written i })
  refine ⟨?_, ?_, ?_, ?_, g4, ?_, ?_, ops, ?_, ?_⟩
  · rw [g2, h1]
  · intro i hi
    rw [g3, h6 i, if_pos hi]
  · intro a
    rw [g1, h7 a]
    show (if a < 61440 ∧ (if a / 4096 < 15 then true else s.fs_map_needs_written (a / 4096)) = true
      then create_map s.fs_map a else s.flash a) = _
    by_cases c1 : a < 61440
    · have c2 : a / 4096 < 15 := by omega
      simp only [c1, c2, if_true, true_and]
    · simp only [c1, false_and, if_false]
  · intro p
    unfold init_used_bitmap
    simp only []
    rw [h1, h2, mark_used_untouched]
    intro l hl hne
    exact absurd (create_map_sectors s.fs_map l hl) hne
  · rw [g5, h4]
  · rw [g6, h5]
  · unfold Issued at *
    rw [g7, h8]
  · intro op hop
    exact (h9 op hop).1

theorem read_unmapped (s : FS) (l : Nat) (h : sectors s.fs_map l = 0) :
    flash_fs_read_FAT_sector s l = List.replicate 512 0 := by
  unfold flash_fs_read_FAT_sector
  simp [h]

/-! ## The allocator -/

/-- The circular search visits every sector index. -/
theorem circ_surj (ssp q : Nat) (hq : q < 3840) :
    ∃ j, j < 3840 ∧ (j + ssp) % 3840 = q :=
  ⟨(q + 3840 - ssp % 3840) % 3840, by omega, by omega⟩

/-- The lowest set bit of a nonzero byte, as found by the last loop of
`getNextWriteSector`. -/
theorem lowest_bit (w : Nat) (hw : w < 256) (hne : w ≠ 0) :
    scan (fun i => w &&& (1 <<< i) != 0) 8 0 < 8 ∧
    w.testBit (scan (fun i => w &&& (1 <<< i) != 0) 8 0) = true ∧
    ∀ j, j < scan (fun i => w &&& (1 <<< i) != 0) 8 0 → w.testBit j = false := by
  obtain ⟨_, _, h3, h4⟩ := scan_spec (fun i => w &&& (1 <<< i) != 0) 8 0
  have hex : ∃ j, j < 8 ∧ w.testBit j = true := by
    by_contra hno
    apply hne
    apply (byte_eq_zero_iff hw).2
    intro j hj
    by_contra hj'
    exact hno ⟨j, hj, by simpa using hj'⟩
  obtain ⟨j, hj, hjb⟩ := hex
  have hlt : scan (fun i => w &&& (1 <<< i) != 0) 8 0 < 8 :=
    scan_lt_of_exists _ hj (by simpa [and_one_shiftLeft_ne_zero] using hjb)
  refine ⟨hlt, ?_, ?_⟩
  · have := h4 (by omega)
    simpa [and_one_shiftLeft_ne_zero] using this
  · intro k hk
    have := h3 k (Nat.zero_le _) hk
    simpa [and_one_shiftLeft_ne_zero] using this

theorem lowest_bit_zero : scan (fun i => 0 &&& (1 <<< i) != 0) 8 0 = 8 := by
  apply scan_eq_of_none
  intro j _
  simp

theorem open_next_sector_fresh (s : FS) (i : Nat) (hi : i < 3840)
    (hz : s.used_bitmap ((i + s.search_start_pos) % 3840) = 0)
    (hmin : ∀ j, j < i → s.used_bitmap ((j + s.search_start_pos) % 3840) ≠ 0) :
    open_next_sector s =
      { flash_erase_sector
          { s with write_sector := (i + s.search_start_pos) % 3840, write_sector_bitmap := 0xFF }
          ((i + s.search_start_pos) % 3840) with
        search_start_pos := (i + s.search_start_pos) % 3840 } := by
  have hscan : scan (fun i => s.used_bitmap ((i + s.search_start_pos) % NUM_FLASH_SECTORS) == 0)
      NUM_FLASH_SECTORS 0 = i := by
    apply scan_eq_of_first _ hi
    · intro j hj
      simpa using hmin j hj
    · simpa using hz
  unfold open_next_sector
  simp only [hscan]
  rw [if_pos hi]

theorem open_next_sector_reclaim (s : FS) (i : Nat) (hi : i ≤ 3840)
    (hnz : ∀ j, j < 3840 → s.used_bitmap ((j + s.search_start_pos) % 3840) ≠ 0)
    (hp : i < 3840 → s.used_bitmap ((i + s.search_start_pos) % 3840) ≠ 255)
    (hmin : ∀ j, j < i → s.used_bitmap ((j + s.search_start_pos) % 3840) = 255) :
    open_next_sector s =
      { flash_erase_with_copy_sector
          { s with write_sector := (i + s.search_start_pos) % 3840,
                   write_sector_bitmap :=
                     bnot32 (s.used_bitmap ((i + s.search_start_pos) % 3840)) % 256 }
          ((i + s.search_start_pos) % 3840)
          (s.used_bitmap ((i + s.search_start_pos) % 3840)) with
        search_start_pos := (i + s.search_start_pos) % 3840 } := by
  have hscan0 : scan (fun i => s.used_bitmap ((i + s.search_start_pos) % NUM_FLASH_SECTORS) == 0)
      NUM_FLASH_SECTORS 0 = 3840 := by
    apply scan_eq_of_none
    intro j hj
    simpa using hnz j hj
  have hscan1 : scan
      (fun i => s.used_bitmap ((i + s.search_start_pos) % NUM_FLASH_SECTORS) != 0xFF)
      NUM_FLASH_SECTORS 0 = i := by
    rcases Nat.lt_or_ge i 3840 with h | h
    · apply scan_eq_of_first _ h
      · intro j hj
        simpa using hmin j hj
      · simpa using hp h
    · have : i = 3840 := by omega
      subst this
      apply scan_eq_of_none
      intro j hj
      simpa using hmin j hj
  unfold open_next_sector
  simp only [hscan0, hscan1]
  rw [if_neg (by decide)]

/-- The three ways the search of `getNextWriteSector` can end: a completely free sector,
a sector with some free sub-slot, or no free sub-slot at all. -/
theorem open_next_sector_cases (s : FS) :
    (∃ i, i < 3840 ∧ s.used_bitmap ((i + s.search_start_pos) % 3840) = 0 ∧
      (∀ j, j < i → s.used_bitmap ((j + s.search_start_pos) % 3840) ≠ 0)) ∨
    ((∀ q, q < 3840 → s.used_bitmap q ≠ 0) ∧
      ∃ i, i < 3840 ∧ s.used_bitmap ((i + s.search_start_pos) % 3840) ≠ 255 ∧
      (∀ j, j < i → s.used_bitmap ((j + s.search_start_pos) % 3840) = 255)) ∨
    (∀ q, q < 3840 → s.used_bitmap q = 255) := by
  by_cases h0 : ∃ q, q < 3840 ∧ s.used_bitmap q = 0
  · left
    obtain ⟨q, hq, hq0⟩ := h0
    obtain ⟨j, hj, hjq⟩ := circ_surj s.search_start_pos q hq
    obtain ⟨_, _, h3, h4⟩ := scan_spec
      (fun i => s.used_bitmap ((i + s.search_start_pos) % 3840) == 0) 3840 0
    have hlt := scan_lt_of_exists
      (fun i => s.used_bitmap ((i + s.search_start_pos) % 3840) == 0) hj
      (by simp [hjq, hq0])
    refine ⟨_, hlt, ?_, ?_⟩
    · simpa using h4 (by omega)
    · intro k hk
      simpa using h3 k (Nat.zero_le _) hk
  · right
    have hnz : ∀ q, q < 3840 → s.used_bitmap q ≠ 0 := fun q hq h => h0 ⟨q, hq, h⟩
    by_cases h1 : ∃ q, q < 3840 ∧ s.used_bitmap q ≠ 255
    · left
      refine ⟨hnz, ?_⟩
      obtain ⟨q, hq, hq1⟩ := h1
      obtain ⟨j, hj, hjq⟩ := circ_surj s.search_start_pos q hq
      obtain ⟨_, _, h3, h4⟩ := scan_spec
        (fun i => s.used_bitmap ((i + s.search_start_pos) % 3840) != 255) 3840 0
      have hlt := scan_lt_of_exists
        (fun i => s.used_bitmap ((i + s.search_start_pos) % 3840) != 255) hj
        (by simp [hjq, hq1])
      refine ⟨_, hlt, ?_, ?_⟩
      · simpa using h4 (by omega)
      · intro k hk
        simpa using h3 k (Nat.zero_le _) hk
    · right
      intro q hq
      by_contra hne
      exact h1 ⟨q, hq, hne⟩

theorem take_free_slot_spec (s : FS) :
    (take_free_slot s).1.flash = s.flash ∧ (take_free_slot s).1.fs_map = s.fs_map ∧
    (take_free_slot s).1.fs_map_needs_written = s.fs_map_needs_written ∧
    (take_free_slot s).1.used_bitmap = s.used_bitmap ∧
    (take_free_slot s).1.write_sector = s.write_sector ∧
    (take_free_slot s).1.search_start_pos = s.search_start_pos ∧
    (take_free_slot s).1.trace = s.trace ∧
    (take_free_slot s).1.write_sector_bitmap = s.write_sector_bitmap &&&
      bnot32 (1 <<< scan (fun i => s.write_sector_bitmap &&& (1 <<< i) != 0) 8 0) ∧
    (take_free_slot s).2 = makeMapEntry s.write_sector
      (scan (fun i => s.write_sector_bitmap &&& (1 <<< i) != 0) 8 0) :=
  ⟨rfl, rfl, rfl, rfl, rfl, rfl, rfl, rfl, rfl⟩

theorem getNextWriteSector_of_open (s : FS)
    (h : ¬ (s.write_sector = 0 ∨ s.write_sector_bitmap = 0)) :
    getNextWriteSector s = take_free_slot s := by
  unfold getNextWriteSector
  rw [if_neg h]

theorem getNextWriteSector_of_search (s : FS)
    (h : s.write_sector = 0 ∨ s.write_sector_bitmap = 0) :
    getNextWriteSector s = take_free_slot (open_next_sector s) := by
  unfold getNextWriteSector
  rw [if_pos h]

theorem lowest_bit_255 : scan (fun i => 255 &&& (1 <<< i) != 0) 8 0 = 0 := by
  decide

theorem bnot8_ne_zero {x : Nat} (hx : x < 256) (hne : x ≠ 255) : bnot32 x % 256 ≠ 0 := by
  intro h0
  apply hne
  apply (byte_eq_255_iff hx).2
  intro j hj
  have := testBit_bnot8 x j
  rw [h0] at this
  simp only [Nat.zero_testBit, hj, decide_True, Bool.true_and] at this
  cases hb : x.testBit j
  · rw [hb] at this; simp at this
  · rfl

/-- The four paths through `getNextWriteSector`. -/
theorem getNextWriteSector_cases (s : FS)
    (hw : s.write_sector ≠ 0 → s.write_sector_bitmap < 256)
    (hu : ∀ p, p < 3840 → s.used_bitmap p < 256) :
    ((getNextWriteSector s).1.fs_map = s.fs_map ∧
      (getNextWriteSector s).1.fs_map_needs_written = s.fs_map_needs_written ∧
      (getNextWriteSector s).1.used_bitmap = s.used_bitmap) ∧
    ((∃ o, TookOpenSlot s o) ∨ (∃ p, OpenedFresh s p) ∨ (∃ p o, Reclaimed s p o) ∨
      NoFreeSlot s) := by
  by_cases h : s.write_sector = 0 ∨ s.write_sector_bitmap = 0
  · have e0 := getNextWriteSector_of_search s h
    obtain ⟨t1, t2, t3, t4, t5, t6, t7, t8, t9⟩ := take_free_slot_spec (open_next_sector s)
    rw [← e0] at t1 t2 t3 t4 t5 t6 t7 t8 t9
    rcases open_next_sector_cases s with ⟨i, hi, hz, hmin⟩ | ⟨hnz, i, hi, hp, hmin⟩ | hfull
    · -- a completely free sector
      have e1 := open_next_sector_fresh s i hi hz hmin
      have p1 : (open_next_sector s).write_sector_bitmap = 255 := by rw [e1]; rfl
      have p2 : (open_next_sector s).write_sector = (i + s.search_start_pos) % 3840 := by
        rw [e1]; rfl
      have p3 : (open_next_sector s).search_start_pos = (i + s.search_start_pos) % 3840 := by
        rw [e1]
      have p4 : (open_next_sector s).fs_map = s.fs_map := by rw [e1]; rfl
      have p5 : (open_next_sector s).fs_map_needs_written = s.fs_map_needs_written := by
        rw [e1]; rfl
      have p6 : (open_next_sector s).used_bitmap = s.used_bitmap := by rw [e1]; rfl
      have p7 : (open_next_sector s).trace =
          s.trace ++ [FlashOp.erase ((i + s.search_start_pos) % 3840)] := by rw [e1]; rfl
      have p8 : ∀ a, (open_next_sector s).flash a =
          if 4096 * ((i + s.search_start_pos) % 3840) ≤ a ∧
            a < 4096 * ((i + s.search_start_pos) % 3840) + 4096 then 255 else s.flash a := by
        intro a
        rw [e1]
        exact flash_erase_sector_flash _ _ a
      rw [p1, lowest_bit_255] at t8 t9
      refine ⟨⟨t2.trans p4, t3.trans p5, t4.trans p6⟩,
        Or.inr (Or.inl ⟨(i + s.search_start_pos) % 3840, h, by omega,
        ⟨i, hi, rfl, hmin⟩, hz, ?_, t5.trans p2, ?_, t6.trans p3, ?_, t7.trans p7⟩)⟩
      · rw [t9, p2]
      · rw [t8]; decide
      · intro a
        rw [t1, p8 a]
    · -- a sector with a free sub-slot
      have hnz' : ∀ j, j < 3840 → s.used_bitmap ((j + s.search_start_pos) % 3840) ≠ 0 :=
        fun j _ => hnz _ (by omega)
      have e1 := open_next_sector_reclaim s i (le_of_lt hi) hnz' (fun _ => hp) hmin
      obtain ⟨⟨g1, g2, g3, g4, g5, g6⟩, g7, ops, g8, g9⟩ := flash_erase_with_copy_sector_spec
        { s with write_sector := (i + s.search_start_pos) % 3840,
                 write_sector_bitmap :=
                   bnot32 (s.used_bitmap ((i + s.search_start_pos) % 3840)) % 256 }
        ((i + s.search_start_pos) % 3840) (s.used_bitmap ((i + s.search_start_pos) % 3840))
      have p1 : (open_next_sector s).write_sector_bitmap =
          bnot32 (s.used_bitmap ((i + s.search_start_pos) % 3840)) % 256 := by
        rw [e1]; exact g5
      have p2 : (open_next_sector s).write_sector = (i + s.search_start_pos) % 3840 := by
        rw [e1]; exact g4
      have p3 : (open_next_sector s).search_start_pos = (i + s.search_start_pos) % 3840 := by
        rw [e1]
      have p4 : (open_next_sector s).fs_map = s.fs_map := by rw [e1]; exact g1
      have p5 : (open_next_sector s).fs_map_needs_written = s.fs_map_needs_written := by
        rw [e1]; exact g2
      have p6 : (open_next_sector s).used_bitmap = s.used_bitmap := by rw [e1]; exact g3
      have p7 : (open_next_sector s).trace =
          s.trace ++ FlashOp.erase ((i + s.search_start_pos) % 3840) :: ops := by
        rw [e1]; exact g8
      have p8 : ∀ a, (open_next_sector s).flash a =
          if 4096 * ((i + s.search_start_pos) % 3840) ≤ a ∧
            a < 4096 * ((i + s.search_start_pos) % 3840) + 4096
          then (if (s.used_bitmap ((i + s.search_start_pos) % 3840)).testBit
              ((a - 4096 * ((i + s.search_start_pos) % 3840)) / 512) = true
            then s.flash a else 255)
          else s.flash a := by
        intro a
        rw [e1]; exact g7 a
      have hplt : (i + s.search_start_pos) % 3840 < 3840 := by omega
      have hub := hu _ hplt
      have hwlt : bnot32 (s.used_bitmap ((i + s.search_start_pos) % 3840)) % 256 < 256 := by
        omega
      obtain ⟨b1, b2, b3⟩ := lowest_bit _ hwlt (bnot8_ne_zero hub hp)
      rw [p1] at t8 t9
      refine ⟨⟨t2.trans p4, t3.trans p5, t4.trans p6⟩,
        Or.inr (Or.inr (Or.inl ⟨(i + s.search_start_pos) % 3840, _, h, hnz,
        hplt, ⟨i, hi, rfl, hmin⟩, hp, b1, ?_, ?_, ?_, t5.trans p2, t8, t6.trans p3, ?_,
        ops, t7.trans p7, g9⟩))⟩
      · rw [testBit_bnot8] at b2
        simp only [b1, decide_True, Bool.true_and, Bool.not_eq_true'] at b2
        exact b2
      · intro j hj
        have := b3 j hj
        rw [testBit_bnot8] at this
        have hj8 : j < 8 := by omega
        simp only [hj8, decide_True, Bool.true_and, Bool.not_eq_false'] at this
        exact this
      · rw [t9, p2]
      · intro a
        rw [t1, p8 a]
    · -- no free sub-slot at all
      have hnz' : ∀ j, j < 3840 → s.used_bitmap ((j + s.search_start_pos) % 3840) ≠ 0 := by
        intro j _
        rw [hfull _ (by omega)]
        decide
      have hmin : ∀ j, j < 3840 → s.used_bitmap ((j + s.search_start_pos) % 3840) = 255 :=
        fun j _ => hfull _ (by omega)
      have e1 := open_next_sector_reclaim s 3840 (le_refl _) hnz'
        (fun hh => absurd hh (by omega)) hmin
      obtain ⟨⟨g1, g2, g3, g4, g5, g6⟩, g7, ops, g8, g9⟩ := flash_erase_with_copy_sector_spec
        { s with write_sector := (3840 + s.search_start_pos) % 3840,
                 write_sector_bitmap :=
                   bnot32 (s.used_bitmap ((3840 + s.search_start_pos) % 3840)) % 256 }
        ((3840 + s.search_start_pos) % 3840)
        (s.used_bitmap ((3840 + s.search_start_pos) % 3840))
      have hplt : (3840 + s.search_start_pos) % 3840 < 3840 := by omega
      have hup := hfull _ hplt
      have hw0 : bnot32 (s.used_bitmap ((3840 + s.search_start_pos) % 3840)) % 256 = 0 := by
        rw [hup]; decide
      have p1 : (open_next_sector s).write_sector_bitmap = 0 := by
        rw [e1]; exact g5.trans hw0
      have p2 : (open_next_sector s).write_sector = (3840 + s.search_start_pos) % 3840 := by
        rw [e1]; exact g4
      have p3 : (open_next_sector s).search_start_pos = (3840 + s.search_start_pos) % 3840 := by
        rw [e1]
      have p4 : (open_next_sector s).fs_map = s.fs_map := by rw [e1]; exact g1
      have p5 : (open_next_sector s).fs_map_needs_written = s.fs_map_needs_written := by
        rw [e1]; exact g2
      have p6 : (open_next_sector s).used_bitmap = s.used_bitmap := by rw [e1]; exact g3
      have p7 : (open_next_sector s).trace =
          s.trace ++ FlashOp.erase ((3840 + s.search_start_pos) % 3840) :: ops := by
        rw [e1]; exact g8
      have p8 : ∀ a, (open_next_sector s).flash a = s.flash a := by
        intro a
        rw [e1]
        show (flash_erase_with_copy_sector _ _ _).flash a = _
        rw [g7 a]
        by_cases hin : 4096 * ((3840 + s.search_start_pos) % 3840) ≤ a ∧
            a < 4096 * ((3840 + s.search_start_pos) % 3840) + 4096
        · rw [if_pos hin, hup, testBit_255]
          have : (a - 4096 * ((3840 + s.search_start_pos) % 3840)) / 512 < 8 := by omega
          rw [if_pos (decide_eq_true this)]
        · rw [if_neg hin]
      rw [p1, lowest_bit_zero] at t8 t9
      refine ⟨⟨t2.trans p4, t3.trans p5, t4.trans p6⟩,
        Or.inr (Or.inr (Or.inr ⟨h, hfull, ?_, t5.trans p2, ?_, t6.trans p3, ?_, ops,
        t7.trans p7, g9⟩))⟩
      · rw [t9, p2]
      · rw [t8]; simp
      · intro a
        rw [t1, p8 a]
  · -- the open sector has a free sub-slot
    have hws : s.write_sector ≠ 0 := fun h0 => h (Or.inl h0)
    have hwsb : s.write_sector_bitmap ≠ 0 := fun h0 => h (Or.inr h0)
    obtain ⟨b1, b2, b3⟩ := lowest_bit _ (hw hws) hwsb
    obtain ⟨t1, t2, t3, t4, t5, t6, t7, t8, t9⟩ := take_free_slot_spec s
    rw [← getNextWriteSector_of_open s h] at t1 t2 t3 t4 t5 t6 t7 t8 t9
    exact ⟨⟨t2, t3, t4⟩, Or.inl ⟨_, hws, hwsb, b1, b2, b3, t9, t5, t8, t6, t1, t7⟩⟩

/-! ## One write, in any state that keeps the metadata invariant -/

theorem release_previous_frame (s : FS) (l : Nat) :
    (release_previous s l).flash = s.flash ∧ (release_previous s l).fs_map = s.fs_map ∧
    (release_previous s l).fs_map_needs_written = s.fs_map_needs_written ∧
    (release_previous s l).write_sector = s.write_sector ∧
    (release_previous s l).write_sector_bitmap = s.write_sector_bitmap ∧
    (release_previous s l).search_start_pos = s.search_start_pos ∧
    (release_previous s l).trace = s.trace := by
  unfold release_previous
  by_cases h : sectors s.fs_map l ≠ 0
  · rw [if_pos h]
    exact ⟨rfl, rfl, rfl, rfl, rfl, rfl, rfl⟩
  · rw [if_neg h]
    exact ⟨rfl, rfl, rfl, rfl, rfl, rfl, rfl⟩

theorem release_previous_used (s : FS) (l p : Nat) :
    (release_previous s l).used_bitmap p =
      if sectors s.fs_map l ≠ 0 ∧ p = getMapSector (sectors s.fs_map l)
      then s.used_bitmap p &&& bnot32 (1 <<< getMapOffset (sectors s.fs_map l))
      else s.used_bitmap p := by
  unfold release_previous
  by_cases h : sectors s.fs_map l ≠ 0
  · rw [if_pos h]
    show store _ _ _ p = _
    unfold store
    by_cases hp : p = getMapSector (sectors s.fs_map l)
    · rw [if_pos hp, if_pos ⟨h, hp⟩, hp]
    · rw [if_neg hp, if_neg (fun hh => hp hh.2)]
  · rw [if_neg h, if_neg (fun hh => h hh.1)]

theorem release_previous_used_le (s : FS) (l p : Nat) :
    (release_previous s l).used_bitmap p ≤ s.used_bitmap p := by
  rw [release_previous_used]
  split
  · exact clear_le _ _
  · exact le_refl _

/-- The fields of the state after `flash_fs_write_FAT_sector`, in terms of the state `r` and
the entry `e` that the allocator returned. -/
theorem flash_fs_write_FAT_sector_fields (s : FS) (l : Nat) (buf : List Nat) :
    (flash_fs_write_FAT_sector s l buf).fs_map =
      set_sectors (getNextWriteSector (release_previous s l)).1.fs_map l
        (getNextWriteSector (release_previous s l)).2 ∧
    (flash_fs_write_FAT_sector s l buf).fs_map_needs_written =
      store (getNextWriteSector (release_previous s l)).1.fs_map_needs_written
        (dirty_index l) true ∧
    (flash_fs_write_FAT_sector s l buf).used_bitmap =
      store (getNextWriteSector (release_previous s l)).1.used_bitmap
        (getMapSector (getNextWriteSector (release_previous s l)).2)
        ((getNextWriteSector (release_previous s l)).1.used_bitmap
            (getMapSector (getNextWriteSector (release_previous s l)).2) |||
          (1 <<< getMapOffset (getNextWriteSector (release_previous s l)).2)) ∧
    (flash_fs_write_FAT_sector s l buf).write_sector =
      (getNextWriteSector (release_previous s l)).1.write_sector ∧
    (flash_fs_write_FAT_sector s l buf).write_sector_bitmap =
      (getNextWriteSector (release_previous s l)).1.write_sector_bitmap ∧
    (flash_fs_write_FAT_sector s l buf).search_start_pos =
      (getNextWriteSector (release_previous s l)).1.search_start_pos ∧
    (flash_fs_write_FAT_sector s l buf).trace =
      (getNextWriteSector (release_previous s l)).1.trace ++
        [FlashOp.program (getMapSector (getNextWriteSector (release_previous s l)).2)
          (getMapOffset (getNextWriteSector (release_previous s l)).2) 512] ∧
    ∀ a, (flash_fs_write_FAT_sector s l buf).flash a =
      if 4096 * getMapSector (getNextWriteSector (release_previous s l)).2 +
            512 * getMapOffset (getNextWriteSector (release_previous s l)).2 ≤ a ∧
          a < 4096 * getMapSector (getNextWriteSector (release_previous s l)).2 +
            512 * getMapOffset (getNextWriteSector (release_previous s l)).2 + 512
      then flash_program_byte ((getNextWriteSector (release_previous s l)).1.flash a)
        (buf.getD (a - (4096 * getMapSector (getNextWriteSector (release_previous s l)).2 +
            512 * getMapOffset (getNextWriteSector (release_previous s l)).2)) 0)
      else (getNextWriteSector (release_previous s l)).1.flash a := by
  refine ⟨rfl, rfl, rfl, rfl, rfl, rfl, rfl, ?_⟩
  intro a
  unfold flash_fs_write_FAT_sector
  simp only []
  rw [flash_write_sector_flash]

theorem dirty_index_eq (l : Nat) : dirty_index l = (8 + 2 * l) / 4096 := by
  unfold dirty_index
  split <;> omega

theorem dirty_index_lt (l : Nat) (hl : l < 30716) : dirty_index l < 15 := by
  rw [dirty_index_eq]; omega

/-- What the allocator guarantees in every state that keeps the metadata invariant, also
when no sub-slot is free: the entry returned names a sector of the data region, and only
sectors of the data region are erased or programmed. -/
theorem getNextWriteSector_weak (s : FS)
    (hmeta : ∀ p, p < 15 → s.used_bitmap p = 255)
    (hbyte : ∀ p, p < 3840 → s.used_bitmap p < 256)
    (hcur : (s.write_sector = 0 ∧ ∃ p, 15 ≤ p ∧ p < 3840 ∧ s.used_bitmap p = 0) ∨
      (15 ≤ s.write_sector ∧ s.write_sector < 3840 ∧ s.search_start_pos = s.write_sector ∧
        s.write_sector_bitmap < 256)) :
    120 ≤ (getNextWriteSector s).2 ∧ (getNextWriteSector s).2 < 30720 ∧
    15 ≤ (getNextWriteSector s).1.write_sector ∧
    (getNextWriteSector s).1.write_sector < 3840 ∧
    (getNextWriteSector s).1.search_start_pos = (getNextWriteSector s).1.write_sector ∧
    (getNextWriteSector s).1.write_sector_bitmap < 256 ∧
    (∀ a, a < 61440 → (getNextWriteSector s).1.flash a = s.flash a) ∧
    ∃ ops, Issued s (getNextWriteSector s).1 ops ∧
      ∀ op, op ∈ ops → 15 ≤ op.sector ∧ op.sector < 3840 := by
  have hw : s.write_sector ≠ 0 → s.write_sector_bitmap < 256 := by
    intro h
    rcases hcur with ⟨h0, _⟩ | ⟨_, _, _, h4⟩
    · exact absurd h0 h
    · exact h4
  obtain ⟨_, hc⟩ := getNextWriteSector_cases s hw hbyte
  rcases hc with ⟨o, a1, a2, a3, a4, a5, a6, a7, a8, a9, a10, a11⟩ |
    ⟨p, b1, b2, b3, b4, b5, b6, b7, b8, b9, b10⟩ |
    ⟨p, o, c1, c2, c3, c4, c5, c6, c7, c8, c9, c10, c11, c12, c13, ops, c14, c15⟩ |
    ⟨d1, d2, d3, d4, d5, d6, d7, ops, d8, d9⟩
  · rcases hcur with ⟨h0, _⟩ | ⟨h1, h2, h3, h4⟩
    · exact absurd h0 a1
    · rw [a6, a7, a8, a9, makeMapEntry_eq (by omega) a3]
      refine ⟨by omega, by omega, h1, h2, h3, lt_of_le_of_lt (clear_le _ _) h4, ?_, [], ?_, ?_⟩
      · intro a _
        rw [a10]
      · unfold Issued
        rw [a11, List.append_nil]
      · intro op hop
        cases hop
  · have hp15 : 15 ≤ p := by
      by_contra hlt
      have := hmeta p (by omega)
      omega
    rw [b5, b6, b7, b8, makeMapEntry_eq (by omega) (by decide)]
    refine ⟨by omega, by omega, hp15, b2, rfl, by decide, ?_, [FlashOp.erase p], b10, ?_⟩
    · intro a ha
      rw [b9 a, if_neg (by omega)]
    · intro op hop
      have : op = FlashOp.erase p := by simpa using hop
      subst this
      exact ⟨hp15, b2⟩
  · have hp15 : 15 ≤ p := by
      by_contra hlt
      exact c5 (hmeta p (by omega))
    rw [c9, c10, c11, c12, makeMapEntry_eq (by omega) c6]
    refine ⟨by omega, by omega, hp15, c3, rfl, ?_, ?_, FlashOp.erase p :: ops, c14, ?_⟩
    · exact lt_of_le_of_lt (clear_le _ _) (by omega)
    · intro a ha
      rw [c13 a, if_neg (by omega)]
    · intro op hop
      rcases List.mem_cons.1 hop with h | h
      · subst h
        exact ⟨hp15, c3⟩
      · obtain ⟨j, hj⟩ := c15 op h
        subst hj
        exact ⟨hp15, c3⟩
  · rcases hcur with ⟨_, p, hp1, hp2, hp3⟩ | ⟨h1, h2, h3, h4⟩
    · have := d2 p hp2
      omega
    · have hp : (3840 + s.search_start_pos) % 3840 = s.write_sector := by omega
      rw [hp] at d3 d4 d6 d8 d9
      obtain ⟨o1, o2, o3⟩ := or_one_bounds s.write_sector
      rw [d3, d4, d5, d6, makeMapEntry_eight (by omega)]
      refine ⟨by omega, by omega, h1, h2, rfl, by decide, ?_, _, d8, ?_⟩
      · intro a _
        exact d7 a
      · intro op hop
        rcases List.mem_cons.1 hop with h | h
        · subst h
          exact ⟨h1, h2⟩
        · obtain ⟨j, hj⟩ := d9 op h
          subst hj
          exact ⟨h1, h2⟩

/-- An entry in the range of the data region: its sector and offset in arithmetic terms. -/
theorem entry_slot {e : Nat} (he : e < 30720) :
    getMapSector e = e / 8 ∧ getMapOffset e = e % 8 := by
  rw [getMapSector_eq, getMapOffset_eq]
  omega

/-- One `flash_fs_write_FAT_sector` keeps the metadata invariant, issues flash commands
on data sectors only and leaves the bytes of the 15 metadata sectors alone. -/
theorem write_metaInv (s : FS) (h : MetaInv s) (l : Nat) (hl : l < 30716) (buf : List Nat) :
    MetaInv (flash_fs_write_FAT_sector s l buf) ∧
    (∀ a, a < 61440 → (flash_fs_write_FAT_sector s l buf).flash a = s.flash a) ∧
    (120 ≤ sectors (flash_fs_write_FAT_sector s l buf).fs_map l ∧
      sectors (flash_fs_write_FAT_sector s l buf).fs_map l < 30720) ∧
    (∀ l', l' ≠ l →
      sectors (flash_fs_write_FAT_sector s l buf).fs_map l' = sectors s.fs_map l') ∧
    ∃ ops, Issued s (flash_fs_write_FAT_sector s l buf) ops ∧
      ∀ op, op ∈ ops → 15 ≤ op.sector ∧ op.sector < 3840 := by
  obtain ⟨r1, r2, r3, r4, r5, r6, r7⟩ := release_previous_frame s l
  have hmeta1 : ∀ p, p < 15 → (release_previous s l).used_bitmap p = 255 := by
    intro p hp
    rw [release_previous_used]
    rcases h.entry_range l hl with h0 | ⟨h1, h2⟩
    · rw [if_neg (fun hh => hh.1 h0)]
      exact h.used_meta p hp
    · have := (entry_slot h2).1
      rw [if_neg (fun hh => by omega)]
      exact h.used_meta p hp
  have hbyte1 : ∀ p, p < 3840 → (release_previous s l).used_bitmap p < 256 :=
    fun p hp => lt_of_le_of_lt (release_previous_used_le s l p) (h.used_byte p hp)
  have hcur1 : ((release_previous s l).write_sector = 0 ∧
        ∃ p, 15 ≤ p ∧ p < 3840 ∧ (release_previous s l).used_bitmap p = 0) ∨
      (15 ≤ (release_previous s l).write_sector ∧ (release_previous s l).write_sector < 3840 ∧
        (release_previous s l).search_start_pos = (release_previous s l).write_sector ∧
        (release_previous s l).write_sector_bitmap < 256) := by
    rw [r4, r5, r6]
    rcases h.cursor with ⟨h0, p, hp1, hp2, hp3⟩ | hc
    · left
      refine ⟨h0, p, hp1, hp2, ?_⟩
      have := release_previous_used_le s l p
      omega
    · exact Or.inr hc
  obtain ⟨w1, w2, w3, w4, w5, w6, w7, ops, w8, w9⟩ :=
    getNextWriteSector_weak (release_previous s l) hmeta1 hbyte1 hcur1
  obtain ⟨f1, f2, f3⟩ := (getNextWriteSector_cases (release_previous s l) (by
      intro hne
      rcases hcur1 with ⟨h0, _⟩ | ⟨_, _, _, h4⟩
      · exact absurd h0 hne
      · exact h4) hbyte1).1
  obtain ⟨g1, g2, g3, g4, g5, g6, g7, g8⟩ := flash_fs_write_FAT_sector_fields s l buf
  obtain ⟨e1, e2⟩ := entry_slot w2
  have hflash : ∀ a, a < 61440 → (flash_fs_write_FAT_sector s l buf).flash a = s.flash a := by
    intro a ha
    rw [g8 a, if_neg (by rw [e1]; omega), w7 a ha, r1]
  have hEl : sectors (flash_fs_write_FAT_sector s l buf).fs_map l =
      (getNextWriteSector (release_previous s l)).2 := by
    rw [g1, sectors_set_sectors_same]
    omega
  have hEo : ∀ l', l' ≠ l →
      sectors (flash_fs_write_FAT_sector s l buf).fs_map l' = sectors s.fs_map l' := by
    intro l' hne
    rw [g1, sectors_set_sectors_other _ _ hne, f1, r2]
  refine ⟨⟨?_, ?_, ?_, ?_, ?_, ?_⟩, hflash, by rw [hEl]; exact ⟨w1, w2⟩, hEo,
    ops ++ [FlashOp.program (getMapSector (getNextWriteSector (release_previous s l)).2)
      (getMapOffset (getNextWriteSector (release_previous s l)).2) 512], ?_, ?_⟩
  · -- header
    rw [g1, f1, r2, ← h.header]
    apply map_range8_eq
    intro k hk
    exact set_sectors_apply_other _ _ _ _ (by omega) (by omega)
  · -- clean flags
    intro i hi hflag k hk
    rw [g2, f2, r3] at hflag
    unfold store at hflag
    by_cases hd : i = dirty_index l
    · rw [if_pos hd] at hflag
      cases hflag
    · rw [if_neg hd] at hflag
      rw [hflash _ (by omega), g1, f1, r2, h.clean i hi hflag k hk]
      rw [dirty_index_eq] at hd
      exact (set_sectors_apply_other _ _ _ _ (by omega) (by omega)).symm
  · -- metadata bytes of the bitmap
    intro p hp
    rw [g3, f3]
    unfold store
    rw [if_neg (by rw [e1]; omega)]
    exact hmeta1 p hp
  · -- bitmap bytes
    intro p hp
    rw [g3, f3]
    unfold store
    split
    · exact set_lt_256 (hbyte1 _ (by rw [e1]; omega)) (getMapOffset_lt _)
    · exact hbyte1 p hp
  · -- entries
    intro l' hl'
    rw [g1, f1, r2]
    by_cases hll : l' = l
    · subst hll
      rw [sectors_set_sectors_same]
      right
      omega
    · rw [sectors_set_sectors_other _ _ hll]
      exact h.entry_range l' hl'
  · -- cursor
    right
    rw [g4, g5, g6]
    exact ⟨w3, w4, w5, w6⟩
  · unfold Issued at *
    rw [g7, w8, r7, List.append_assoc]
  · intro op hop
    rcases List.mem_append.1 hop with hh | hh
    · exact w9 op hh
    · have : op = FlashOp.program (getMapSector (getNextWriteSector (release_previous s l)).2)
          (getMapOffset (getNextWriteSector (release_previous s l)).2) 512 := by
        simpa using hh
      subst this
      show 15 ≤ getMapSector (getNextWriteSector (release_previous s l)).2 ∧
        getMapSector (getNextWriteSector (release_previous s l)).2 < 3840
      rw [e1]
      omega

/-! ## Sync, create and the reachable states -/

theorem open_next_sector_frame (s : FS) :
    (open_next_sector s).fs_map = s.fs_map ∧
    (open_next_sector s).fs_map_needs_written = s.fs_map_needs_written ∧
    (open_next_sector s).used_bitmap = s.used_bitmap := by
  rcases open_next_sector_cases s with ⟨i, hi, hz, hmin⟩ | ⟨hnz, i, hi, hp, hmin⟩ | hfull
  · rw [open_next_sector_fresh s i hi hz hmin]
    exact ⟨rfl, rfl, rfl⟩
  · rw [open_next_sector_reclaim s i (le_of_lt hi) (fun j _ => hnz _ (by omega))
      (fun _ => hp) hmin]
    obtain ⟨⟨g1, g2, g3, _⟩, _⟩ := flash_erase_with_copy_sector_spec
      { s with write_sector := (i + s.search_start_pos) % 3840,
               write_sector_bitmap :=
                 bnot32 (s.used_bitmap ((i + s.search_start_pos) % 3840)) % 256 }
      ((i + s.search_start_pos) % 3840) (s.used_bitmap ((i + s.search_start_pos) % 3840))
    exact ⟨g1, g2, g3⟩
  · rw [open_next_sector_reclaim s 3840 (le_refl _)
      (fun j _ => by rw [hfull _ (by omega)]; decide)
      (fun hh => absurd hh (by omega)) (fun j _ => hfull _ (by omega))]
    obtain ⟨⟨g1, g2, g3, _⟩, _⟩ := flash_erase_with_copy_sector_spec
      { s with write_sector := (3840 + s.search_start_pos) % 3840,
               write_sector_bitmap :=
                 bnot32 (s.used_bitmap ((3840 + s.search_start_pos) % 3840)) % 256 }
      ((3840 + s.search_start_pos) % 3840)
      (s.used_bitmap ((3840 + s.search_start_pos) % 3840))
    exact ⟨g1, g2, g3⟩

/-- The allocator never touches the RAM map, the dirty flags or `used_bitmap`. -/
theorem getNextWriteSector_frame (s : FS) :
    (getNextWriteSector s).1.fs_map = s.fs_map ∧
    (getNextWriteSector s).1.fs_map_needs_written = s.fs_map_needs_written ∧
    (getNextWriteSector s).1.used_bitmap = s.used_bitmap := by
  by_cases h : s.write_sector = 0 ∨ s.write_sector_bitmap = 0
  · rw [getNextWriteSector_of_search s h]
    obtain ⟨_, t2, t3, t4, _⟩ := take_free_slot_spec (open_next_sector s)
    obtain ⟨o1, o2, o3⟩ := open_next_sector_frame s
    exact ⟨t2.trans o1, t3.trans o2, t4.trans o3⟩
  · rw [getNextWriteSector_of_open s h]
    exact ⟨rfl, rfl, rfl⟩

/-- The dirty flags after a write: the flag of the written entry is set, the others are
as before. -/
theorem write_flags (s : FS) (l : Nat) (buf : List Nat) (i : Nat) :
    (flash_fs_write_FAT_sector s l buf).fs_map_needs_written i =
      if i = dirty_index l then true else s.fs_map_needs_written i := by
  obtain ⟨_, g2, _⟩ := flash_fs_write_FAT_sector_fields s l buf
  rw [g2, (getNextWriteSector_frame _).2.1, (release_previous_frame s l).2.2.1]
  rfl

theorem sync_metaInv (s : FS) (h : MetaInv s) : MetaInv (flash_fs_sync s) := by
  obtain ⟨h1, h2, h3, h4, h5, h6, h7, _⟩ := write_fs_map_spec s
  unfold flash_fs_sync
  refine ⟨?_, ?_, ?_, ?_, ?_, ?_⟩
  · rw [h1]; exact h.header
  · intro i hi _ k hk
    rw [h7, h1]
    by_cases hf : s.fs_map_needs_written i = true
    · have e : (4096 * i + k) / 4096 = i := by omega
      rw [if_pos ⟨by omega, by rw [e]; exact hf⟩]
    · have e : (4096 * i + k) / 4096 = i := by omega
      rw [if_neg (fun hh => hf (by rw [e] at hh; exact hh.2))]
      exact h.clean i hi (by simpa using hf) k hk
  · intro p hp
    rw [h2]; exact h.used_meta p hp
  · intro p hp
    rw [h2]; exact h.used_byte p hp
  · intro l hl
    rw [h1]; exact h.entry_range l hl
  · rw [h2, h3, h4, h5]; exact h.cursor

/-- After `flash_fs_sync` in a state whose clean metadata sectors hold the RAM map, all 15
metadata sectors on flash hold the RAM map. -/
theorem sync_flash_eq_map (s : FS) (h : MapOnFlash s) (k : Nat) (hk : k < 61440) :
    (flash_fs_sync s).flash k = s.fs_map k := by
  obtain ⟨_, _, _, _, _, _, h7, _⟩ := write_fs_map_spec s
  unfold flash_fs_sync
  rw [h7]
  by_cases hf : s.fs_map_needs_written (k / 4096) = true
  · rw [if_pos ⟨hk, hf⟩]
  · rw [if_neg (fun hh => hf hh.2)]
    have := h.clean (k / 4096) (by omega) (by simpa using hf) (k % 4096) (by omega)
    have e : 4096 * (k / 4096) + k % 4096 = k := by omega
    rw [e] at this
    exact this

theorem create_metaInv (s0 : FS) : MetaInv (flash_fs_create s0) := by
  obtain ⟨h1, h2, h3, h4, h5, h6, h7, _⟩ := flash_fs_create_spec s0
  refine ⟨?_, ?_, ?_, ?_, ?_, ?_⟩
  · rw [h1]; exact create_map_magic _
  · intro i hi _ k hk
    rw [h3, h1, if_pos (by omega)]
  · intro p hp
    rw [h4, if_pos hp]
  · intro p hp
    rw [h4]
    split
    · decide
    · decide
  · intro l hl
    left
    rw [h1]
    exact create_map_sectors _ l hl
  · left
    refine ⟨h5, 15, le_refl _, by decide, ?_⟩
    rw [h4]
    rfl

theorem reachable_metaInv {s : FS} (h : Reachable s) : MetaInv s := by
  induction h with
  | create s0 => exact create_metaInv s0
  | write l buf _ hl ih => exact (write_metaInv _ ih l hl buf).1
  | sync _ ih => exact sync_metaInv _ ih

/-- Reading a logical sector depends only on its map entry and on the flash bytes of the
slot that the entry names. -/
theorem read_congr (s r : FS) (l : Nat)
    (he : sectors r.fs_map l = sectors s.fs_map l)
    (hf : sectors s.fs_map l ≠ 0 → ∀ k, k < 512 →
      r.flash (4096 * getMapSector (sectors s.fs_map l) +
          512 * getMapOffset (sectors s.fs_map l) + k) =
        s.flash (4096 * getMapSector (sectors s.fs_map l) +
          512 * getMapOffset (sectors s.fs_map l) + k)) :
    flash_fs_read_FAT_sector r l = flash_fs_read_FAT_sector s l := by
  unfold flash_fs_read_FAT_sector
  simp only [he]
  by_cases h0 : sectors s.fs_map l ≠ 0
  · rw [if_pos h0, if_pos h0]
    exact flash_read_sector_congr s r _ _ 512 (hf h0)
  · rw [if_neg h0, if_neg h0]

theorem sectors_congr (m m' : Nat → Nat) (l : Nat) (hl : l < 30716)
    (h : ∀ k, k < 61440 → m' k = m k) : sectors m' l = sectors m l := by
  unfold sectors
  rw [h _ (by omega), h _ (by omega)]

/-! ## Mount after create, persistence -/

theorem write_all_nil (s : FS) : write_all s [] = s := rfl

theorem write_all_cons (s : FS) (w : Nat × List Nat) (ws : List (Nat × List Nat)) :
    write_all s (w :: ws) = write_all (flash_fs_write_FAT_sector s w.1 w.2) ws := rfl

theorem write_all_append (s : FS) (ws vs : List (Nat × List Nat)) :
    write_all s (ws ++ vs) = write_all (write_all s ws) vs := by
  unfold write_all
  rw [List.foldl_append]

theorem write_all_reachable (s : FS) (hs : Reachable s) (ws : List (Nat × List Nat))
    (hws : ∀ w, w ∈ ws → w.1 < 30716) : Reachable (write_all s ws) := by
  induction ws generalizing s with
  | nil => exact hs
  | cons w ws ih =>
    rw [write_all_cons]
    apply ih
    · exact Reachable.write w.1 w.2 hs (hws w (List.mem_cons_self _ _))
    · intro v hv
      exact hws v (List.mem_cons_of_mem _ hv)

/-- Mounting any state whose flash is the flash left by `flash_fs_sync`: if the clean
metadata sectors held the RAM map and the entries named slots of the data region, the
mount succeeds and every logical sector reads as it did before. -/
theorem remount_reads (s : FS) (h : MapOnFlash s)
    (hrange : ∀ l, l < 30716 →
      sectors s.fs_map l = 0 ∨ (120 ≤ sectors s.fs_map l ∧ sectors s.fs_map l < 30720))
    (s' : FS) (hflash : s'.flash = (flash_fs_sync s).flash) :
    (flash_fs_mount s').2 = 0 ∧
    (∀ k, k < 61440 → (flash_fs_mount s').1.fs_map k = s.fs_map k) ∧
    ∀ l, l < 30716 →
      flash_fs_read_FAT_sector (flash_fs_mount s').1 l = flash_fs_read_FAT_sector s l := by
  obtain ⟨m1, _, _, _, _, m6, m7⟩ := flash_fs_mount_spec s'
  have hmeta : ∀ k, k < 61440 → s'.flash k = s.fs_map k := by
    intro k hk
    rw [hflash]
    exact sync_flash_eq_map s h k hk
  have hdata : ∀ a, 61440 ≤ a → s'.flash a = s.flash a := by
    intro a ha
    rw [hflash]
    obtain ⟨_, _, _, _, _, _, h7, _⟩ := write_fs_map_spec s
    unfold flash_fs_sync
    rw [h7, if_neg (by omega)]
  have hrc : (flash_fs_mount s').2 = 0 := by
    rw [m6, ← h.header]
    apply map_range8_eq
    intro k hk
    exact hmeta k (by omega)
  obtain ⟨n1, _, _⟩ := m7 hrc
  have hmap : ∀ k, k < 61440 → (flash_fs_mount s').1.fs_map k = s.fs_map k := by
    intro k hk
    rw [n1 k, if_pos hk]
    exact hmeta k hk
  refine ⟨hrc, hmap, ?_⟩
  intro l hl
  apply read_congr
  · exact sectors_congr _ _ l hl hmap
  · intro hne k hk
    rcases hrange l hl with h0 | ⟨h1, h2⟩
    · exact absurd h0 hne
    · rw [m1]
      apply hdata
      rw [(entry_slot h2).1]
      omega

theorem create_then_mount (s0 : FS) :
    (flash_fs_mount (flash_fs_create s0)).2 = 0 ∧
    ∀ l, l < 30716 →
      flash_fs_read_FAT_sector (flash_fs_mount (flash_fs_create s0)).1 l =
        List.replicate 512 0 := by
  obtain ⟨c1, _, c3, _⟩ := flash_fs_create_spec s0
  obtain ⟨_, _, _, _, _, m6, m7⟩ := flash_fs_mount_spec (flash_fs_create s0)
  have hrc : (flash_fs_mount (flash_fs_create s0)).2 = 0 := by
    rw [m6, ← create_map_magic s0.fs_map]
    apply map_range8_eq
    intro k hk
    rw [c3, if_pos (by omega)]
  refine ⟨hrc, ?_⟩
  intro l hl
  obtain ⟨n1, _, _⟩ := m7 hrc
  apply read_unmapped
  rw [← create_map_sectors s0.fs_map l hl]
  apply sectors_congr _ _ l hl
  intro k hk
  rw [n1 k, if_pos hk, c3, if_pos hk]

theorem magic_not_erased (f : Nat → Nat) (h : ∀ a, f a = 255) :
    (List.range 8).map f ≠ MAGIC_8_BYTES := by
  have : (List.range 8).map f = (List.range 8).map (fun _ => 255) :=
    map_range8_eq _ _ (fun k _ => h k)
  rw [this]
  decide

/-- C3 (fresh format). For any prior state and flash contents, `flash_fs_mount` after
`flash_fs_create` returns 0, and every logical sector below 30716 then reads as 512 zero
bytes. -/
theorem fresh_format (s0 : FS) (l : Nat) (hl : l < 30716) :
    (flash_fs_mount (flash_fs_create s0)).2 = 0 ∧
    flash_fs_read_FAT_sector (flash_fs_mount (flash_fs_create s0)).1 l =
      List.replicate 512 0 :=
  ⟨(create_then_mount s0).1, (create_then_mount s0).2 l hl⟩

theorem fresh_format_witness :
    (flash_fs_mount (flash_fs_create boot)).2 = 0 ∧
    flash_fs_read_FAT_sector (flash_fs_mount (flash_fs_create boot)).1 0 =
      List.replicate 512 0 :=
  fresh_format boot 0 (by decide)

/-! ## The allocator while a sub-slot is free -/

theorem testBit_254 (j : Nat) : (254 : Nat).testBit j = (decide (j < 8) && !decide (0 = j)) := by
  have h : (254 : Nat) = 255 &&& bnot32 (1 <<< 0) := by decide
  rw [h]
  by_cases hj : j < 32
  · rw [testBit_clear _ _ _ hj, testBit_255]
  · rw [Nat.testBit_and, testBit_255]
    have : ¬ j < 8 := by omega
    simp [this]

/-- What the allocator guarantees when some sub-slot is free: it hands out an unused,
erased slot `(p, o)` of the data region, every slot in use keeps its bytes, and every
slot still offered afterwards is unused and erased. -/
theorem getNextWriteSector_strong (s : FS)
    (hmeta : ∀ p, p < 15 → s.used_bitmap p = 255)
    (hbyte : ∀ p, p < 3840 → s.used_bitmap p < 256)
    (hcur : s.write_sector ≠ 0 →
      15 ≤ s.write_sector ∧ s.write_sector < 3840 ∧ s.write_sector_bitmap < 256 ∧
      ∀ o, o < 8 → s.write_sector_bitmap.testBit o = true →
        (s.used_bitmap s.write_sector).testBit o = false ∧
        ∀ k, k < 512 → s.flash (4096 * s.write_sector + 512 * o + k) = 255)
    (hroom : ∃ q, q < 3840 ∧ s.used_bitmap q ≠ 255) :
    ∃ p o, 15 ≤ p ∧ p < 3840 ∧ o < 8 ∧ (getNextWriteSector s).2 = 8 * p + o ∧
      (s.used_bitmap p).testBit o = false ∧
      (getNextWriteSector s).1.write_sector = p ∧
      (getNextWriteSector s).1.write_sector_bitmap < 256 ∧
      (∀ k, k < 512 → (getNextWriteSector s).1.flash (4096 * p + 512 * o + k) = 255) ∧
      (∀ j, j < 8 → (getNextWriteSector s).1.write_sector_bitmap.testBit j = true →
        j ≠ o ∧ (s.used_bitmap p).testBit j = false ∧
        ∀ k, k < 512 → (getNextWriteSector s).1.flash (4096 * p + 512 * j + k) = 255) ∧
      (∀ a, (getNextWriteSector s).1.flash a = s.flash a ∨
        (4096 * p ≤ a ∧ a < 4096 * p + 4096 ∧
          (s.used_bitmap p).testBit ((a - 4096 * p) / 512) = false)) ∧
      ∃ ops, Issued s (getNextWriteSector s).1 ops ∧ (∀ op, op ∈ ops → op.sector = p) ∧
        (((∀ a, (getNextWriteSector s).1.flash a = s.flash a) ∧ s.write_sector = p ∧
            s.write_sector_bitmap.testBit o = true) ∨
          FlashOp.erase p ∈ ops) := by
  have hw : s.write_sector ≠ 0 → s.write_sector_bitmap < 256 := fun h => (hcur h).2.2.1
  obtain ⟨_, hc⟩ := getNextWriteSector_cases s hw hbyte
  rcases hc with ⟨o, a1, a2, a3, a4, a5, a6, a7, a8, a9, a10, a11⟩ |
    ⟨p, b1, b2, b3, b4, b5, b6, b7, b8, b9, b10⟩ |
    ⟨p, o, c1, c2, c3, c4, c5, c6, c7, c8, c9, c10, c11, c12, c13, ops, c14, c15⟩ |
    ⟨d1, d2, d3, d4, d5, d6, d7, ops, d8, d9⟩
  · -- the open sector
    obtain ⟨h1, h2, h3, h4⟩ := hcur a1
    refine ⟨s.write_sector, o, h1, h2, a3, ?_, (h4 o a3 a4).1, a7, ?_, ?_, ?_, ?_, [], ?_, ?_,
      Or.inl ⟨fun a => by rw [a10], rfl, a4⟩⟩
    · rw [a6, makeMapEntry_eq (by omega) a3]
    · rw [a8]; exact lt_of_le_of_lt (clear_le _ _) h3
    · intro k hk
      rw [a10]; exact (h4 o a3 a4).2 k hk
    · intro j hj hb
      rw [a8, testBit_clear _ _ _ (by omega)] at hb
      simp only [Bool.and_eq_true, Bool.not_eq_true', decide_eq_false_iff_not] at hb
      refine ⟨fun e => hb.2 e.symm, (h4 j hj hb.1).1, ?_⟩
      intro k hk
      rw [a10]; exact (h4 j hj hb.1).2 k hk
    · intro a
      left; rw [a10]
    · unfold Issued
      rw [a11, List.append_nil]
    · intro op hop
      cases hop
  · -- a completely free sector
    have hp15 : 15 ≤ p := by
      by_contra hlt
      have := hmeta p (by omega)
      omega
    refine ⟨p, 0, hp15, b2, by decide, ?_, by rw [b4]; simp, b6, by rw [b7]; decide, ?_, ?_, ?_,
      [FlashOp.erase p], b10, ?_, Or.inr (by simp)⟩
    · rw [b5, makeMapEntry_eq (by omega) (by decide)]
    · intro k hk
      rw [b9, if_pos (by omega)]
    · intro j hj hb
      rw [b7, testBit_254] at hb
      simp only [Bool.and_eq_true, decide_eq_true_eq, Bool.not_eq_true',
        decide_eq_false_iff_not] at hb
      refine ⟨fun e => hb.2 e.symm, by rw [b4]; simp, ?_⟩
      intro k hk
      rw [b9, if_pos (by omega)]
    · intro a
      rw [b9]
      by_cases hin : 4096 * p ≤ a ∧ a < 4096 * p + 4096
      · right
        exact ⟨hin.1, hin.2, by rw [b4]; simp⟩
      · left
        rw [if_neg hin]
    · intro op hop
      have : op = FlashOp.erase p := by simpa using hop
      subst this
      rfl
  · -- a sector with a free sub-slot
    have hp15 : 15 ≤ p := by
      by_contra hlt
      exact c5 (hmeta p (by omega))
    refine ⟨p, o, hp15, c3, c6, ?_, c7, c10, ?_, ?_, ?_, ?_, FlashOp.erase p :: ops, c14, ?_,
      Or.inr (by simp)⟩
    · rw [c9, makeMapEntry_eq (by omega) c6]
    · rw [c11]; exact lt_of_le_of_lt (clear_le _ _) (by omega)
    · intro k hk
      have e : (4096 * p + 512 * o + k - 4096 * p) / 512 = o := by omega
      rw [c13, if_pos (by omega), e, c7]
      simp
    · intro j hj hb
      rw [c11, testBit_clear _ _ _ (by omega), testBit_bnot8] at hb
      simp only [Bool.and_eq_true, decide_eq_true_eq, Bool.not_eq_true',
        decide_eq_false_iff_not] at hb
      refine ⟨fun e => hb.2 e.symm, hb.1.2, ?_⟩
      intro k hk
      have e : (4096 * p + 512 * j + k - 4096 * p) / 512 = j := by omega
      rw [c13, if_pos (by omega), e, hb.1.2]
      simp
    · intro a
      rw [c13]
      by_cases hin : 4096 * p ≤ a ∧ a < 4096 * p + 4096
      · rw [if_pos hin]
        by_cases hb : (s.used_bitmap p).testBit ((a - 4096 * p) / 512) = true
        · left
          rw [if_pos hb]
        · right
          exact ⟨hin.1, hin.2, by simpa using hb⟩
      · left
        rw [if_neg hin]
    · intro op hop
      rcases List.mem_cons.1 hop with h | h
      · subst h
        rfl
      · obtain ⟨j, hj⟩ := c15 op h
        subst hj
        rfl
  · -- no free sub-slot: excluded
    obtain ⟨q, hq, hne⟩ := hroom
    exact absurd (d2 q hq) hne


/-! ## One write while a sub-slot is free -/

theorem list_eq_map_getD (buf : List Nat) (n : Nat) (h : buf.length = n) :
    (List.range n).map (fun k => buf.getD k 0) = buf := by
  apply List.ext_getElem
  · simp [h]
  · intro i h1 h2
    simp [List.getD_eq_getElem?_getD, List.getElem?_eq_getElem h2]

theorem release_previous_testBit (s : FS) (l p o : Nat) (ho : o < 8)
    (hb : ((release_previous s l).used_bitmap p).testBit o = true) :
    (s.used_bitmap p).testBit o = true := by
  rw [release_previous_used] at hb
  split at hb
  · rw [testBit_clear _ _ _ (by omega)] at hb
    simp only [Bool.and_eq_true] at hb
    exact hb.1
  · exact hb

/-- The bitmap after the first statement of a write: the slots of all logical sectors
other than the one written. -/
theorem release_previous_used_iff (s : FS) (h : Good s) (l : Nat) (hl : l < 30716)
    (p o : Nat) (hp15 : 15 ≤ p) (hp : p < 3840) (ho : o < 8) :
    ((release_previous s l).used_bitmap p).testBit o = true ↔
      ∃ l', l' < 30716 ∧ l' ≠ l ∧ sectors s.fs_map l' = 8 * p + o := by
  rw [release_previous_used]
  by_cases hc : sectors s.fs_map l ≠ 0 ∧ p = getMapSector (sectors s.fs_map l)
  · rw [if_pos hc, testBit_clear _ _ _ (by omega)]
    obtain ⟨hne, hps⟩ := hc
    rcases h.entry_range l hl with h0 | ⟨h1, h2⟩
    · exact absurd h0 hne
    · obtain ⟨e1, e2⟩ := entry_slot h2
      rw [e1] at hps
      rw [e2]
      simp only [Bool.and_eq_true, Bool.not_eq_true', decide_eq_false_iff_not]
      rw [h.used_iff p o hp15 hp ho]
      constructor
      · rintro ⟨⟨l', hl', he⟩, hoo⟩
        refine ⟨l', hl', ?_, he⟩
        intro hll
        subst hll
        omega
      · rintro ⟨l', hl', hne', he⟩
        refine ⟨⟨l', hl', he⟩, ?_⟩
        intro hoo
        apply hne'
        apply (h.entry_inj l l' hl hl' hne _).symm
        omega
  · rw [if_neg hc, h.used_iff p o hp15 hp ho]
    constructor
    · rintro ⟨l', hl', he⟩
      refine ⟨l', hl', ?_, he⟩
      intro hll
      subst hll
      apply hc
      refine ⟨by omega, ?_⟩
      rw [(entry_slot (show sectors s.fs_map l' < 30720 by omega)).1]
      omega
    · rintro ⟨l', hl', _, he⟩
      exact ⟨l', hl', he⟩

/-- One `flash_fs_write_FAT_sector` while a sub-slot is free: the invariant is kept, the
written sector reads back the payload, every other sector reads as before, and the old
slot of the written sector is released. -/
theorem write_good (s : FS) (h : Good s) (l : Nat) (hl : l < 30716) (buf : List Nat)
    (hroom : HasRoom s l) :
    Good (flash_fs_write_FAT_sector s l buf) ∧
    (120 ≤ sectors (flash_fs_write_FAT_sector s l buf).fs_map l ∧
      sectors (flash_fs_write_FAT_sector s l buf).fs_map l < 30720) ∧
    (∀ l', l' ≠ l →
      sectors (flash_fs_write_FAT_sector s l buf).fs_map l' = sectors s.fs_map l') ∧
    (∀ l', l' < 30716 → l' ≠ l →
      flash_fs_read_FAT_sector (flash_fs_write_FAT_sector s l buf) l' =
        flash_fs_read_FAT_sector s l') ∧
    (buf.length = 512 → flash_fs_read_FAT_sector (flash_fs_write_FAT_sector s l buf) l = buf) ∧
    ((∀ a, a < 61440 → (flash_fs_write_FAT_sector s l buf).flash a = s.flash a) ∧
      ∃ ops, Issued s (flash_fs_write_FAT_sector s l buf) ops ∧
        ∀ op, op ∈ ops → 15 ≤ op.sector ∧ op.sector < 3840) ∧
    (sectors s.fs_map l ≠ 0 →
      (((flash_fs_write_FAT_sector s l buf).used_bitmap
            (getMapSector (sectors s.fs_map l))).testBit
          (getMapOffset (sectors s.fs_map l)) = false ∨
        sectors (flash_fs_write_FAT_sector s l buf).fs_map l = sectors s.fs_map l) ∧
      ∃ ops, Issued s (flash_fs_write_FAT_sector s l buf) ops ∧
        ((∀ k, k < 512 →
          (flash_fs_write_FAT_sector s l buf).flash
              (4096 * getMapSector (sectors s.fs_map l) +
                512 * getMapOffset (sectors s.fs_map l) + k) =
            s.flash (4096 * getMapSector (sectors s.fs_map l) +
                512 * getMapOffset (sectors s.fs_map l) + k)) ∨
          FlashOp.erase (getMapSector (sectors s.fs_map l)) ∈ ops)) := by
  obtain ⟨r1, r2, r3, r4, r5, r6, r7⟩ := release_previous_frame s l
  have hiff1 := release_previous_used_iff s h l hl
  have hmeta1 : ∀ p, p < 15 → (release_previous s l).used_bitmap p = 255 := by
    intro p hp
    rw [release_previous_used]
    rcases h.entry_range l hl with h0 | ⟨h1, h2⟩
    · rw [if_neg (fun hh => hh.1 h0)]
      exact h.used_meta p hp
    · have := (entry_slot h2).1
      rw [if_neg (fun hh => by omega)]
      exact h.used_meta p hp
  have hbyte1 : ∀ p, p < 3840 → (release_previous s l).used_bitmap p < 256 :=
    fun p hp => lt_of_le_of_lt (release_previous_used_le s l p) (h.used_byte p hp)
  have hcur1 : (release_previous s l).write_sector ≠ 0 →
      15 ≤ (release_previous s l).write_sector ∧ (release_previous s l).write_sector < 3840 ∧
      (release_previous s l).write_sector_bitmap < 256 ∧
      ∀ o, o < 8 → (release_previous s l).write_sector_bitmap.testBit o = true →
        ((release_previous s l).used_bitmap (release_previous s l).write_sector).testBit o
          = false ∧
        ∀ k, k < 512 → (release_previous s l).flash
          (4096 * (release_previous s l).write_sector + 512 * o + k) = 255 := by
    rw [r1, r4, r5]
    intro hne
    obtain ⟨c1, c2, c3, c4⟩ := h.cursor hne
    refine ⟨c1, c2, c3, ?_⟩
    intro o ho hb
    refine ⟨?_, (c4 o ho hb).2⟩
    by_contra hset
    have := release_previous_testBit s l _ o ho (by simpa using hset)
    rw [(c4 o ho hb).1] at this
    cases this
  have hroom1 : ∃ q, q < 3840 ∧ (release_previous s l).used_bitmap q ≠ 255 := by
    by_cases h0 : sectors s.fs_map l = 0
    · rcases hroom with hr | ⟨q, hq, hne⟩
      · exact absurd h0 hr
      · refine ⟨q, hq, ?_⟩
        rw [release_previous_used, if_neg (fun hh => hh.1 h0)]
        exact hne
    · rcases h.entry_range l hl with h0' | ⟨h1, h2⟩
      · exact absurd h0' h0
      · refine ⟨sectors s.fs_map l / 8, by omega, ?_⟩
        intro h255
        have hb : ((release_previous s l).used_bitmap (sectors s.fs_map l / 8)).testBit
            (sectors s.fs_map l % 8) = true := by
          rw [h255, testBit_255]
          simp
          omega
        obtain ⟨l', hl', hne', he⟩ :=
          (hiff1 _ _ (by omega) (by omega) (by omega)).1 hb
        apply hne'
        apply (h.entry_inj l l' hl hl' h0 _).symm
        omega
  obtain ⟨p, o, hp15, hp, ho, he, hbit, rws, rwsb, hers, hoff, hfl, ops, hiss, hops, herase⟩ :=
    getNextWriteSector_strong (release_previous s l) hmeta1 hbyte1 hcur1 hroom1
  obtain ⟨f1, f2, f3⟩ := getNextWriteSector_frame (release_previous s l)
  obtain ⟨g1, g2, g3, g4, g5, g6, g7, g8⟩ := flash_fs_write_FAT_sector_fields s l buf
  have he30 : (getNextWriteSector (release_previous s l)).2 < 30720 := by omega
  obtain ⟨e1, e2⟩ := entry_slot he30
  rw [he] at e1 e2
  have e1' : getMapSector (8 * p + o) = p := by rw [e1]; omega
  have e2' : getMapOffset (8 * p + o) = o := by rw [e2]; omega
  rw [he, e1', e2'] at g3 g7 g8
  rw [he] at g1
  -- the new map
  have hEl : sectors (flash_fs_write_FAT_sector s l buf).fs_map l = 8 * p + o := by
    rw [g1, sectors_set_sectors_same]
    omega
  have hEo : ∀ l', l' ≠ l →
      sectors (flash_fs_write_FAT_sector s l buf).fs_map l' = sectors s.fs_map l' := by
    intro l' hne
    rw [g1, sectors_set_sectors_other _ _ hne, f1, r2]
  -- the new bitmap
  have hused : ∀ q j, ((flash_fs_write_FAT_sector s l buf).used_bitmap q).testBit j = true ↔
      (((release_previous s l).used_bitmap q).testBit j = true ∨ (q = p ∧ j = o)) := by
    intro q j
    rw [g3, f3]
    unfold store
    by_cases hq : q = p
    · subst hq
      rw [if_pos rfl, testBit_set]
      simp only [Bool.or_eq_true, decide_eq_true_eq, true_and]
      constructor
      · rintro (hh | hh)
        · exact Or.inl hh
        · exact Or.inr hh.symm
      · rintro (hh | hh)
        · exact Or.inl hh
        · exact Or.inr hh.symm
    · rw [if_neg hq]
      simp [hq]
  -- the new flash
  have hflash_slot : ∀ k, k < 512 →
      (flash_fs_write_FAT_sector s l buf).flash (4096 * p + 512 * o + k) = buf.getD k 0 := by
    intro k hk
    rw [g8, if_pos (by omega), hers k hk, flash_program_byte_erased]
    congr 1
    omega
  have hflash_other : ∀ a, ¬ (4096 * p + 512 * o ≤ a ∧ a < 4096 * p + 512 * o + 512) →
      (flash_fs_write_FAT_sector s l buf).flash a =
        (getNextWriteSector (release_previous s l)).1.flash a := by
    intro a ha
    rw [g8, if_neg ha]
  have hkeep : ∀ q j k, 15 ≤ q → q < 3840 → j < 8 → k < 512 →
      ((release_previous s l).used_bitmap q).testBit j = true →
      (flash_fs_write_FAT_sector s l buf).flash (4096 * q + 512 * j + k) =
        s.flash (4096 * q + 512 * j + k) := by
    intro q j k _ _ hj hk hb
    have hne : ¬ (q = p ∧ j = o) := by
      rintro ⟨hq, hjo⟩
      subst hq; subst hjo
      rw [hbit] at hb
      cases hb
    rw [hflash_other _ (by omega)]
    rcases hfl (4096 * q + 512 * j + k) with hh | ⟨hh1, hh2, hh3⟩
    · rw [hh, r1]
    · have hq : q = p := by omega
      subst hq
      have e : (4096 * q + 512 * j + k - 4096 * q) / 512 = j := by omega
      rw [e, hb] at hh3
      cases hh3
  have hissued : Issued s (flash_fs_write_FAT_sector s l buf)
      (ops ++ [FlashOp.program p o 512]) := by
    unfold Issued at *
    rw [g7, hiss, r7, List.append_assoc]
  have hmetaflash : ∀ a, a < 61440 → (flash_fs_write_FAT_sector s l buf).flash a = s.flash a := by
    intro a ha
    rw [hflash_other _ (by omega)]
    rcases hfl a with hh | ⟨hh1, _, _⟩
    · rw [hh, r1]
    · omega
  have hopsdata : ∀ op, op ∈ ops ++ [FlashOp.program p o 512] →
      15 ≤ op.sector ∧ op.sector < 3840 := by
    intro op hop
    rcases List.mem_append.1 hop with hh | hh
    · rw [hops op hh]
      exact ⟨hp15, hp⟩
    · have : op = FlashOp.program p o 512 := by simpa using hh
      subst this
      exact ⟨hp15, hp⟩
  refine ⟨⟨?_, ?_, ?_, ?_, ?_, ?_⟩, ⟨by omega, by omega⟩, hEo, ?_, ?_,
    ⟨hmetaflash, _, hissued, hopsdata⟩, ?_⟩
  · -- entry_range
    intro l' hl'
    by_cases hll : l' = l
    · subst hll
      right
      omega
    · rw [hEo l' hll]
      exact h.entry_range l' hl'
  · -- entry_inj
    intro l1 l2 hl1 hl2 hne heq
    by_cases h1 : l1 = l
    · by_cases h2 : l2 = l
      · rw [h1, h2]
      · exfalso
        rw [h1, hEl, hEo l2 h2] at heq
        have := (hiff1 p o hp15 hp ho).2 ⟨l2, hl2, h2, heq.symm⟩
        rw [hbit] at this
        cases this
    · by_cases h2 : l2 = l
      · exfalso
        rw [h2, hEl, hEo l1 h1] at heq
        have := (hiff1 p o hp15 hp ho).2 ⟨l1, hl1, h1, heq⟩
        rw [hbit] at this
        cases this
      · rw [hEo l1 h1] at hne heq
        rw [hEo l2 h2] at heq
        exact h.entry_inj l1 l2 hl1 hl2 hne heq
  · -- used_meta
    intro q hq
    rw [g3, f3]
    unfold store
    rw [if_neg (by omega)]
    exact hmeta1 q hq
  · -- used_byte
    intro q hq
    rw [g3, f3]
    unfold store
    split
    · exact set_lt_256 (hbyte1 p hp) ho
    · exact hbyte1 q hq
  · -- used_iff
    intro q j hq15 hq hj
    rw [hused, hiff1 q j hq15 hq hj]
    constructor
    · rintro (⟨l', hl', hne, hel⟩ | ⟨hqp, hjo⟩)
      · exact ⟨l', hl', by rw [hEo l' hne]; exact hel⟩
      · exact ⟨l, hl, by rw [hEl, hqp, hjo]⟩
    · rintro ⟨l', hl', hel⟩
      by_cases hll : l' = l
      · right
        rw [hll, hEl] at hel
        omega
      · left
        rw [hEo l' hll] at hel
        exact ⟨l', hl', hll, hel⟩
  · -- cursor
    intro _
    rw [g4, g5, rws]
    refine ⟨hp15, hp, rwsb, ?_⟩
    intro j hj hb
    obtain ⟨o1, o2, o3⟩ := hoff j hj hb
    refine ⟨?_, ?_⟩
    · by_contra hset
      rcases (hused p j).1 (by simpa using hset) with hh | ⟨_, hh⟩
      · rw [o2] at hh
        cases hh
      · exact o1 hh
    · intro k hk
      rw [hflash_other _ (by omega)]
      exact o3 k hk
  · -- the other sectors read as before
    intro l' hl' hne
    apply read_congr
    · exact hEo l' hne
    · intro hnz k hk
      rcases h.entry_range l' hl' with h0 | ⟨h1, h2⟩
      · exact absurd h0 hnz
      · obtain ⟨a1, a2⟩ := entry_slot h2
        rw [a1, a2]
        apply hkeep _ _ _ (by omega) (by omega) (by omega) hk
        apply (hiff1 _ _ (by omega) (by omega) (by omega)).2
        exact ⟨l', hl', hne, by omega⟩
  · -- the sector written reads back the payload
    intro hlen
    unfold flash_fs_read_FAT_sector
    simp only [hEl]
    rw [if_pos (by omega), e1', e2']
    unfold flash_read_sector
    refine Eq.trans ?_ (list_eq_map_getD buf 512 hlen)
    apply List.map_congr_left
    intro k hk
    have hk' : k < 512 := by simpa using hk
    have := hflash_slot k hk'
    simp only [FLASH_SECTOR_SIZE, Nat.mul_comm p 4096, Nat.mul_comm o 512]
    exact this
  · -- the previous slot
    intro hnz
    rcases h.entry_range l hl with h0 | ⟨h1, h2⟩
    · exact absurd h0 hnz
    obtain ⟨a1, a2⟩ := entry_slot h2
    have hold : ((release_previous s l).used_bitmap (sectors s.fs_map l / 8)).testBit
        (sectors s.fs_map l % 8) = false := by
      by_contra hset
      obtain ⟨l', hl', hne', hel⟩ :=
        (hiff1 (sectors s.fs_map l / 8) (sectors s.fs_map l % 8)
          (by omega) (by omega) (by omega)).1 (by simpa using hset)
      apply hne'
      apply (h.entry_inj l l' hl hl' hnz _).symm
      omega
    have hwas : (s.used_bitmap (sectors s.fs_map l / 8)).testBit
        (sectors s.fs_map l % 8) = true :=
      (h.used_iff (sectors s.fs_map l / 8) (sectors s.fs_map l % 8)
        (by omega) (by omega) (by omega)).2 ⟨l, hl, by omega⟩
    rw [a1, a2]
    refine ⟨?_, ops ++ [FlashOp.program p o 512], ?_, ?_⟩
    · by_cases hsame : sectors s.fs_map l / 8 = p ∧ sectors s.fs_map l % 8 = o
      · right
        rw [hEl]
        omega
      · left
        by_contra hset
        rcases (hused _ _).1 (by simpa using hset) with hh | hh
        · rw [hold] at hh
          cases hh
        · exact hsame hh
    · exact hissued
    · rcases herase with ⟨x1, x2, x3⟩ | x
      · -- the open sector was used: the previous slot is not the one handed out
        left
        intro k hk
        have hne : ¬ (sectors s.fs_map l / 8 = p ∧ sectors s.fs_map l % 8 = o) := by
          rintro ⟨y1, y2⟩
          rw [r4] at x2
          rw [r5] at x3
          have hws : s.write_sector ≠ 0 := by omega
          have := ((h.cursor hws).2.2.2 o ho x3).1
          rw [x2, ← y1, ← y2, hwas] at this
          cases this
        rw [hflash_other _ (by omega), x1, r1]
      · by_cases hp0 : sectors s.fs_map l / 8 = p
        · right
          rw [hp0]
          exact List.mem_append_left _ x
        · left
          intro k hk
          rw [hflash_other _ (by omega)]
          rcases hfl (4096 * (sectors s.fs_map l / 8) + 512 * (sectors s.fs_map l % 8) + k)
            with hh | ⟨hh1, hh2, _⟩
          · rw [hh, r1]
          · omega

/-! ## The invariant through create, sync and remount; capacity -/

theorem create_good (s0 : FS) : Good (flash_fs_create s0) := by
  obtain ⟨h1, h2, h3, h4, h5, h6, h7, _⟩ := flash_fs_create_spec s0
  have hE : ∀ l, l < 30716 → sectors (flash_fs_create s0).fs_map l = 0 := by
    intro l hl
    rw [h1]
    exact create_map_sectors _ l hl
  refine ⟨?_, ?_, ?_, ?_, ?_, ?_⟩
  · intro l hl
    exact Or.inl (hE l hl)
  · intro l l' hl _ hne
    exact absurd (hE l hl) hne
  · intro p hp
    rw [h4, if_pos hp]
  · intro p hp
    rw [h4]
    split
    · decide
    · decide
  · intro p o hp15 hp ho
    rw [h4, if_neg (by omega), if_pos hp]
    constructor
    · intro hb
      simp at hb
    · rintro ⟨l, hl, he⟩
      rw [hE l hl] at he
      omega
  · intro hne
    exact absurd h5 hne

theorem sync_good (s : FS) (h : Good s) : Good (flash_fs_sync s) := by
  obtain ⟨h1, h2, h3, h4, h5, h6, h7, _⟩ := write_fs_map_spec s
  unfold flash_fs_sync
  refine ⟨?_, ?_, ?_, ?_, ?_, ?_⟩
  · rw [h1]; exact h.entry_range
  · rw [h1]; exact h.entry_inj
  · rw [h2]; exact h.used_meta
  · rw [h2]; exact h.used_byte
  · rw [h1, h2]; exact h.used_iff
  · rw [h2, h3, h4]
    intro hne
    obtain ⟨c1, c2, c3, c4⟩ := h.cursor hne
    refine ⟨c1, c2, c3, ?_⟩
    intro o ho hb
    refine ⟨(c4 o ho hb).1, ?_⟩
    intro k hk
    rw [h7, if_neg (by omega)]
    exact (c4 o ho hb).2 k hk

/-- The invariant after a successful mount, when the map on flash is well formed: its
entries name slots of the data region and no two of them name the same slot. -/
theorem mount_good (s : FS) (hrc : (flash_fs_mount s).2 = 0)
    (hrange : ∀ l, l < 30716 → sectors s.flash l = 0 ∨
      (120 ≤ sectors s.flash l ∧ sectors s.flash l < 30720))
    (hinj : ∀ l l', l < 30716 → l' < 30716 → sectors s.flash l ≠ 0 →
      sectors s.flash l = sectors s.flash l' → l = l') :
    Good (flash_fs_mount s).1 := by
  obtain ⟨m1, _, _, _, _, m6, m7⟩ := flash_fs_mount_spec s
  obtain ⟨n1, n2, n3⟩ := m7 hrc
  have hE : ∀ l, l < 30716 → sectors (flash_fs_mount s).1.fs_map l = sectors s.flash l := by
    intro l hl
    apply sectors_congr _ _ l hl
    intro k hk
    rw [n1 k, if_pos hk]
  refine ⟨?_, ?_, ?_, ?_, ?_, ?_⟩
  · intro l hl
    rw [hE l hl]; exact hrange l hl
  · intro l l' hl hl'
    rw [hE l hl, hE l' hl']; exact hinj l l' hl hl'
  · intro p hp
    rw [n3]; exact init_used_bitmap_meta _ p hp
  · intro p hp
    rw [n3]; exact init_used_bitmap_lt_256 _ p hp
  · intro p o hp15 hp ho
    rw [n3, init_used_bitmap_testBit _ p o hp]
    unfold RebuiltBit
    constructor
    · rintro (⟨hlt, _⟩ | ⟨l, hl, hne, hs, ho'⟩)
      · omega
      · refine ⟨l, hl, ?_⟩
        rw [hE l hl] at hne hs ho' ⊢
        rcases hrange l hl with h0 | ⟨h1, h2⟩
        · exact absurd h0 hne
        · obtain ⟨a1, a2⟩ := entry_slot h2
          omega
    · rintro ⟨l, hl, he⟩
      right
      have h2 : sectors (flash_fs_mount s).1.fs_map l < 30720 := by omega
      obtain ⟨a1, a2⟩ := entry_slot h2
      exact ⟨l, hl, by omega, by omega, by omega⟩
  · intro hne
    exact absurd n2 hne

/-- Sync, reboot and mount keep the invariant. -/
theorem remount_good (s : FS) (h : Good s) (hm : MapOnFlash s) (s' : FS)
    (hflash : s'.flash = (flash_fs_sync s).flash) :
    (flash_fs_mount s').2 = 0 ∧ WellFormedMap s'.flash ∧ Good (flash_fs_mount s').1 := by
  obtain ⟨hrc, hmap, _⟩ := remount_reads s hm h.entry_range s' hflash
  have hmeta : ∀ k, k < 61440 → s'.flash k = s.fs_map k := by
    intro k hk
    rw [hflash]
    exact sync_flash_eq_map s hm k hk
  have hE : ∀ l, l < 30716 → sectors s'.flash l = sectors s.fs_map l :=
    fun l hl => sectors_congr _ _ l hl hmeta
  have hwf : WellFormedMap s'.flash := by
    refine ⟨?_, ?_⟩
    · intro l hl
      rw [hE l hl]; exact h.entry_range l hl
    · intro l l' hl hl'
      rw [hE l hl, hE l' hl']; exact h.entry_inj l l' hl hl'
  exact ⟨hrc, hwf, mount_good s' hrc hwf.1 hwf.2⟩

theorem mem_mapped (s : FS) (l : Nat) :
    l ∈ mapped s ↔ l < 30716 ∧ sectors s.fs_map l ≠ 0 := by
  unfold mapped
  rw [Finset.mem_filter, Finset.mem_range]

/-- When every byte of `used_bitmap` is `0xFF`, at least 30600 logical sectors have a
slot: the data region has 3825 sectors of 8 slots. -/
theorem full_card (s : FS) (h : Good s) (hfull : ∀ q, q < 3840 → s.used_bitmap q = 255) :
    30600 ≤ (mapped s).card := by
  have hsub : Finset.Ico 120 30720 ⊆ (mapped s).image (fun l => sectors s.fs_map l) := by
    intro e he
    rw [Finset.mem_Ico] at he
    have hb : (s.used_bitmap (e / 8)).testBit (e % 8) = true := by
      rw [hfull _ (by omega), testBit_255]
      simp
      omega
    obtain ⟨l, hl, hel⟩ := (h.used_iff (e / 8) (e % 8) (by omega) (by omega) (by omega)).1 hb
    rw [Finset.mem_image]
    refine ⟨l, (mem_mapped s l).2 ⟨hl, by omega⟩, by omega⟩
  have h1 := Finset.card_le_card hsub
  have h2 : ((mapped s).image (fun l => sectors s.fs_map l)).card ≤ (mapped s).card :=
    Finset.card_image_le
  have h3 : (Finset.Ico 120 30720).card = 30600 := by simp
  omega

theorem has_room_of_card (s : FS) (h : Good s) (l : Nat) (hc : (mapped s).card < 30600) :
    HasRoom s l := by
  right
  by_contra hno
  have hfull : ∀ q, q < 3840 → s.used_bitmap q = 255 := by
    intro q hq
    by_contra hne
    exact hno ⟨q, hq, hne⟩
  have := full_card s h hfull
  omega

theorem write_entry_other (s : FS) (l : Nat) (buf : List Nat) (l' : Nat) (hne : l' ≠ l) :
    sectors (flash_fs_write_FAT_sector s l buf).fs_map l' = sectors s.fs_map l' := by
  obtain ⟨g1, _⟩ := flash_fs_write_FAT_sector_fields s l buf
  rw [g1, sectors_set_sectors_other _ _ hne, (getNextWriteSector_frame _).1,
    (release_previous_frame s l).2.1]

theorem mapped_write_subset (s : FS) (l : Nat) (buf : List Nat) :
    mapped (flash_fs_write_FAT_sector s l buf) ⊆ insert l (mapped s) := by
  intro l' hl'
  rw [mem_mapped] at hl'
  rw [Finset.mem_insert]
  by_cases hll : l' = l
  · exact Or.inl hll
  · right
    rw [write_entry_other s l buf l' hll] at hl'
    exact (mem_mapped s l').2 hl'

theorem model_all_cons (m : Nat → List Nat) (w : Nat × List Nat) (ws : List (Nat × List Nat)) :
    model_all m (w :: ws) = model_all (model_write m w) ws := rfl

/-- Round trip, for a sequence of writes that never needs more than the 30600 slots of the
data region: the invariant is kept and every logical sector reads what the reference disk
holds. -/
theorem write_all_good (ws : List (Nat × List Nat)) (s : FS) (hs : Good s)
    (m : Nat → List Nat) (hm : ∀ l, l < 30716 → flash_fs_read_FAT_sector s l = m l)
    (hws : ∀ w, w ∈ ws → w.1 < 30716 ∧ w.2.length = 512)
    (hcap : (mapped s ∪ (ws.map Prod.fst).toFinset).card ≤ 30600) :
    Good (write_all s ws) ∧
    (∀ l, l < 30716 → flash_fs_read_FAT_sector (write_all s ws) l = model_all m ws l) ∧
    mapped (write_all s ws) ⊆ mapped s ∪ (ws.map Prod.fst).toFinset := by
  induction ws generalizing s m with
  | nil =>
    refine ⟨hs, hm, ?_⟩
    simp [write_all_nil]
  | cons w ws ih =>
    obtain ⟨hw1, hw2⟩ := hws w (List.mem_cons_self _ _)
    have hroom : HasRoom s w.1 := by
      by_cases h0 : sectors s.fs_map w.1 = 0
      · apply has_room_of_card s hs
        have hnot : w.1 ∉ mapped s := by
          rw [mem_mapped]
          exact fun hh => hh.2 h0
        have hsub : insert w.1 (mapped s) ⊆
            mapped s ∪ ((w :: ws).map Prod.fst).toFinset := by
          intro x hx
          rw [Finset.mem_insert] at hx
          rw [Finset.mem_union]
          rcases hx with hx | hx
          · right
            simp [hx]
          · exact Or.inl hx
        have h1 := Finset.card_le_card hsub
        rw [Finset.card_insert_of_not_mem hnot] at h1
        omega
      · exact Or.inl h0
    obtain ⟨g1, g2, g3, g4, g5, _⟩ := write_good s hs w.1 hw1 w.2 hroom
    have hsub1 : mapped (flash_fs_write_FAT_sector s w.1 w.2) ∪ (ws.map Prod.fst).toFinset ⊆
        mapped s ∪ ((w :: ws).map Prod.fst).toFinset := by
      intro x hx
      rw [Finset.mem_union] at hx ⊢
      rcases hx with hx | hx
      · have := mapped_write_subset s w.1 w.2 hx
        rw [Finset.mem_insert] at this
        rcases this with hh | hh
        · right
          simp [hh]
        · exact Or.inl hh
      · right
        simp only [List.map_cons, List.toFinset_cons, Finset.mem_insert]
        exact Or.inr hx
    have hm1 : ∀ l, l < 30716 →
        flash_fs_read_FAT_sector (flash_fs_write_FAT_sector s w.1 w.2) l =
          model_write m w l := by
      intro l hl
      unfold model_write
      by_cases hll : l = w.1
      · rw [if_pos hll, hll]
        exact g5 hw2
      · rw [if_neg hll, g4 l hl hll]
        exact hm l hl
    obtain ⟨i1, i2, i3⟩ := ih (flash_fs_write_FAT_sector s w.1 w.2) g1 (model_write m w) hm1
      (fun v hv => hws v (List.mem_cons_of_mem _ hv))
      (le_trans (Finset.card_le_card hsub1) hcap)
    rw [write_all_cons, model_all_cons]
    refine ⟨i1, i2, ?_⟩
    intro x hx
    exact hsub1 (i3 hx)

theorem mapped_create (s0 : FS) : mapped (flash_fs_create s0) = ∅ := by
  apply Finset.eq_empty_of_forall_not_mem
  intro l hl
  rw [mem_mapped] at hl
  have := (create_good s0).entry_range l hl.1
  have h1 := (flash_fs_create_spec s0).1
  apply hl.2
  rw [h1]
  exact create_map_sectors _ l hl.1

/-- Round trip from a freshly created filesystem, for writes to at most 30600 different
logical sectors. -/
theorem round_trip_bounded (s0 : FS) (ws : List (Nat × List Nat))
    (hws : ∀ w, w ∈ ws → w.1 < 30716 ∧ w.2.length = 512)
    (hcap : ((ws.map Prod.fst).toFinset).card ≤ 30600) :
    Good (write_all (flash_fs_create s0) ws) ∧
    ∀ l, l < 30716 →
      flash_fs_read_FAT_sector (write_all (flash_fs_create s0) ws) l =
        model_all blank_disk ws l := by
  have hm : ∀ l, l < 30716 → flash_fs_read_FAT_sector (flash_fs_create s0) l = blank_disk l := by
    intro l hl
    apply read_unmapped
    rw [(flash_fs_create_spec s0).1]
    exact create_map_sectors _ l hl
  obtain ⟨h1, h2, _⟩ := write_all_good ws (flash_fs_create s0) (create_good s0) blank_disk hm hws
    (by rw [mapped_create, Finset.empty_union]; exact hcap)
  exact ⟨h1, h2⟩

/-! ## The states reachable within the capacity of the data region -/

theorem metaInv_mapOnFlash {s : FS} (h : MetaInv s) : MapOnFlash s := ⟨h.header, h.clean⟩

theorem write_mapOnFlash (s : FS) (h : MapOnFlash s) (l : Nat) (buf : List Nat)
    (hflash : ∀ a, a < 61440 → (flash_fs_write_FAT_sector s l buf).flash a = s.flash a) :
    MapOnFlash (flash_fs_write_FAT_sector s l buf) := by
  obtain ⟨g1, _⟩ := flash_fs_write_FAT_sector_fields s l buf
  have hmap : ∀ k, k ≠ 8 + 2 * l → k ≠ 8 + 2 * l + 1 →
      (flash_fs_write_FAT_sector s l buf).fs_map k = s.fs_map k := by
    intro k h1 h2
    rw [g1, set_sectors_apply_other _ _ _ _ h1 h2, (getNextWriteSector_frame _).1,
      (release_previous_frame s l).2.1]
  refine ⟨?_, ?_⟩
  · rw [← h.header]
    apply map_range8_eq
    intro k hk
    exact hmap k (by omega) (by omega)
  · intro i hi hflag k hk
    rw [write_flags] at hflag
    by_cases hd : i = dirty_index l
    · rw [if_pos hd] at hflag
      cases hflag
    · rw [if_neg hd] at hflag
      rw [dirty_index_eq] at hd
      rw [hflash _ (by omega), hmap _ (by omega) (by omega)]
      exact h.clean i hi hflag k hk

theorem sync_mapOnFlash (s : FS) (h : MapOnFlash s) :
    MapOnFlash (flash_fs_sync s) ∧
    (∀ i, i < 15 → (flash_fs_sync s).fs_map_needs_written i = false) ∧
    (∀ k, k < 61440 → (flash_fs_sync s).flash k = (flash_fs_sync s).fs_map k) ∧
    (flash_fs_sync s).fs_map = s.fs_map ∧
    (∀ a, (a < 61440 → s.fs_map_needs_written (a / 4096) = false) →
      (flash_fs_sync s).flash a = s.flash a) ∧
    ∃ ops, Issued s (flash_fs_sync s) ops ∧
      ∀ op, op ∈ ops → op.sector < 15 ∧ s.fs_map_needs_written op.sector = true := by
  obtain ⟨h1, h2, h3, h4, h5, h6, h7, h8⟩ := write_fs_map_spec s
  unfold flash_fs_sync
  have hflash : ∀ k, k < 61440 → (write_fs_map s).flash k = s.fs_map k := by
    intro k hk
    rw [h7]
    by_cases hf : s.fs_map_needs_written (k / 4096) = true
    · rw [if_pos ⟨hk, hf⟩]
    · rw [if_neg (fun hh => hf hh.2)]
      have := h.clean (k / 4096) (by omega) (by simpa using hf) (k % 4096) (by omega)
      have e : 4096 * (k / 4096) + k % 4096 = k := by omega
      rw [e] at this
      exact this
  refine ⟨⟨?_, ?_⟩, ?_, ?_, h1, ?_, h8⟩
  · rw [h1]; exact h.header
  · intro i hi _ k hk
    rw [hflash _ (by omega), h1]
  · intro i hi
    rw [h6, if_pos hi]
  · intro k hk
    rw [hflash k hk, h1]
  · intro a ha
    rw [h7]
    by_cases hlt : a < 61440
    · have := ha hlt
      rw [if_neg (fun hh => by rw [this] at hh; exact Bool.noConfusion hh.2)]
    · rw [if_neg (fun hh => hlt hh.1)]

theorem mount_mapOnFlash (s : FS) (hrc : (flash_fs_mount s).2 = 0) :
    MapOnFlash (flash_fs_mount s).1 := by
  obtain ⟨m1, _, _, _, m5, m6, m7⟩ := flash_fs_mount_spec s
  obtain ⟨n1, _, _⟩ := m7 hrc
  refine ⟨?_, ?_⟩
  · rw [← m6.1 hrc]
    apply map_range8_eq
    intro k hk
    rw [n1 k, if_pos (by omega)]
  · intro i hi _ k hk
    rw [m1, n1, if_pos (by omega)]

theorem has_room_of_within (s : FS) (h : Good s) (l : Nat)
    (hc : WithinCapacity s l) : HasRoom s l := by
  by_cases h0 : sectors s.fs_map l = 0
  · apply has_room_of_card s h
    have hnot : l ∉ mapped s := by
      rw [mem_mapped]
      exact fun hh => hh.2 h0
    unfold WithinCapacity at hc
    rw [Finset.card_insert_of_not_mem hnot] at hc
    omega
  · exact Or.inl h0

theorem reachableWithin_inv {s : FS} (h : ReachableWithin s) : Good s ∧ MapOnFlash s := by
  induction h with
  | create s0 => exact ⟨create_good s0, metaInv_mapOnFlash (create_metaInv s0)⟩
  | mount s0 hrc hwf => exact ⟨mount_good s0 hrc hwf.1 hwf.2, mount_mapOnFlash s0 hrc⟩
  | write l buf _ hl hc ih =>
    obtain ⟨g1, _, _, _, _, ⟨g6, _⟩, _⟩ :=
      write_good _ ih.1 l hl buf (has_room_of_within _ ih.1 l hc)
    exact ⟨g1, write_mapOnFlash _ ih.2 l buf g6⟩
  | sync _ ih => exact ⟨sync_good _ ih.1, (sync_mapOnFlash _ ih.2).1⟩

/-- The invariant `Good` gives the map/bitmap invariant of the specification. -/
theorem good_mapBitmapInvariant (s : FS) (h : Good s) : MapBitmapInvariant s := by
  have hslot : ∀ l, l < 30716 → sectors s.fs_map l ≠ 0 →
      15 ≤ getMapSector (sectors s.fs_map l) ∧ getMapSector (sectors s.fs_map l) < 3840 ∧
      getMapOffset (sectors s.fs_map l) < 8 ∧
      sectors s.fs_map l =
        8 * getMapSector (sectors s.fs_map l) + getMapOffset (sectors s.fs_map l) := by
    intro l hl hne
    rcases h.entry_range l hl with h0 | ⟨h1, h2⟩
    · exact absurd h0 hne
    · obtain ⟨a1, a2⟩ := entry_slot h2
      rw [a1, a2]
      omega
  refine ⟨?_, ?_, ?_⟩
  · intro p hp'
    have hp : p < 3840 := hp'
    apply byte_eq_of_testBit (h.used_byte p hp) (init_used_bitmap_lt_256 s p hp)
    intro j hj
    rw [Bool.eq_iff_iff, init_used_bitmap_testBit s p j hp]
    unfold RebuiltBit
    by_cases hp15 : p < 15
    · rw [h.used_meta p hp15, testBit_255]
      simp only [decide_eq_true_eq]
      constructor
      · intro _
        exact Or.inl ⟨hp15, hj⟩
      · intro _
        exact hj
    · rw [h.used_iff p j (by omega) hp hj]
      constructor
      · rintro ⟨l, hl, he⟩
        right
        have h2 : sectors s.fs_map l < 30720 := by omega
        obtain ⟨a1, a2⟩ := entry_slot h2
        exact ⟨l, hl, by omega, by omega, by omega⟩
      · rintro (⟨hlt, _⟩ | ⟨l, hl, hne, hs, ho⟩)
        · omega
        · obtain ⟨_, _, _, b4⟩ := hslot l hl hne
          exact ⟨l, hl, by omega⟩
  · intro l hl hne
    obtain ⟨b1, b2, b3, b4⟩ := hslot l hl hne
    exact (h.used_iff _ _ b1 b2 b3).2 ⟨l, hl, b4⟩
  · intro p o hp15 hp' ho hb
    have hp : p < 3840 := hp'
    obtain ⟨l, hl, he⟩ := (h.used_iff p o hp15 hp ho).1 hb
    have h2 : sectors s.fs_map l < 30720 := by omega
    obtain ⟨a1, a2⟩ := entry_slot h2
    refine ⟨l, ⟨hl, by omega, by omega, by omega⟩, ?_⟩
    rintro l' ⟨hl', hne', hs', ho'⟩
    obtain ⟨_, _, _, b4⟩ := hslot l' hl' hne'
    apply h.entry_inj l' l hl' hl hne'
    omega

/-! ## Invariants, sync, dirty tracking, reclaim -/

theorem syncContract_of_mapOnFlash (s : FS) (h : MapOnFlash s) : SyncContract s := by
  obtain ⟨_, h2, h3, h4, h5, ops, h6, h7⟩ := sync_mapOnFlash s h
  refine ⟨h.clean, h2, h3, h4, ⟨ops, h6, h7⟩, ?_⟩
  intro i hi hflag k hk
  apply h5
  intro _
  have e : (4096 * i + k) / 4096 = i := by omega
  rw [e]
  exact hflag

/-- C5, amended (map/bitmap invariant). In every state reachable from `flash_fs_create`,
or from a successful `flash_fs_mount` of a well-formed map, by `flash_fs_sync` and by
`flash_fs_write_FAT_sector` calls that keep the number of mapped logical sectors at or
below 30600: `used_bitmap` equals the bitmap that `init_used_bitmap` rebuilds from the
current map, the bit of every nonzero map entry is set, and every set bit of the data
region belongs to exactly one logical sector. -/
theorem map_bitmap_invariant (s : FS) (hs : ReachableWithin s) : MapBitmapInvariant s :=
  good_mapBitmapInvariant s (reachableWithin_inv hs).1

/-- C6 (the metadata region is permanently reserved). In every state reachable from
`flash_fs_create` by `flash_fs_write_FAT_sector` and `flash_fs_sync`: the bitmap bytes
0..14 are `0xFF`, no nonzero map entry names a physical sector below 15, and a data write
neither erases nor programs the physical sectors 0..14 (whose bytes it leaves as they
are). -/
theorem metadata_reserved (s : FS) (hs : Reachable s) :
    (∀ i, i < 15 → s.used_bitmap i = 0xFF) ∧
    (∀ l, l < 30716 → sectors s.fs_map l ≠ 0 → 15 ≤ getMapSector (sectors s.fs_map l)) ∧
    ∀ l buf, l < 30716 →
      (∀ a, a < 15 * 4096 → (flash_fs_write_FAT_sector s l buf).flash a = s.flash a) ∧
      ∃ ops, (flash_fs_write_FAT_sector s l buf).trace = s.trace ++ ops ∧
        ∀ op, op ∈ ops → 15 ≤ op.sector := by
  have h := reachable_metaInv hs
  refine ⟨h.used_meta, ?_, ?_⟩
  · intro l hl hne
    rcases h.entry_range l hl with h0 | ⟨h1, h2⟩
    · exact absurd h0 hne
    · rw [(entry_slot h2).1]
      omega
  · intro l buf hl
    obtain ⟨_, w2, _, _, ops, w5, w6⟩ := write_metaInv s h l hl buf
    exact ⟨fun a ha => w2 a (by omega), ops, w5, fun op hop => (w6 op hop).1⟩

theorem metadata_reserved_witness :
    (flash_fs_create boot).used_bitmap 14 = 0xFF ∧
    (flash_fs_write_FAT_sector (flash_fs_create boot) 7 (List.replicate 512 1)).flash 4096 =
      (flash_fs_create boot).flash 4096 :=
  ⟨(metadata_reserved (flash_fs_create boot) (Reachable.create boot)).1 14 (by omega),
    ((metadata_reserved (flash_fs_create boot) (Reachable.create boot)).2.2 7
      (List.replicate 512 1) (by omega)).1 4096 (by omega)⟩

/-- C7, amended (sync). In every state reachable from `flash_fs_create` by writes and
syncs, and in every state reachable from `flash_fs_create` or from a successful mount of a
well-formed map by syncs and by writes that keep the number of mapped logical sectors at or
below 30600: a metadata sector whose dirty flag is clear holds its block of the RAM map;
after `flash_fs_sync` every dirty flag is clear and the 15 metadata sectors on flash are
byte for byte the RAM map; the metadata sectors whose flag was not set are neither erased
nor programmed. -/
theorem sync_contract (s : FS) (hs : Reachable s ∨ ReachableWithin s) : SyncContract s := by
  rcases hs with h | h
  · exact syncContract_of_mapOnFlash s (metaInv_mapOnFlash (reachable_metaInv h))
  · exact syncContract_of_mapOnFlash s (reachableWithin_inv h).2

/-- C8 (dirty tracking). Starting with all dirty flags clear, a write of logical sector
`l < 30716` sets exactly one flag, with index 0 if `l < 2044` and `1 + (l - 2044) / 2048`
otherwise (an index below 15), and leaves every other flag clear; a following
`flash_fs_sync` clears it. -/
theorem dirty_tracking (s : FS) (l : Nat) (buf : List Nat) (hl : l < 30716)
    (hclean : ∀ i, i < 15 → s.fs_map_needs_written i = false) :
    (if l < 2044 then 0 else 1 + (l - 2044) / 2048) < 15 ∧
    (∀ i, i < 15 →
      ((flash_fs_write_FAT_sector s l buf).fs_map_needs_written i = true ↔
        i = if l < 2044 then 0 else 1 + (l - 2044) / 2048)) ∧
    ∀ i, i < 15 →
      (flash_fs_sync (flash_fs_write_FAT_sector s l buf)).fs_map_needs_written i = false := by
  refine ⟨dirty_index_lt l hl, ?_, ?_⟩
  · intro i hi
    rw [write_flags]
    show (if i = dirty_index l then true else s.fs_map_needs_written i) = true ↔
      i = dirty_index l
    by_cases hd : i = dirty_index l
    · rw [if_pos hd]
      simp [hd]
    · rw [if_neg hd, hclean i hi]
      simp [hd]
  · intro i hi
    obtain ⟨_, _, _, _, _, h6, _⟩ := write_fs_map_spec (flash_fs_write_FAT_sector s l buf)
    unfold flash_fs_sync
    rw [h6, if_pos hi]

theorem dirty_tracking_witness :
    (if 3000 < 2044 then 0 else 1 + (3000 - 2044) / 2048) < 15 ∧
    (∀ i, i < 15 →
      ((flash_fs_write_FAT_sector boot 3000 []).fs_map_needs_written i = true ↔
        i = if 3000 < 2044 then 0 else 1 + (3000 - 2044) / 2048)) ∧
    ∀ i, i < 15 →
      (flash_fs_sync (flash_fs_write_FAT_sector boot 3000 [])).fs_map_needs_written i = false :=
  dirty_tracking boot 3000 [] (by decide) (fun _ _ => rfl)

/-- C10 (reclaim by erase-with-copy). When the search of the allocator runs (no open
sector with a free slot), no physical sector is completely free, and `p` is the first
sector in circular order from `search_start_pos` whose bitmap byte `b = used_bitmap[p]` is
not `0xFF`: the allocator erases `p` with copy under the preserved bitmap `b`; afterwards
every sub-slot `i` of `p` with bit `i` set in `b` holds the bytes it held before, every
sub-slot with bit `i` clear reads as `0xFF`, every other physical sector is unchanged,
`p` is the open sector and `write_sector_bitmap` is the byte `~b`; hence every logical
sector whose slot is marked in `used_bitmap` reads what it read before. -/
theorem reclaim_keeps_data (s : FS) (p : Nat)
    (hsearch : s.write_sector = 0 ∨ s.write_sector_bitmap = 0)
    (hnofree : ∀ q, q < 3840 → s.used_bitmap q ≠ 0)
    (hfirst : ∃ i, i < 3840 ∧ p = (i + s.search_start_pos) % 3840 ∧
      s.used_bitmap p ≠ 0xFF ∧
      ∀ j, j < i → s.used_bitmap ((j + s.search_start_pos) % 3840) = 0xFF) :
    (open_next_sector s).flash = (flash_erase_with_copy_sector s p (s.used_bitmap p)).flash ∧
    (∀ i k, i < 8 → k < 512 →
      (open_next_sector s).flash (4096 * p + 512 * i + k) =
        if (s.used_bitmap p).testBit i = true then s.flash (4096 * p + 512 * i + k)
        else 0xFF) ∧
    (∀ a, ¬ (4096 * p ≤ a ∧ a < 4096 * p + 4096) → (open_next_sector s).flash a = s.flash a) ∧
    (open_next_sector s).write_sector = p ∧
    (open_next_sector s).write_sector_bitmap < 256 ∧
    (∀ i, i < 8 →
      (open_next_sector s).write_sector_bitmap.testBit i = !(s.used_bitmap p).testBit i) ∧
    (getNextWriteSector s).1.flash = (open_next_sector s).flash ∧
    ∀ l, sectors s.fs_map l ≠ 0 →
      (s.used_bitmap (getMapSector (sectors s.fs_map l))).testBit
        (getMapOffset (sectors s.fs_map l)) = true →
      flash_fs_read_FAT_sector (open_next_sector s) l = flash_fs_read_FAT_sector s l ∧
      flash_fs_read_FAT_sector (getNextWriteSector s).1 l = flash_fs_read_FAT_sector s l := by
  obtain ⟨i, hi, hpi, hne, hmin⟩ := hfirst
  subst hpi
  have e1 := open_next_sector_reclaim s i (le_of_lt hi) (fun j _ => hnofree _ (by omega))
    (fun _ => hne) hmin
  obtain ⟨⟨g1, g2, g3, g4, g5, g6⟩, g7, _⟩ := flash_erase_with_copy_sector_spec
    { s with write_sector := (i + s.search_start_pos) % 3840,
             write_sector_bitmap :=
               bnot32 (s.used_bitmap ((i + s.search_start_pos) % 3840)) % 256 }
    ((i + s.search_start_pos) % 3840) (s.used_bitmap ((i + s.search_start_pos) % 3840))
  obtain ⟨_, k7, _⟩ := flash_erase_with_copy_sector_spec s
    ((i + s.search_start_pos) % 3840) (s.used_bitmap ((i + s.search_start_pos) % 3840))
  have p1 : (open_next_sector s).write_sector_bitmap =
      bnot32 (s.used_bitmap ((i + s.search_start_pos) % 3840)) % 256 := by
    rw [e1]; exact g5
  have p2 : (open_next_sector s).write_sector = (i + s.search_start_pos) % 3840 := by
    rw [e1]; exact g4
  have p4 : (open_next_sector s).fs_map = s.fs_map := by rw [e1]; exact g1
  have p8 : ∀ a, (open_next_sector s).flash a =
      if 4096 * ((i + s.search_start_pos) % 3840) ≤ a ∧
        a < 4096 * ((i + s.search_start_pos) % 3840) + 4096
      then (if (s.used_bitmap ((i + s.search_start_pos) % 3840)).testBit
          ((a - 4096 * ((i + s.search_start_pos) % 3840)) / 512) = true
        then s.flash a else 255)
      else s.flash a := by
    intro a
    rw [e1]; exact g7 a
  have hget : (getNextWriteSector s).1.flash = (open_next_sector s).flash ∧
      (getNextWriteSector s).1.fs_map = (open_next_sector s).fs_map := by
    rw [getNextWriteSector_of_search s hsearch]
    exact ⟨rfl, rfl⟩
  have hread : ∀ l, sectors s.fs_map l ≠ 0 →
      (s.used_bitmap (getMapSector (sectors s.fs_map l))).testBit
        (getMapOffset (sectors s.fs_map l)) = true →
      flash_fs_read_FAT_sector (open_next_sector s) l = flash_fs_read_FAT_sector s l := by
    intro l _ hb
    apply read_congr
    · rw [p4]
    · intro _ k hk
      rw [p8]
      have ho := getMapOffset_lt (sectors s.fs_map l)
      by_cases hin : 4096 * ((i + s.search_start_pos) % 3840) ≤
            4096 * getMapSector (sectors s.fs_map l) +
              512 * getMapOffset (sectors s.fs_map l) + k ∧
          4096 * getMapSector (sectors s.fs_map l) +
              512 * getMapOffset (sectors s.fs_map l) + k <
            4096 * ((i + s.search_start_pos) % 3840) + 4096
      · have hs : getMapSector (sectors s.fs_map l) = (i + s.search_start_pos) % 3840 := by
          omega
        have e : (4096 * getMapSector (sectors s.fs_map l) +
            512 * getMapOffset (sectors s.fs_map l) + k -
            4096 * ((i + s.search_start_pos) % 3840)) / 512 =
            getMapOffset (sectors s.fs_map l) := by omega
        rw [if_pos hin, e, ← hs, if_pos hb]
      · rw [if_neg hin]
  refine ⟨?_, ?_, ?_, p2, ?_, ?_, hget.1, ?_⟩
  · funext a
    rw [p8 a, k7 a]
  · intro j k hj hk
    have e : (4096 * ((i + s.search_start_pos) % 3840) + 512 * j + k -
        4096 * ((i + s.search_start_pos) % 3840)) / 512 = j := by omega
    rw [p8, if_pos (by omega), e]
  · intro a ha
    rw [p8, if_neg ha]
  · rw [p1]; omega
  · intro j hj
    rw [p1, testBit_bnot8]
    simp [hj]
  · intro l hne' hb
    refine ⟨hread l hne' hb, ?_⟩
    rw [← hread l hne' hb]
    apply read_congr
    · rw [hget.2]
    · intro _ k _
      rw [hget.1]

theorem reclaim_keeps_data_witness :
    (open_next_sector reclaim_demo).write_sector = 15 ∧
    flash_fs_read_FAT_sector (open_next_sector reclaim_demo) 0 =
      flash_fs_read_FAT_sector reclaim_demo 0 :=
  have h := reclaim_keeps_data reclaim_demo 15 (Or.inl rfl)
    (fun q _ => by
      show (if q = 15 then 1 else 255) ≠ 0
      split <;> decide)
    ⟨15, by decide, by decide, by decide, fun j hj => by
      show (if (j + 0) % 3840 = 15 then 1 else 255) = 255
      rw [if_neg (by omega)]⟩
  ⟨h.2.2.2.1, (h.2.2.2.2.2.2.2 0 (by decide) (by decide)).1⟩

/-! ## The allocator on a given search result -/

/-- The search finds the completely free sector `(i + search_start_pos) % 3840`. -/
theorem openedFresh_of_first (s : FS)
    (h : s.write_sector = 0 ∨ s.write_sector_bitmap = 0) (i : Nat) (hi : i < 3840)
    (hz : s.used_bitmap ((i + s.search_start_pos) % 3840) = 0)
    (hmin : ∀ j, j < i → s.used_bitmap ((j + s.search_start_pos) % 3840) ≠ 0) :
    OpenedFresh s ((i + s.search_start_pos) % 3840) := by
  have e0 := getNextWriteSector_of_search s h
  obtain ⟨t1, t2, t3, t4, t5, t6, t7, t8, t9⟩ := take_free_slot_spec (open_next_sector s)
  rw [← e0] at t1 t2 t3 t4 t5 t6 t7 t8 t9
  have e1 := open_next_sector_fresh s i hi hz hmin
  have p1 : (open_next_sector s).write_sector_bitmap = 255 := by rw [e1]; rfl
  have p2 : (open_next_sector s).write_sector = (i + s.search_start_pos) % 3840 := by
    rw [e1]; rfl
  have p3 : (open_next_sector s).search_start_pos = (i + s.search_start_pos) % 3840 := by
    rw [e1]
  have p7 : (open_next_sector s).trace =
      s.trace ++ [FlashOp.erase ((i + s.search_start_pos) % 3840)] := by rw [e1]; rfl
  have p8 : ∀ a, (open_next_sector s).flash a =
      if 4096 * ((i + s.search_start_pos) % 3840) ≤ a ∧
        a < 4096 * ((i + s.search_start_pos) % 3840) + 4096 then 255 else s.flash a := by
    intro a
    rw [e1]
    exact flash_erase_sector_flash _ _ a
  rw [p1, lowest_bit_255] at t8 t9
  refine ⟨h, by omega, ⟨i, hi, rfl, hmin⟩, hz, ?_, t5.trans p2, ?_, t6.trans p3, ?_,
    t7.trans p7⟩
  · rw [t9, p2]
  · rw [t8]; decide
  · intro a
    rw [t1, p8 a]

/-- The search finds no completely free sector and falls back to the sector
`(i + search_start_pos) % 3840`, the first one with a free sub-slot. -/
theorem reclaimed_of_first (s : FS)
    (h : s.write_sector = 0 ∨ s.write_sector_bitmap = 0) (i : Nat) (hi : i < 3840)
    (hnz : ∀ q, q < 3840 → s.used_bitmap q ≠ 0)
    (hp : s.used_bitmap ((i + s.search_start_pos) % 3840) ≠ 255)
    (hub : s.used_bitmap ((i + s.search_start_pos) % 3840) < 256)
    (hmin : ∀ j, j < i → s.used_bitmap ((j + s.search_start_pos) % 3840) = 255) :
    ∃ o, Reclaimed s ((i + s.search_start_pos) % 3840) o := by
  have e0 := getNextWriteSector_of_search s h
  obtain ⟨t1, t2, t3, t4, t5, t6, t7, t8, t9⟩ := take_free_slot_spec (open_next_sector s)
  rw [← e0] at t1 t2 t3 t4 t5 t6 t7 t8 t9
  have hnz' : ∀ j, j < 3840 → s.used_bitmap ((j + s.search_start_pos) % 3840) ≠ 0 :=
    fun j _ => hnz _ (by omega)
  have e1 := open_next_sector_reclaim s i (le_of_lt hi) hnz' (fun _ => hp) hmin
  obtain ⟨⟨g1, g2, g3, g4, g5, g6⟩, g7, ops, g8, g9⟩ := flash_erase_with_copy_sector_spec
    { s with write_sector := (i + s.search_start_pos) % 3840,
             write_sector_bitmap :=
               bnot32 (s.used_bitmap ((i + s.search_start_pos) % 3840)) % 256 }
    ((i + s.search_start_pos) % 3840) (s.used_bitmap ((i + s.search_start_pos) % 3840))
  have p1 : (open_next_sector s).write_sector_bitmap =
      bnot32 (s.used_bitmap ((i + s.search_start_pos) % 3840)) % 256 := by
    rw [e1]; exact g5
  have p2 : (open_next_sector s).write_sector = (i + s.search_start_pos) % 3840 := by
    rw [e1]; exact g4
  have p3 : (open_next_sector s).search_start_pos = (i + s.search_start_pos) % 3840 := by
    rw [e1]
  have p7 : (open_next_sector s).trace =
      s.trace ++ FlashOp.erase ((i + s.search_start_pos) % 3840) :: ops := by
    rw [e1]; exact g8
  have p8 : ∀ a, (open_next_sector s).flash a =
      if 4096 * ((i + s.search_start_pos) % 3840) ≤ a ∧
        a < 4096 * ((i + s.search_start_pos) % 3840) + 4096
      then (if (s.used_bitmap ((i + s.search_start_pos) % 3840)).testBit
          ((a - 4096 * ((i + s.search_start_pos) % 3840)) / 512) = true
        then s.flash a else 255)
      else s.flash a := by
    intro a
    rw [e1]; exact g7 a
  have hplt : (i + s.search_start_pos) % 3840 < 3840 := by omega
  have hwlt : bnot32 (s.used_bitmap ((i + s.search_start_pos) % 3840)) % 256 < 256 := by
    omega
  obtain ⟨b1, b2, b3⟩ := lowest_bit _ hwlt (bnot8_ne_zero hub hp)
  rw [p1] at t8 t9
  refine ⟨_, h, hnz, hplt, ⟨i, hi, rfl, hmin⟩, hp, b1, ?_, ?_, ?_, t5.trans p2, t8,
    t6.trans p3, ?_, ops, t7.trans p7, g9⟩
  · rw [testBit_bnot8] at b2
    simp only [b1, decide_True, Bool.true_and, Bool.not_eq_true'] at b2
    exact b2
  · intro j hj
    have := b3 j hj
    rw [testBit_bnot8] at this
    have hj8 : j < 8 := by omega
    simp only [hj8, decide_True, Bool.true_and, Bool.not_eq_false'] at this
    exact this
  · rw [t9, p2]
  · intro a
    rw [t1, p8 a]

theorem release_previous_of_unmapped (s : FS) (l : Nat) (h : sectors s.fs_map l = 0) :
    release_previous s l = s := by
  unfold release_previous
  simp only []
  rw [if_neg (fun hh => hh h)]

/-- The bitmap after a write, byte by byte. -/
theorem write_used (s : FS) (l : Nat) (buf : List Nat) (q : Nat) :
    (flash_fs_write_FAT_sector s l buf).used_bitmap q =
      if q = getMapSector (getNextWriteSector (release_previous s l)).2
      then (release_previous s l).used_bitmap q |||
        (1 <<< getMapOffset (getNextWriteSector (release_previous s l)).2)
      else (release_previous s l).used_bitmap q := by
  obtain ⟨_, _, g3, _⟩ := flash_fs_write_FAT_sector_fields s l buf
  rw [g3, (getNextWriteSector_frame _).2.2]
  unfold store
  by_cases hq : q = getMapSector (getNextWriteSector (release_previous s l)).2
  · rw [if_pos hq, if_pos hq, hq]
  · rw [if_neg hq, if_neg hq]

theorem write_entry_same (s : FS) (l : Nat) (buf : List Nat) :
    sectors (flash_fs_write_FAT_sector s l buf).fs_map l =
      (getNextWriteSector (release_previous s l)).2 % 65536 := by
  obtain ⟨g1, _⟩ := flash_fs_write_FAT_sector_fields s l buf
  rw [g1, sectors_set_sectors_same]

/-! ## Persistence across a reboot, copy-on-write -/

theorem withinCapacity_create (s0 : FS) (l : Nat) : WithinCapacity (flash_fs_create s0) l := by
  unfold WithinCapacity
  rw [mapped_create]
  simp

theorem create_boot_used (q : Nat) :
    (flash_fs_create boot).used_bitmap q = if q < 15 then 255 else 0 := by
  rw [(flash_fs_create_spec boot).2.2.2.1]
  by_cases h : q < 15
  · rw [if_pos h, if_pos h]
  · rw [if_neg h, if_neg h]
    split <;> rfl

/-- The first write after a format at power-on goes to sub-slot 0 of physical sector 15. -/
theorem first_write (l : Nat) (hl : l < 30716) (buf : List Nat) :
    sectors (flash_fs_write_FAT_sector (flash_fs_create boot) l buf).fs_map l = 120 ∧
    (flash_fs_write_FAT_sector (flash_fs_create boot) l buf).search_start_pos = 15 := by
  have hE : sectors (flash_fs_create boot).fs_map l = 0 := by
    rw [(flash_fs_create_spec boot).1]
    exact create_map_sectors _ l hl
  have hws : (flash_fs_create boot).write_sector = 0 := (flash_fs_create_spec boot).2.2.2.2.1
  have hssp : (flash_fs_create boot).search_start_pos = 0 :=
    (flash_fs_create_spec boot).2.2.2.2.2.2.1
  have hfresh := openedFresh_of_first (flash_fs_create boot) (Or.inl hws) 15 (by decide)
    (by rw [hssp, create_boot_used]; rfl)
    (fun j hj => by
      rw [hssp, create_boot_used, if_pos (by omega)]
      decide)
  rw [hssp] at hfresh
  obtain ⟨_, _, _, _, f5, _, _, f8, _⟩ := hfresh
  obtain ⟨_, _, _, _, _, g6, _⟩ := flash_fs_write_FAT_sector_fields (flash_fs_create boot) l buf
  rw [write_entry_same, g6, release_previous_of_unmapped _ _ hE, f5, f8]
  exact ⟨by decide, by decide⟩

theorem one_write_demo_reachable : ReachableWithin one_write_demo :=
  ReachableWithin.write 5 _ (ReachableWithin.create boot) (by decide)
    (withinCapacity_create boot 5)

/-- Sync, reboot and mount lead to a state reachable within capacity again. -/
theorem reachableWithin_remount (s : FS) (h : ReachableWithin s) (s' : FS)
    (hflash : s'.flash = (flash_fs_sync s).flash) : ReachableWithin (flash_fs_mount s').1 := by
  obtain ⟨hg, hm⟩ := reachableWithin_inv h
  obtain ⟨hrc, hwf, _⟩ := remount_good s hg hm s' hflash
  exact ReachableWithin.mount s' hrc hwf

theorem reuse_demo_reachable :
    ReachableWithin (flash_fs_mount (flash_fs_sync one_write_demo)).1 :=
  reachableWithin_remount one_write_demo one_write_demo_reachable
    (flash_fs_sync one_write_demo) rfl

theorem reuse_demo_entries :
    sectors (flash_fs_mount (flash_fs_sync one_write_demo)).1.fs_map 5 = 120 ∧
    (∀ l, l < 30716 → l ≠ 5 →
      sectors (flash_fs_mount (flash_fs_sync one_write_demo)).1.fs_map l = 0) ∧
    (flash_fs_mount (flash_fs_sync one_write_demo)).1.write_sector = 0 ∧
    (flash_fs_mount (flash_fs_sync one_write_demo)).1.search_start_pos = 15 := by
  obtain ⟨hg, hm⟩ := reachableWithin_inv one_write_demo_reachable
  obtain ⟨_, hmap, _⟩ := remount_reads one_write_demo hm hg.entry_range
    (flash_fs_sync one_write_demo) rfl
  have hE : ∀ l, l < 30716 →
      sectors (flash_fs_mount (flash_fs_sync one_write_demo)).1.fs_map l =
        sectors one_write_demo.fs_map l := by
    intro l hl
    exact sectors_congr _ _ l hl hmap
  obtain ⟨_, _, _, m4, _, m6, m7⟩ := flash_fs_mount_spec (flash_fs_sync one_write_demo)
  obtain ⟨hrc, _, _⟩ := remount_good one_write_demo hg hm (flash_fs_sync one_write_demo) rfl
  obtain ⟨_, n2, _⟩ := m7 hrc
  obtain ⟨_, _, _, _, w5, _⟩ := write_fs_map_spec one_write_demo
  refine ⟨?_, ?_, ?_, ?_⟩
  · rw [hE 5 (by decide)]
    unfold one_write_demo
    exact (first_write 5 (by decide) _).1
  · intro l hl hne
    rw [hE l hl]
    unfold one_write_demo
    rw [write_entry_other _ _ _ _ hne, (flash_fs_create_spec boot).1]
    exact create_map_sectors _ l hl
  · exact n2
  · rw [m4]
    unfold flash_fs_sync
    rw [w5]
    unfold one_write_demo
    exact (first_write 5 (by decide) _).2

/-- When no logical sector other than 5 is mapped, no sector is open and the cursor is at
sector 15, a write of logical sector 5 is given sub-slot 0 of physical sector 15, whether
or not that is the slot it has just released. -/
theorem write_reuses_slot (s : FS) (hg : Good s)
    (e2 : ∀ l, l < 30716 → l ≠ 5 → sectors s.fs_map l = 0)
    (e3 : s.write_sector = 0) (e4 : s.search_start_pos = 15) (buf : List Nat) :
    ((flash_fs_write_FAT_sector s 5 buf).used_bitmap 15).testBit 0 = true := by
  obtain ⟨r1, r2, r3, r4, r5, r6, r7⟩ := release_previous_frame s 5
  have hs : getMapSector 120 = 15 := by decide
  have ho : getMapOffset 120 = 0 := by decide
  have hzero : (release_previous s 5).used_bitmap 15 = 0 := by
    have hlt : (release_previous s 5).used_bitmap 15 < 256 :=
      lt_of_le_of_lt (release_previous_used_le _ _ _) (hg.used_byte 15 (by decide))
    apply (byte_eq_zero_iff hlt).2
    intro j hj
    by_contra hset
    obtain ⟨l', hl', hne, hel⟩ :=
      (release_previous_used_iff s hg 5 (by decide) 15 j (by decide) (by decide) hj).1
        (by simpa using hset)
    rw [e2 l' hl' hne] at hel
    omega
  have h15 : (0 + 15) % 3840 = 15 := by decide
  have hfresh := openedFresh_of_first (release_previous s 5)
    (Or.inl (by rw [r4]; exact e3)) 0 (by decide)
    (by rw [r6, e4, h15]; exact hzero)
    (fun j hj => absurd hj (by omega))
  rw [r6, e4, h15] at hfresh
  obtain ⟨_, _, _, _, f5, _⟩ := hfresh
  have f5' : (getNextWriteSector (release_previous s 5)).2 = 120 := by
    rw [f5]; decide
  rw [write_used, f5', hs, ho, if_pos rfl, hzero]
  decide

/-- C9, counterexample. After a format at power-on, one write of logical sector 5, a sync
and a remount, logical sector 5 is mapped to sub-slot 0 of physical sector 15; the next
write of logical sector 5 releases that slot, finds sector 15 completely free, erases it
and hands out the same slot again: afterwards bit 0 of `used_bitmap[15]` is set, not
cleared. -/
theorem slot_reused_at_once :
    sectors (flash_fs_mount (flash_fs_sync one_write_demo)).1.fs_map 5 = 120 ∧
    getMapSector 120 = 15 ∧ getMapOffset 120 = 0 ∧
    ((flash_fs_write_FAT_sector (flash_fs_mount (flash_fs_sync one_write_demo)).1 5
      (List.replicate 512 2)).used_bitmap 15).testBit 0 = true :=
  ⟨reuse_demo_entries.1, by decide, by decide,
    write_reuses_slot _ (reachableWithin_inv reuse_demo_reachable).1
      reuse_demo_entries.2.1 reuse_demo_entries.2.2.1 reuse_demo_entries.2.2.2 _⟩

/-- C9, amended (copy-on-write). In every state reachable within capacity, if logical
sector `l` is mapped to the slot `(p, o)` and `flash_fs_write_FAT_sector(l, buf)` is
called, then afterwards bit `o` of `used_bitmap[p]` is clear unless the allocator handed
out that very slot again (the map entry of `l` is then unchanged), and the 512 flash bytes
of the slot `(p, o)` are unchanged unless the allocator erased physical sector `p` during
the call. -/
theorem copy_on_write (s : FS) (hs : ReachableWithin s) (l : Nat) (hl : l < 30716)
    (buf : List Nat) (hmapped : sectors s.fs_map l ≠ 0) :
    (((flash_fs_write_FAT_sector s l buf).used_bitmap
          (getMapSector (sectors s.fs_map l))).testBit
        (getMapOffset (sectors s.fs_map l)) = false ∨
      sectors (flash_fs_write_FAT_sector s l buf).fs_map l = sectors s.fs_map l) ∧
    ∃ ops, (flash_fs_write_FAT_sector s l buf).trace = s.trace ++ ops ∧
      ((∀ k, k < 512 →
        (flash_fs_write_FAT_sector s l buf).flash
            (4096 * getMapSector (sectors s.fs_map l) +
              512 * getMapOffset (sectors s.fs_map l) + k) =
          s.flash (4096 * getMapSector (sectors s.fs_map l) +
              512 * getMapOffset (sectors s.fs_map l) + k)) ∨
        FlashOp.erase (getMapSector (sectors s.fs_map l)) ∈ ops) := by
  obtain ⟨_, _, _, _, _, _, h7⟩ :=
    write_good s (reachableWithin_inv hs).1 l hl buf (Or.inl hmapped)
  exact h7 hmapped

theorem copy_on_write_witness :
    ∃ ops, (flash_fs_write_FAT_sector one_write_demo 5 []).trace =
        one_write_demo.trace ++ ops ∧
      ((∀ k, k < 512 →
        (flash_fs_write_FAT_sector one_write_demo 5 []).flash
            (4096 * getMapSector (sectors one_write_demo.fs_map 5) +
              512 * getMapOffset (sectors one_write_demo.fs_map 5) + k) =
          one_write_demo.flash (4096 * getMapSector (sectors one_write_demo.fs_map 5) +
              512 * getMapOffset (sectors one_write_demo.fs_map 5) + k)) ∨
        FlashOp.erase (getMapSector (sectors one_write_demo.fs_map 5)) ∈ ops) :=
  (copy_on_write one_write_demo one_write_demo_reachable 5 (by decide) []
    (by rw [show sectors one_write_demo.fs_map 5 = 120 from (first_write 5 (by decide) _).1]
        decide)).2

theorem model_two_writes :
    model_all blank_disk [(17, List.replicate 512 0xAB), (2000, List.replicate 512 0xCD)] 17 =
      List.replicate 512 0xAB ∧
    model_all blank_disk [(17, List.replicate 512 0xAB), (2000, List.replicate 512 0xCD)] 2000 =
      List.replicate 512 0xCD ∧
    model_all blank_disk [(17, List.replicate 512 0xAB), (2000, List.replicate 512 0xCD)] 42 =
      List.replicate 512 0 := ⟨rfl, rfl, rfl⟩

/-- C2 (persistence across sync and remount). After `flash_fs_create` and any sequence of
`flash_fs_write_FAT_sector` calls on logical sectors below 30716, let the map be synced
and the device rebooted: in any state `s'` whose flash is the flash left by
`flash_fs_sync` (whatever its RAM holds), `flash_fs_mount` returns 0 and every logical
sector below 30716 reads exactly what it read before the reboot. -/
theorem persistence (s0 : FS) (ws : List (Nat × List Nat))
    (hws : ∀ w, w ∈ ws → w.1 < 30716) (s' : FS)
    (hreboot : s'.flash = (flash_fs_sync (write_all (flash_fs_create s0) ws)).flash) :
    (flash_fs_mount s').2 = 0 ∧
    ∀ l, l < 30716 →
      flash_fs_read_FAT_sector (flash_fs_mount s').1 l =
        flash_fs_read_FAT_sector (write_all (flash_fs_create s0) ws) l := by
  have hr := write_all_reachable _ (Reachable.create s0) ws hws
  have hm := reachable_metaInv hr
  obtain ⟨h1, _, h3⟩ := remount_reads _ (metaInv_mapOnFlash hm) hm.entry_range s' hreboot
  exact ⟨h1, h3⟩

/-- The example of C2: after writing 512 bytes `0xAB` to sector 17 and 512 bytes `0xCD` to
sector 2000, sync and reboot, the mount returns 0, sector 17 reads `0xAB`.., sector 2000
reads `0xCD`.. and sector 42 reads zeros. -/
theorem persistence_witness :
    (flash_fs_mount (flash_fs_sync (write_all (flash_fs_create boot)
      [(17, List.replicate 512 0xAB), (2000, List.replicate 512 0xCD)]))).2 = 0 ∧
    flash_fs_read_FAT_sector (flash_fs_mount (flash_fs_sync (write_all (flash_fs_create boot)
      [(17, List.replicate 512 0xAB), (2000, List.replicate 512 0xCD)]))).1 17 =
      List.replicate 512 0xAB ∧
    flash_fs_read_FAT_sector (flash_fs_mount (flash_fs_sync (write_all (flash_fs_create boot)
      [(17, List.replicate 512 0xAB), (2000, List.replicate 512 0xCD)]))).1 2000 =
      List.replicate 512 0xCD ∧
    flash_fs_read_FAT_sector (flash_fs_mount (flash_fs_sync (write_all (flash_fs_create boot)
      [(17, List.replicate 512 0xAB), (2000, List.replicate 512 0xCD)]))).1 42 =
      List.replicate 512 0 := by
  obtain ⟨h1, h2⟩ := persistence boot
    [(17, List.replicate 512 0xAB), (2000, List.replicate 512 0xCD)]
    (by
      intro w hw
      simp only [List.mem_cons, List.mem_singleton, List.not_mem_nil, or_false] at hw
      rcases hw with h | h <;> subst h <;> decide)
    (flash_fs_sync (write_all (flash_fs_create boot)
      [(17, List.replicate 512 0xAB), (2000, List.replicate 512 0xCD)])) rfl
  obtain ⟨_, hrt⟩ := round_trip_bounded boot
    [(17, List.replicate 512 0xAB), (2000, List.replicate 512 0xCD)]
    (by
      intro w hw
      simp only [List.mem_cons, List.mem_singleton, List.not_mem_nil, or_false] at hw
      rcases hw with h | h <;> subst h <;> exact ⟨by decide, List.length_replicate _ _⟩)
    (by decide)
  obtain ⟨m1, m2, m3⟩ := model_two_writes
  refine ⟨h1, ?_, ?_, ?_⟩
  · rw [h2 17 (by decide), hrt 17 (by decide), m1]
  · rw [h2 2000 (by decide), hrt 2000 (by decide), m2]
  · rw [h2 42 (by decide), hrt 42 (by decide), m3]

/-! ## Counterexamples -/

theorem model_all_append (m : Nat → List Nat) (ws vs : List (Nat × List Nat)) :
    model_all m (ws ++ vs) = model_all (model_all m ws) vs := by
  unfold model_all
  rw [List.foldl_append]

theorem model_all_range (m : Nat → List Nat) (g : Nat → List Nat) (n l : Nat) :
    model_all m ((List.range n).map (fun k => (k, g k))) l = if l < n then g l else m l := by
  induction n with
  | zero => simp [model_all]
  | succ n ih =>
    rw [List.range_succ, List.map_append, model_all_append]
    show model_write (model_all m _) (n, g n) l = _
    unfold model_write
    by_cases hl : l = n
    · subst hl
      simp
    · rw [if_neg hl, ih]
      by_cases hlt : l < n
      · rw [if_pos hlt, if_pos (by omega)]
      · rw [if_neg hlt, if_neg (by omega)]

theorem fill_writes_lt (w : Nat × List Nat) (hw : w ∈ fill_writes) : w.1 < 30716 := by
  unfold fill_writes at hw
  rw [List.mem_map] at hw
  obtain ⟨k, hk, hkw⟩ := hw
  rw [List.mem_range] at hk
  rw [← hkw]
  show k < 30716
  omega

theorem fill_payload_ne_zero (l : Nat) : fill_payload l ≠ List.replicate 512 0 := by
  intro h
  have h2 : (fill_payload l).getD 2 0 = (List.replicate 512 0).getD 2 0 := by rw [h]
  have h3 : (fill_payload l).getD 2 0 = 0xAA := rfl
  have h4 : (List.replicate 512 0).getD 2 0 = 0 := rfl
  omega

theorem fill_payload_inj (x y : Nat) (hx : x < 65536) (hy : y < 65536)
    (h : fill_payload x = fill_payload y) : x = y := by
  unfold fill_payload at h
  simp only [List.cons_append, List.nil_append, List.cons.injEq, and_true] at h
  omega

theorem read_eq_of_entry_eq (s : FS) (x y : Nat)
    (h : sectors s.fs_map x = sectors s.fs_map y) :
    flash_fs_read_FAT_sector s x = flash_fs_read_FAT_sector s y := by
  unfold flash_fs_read_FAT_sector
  simp only [h]

/-- C1, the failing input. Format at power-on, then write the logical sectors 0 .. 30600
once each, every one with a payload of its own: afterwards it is not the case that every
logical sector reads the last payload written to it. The data region has 30600 slots;
the write that needs slot 30601 is given a slot that already holds another logical
sector. -/
theorem full_disk_breaks_round_trip :
    ¬ ∀ l, l < 30716 →
      flash_fs_read_FAT_sector (write_all (flash_fs_create boot) fill_writes) l =
        model_all blank_disk fill_writes l := by
  intro hrt
  have hr := write_all_reachable _ (Reachable.create boot) fill_writes fill_writes_lt
  have hm := reachable_metaInv hr
  have hmodel : ∀ l, l < 30601 → model_all blank_disk fill_writes l = fill_payload l := by
    intro l hl
    unfold fill_writes
    rw [model_all_range, if_pos hl]
  have hread : ∀ l, l < 30601 →
      flash_fs_read_FAT_sector (write_all (flash_fs_create boot) fill_writes) l =
        fill_payload l := by
    intro l hl
    rw [hrt l (by omega), hmodel l hl]
  have hrange : ∀ l, l ∈ Finset.range 30601 →
      sectors (write_all (flash_fs_create boot) fill_writes).fs_map l ∈
        Finset.Ico 120 30720 := by
    intro l hl
    rw [Finset.mem_range] at hl
    rw [Finset.mem_Ico]
    rcases hm.entry_range l (by omega) with h0 | h1
    · exfalso
      have := read_unmapped _ l h0
      rw [hread l hl] at this
      exact fill_payload_ne_zero l this
    · exact h1
  have hcard : (Finset.Ico 120 30720).card < (Finset.range 30601).card := by
    simp
  obtain ⟨x, hx, y, hy, hne, hxy⟩ :=
    Finset.exists_ne_map_eq_of_card_lt_of_maps_to hcard hrange
  rw [Finset.mem_range] at hx hy
  have := read_eq_of_entry_eq _ x y hxy
  rw [hread x hx, hread y hy] at this
  exact hne (fill_payload_inj x y (by omega) (by omega) this)

theorem alias_image_magic : (List.range 8).map alias_image = MAGIC_8_BYTES := by
  rfl

theorem alias_demo_entries :
    (flash_fs_mount { boot with flash := alias_image }).2 = 0 ∧
    sectors alias_demo.fs_map 0 = 120 ∧ sectors alias_demo.fs_map 1 = 120 := by
  obtain ⟨_, _, _, _, _, m6, m7⟩ := flash_fs_mount_spec { boot with flash := alias_image }
  have hrc := m6.2 alias_image_magic
  obtain ⟨n1, _, _⟩ := m7 hrc
  have hE : ∀ l, l < 30716 → sectors alias_demo.fs_map l = sectors alias_image l := by
    intro l hl
    unfold alias_demo
    apply sectors_congr _ _ l hl
    intro k hk
    rw [n1 k, if_pos hk]
  refine ⟨hrc, ?_, ?_⟩
  · rw [hE 0 (by decide)]
    rfl
  · rw [hE 1 (by decide)]
    rfl

/-- C5, counterexample. Mounting at power-on a flash image that carries the magic header
and a map in which the logical sectors 0 and 1 name the same slot succeeds, and in the
mounted state the set bit of that slot does not belong to exactly one logical sector. -/
theorem shared_slot_after_mount :
    ReachableOrMounted alias_demo ∧ ¬ MapBitmapInvariant alias_demo := by
  obtain ⟨hrc, e0, e1⟩ := alias_demo_entries
  refine ⟨ReachableOrMounted.mount _ hrc, ?_⟩
  rintro ⟨_, h2, h3⟩
  have hs : getMapSector 120 = 15 := by decide
  have ho : getMapOffset 120 = 0 := by decide
  have hb := h2 0 (by decide) (by rw [e0]; decide)
  rw [e0, hs, ho] at hb
  obtain ⟨l, _, huniq⟩ := h3 15 0 (by decide) (by decide) (by decide) hb
  have u0 := huniq 0 ⟨by decide, by rw [e0]; decide, by rw [e0, hs], by rw [e0, ho]⟩
  have u1 := huniq 1 ⟨by decide, by rw [e1]; decide, by rw [e1, hs], by rw [e1, ho]⟩
  omega

theorem stray_image_magic : (List.range 8).map stray_image = MAGIC_8_BYTES := by
  rfl

theorem stray_image_sectors (l : Nat) : sectors stray_image l = stray_entry l := by
  unfold sectors stray_image
  have h1 : ¬ (8 + 2 * l < 8) := by omega
  have h2 : ¬ (8 + 2 * l + 1 < 8) := by omega
  have h3 : (8 + 2 * l) % 2 = 0 := by omega
  have h4 : ¬ ((8 + 2 * l + 1) % 2 = 0) := by omega
  have h5 : (8 + 2 * l - 8) / 2 = l := by omega
  have h6 : (8 + 2 * l + 1 - 8) / 2 = l := by omega
  simp only [h1, h2, h3, h4, h5, h6, if_true, if_false]
  omega

/-- The state after mounting `stray_image`: the mount succeeds; the map is the image; no
physical sector is completely free; the cursor is at 0. -/
theorem stray_mounted_spec :
    (flash_fs_mount { boot with flash := stray_image }).2 = 0 ∧
    (∀ l, l < 30716 → sectors stray_mounted.fs_map l = stray_entry l) ∧
    stray_mounted.fs_map 4096 = 80 ∧
    (∀ q, q < 15 → stray_mounted.used_bitmap q = 255) ∧
    (∀ q, q < 3840 → stray_mounted.used_bitmap q ≠ 0) ∧
    stray_mounted.write_sector = 0 ∧ stray_mounted.search_start_pos = 0 ∧
    stray_mounted.fs_map_needs_written 1 = false := by
  obtain ⟨_, _, _, m4, m5, m6, m7⟩ := flash_fs_mount_spec { boot with flash := stray_image }
  have hrc := m6.2 stray_image_magic
  obtain ⟨n1, n2, n3⟩ := m7 hrc
  have hE : ∀ l, l < 30716 → sectors stray_mounted.fs_map l = stray_entry l := by
    intro l hl
    rw [← stray_image_sectors l]
    unfold stray_mounted
    apply sectors_congr _ _ l hl
    intro k hk
    rw [n1 k, if_pos hk]
  have hws : stray_mounted.write_sector = 0 := by unfold stray_mounted; rw [n2]
  have hssp : stray_mounted.search_start_pos = 0 := by unfold stray_mounted; rw [m4]; rfl
  have hfl : stray_mounted.fs_map_needs_written 1 = false := by
    unfold stray_mounted; rw [m5 1 (by decide)]
  refine ⟨hrc, hE, ?_, ?_, ?_, hws, hssp, hfl⟩
  · unfold stray_mounted
    rw [n1 4096, if_pos (by omega)]
    rfl
  · intro q hq
    unfold stray_mounted
    rw [n3]
    exact init_used_bitmap_meta _ q hq
  · intro q hq
    by_cases h15 : q < 15
    · unfold stray_mounted
      rw [n3, init_used_bitmap_meta _ q h15]
      decide
    · have hbit : (stray_mounted.used_bitmap q).testBit 0 = true := by
        have e1 : stray_mounted.used_bitmap q =
            (init_used_bitmap stray_mounted).used_bitmap q := by
          unfold stray_mounted
          rw [← n3]
        rw [e1, init_used_bitmap_testBit _ q 0 hq]
        right
        have hEq : sectors stray_mounted.fs_map (q - 14) = 8 * q := by
          rw [hE (q - 14) (by omega)]
          unfold stray_entry
          rw [if_neg (by omega), if_pos (by omega)]
          omega
        have hslot := entry_slot (show 8 * q < 30720 by omega)
        refine ⟨q - 14, ?_, ?_, ?_, ?_⟩
        · show q - 14 < 30716
          omega
        · rw [hEq]; omega
        · rw [hEq, hslot.1]; omega
        · rw [hEq, hslot.2]; omega
      intro h0
      rw [h0] at hbit
      simp at hbit

/-- C7, counterexample. Mount at power-on a flash image with the magic header whose map
gives logical sector 0 a slot of metadata sector 1, then write logical sector 0. The
allocator reclaims that slot and the payload is programmed into metadata sector 1, whose
dirty flag stays clear: the sector no longer holds its block of the RAM map. -/
theorem metadata_overwritten_after_mount :
    ReachableOrMounted stray_demo ∧ ¬ SyncContract stray_demo := by
  obtain ⟨hrc, hE, h80, hmeta, hnz, hws, hssp, hflag⟩ := stray_mounted_spec
  refine ⟨ReachableOrMounted.write 0 _ (ReachableOrMounted.mount _ hrc) (by decide), ?_⟩
  have hE0 : sectors stray_mounted.fs_map 0 = 8 := by rw [hE 0 (by decide)]; rfl
  have hs8 : getMapSector 8 = 1 := by decide
  have ho8 : getMapOffset 8 = 0 := by decide
  obtain ⟨r1, r2, r3, r4, r5, r6, r7⟩ := release_previous_frame stray_mounted 0
  have hused : ∀ q, (release_previous stray_mounted 0).used_bitmap q =
      if q = 1 then 254 else stray_mounted.used_bitmap q := by
    intro q
    rw [release_previous_used, hE0, hs8, ho8]
    by_cases hq : q = 1
    · rw [if_pos ⟨by decide, hq⟩, if_pos hq, hq, hmeta 1 (by decide)]
      decide
    · rw [if_neg (fun h => hq h.2), if_neg hq]
  have h1 : (1 + (release_previous stray_mounted 0).search_start_pos) % 3840 = 1 := by
    rw [r6, hssp]
  have hrec := reclaimed_of_first (release_previous stray_mounted 0)
    (Or.inl (by rw [r4, hws])) 1 (by decide)
    (by
      intro q hq
      rw [hused q]
      by_cases hq1 : q = 1
      · rw [if_pos hq1]; decide
      · rw [if_neg hq1]; exact hnz q hq)
    (by rw [h1, hused 1, if_pos rfl]; decide)
    (by rw [h1, hused 1, if_pos rfl]; decide)
    (by
      intro j hj
      have hj0 : j = 0 := by omega
      rw [hj0, r6, hssp, hused 0, if_neg (by decide)]
      exact hmeta 0 (by decide))
  rw [h1] at hrec
  obtain ⟨o, _, _, _, _, _, ho, hbo, hlow, he, _, _, _, hflash, _⟩ := hrec
  have ho0 : o = 0 := by
    by_contra hne
    have := hlow 0 (by omega)
    rw [hused 1, if_pos rfl] at this
    exact absurd this (by decide)
  rw [ho0] at he
  have he8 : (getNextWriteSector (release_previous stray_mounted 0)).2 = 8 := by
    rw [he]; decide
  have hfl : (getNextWriteSector (release_previous stray_mounted 0)).1.flash 4096 = 255 := by
    rw [hflash 4096, if_pos ⟨by decide, by decide⟩, hused 1, if_pos rfl]
    rfl
  obtain ⟨g1, _, _, _, _, _, _, g8⟩ :=
    flash_fs_write_FAT_sector_fields stray_mounted 0 (List.replicate 512 1)
  have hflash'' : stray_demo.flash 4096 = 1 := by
    unfold stray_demo
    rw [g8 4096, he8, hs8, ho8, if_pos ⟨by decide, by decide⟩, hfl]
    rfl
  have hmap'' : stray_demo.fs_map 4096 = 80 := by
    unfold stray_demo
    rw [g1, set_sectors_apply_other _ 0 _ 4096 (by decide) (by decide),
      (getNextWriteSector_frame _).1, r2]
    exact h80
  have hflag'' : stray_demo.fs_map_needs_written 1 = false := by
    unfold stray_demo
    rw [write_flags, if_neg (by decide)]
    exact hflag
  rintro ⟨c1, _⟩
  have := c1 1 (by decide) hflag'' 0 (by decide)
  rw [show 4096 * 1 + 0 = 4096 from rfl, hflash'', hmap''] at this
  exact absurd this (by decide)

/-! ## The block adapter -/

/-- C11, counterexample. On an adapter that is not mounted, a read and a write at start
sector 30716 are answered with `RES_ERROR`, not with the parameter error. -/
theorem unmounted_range_error :
    (fatfs_disk_read unmounted_disk (fun _ => 0) 30716 1).2.2 = DRESULT.RES_ERROR ∧
    (fatfs_disk_write unmounted_disk (fun _ => 0) 30716 1).2 = DRESULT.RES_ERROR ∧
    DRESULT.RES_ERROR ≠ DRESULT.RES_PARERR :=
  ⟨rfl, rfl, by decide⟩

/-- C11, amended (range check of the block adapter). For a start sector of 30716 or more,
`fatfs_disk_read` and `fatfs_disk_write` return the parameter error `RES_PARERR` when the
file system is mounted and `RES_ERROR` when it is not; in both cases they call no function
of the translation layer and leave its state and the caller's buffer as they are. -/
theorem range_check (d : Disk) (buff : Nat → Nat) (sector count : Nat)
    (hs : 30716 ≤ sector) :
    fatfs_disk_read d buff sector count =
      (d, buff, if d.flashfs_is_mounted = true then DRESULT.RES_PARERR
        else DRESULT.RES_ERROR) ∧
    fatfs_disk_write d buff sector count =
      (d, if d.flashfs_is_mounted = true then DRESULT.RES_PARERR else DRESULT.RES_ERROR) := by
  have hge : sector ≥ SECTOR_NUM := hs
  unfold fatfs_disk_read fatfs_disk_write
  cases hm : d.flashfs_is_mounted
  · simp
  · simp [hge]

theorem range_check_witness :
    fatfs_disk_read fresh_disk (fun _ => 0) 30716 1 =
      (fresh_disk, fun _ => 0, DRESULT.RES_PARERR) ∧
    fatfs_disk_write fresh_disk (fun _ => 0) 30716 1 = (fresh_disk, DRESULT.RES_PARERR) :=
  range_check fresh_disk (fun _ => 0) 30716 1 (by omega)
/-! ## The file loader -/

theorem f_read_ok (f : FIL) (btr : Nat) (h : f.fails f.ops.length = false) :
    f_read f btr =
      ({ f with fptr := f.fptr + min btr (f.size - f.fptr),
                ops := f.ops ++ [FileOp.read btr] },
        some ((List.range (min btr (f.size - f.fptr))).map (fun k => f.data (f.fptr + k)))) := by
  unfold f_read
  rw [if_neg (by rw [h]; decide)]

theorem f_read_fail (f : FIL) (btr : Nat) (h : f.fails f.ops.length = true) :
    f_read f btr = ({ f with ops := f.ops ++ [FileOp.read btr] }, none) := by
  unfold f_read
  rw [if_pos h]

/-- The bytes that a read of `btr` bytes at position `p` takes from a file with the
contents `content`. -/
theorem read_bytes_eq (content : List Nat) (p btr : Nat) :
    (List.range (min btr (content.length - p))).map (fun k => content.getD (p + k) 0) =
      (content.drop p).take btr := by
  have hlen : ((content.drop p).take btr).length = min btr (content.length - p) := by
    simp
  rw [← list_eq_map_getD ((content.drop p).take btr) _ hlen]
  apply List.map_congr_left
  intro k hk
  rw [List.mem_range] at hk
  have hk1 : k < btr := lt_of_lt_of_le hk (min_le_left _ _)
  simp only [List.getD_eq_getElem?_getD, List.getElem?_take, List.getElem?_drop, hk1, if_true]

/-- Reading the image from a file on which no call fails, with the read/write pointer at
`p`: more than the `128 KiB - dst` bytes that fit end in the "too big" error; otherwise the
rest of the file is in `cart_ram` from `dst` on and the file is classified by its size. -/
theorem read_image_eq (g : Loader) (car xex : Bool) (f : FIL) (content : List Nat) (p : Nat)
    (hdata : ∀ k, f.data k = content.getD k 0) (hsize : f.size = content.length)
    (hp : f.fptr = p) (hfail : ∀ k, f.fails k = false) (t e : Nat) :
    read_image g car xex f t e =
      if 128 * 1024 - load_offset xex < (content.drop p).length then
        ({ cart_ram := store_bytes g.cart_ram (load_offset xex)
              ((content.drop p).take (128 * 1024 - load_offset xex)),
           errorBuf := "Cart file/XEX too big (>128k)" }, none)
      else
        classify { cart_ram := store_bytes g.cart_ram (load_offset xex) (content.drop p),
                   errorBuf := "Can't read file" } car xex t e (content.drop p).length := by
  have hbytes : ∀ btr q, (List.range (min btr (f.size - q))).map (fun k => f.data (q + k)) =
      (content.drop q).take btr := by
    intro btr q
    rw [hsize, ← read_bytes_eq]
    apply List.map_congr_left
    intro k _
    exact hdata _
  unfold read_image
  simp only []
  rw [f_read_ok f _ (hfail _)]
  simp only []
  rw [hbytes, hp]
  have hdst : (if xex = true then 4 else 0) = load_offset xex := rfl
  rw [hdst]
  have hlen : (content.drop p).length = content.length - p := List.length_drop _ _
  by_cases hbig : 128 * 1024 - load_offset xex < (content.drop p).length
  · rw [if_pos hbig]
    have h1 : ((content.drop p).take (128 * 1024 - load_offset xex)).length =
        128 * 1024 - load_offset xex := by
      rw [List.length_take]; omega
    rw [if_pos h1]
    simp only [f_read, hfail, Bool.false_eq_true, if_false]
    have h2 : ((List.range (min 1 (f.size - (p + min (128 * 1024 - load_offset xex)
        (f.size - p))))).map (fun k => f.data (p + min (128 * 1024 - load_offset xex)
        (f.size - p) + k))).length = 1 := by
      rw [List.length_map, List.length_range, hsize]
      omega
    rw [if_pos h2]
  · rw [if_neg hbig]
    have h0 : (content.drop p).take (128 * 1024 - load_offset xex) = content.drop p :=
      List.take_of_length_le (by omega)
    rw [h0]
    by_cases heq : (content.drop p).length = 128 * 1024 - load_offset xex
    · rw [if_pos heq]
      simp only [f_read, hfail, Bool.false_eq_true, if_false]
      have h2 : ((List.range (min 1 (f.size - (p + min (128 * 1024 - load_offset xex)
          (f.size - p))))).map (fun k => f.data (p + min (128 * 1024 - load_offset xex)
          (f.size - p) + k))).length ≠ 1 := by
        rw [List.length_map, List.length_range, hsize]
        omega
      rw [if_neg h2]
    · rw [if_neg heq]

theorem car_table_big (b : Nat) (h : 70 ≤ b) : car_table b = none := by
  unfold car_table
  repeat rw [if_neg (by omega)]

theorem car_table_none_iff (b : Nat) : car_table b = none ↔ b ∉ supported_car_types := by
  by_cases hb : b < 70
  · interval_cases b <;> decide
  · rw [car_table_big b (by omega)]
    refine ⟨fun _ => ?_, fun _ => rfl⟩
    simp only [supported_car_types, List.mem_cons, List.mem_singleton, List.not_mem_nil,
      or_false]
    omega

theorem car_table_check (b : Nat) :
    (car_table b).all
      (fun r => decide (r.1 ≠ CART_TYPE_NONE ∧ r.1 ≤ 34 ∧ 0 < r.2 ∧ r.2 ≤ 131072)) = true := by
  by_cases hb : b < 70
  · interval_cases b <;> decide
  · rw [car_table_big b (by omega)]
    rfl

theorem car_table_some (b kind exp : Nat) (h : car_table b = some (kind, exp)) :
    kind ≠ CART_TYPE_NONE ∧ kind ≤ 34 ∧ 0 < exp ∧ exp ≤ 131072 := by
  have hc := car_table_check b
  rw [h] at hc
  simpa using hc

theorem read_car_header_other (f : FIL) :
    read_car_header false f = Except.ok (f, CART_TYPE_NONE, 0) := rfl

theorem read_car_header_car (content : List Nat) (fails : Nat → Bool) (h0 : fails 0 = false)
    (h16 : 16 ≤ content.length) :
    read_car_header true (open_file content fails) =
      match car_table (content.getD 7 0) with
      | some (cart_type, expectedSize) =>
        Except.ok ({ open_file content fails with fptr := 16, ops := [FileOp.read 16] },
          cart_type, expectedSize)
      | none => Except.error "Unsupported CAR type" := by
  unfold read_car_header
  rw [if_pos rfl, f_read_ok _ _ h0]
  simp only []
  have hmin : min 16 ((open_file content fails).size - (open_file content fails).fptr) = 16 := by
    show min 16 (content.length - 0) = 16
    omega
  rw [hmin]
  have hlen : ((List.range 16).map
      (fun k => (open_file content fails).data ((open_file content fails).fptr + k))).length
        = 16 := by simp
  rw [if_neg (by rw [hlen]; decide)]
  have h7 : ((List.range 16).map
      (fun k => (open_file content fails).data ((open_file content fails).fptr + k))).getD 7 0
        = content.getD 7 0 := by
    rw [List.getD_eq_getElem?_getD, List.getElem?_map,
      List.getElem?_range (by omega : 7 < 16)]
    show content.getD (0 + 7) 0 = content.getD 7 0
    rfl
  rw [h7]
  rfl

theorem classify_errorBuf (g : Loader) (car xex : Bool) (t e size : Nat) :
    (classify g car xex t e size).1.errorBuf = g.errorBuf ∨
    (classify g car xex t e size).1.errorBuf = "CAR file is wrong size" ∨
    (classify g car xex t e size).1.errorBuf = "Unsupported ROM size " := by
  unfold classify
  split_ifs <;> simp

/-- Whatever the later reads do, the text that reading the image leaves in `errorBuf` is
one of four, none of them the text for an unsupported CAR type. -/
theorem read_image_errorBuf (g : Loader) (car xex : Bool) (f : FIL) (t e : Nat) :
    (read_image g car xex f t e).1.errorBuf ≠ "Unsupported CAR type" := by
  have hc : ∀ (g2 : Loader) (size : Nat), g2.errorBuf = "Can't read file" →
      (classify g2 car xex t e size).1.errorBuf ≠ "Unsupported CAR type" := by
    intro g2 size hg2
    rcases classify_errorBuf g2 car xex t e size with h | h | h
    · rw [h, hg2]; decide
    · rw [h]; decide
    · rw [h]; decide
  unfold read_image
  simp only []
  generalize (if xex = true then 4 else 0) = d
  rcases f_read f (128 * 1024 - d) with ⟨f2, _ | bytes⟩
  · simp only []
    decide
  · simp only []
    by_cases hlen : bytes.length = 128 * 1024 - d
    · rw [if_pos hlen]
      rcases f_read f2 1 with ⟨f3, _ | more⟩
      · simp only []
        decide
      · simp only []
        by_cases hmore : more.length = 1
        · rw [if_pos hmore]
          simp only []
          decide
        · rw [if_neg hmore]
          exact hc _ _ rfl
    · rw [if_neg hlen]
      exact hc _ _ rfl

theorem load_file_open (g : Loader) (filename : String) (fil : FIL) :
    load_file g filename true (some fil) =
      match load_image g (has_ext filename ".CAR") (has_ext filename ".XEX") fil with
      | (g1, none) => (g1, CART_TYPE_NONE)
      | (g1, some cart_type) =>
        ({ g1 with cart_ram := small_cart_layout g1.cart_ram cart_type }, cart_type) := rfl

/-- A CAR file whose header can be read and names an unsupported type. -/
theorem load_image_unsupported (g : Loader) (xex : Bool) (content : List Nat)
    (fails : Nat → Bool) (h0 : fails 0 = false) (h16 : 16 ≤ content.length)
    (htab : car_table (content.getD 7 0) = none) :
    load_image g true xex (open_file content fails) =
      ({ g with errorBuf := "Unsupported CAR type" }, none) := by
  unfold load_image
  rw [read_car_header_car content fails h0 h16, htab]

/-- A CAR file whose header can be read and names a supported type. -/
theorem load_image_supported (g : Loader) (xex : Bool) (content : List Nat)
    (fails : Nat → Bool) (h0 : fails 0 = false) (h16 : 16 ≤ content.length)
    (kind exp : Nat) (htab : car_table (content.getD 7 0) = some (kind, exp)) :
    load_image g true xex (open_file content fails) =
      read_image g true xex
        { open_file content fails with fptr := 16, ops := [FileOp.read 16] } kind exp := by
  unfold load_image
  rw [read_car_header_car content fails h0 h16, htab]

/-- C12 (CAR type table). For a `.CAR` file whose 16-byte header can be read, `load_file`
fails with the error "Unsupported CAR type", returning `CART_TYPE_NONE`, if and only if
header byte 7 is not one of the listed types; every listed type selects a mapper kind
other than `CART_TYPE_NONE` and an expected size of at most 131072 bytes. -/
theorem car_type_table (g : Loader) (filename : String) (content : List Nat)
    (fails : Nat → Bool) (hcar : has_ext filename ".CAR" = true)
    (h0 : fails 0 = false) (h16 : 16 ≤ content.length) :
    (((load_file g filename true (some (open_file content fails))).1.errorBuf =
          "Unsupported CAR type" ∧
        (load_file g filename true (some (open_file content fails))).2 = CART_TYPE_NONE) ↔
      content.getD 7 0 ∉ supported_car_types) ∧
    ∀ t, t ∈ supported_car_types →
      ∃ kind size, car_table t = some (kind, size) ∧ kind ≠ CART_TYPE_NONE ∧
        size ≤ 131072 := by
  constructor
  · rw [load_file_open, hcar, ← car_table_none_iff]
    cases htab : car_table (content.getD 7 0) with
    | none =>
      rw [load_image_unsupported g _ content fails h0 h16 htab]
      exact ⟨fun _ => rfl, fun _ => ⟨rfl, rfl⟩⟩
    | some r =>
      obtain ⟨kind, exp⟩ := r
      rw [load_image_supported g _ content fails h0 h16 kind exp htab]
      constructor
      · intro h
        exfalso
        have hne := read_image_errorBuf g true (has_ext filename ".XEX")
          { open_file content fails with fptr := 16, ops := [FileOp.read 16] } kind exp
        revert h hne
        rcases read_image g true (has_ext filename ".XEX")
          { open_file content fails with fptr := 16, ops := [FileOp.read 16] } kind exp
          with ⟨g1, _ | c⟩
        · intro h hne
          exact hne h.1
        · intro h hne
          exact hne h.1
      · intro h
        cases h
  · intro t ht
    cases htab : car_table t with
    | none => exact absurd ht ((car_table_none_iff t).1 htab)
    | some r =>
      obtain ⟨kind, exp⟩ := r
      obtain ⟨h1, _, _, h4⟩ := car_table_some t kind exp htab
      exact ⟨kind, exp, rfl, h1, h4⟩

theorem car_type_table_witness :
    (((load_file loader_boot "GAME.CAR" true
          (some (open_file (List.replicate 7 0 ++ [4] ++ List.replicate 8 0)
            (fun _ => false)))).1.errorBuf = "Unsupported CAR type" ∧
        (load_file loader_boot "GAME.CAR" true
          (some (open_file (List.replicate 7 0 ++ [4] ++ List.replicate 8 0)
            (fun _ => false)))).2 = CART_TYPE_NONE) ↔
      (List.replicate 7 0 ++ [4] ++ List.replicate 8 0).getD 7 0 ∉ supported_car_types) :=
  (car_type_table loader_boot "GAME.CAR" (List.replicate 7 0 ++ [4] ++ List.replicate 8 0)
    (fun _ => false) (by decide) rfl (by decide)).1

theorem has_ext_car_not_xex (filename : String) (h : has_ext filename ".CAR" = true) :
    has_ext filename ".XEX" = false := by
  unfold has_ext at h ⊢
  rw [Bool.and_eq_true, decide_eq_true_eq, decide_eq_true_eq] at h
  rw [h.2, decide_eq_true h.1]
  decide

theorem has_ext_xex_not_car (filename : String) (h : has_ext filename ".XEX" = true) :
    has_ext filename ".CAR" = false := by
  unfold has_ext at h ⊢
  rw [Bool.and_eq_true, decide_eq_true_eq, decide_eq_true_eq] at h
  rw [h.2, decide_eq_true h.1]
  decide

theorem store_bytes_in (ram : Nat → Nat) (dst : Nat) (bytes : List Nat) (i : Nat)
    (hi : i < bytes.length) : store_bytes ram dst bytes (dst + i) = bytes.getD i 0 := by
  unfold store_bytes
  rw [if_pos ⟨by omega, by omega⟩, Nat.add_sub_cancel_left]

theorem store_bytes_out (ram : Nat → Nat) (dst : Nat) (bytes : List Nat) (k : Nat)
    (hk : k < dst ∨ dst + bytes.length ≤ k) : store_bytes ram dst bytes k = ram k := by
  unfold store_bytes
  rw [if_neg (by omega)]

theorem getD_drop_add (content : List Nat) (p i : Nat) :
    (content.drop p).getD i 0 = content.getD (p + i) 0 := by
  simp only [List.getD_eq_getElem?_getD, List.getElem?_drop]

/-- The loader on a CAR file of a supported type on which no call fails. -/
theorem load_image_car (g : Loader) (xex : Bool) (content : List Nat) (fails : Nat → Bool)
    (hf : ∀ k, fails k = false) (h16 : 16 ≤ content.length) (kind exp : Nat)
    (htab : car_table (content.getD 7 0) = some (kind, exp)) :
    load_image g true xex (open_file content fails) =
      if 128 * 1024 - load_offset xex < (content.drop 16).length then
        ({ cart_ram := store_bytes g.cart_ram (load_offset xex)
              ((content.drop 16).take (128 * 1024 - load_offset xex)),
           errorBuf := "Cart file/XEX too big (>128k)" }, none)
      else
        classify { cart_ram := store_bytes g.cart_ram (load_offset xex) (content.drop 16),
                   errorBuf := "Can't read file" } true xex kind exp
          (content.drop 16).length := by
  rw [load_image_supported g xex content fails (hf 0) h16 kind exp htab]
  exact read_image_eq g true xex _ content 16 (fun _ => rfl) rfl rfl hf kind exp

/-- The loader on a file that is not a CAR file and on which no call fails. -/
theorem load_image_other (g : Loader) (xex : Bool) (content : List Nat) (fails : Nat → Bool)
    (hf : ∀ k, fails k = false) :
    load_image g false xex (open_file content fails) =
      if 128 * 1024 - load_offset xex < content.length then
        ({ cart_ram := store_bytes g.cart_ram (load_offset xex)
              (content.take (128 * 1024 - load_offset xex)),
           errorBuf := "Cart file/XEX too big (>128k)" }, none)
      else
        classify { cart_ram := store_bytes g.cart_ram (load_offset xex) content,
                   errorBuf := "Can't read file" } false xex CART_TYPE_NONE 0
          content.length := by
  have h := read_image_eq g false xex (open_file content fails) content 0 (fun _ => rfl) rfl rfl
    hf CART_TYPE_NONE 0
  rw [List.drop_zero] at h
  exact h

theorem classify_car (g : Loader) (xex : Bool) (t e size : Nat) :
    classify g true xex t e size =
      if size ≠ e then ({ g with errorBuf := "CAR file is wrong size" }, none)
      else (g, some t) := rfl

theorem small_cart_layout_other (ram : Nat → Nat) (t : Nat) (h1 : t ≠ CART_TYPE_4K)
    (h2 : t ≠ CART_TYPE_2K) (h3 : t ≠ CART_TYPE_BLIZZARD_4K) :
    small_cart_layout ram t = ram := by
  unfold small_cart_layout
  simp only []
  rw [if_neg h1, if_neg h2, if_neg h3]

theorem getD_replicate_zero (n x : Nat) (h : 0 < n) : (List.replicate n x).getD 0 0 = x := by
  cases n with
  | zero => omega
  | succ m => rfl

theorem car_file_length (t : Nat) (body : List Nat) : 16 ≤ (car_header t ++ body).length := by
  rw [List.length_append]
  have : (car_header t).length = 16 := rfl
  omega

theorem car_file_type (t : Nat) (body : List Nat) : (car_header t ++ body).getD 7 0 = t := rfl

theorem car_file_body (t : Nat) (body : List Nat) : (car_header t ++ body).drop 16 = body := rfl

/-- C13 (CAR size enforcement). For a `.CAR` file of a supported type with a body of `n`
bytes after the 16-byte header, read from a disk on which no call fails: `load_file`
returns the mapper kind of the type if and only if `n` is the expected size; in that case
`cart_ram[i]` is `body[i]` for every `i < n` before the special cases for small
cartridges, which are all that `load_file` then applies to `cart_ram` (nothing for any
other mapper kind); and when `n` is at most 131072 and not the expected size, `load_file`
returns `CART_TYPE_NONE` with the error "CAR file is wrong size". -/
theorem car_size_enforced (g : Loader) (filename : String) (content : List Nat)
    (fails : Nat → Bool) (hcar : has_ext filename ".CAR" = true)
    (hf : ∀ k, fails k = false) (h16 : 16 ≤ content.length) (kind exp : Nat)
    (htab : car_table (content.getD 7 0) = some (kind, exp)) :
    ((load_file g filename true (some (open_file content fails))).2 = kind ↔
      (content.drop 16).length = exp) ∧
    ((content.drop 16).length = exp →
      (∀ i, i < exp →
        (load_image g true false (open_file content fails)).1.cart_ram i =
          (content.drop 16).getD i 0) ∧
      (load_file g filename true (some (open_file content fails))).1.cart_ram =
        small_cart_layout (load_image g true false (open_file content fails)).1.cart_ram kind ∧
      (kind ≠ CART_TYPE_4K → kind ≠ CART_TYPE_2K → kind ≠ CART_TYPE_BLIZZARD_4K →
        ∀ i, i < exp →
          (load_file g filename true (some (open_file content fails))).1.cart_ram i =
            (content.drop 16).getD i 0)) ∧
    ((content.drop 16).length ≤ 131072 → (content.drop 16).length ≠ exp →
      (load_file g filename true (some (open_file content fails))).2 = CART_TYPE_NONE ∧
      (load_file g filename true (some (open_file content fails))).1.errorBuf =
        "CAR file is wrong size") := by
  obtain ⟨hk0, _, _, hexp⟩ := car_table_some _ kind exp htab
  have hxex := has_ext_car_not_xex filename hcar
  rw [load_file_open, hcar, hxex, load_image_car g false content fails hf h16 kind exp htab,
    classify_car]
  have hoff : load_offset false = 0 := rfl
  rw [hoff]
  by_cases hbig : 128 * 1024 - 0 < (content.drop 16).length
  · rw [if_pos hbig]
    refine ⟨⟨fun h => absurd h.symm hk0, fun h => by omega⟩, fun h => by omega,
      fun h => by omega⟩
  · rw [if_neg hbig]
    by_cases hsz : (content.drop 16).length = exp
    · rw [if_neg (not_not.2 hsz)]
      have hram : ∀ i, i < exp →
          store_bytes g.cart_ram 0 (content.drop 16) i = (content.drop 16).getD i 0 := by
        intro i hi
        have := store_bytes_in g.cart_ram 0 (content.drop 16) i (by omega)
        rw [Nat.zero_add] at this
        exact this
      refine ⟨⟨fun _ => hsz, fun _ => rfl⟩, fun _ => ⟨hram, rfl, ?_⟩, fun _ h => absurd hsz h⟩
      intro h1 h2 h3 i hi
      show small_cart_layout _ kind i = _
      rw [small_cart_layout_other _ kind h1 h2 h3]
      exact hram i hi
    · rw [if_pos hsz]
      exact ⟨⟨fun h => absurd h.symm hk0, fun h => absurd h hsz⟩, fun h => absurd h hsz,
        fun _ _ => ⟨rfl, rfl⟩⟩

theorem car_size_enforced_witness :
    (load_file loader_boot "GAME.CAR" true
      (some (open_file (car_header 12 ++ List.replicate 32768 0xEA) never_fails))).2 =
        CART_TYPE_XEGS_32K ∧
    (load_file loader_boot "GAME.CAR" true
      (some (open_file (car_header 12 ++ List.replicate 32768 0xEA) never_fails))).1.cart_ram 0 =
        0xEA ∧
    (load_file loader_boot "GAME.CAR" true
      (some (open_file (car_header 12 ++ List.replicate 16384 0xEA) never_fails))).2 =
        CART_TYPE_NONE ∧
    (load_file loader_boot "GAME.CAR" true
      (some (open_file (car_header 12 ++ List.replicate 16384 0xEA) never_fails))).1.errorBuf =
        "CAR file is wrong size" := by
  have h1 := car_size_enforced loader_boot "GAME.CAR"
    (car_header 12 ++ List.replicate 32768 0xEA) never_fails (by decide) (fun _ => rfl)
    (car_file_length 12 _) CART_TYPE_XEGS_32K 32768 (by rw [car_file_type]; decide)
  have h2 := car_size_enforced loader_boot "GAME.CAR"
    (car_header 12 ++ List.replicate 16384 0xEA) never_fails (by decide) (fun _ => rfl)
    (car_file_length 12 _) CART_TYPE_XEGS_32K 32768 (by rw [car_file_type]; decide)
  rw [car_file_body, List.length_replicate] at h1 h2
  refine ⟨h1.1.2 rfl, ?_, (h2.2.2 (by omega) (by omega)).1, (h2.2.2 (by omega) (by omega)).2⟩
  rw [(h1.2.1 rfl).2.2 (by decide) (by decide) (by decide) 0 (by omega)]
  exact getD_replicate_zero 32768 0xEA (by omega)

/-- Reading the image, whatever the disk does: when the result is a mapper kind, no more
than `128 KiB - dst` bytes were left in the file, they are in `cart_ram` from `dst` on,
and the kind is the one found by the classification. -/
theorem read_image_some (g : Loader) (car xex : Bool) (f : FIL) (content : List Nat) (p : Nat)
    (hdata : ∀ k, f.data k = content.getD k 0) (hsize : f.size = content.length)
    (hp : f.fptr = p) (t e k : Nat) (g1 : Loader)
    (h : read_image g car xex f t e = (g1, some k)) :
    (content.drop p).length ≤ 128 * 1024 - load_offset xex ∧
    classify { cart_ram := store_bytes g.cart_ram (load_offset xex) (content.drop p),
               errorBuf := "Can't read file" } car xex t e (content.drop p).length =
      (g1, some k) := by
  have hbytes : ∀ btr q, (List.range (min btr (f.size - q))).map (fun k => f.data (q + k)) =
      (content.drop q).take btr := by
    intro btr q
    rw [hsize, ← read_bytes_eq]
    apply List.map_congr_left
    intro k _
    exact hdata _
  have hlen : (content.drop p).length = content.length - p := List.length_drop _ _
  have hdst : (if xex = true then 4 else 0) = load_offset xex := rfl
  unfold read_image at h
  simp only [] at h
  rw [hdst] at h
  by_cases h1 : f.fails f.ops.length = true
  · rw [f_read_fail f _ h1] at h
    simp only [Prod.mk.injEq] at h
    exact absurd h.2 (by simp)
  · rw [f_read_ok f _ (by simpa using h1)] at h
    simp only [] at h
    rw [hbytes, hp] at h
    by_cases hbig : 128 * 1024 - load_offset xex < (content.drop p).length
    · exfalso
      have hl : ((content.drop p).take (128 * 1024 - load_offset xex)).length =
          128 * 1024 - load_offset xex := by
        rw [List.length_take]; omega
      rw [if_pos hl] at h
      by_cases h2 : f.fails (f.ops ++ [FileOp.read (128 * 1024 - load_offset xex)]).length = true
      · simp only [f_read, h2, if_true, Prod.mk.injEq] at h
        exact absurd h.2 (by simp)
      · simp only [f_read, h2, Bool.false_eq_true, if_false] at h
        have h3 : ((List.range (min 1 (f.size - (p + min (128 * 1024 - load_offset xex)
            (f.size - p))))).map (fun k => f.data (p + min (128 * 1024 - load_offset xex)
            (f.size - p) + k))).length = 1 := by
          rw [List.length_map, List.length_range, hsize]
          omega
        rw [if_pos h3] at h
        simp only [Prod.mk.injEq] at h
        exact absurd h.2 (by simp)
    · have h0 : (content.drop p).take (128 * 1024 - load_offset xex) = content.drop p :=
        List.take_of_length_le (by omega)
      rw [h0] at h
      refine ⟨by omega, ?_⟩
      by_cases heq : (content.drop p).length = 128 * 1024 - load_offset xex
      · rw [if_pos heq] at h
        by_cases h2 :
            f.fails (f.ops ++ [FileOp.read (128 * 1024 - load_offset xex)]).length = true
        · simp only [f_read, h2, if_true, Prod.mk.injEq] at h
          exact absurd h.2 (by simp)
        · simp only [f_read, h2, Bool.false_eq_true, if_false] at h
          have h3 : ((List.range (min 1 (f.size - (p + min (128 * 1024 - load_offset xex)
              (f.size - p))))).map (fun k => f.data (p + min (128 * 1024 - load_offset xex)
              (f.size - p) + k))).length ≠ 1 := by
            rw [List.length_map, List.length_range, hsize]
            omega
          rw [if_neg h3] at h
          exact h
      · rw [if_neg heq] at h
        exact h

theorem read_car_header_failed (content : List Nat) (fails : Nat → Bool)
    (h : fails 0 = true ∨ content.length < 16) :
    read_car_header true (open_file content fails) = Except.error "Bad CAR file" := by
  unfold read_car_header
  rw [if_pos rfl]
  by_cases h0 : fails 0 = true
  · rw [f_read_fail _ _ h0]
  · have hlt : content.length < 16 := h.resolve_left h0
    rw [f_read_ok _ _ (by simpa using h0)]
    simp only []
    have hlen : ((List.range (min 16 ((open_file content fails).size -
        (open_file content fails).fptr))).map
        (fun k => (open_file content fails).data ((open_file content fails).fptr + k))).length
          ≠ 16 := by
      rw [List.length_map, List.length_range]
      show min 16 (content.length - 0) ≠ 16
      omega
    rw [if_pos hlen]

/-- The loader, whatever the disk does: when the result is a mapper kind, the header of a
CAR file was read and names a supported type, the payload fits into the cartridge RAM and
is stored there, and the kind is the one found by the classification. -/
theorem load_image_some (g : Loader) (car xex : Bool) (content : List Nat)
    (fails : Nat → Bool) (k : Nat) (g1 : Loader)
    (h : load_image g car xex (open_file content fails) = (g1, some k)) :
    ∃ t e, (car = true → 16 ≤ content.length ∧ car_table (content.getD 7 0) = some (t, e)) ∧
      (payload car content).length ≤ 128 * 1024 - load_offset xex ∧
      classify { cart_ram := store_bytes g.cart_ram (load_offset xex) (payload car content),
                 errorBuf := "Can't read file" } car xex t e (payload car content).length =
        (g1, some k) := by
  cases car with
  | false =>
    unfold load_image at h
    rw [read_car_header_other] at h
    simp only [] at h
    have := read_image_some g false xex (open_file content fails) content 0 (fun _ => rfl) rfl
      rfl CART_TYPE_NONE 0 k g1 h
    rw [List.drop_zero] at this
    exact ⟨CART_TYPE_NONE, 0, fun hc => absurd hc (by decide), this.1, this.2⟩
  | true =>
    unfold load_image at h
    by_cases hbad : fails 0 = true ∨ content.length < 16
    · rw [read_car_header_failed content fails hbad] at h
      simp only [Prod.mk.injEq] at h
      exact absurd h.2 (by simp)
    · have h0 : fails 0 = false := by
        cases hf : fails 0
        · rfl
        · exact absurd (Or.inl hf) hbad
      have h16 : 16 ≤ content.length := by
        by_contra hc
        exact hbad (Or.inr (by omega))
      rw [read_car_header_car content fails h0 h16] at h
      cases htab : car_table (content.getD 7 0) with
      | none =>
        rw [htab] at h
        simp only [Prod.mk.injEq] at h
        exact absurd h.2 (by simp)
      | some r =>
        obtain ⟨t, e⟩ := r
        rw [htab] at h
        simp only [] at h
        have := read_image_some g true xex _ content 16 (fun _ => rfl) rfl rfl t e k g1 h
        exact ⟨t, e, fun _ => ⟨h16, rfl⟩, this.1, this.2⟩

/-- A successful `load_file` is a successful `load_image` followed by the special cases
for small cartridges. -/
theorem load_file_some (g : Loader) (filename : String) (fil : FIL)
    (h : (load_file g filename true (some fil)).2 ≠ CART_TYPE_NONE) :
    ∃ g1 k, load_image g (has_ext filename ".CAR") (has_ext filename ".XEX") fil =
        (g1, some k) ∧
      load_file g filename true (some fil) =
        ({ g1 with cart_ram := small_cart_layout g1.cart_ram k }, k) := by
  rw [load_file_open] at h ⊢
  rcases hl : load_image g (has_ext filename ".CAR") (has_ext filename ".XEX") fil
    with ⟨g1, _ | k⟩
  · rw [hl] at h
    exact absurd rfl h
  · exact ⟨g1, k, rfl, rfl⟩

theorem and_255_eq (n : Nat) : n &&& 0xFF = n % 256 :=
  Nat.and_pow_two_sub_one_eq_mod n 8

theorem classify_xex (g : Loader) (t e size : Nat) :
    classify g false true t e size =
      ({ g with cart_ram := store (store (store (store g.cart_ram 0 (size % 256)) 1
          (size / 256 % 256)) 2 (size / 65536 % 256)) 3 0 }, some CART_TYPE_XEX) := by
  unfold classify
  simp only [Bool.false_eq_true, if_false, if_true, and_255_eq, Nat.shiftRight_eq_div_pow]

/-- An XEX file of at most 131068 bytes on a disk on which no call fails is accepted. -/
theorem xex_accepted (g : Loader) (filename : String) (content : List Nat)
    (fails : Nat → Bool) (hxex : has_ext filename ".XEX" = true) (hf : ∀ k, fails k = false)
    (hn : content.length ≤ 131068) :
    (load_file g filename true (some (open_file content fails))).2 = CART_TYPE_XEX := by
  rw [load_file_open, has_ext_xex_not_car filename hxex, hxex,
    load_image_other g true content fails hf]
  have hoff : load_offset true = 4 := rfl
  rw [hoff, if_neg (by omega), classify_xex]

/-- C14 (XEX load). Whenever `load_file` accepts a `.XEX` file of `n` bytes, the result is
`CART_TYPE_XEX`, the bytes 0..3 of `cart_ram` are the little-endian 32-bit encoding of `n`
(so `cart_ram[0] + 256*cart_ram[1] + 65536*cart_ram[2] = n` and `cart_ram[3] = 0`), and
`cart_ram[4+i]` is byte `i` of the file for every `i < n`. -/
theorem xex_load (g : Loader) (filename : String) (content : List Nat) (fails : Nat → Bool)
    (hxex : has_ext filename ".XEX" = true)
    (hacc : (load_file g filename true (some (open_file content fails))).2 ≠ CART_TYPE_NONE) :
    (load_file g filename true (some (open_file content fails))).2 = CART_TYPE_XEX ∧
    (load_file g filename true (some (open_file content fails))).1.cart_ram 0 =
      content.length % 256 ∧
    (load_file g filename true (some (open_file content fails))).1.cart_ram 1 =
      content.length / 256 % 256 ∧
    (load_file g filename true (some (open_file content fails))).1.cart_ram 2 =
      content.length / 65536 % 256 ∧
    (load_file g filename true (some (open_file content fails))).1.cart_ram 3 = 0 ∧
    (load_file g filename true (some (open_file content fails))).1.cart_ram 0 +
      256 * (load_file g filename true (some (open_file content fails))).1.cart_ram 1 +
      65536 * (load_file g filename true (some (open_file content fails))).1.cart_ram 2 =
        content.length ∧
    ∀ i, i < content.length →
      (load_file g filename true (some (open_file content fails))).1.cart_ram (4 + i) =
        content.getD i 0 := by
  obtain ⟨g1, k, hl, hfile⟩ := load_file_some g filename _ hacc
  rw [has_ext_xex_not_car filename hxex, hxex] at hl
  obtain ⟨t, e, _, hcap, hcls⟩ := load_image_some g false true content fails k g1 hl
  have hoff : load_offset true = 4 := rfl
  have hpay : payload false content = content := rfl
  rw [hoff, hpay] at hcap hcls
  rw [classify_xex] at hcls
  simp only [Prod.mk.injEq, Option.some.injEq] at hcls
  obtain ⟨hg1, hk⟩ := hcls
  rw [hfile, ← hk, ← hg1]
  have hlayout : ∀ ram, small_cart_layout ram CART_TYPE_XEX = ram :=
    fun ram => small_cart_layout_other ram _ (by decide) (by decide) (by decide)
  rw [hlayout]
  refine ⟨rfl, rfl, rfl, rfl, rfl, ?_, ?_⟩
  · show content.length % 256 + 256 * (content.length / 256 % 256) +
      65536 * (content.length / 65536 % 256) = content.length
    omega
  · intro i hi
    show store _ 3 0 (4 + i) = _
    unfold store
    rw [if_neg (by omega), if_neg (by omega), if_neg (by omega), if_neg (by omega)]
    exact store_bytes_in g.cart_ram 4 content i hi

theorem xex_load_witness :
    (load_file loader_boot "DEMO.XEX" true
      (some (open_file (List.replicate 5000 0x60) never_fails))).2 = CART_TYPE_XEX ∧
    (load_file loader_boot "DEMO.XEX" true
      (some (open_file (List.replicate 5000 0x60) never_fails))).1.cart_ram 0 = 0x88 ∧
    (load_file loader_boot "DEMO.XEX" true
      (some (open_file (List.replicate 5000 0x60) never_fails))).1.cart_ram 1 = 0x13 ∧
    (load_file loader_boot "DEMO.XEX" true
      (some (open_file (List.replicate 5000 0x60) never_fails))).1.cart_ram 2 = 0x00 ∧
    (load_file loader_boot "DEMO.XEX" true
      (some (open_file (List.replicate 5000 0x60) never_fails))).1.cart_ram 3 = 0x00 ∧
    (load_file loader_boot "DEMO.XEX" true
      (some (open_file (List.replicate 5000 0x60) never_fails))).1.cart_ram 4 = 0x60 := by
  have hlen : (List.replicate 5000 0x60).length = 5000 := List.length_replicate _ _
  have hacc : (load_file loader_boot "DEMO.XEX" true
      (some (open_file (List.replicate 5000 0x60) never_fails))).2 ≠ CART_TYPE_NONE := by
    rw [xex_accepted loader_boot "DEMO.XEX" _ never_fails (by decide) (fun _ => rfl)
      (by rw [hlen]; omega)]
    decide
  obtain ⟨h1, h2, h3, h4, h5, _, h7⟩ :=
    xex_load loader_boot "DEMO.XEX" (List.replicate 5000 0x60) never_fails (by decide) hacc
  rw [hlen] at h2 h3 h4 h7
  have h70 := h7 0 (by omega)
  rw [getD_replicate_zero 5000 0x60 (by omega), Nat.add_zero] at h70
  exact ⟨h1, h2.trans (by norm_num), h3.trans (by norm_num), h4.trans (by norm_num), h5, h70⟩

theorem load_file_errorBuf (g : Loader) (filename : String) (fil : FIL) :
    (load_file g filename true (some fil)).1.errorBuf =
      (load_image g (has_ext filename ".CAR") (has_ext filename ".XEX") fil).1.errorBuf ∧
    ((load_file g filename true (some fil)).2 = CART_TYPE_NONE ↔
      (load_image g (has_ext filename ".CAR") (has_ext filename ".XEX") fil).2 = none ∨
      (load_image g (has_ext filename ".CAR") (has_ext filename ".XEX") fil).2 =
        some CART_TYPE_NONE) := by
  rw [load_file_open]
  rcases load_image g (has_ext filename ".CAR") (has_ext filename ".XEX") fil with ⟨g1, _ | k⟩
  · exact ⟨rfl, fun _ => Or.inl rfl, fun _ => rfl⟩
  · refine ⟨rfl, fun h => Or.inr (congrArg some h), fun h => ?_⟩
    rcases h with h | h
    · cases h
    · exact Option.some.inj h

/-- The loader on any file on which no call fails, a CAR file having a readable header of
a supported type: a payload longer than `128 KiB - dst` ends in the "too big" error, any
other payload is stored in `cart_ram` and classified. -/
theorem load_image_healthy (g : Loader) (car xex : Bool) (content : List Nat)
    (fails : Nat → Bool) (hf : ∀ k, fails k = false)
    (hhdr : car = true → 16 ≤ content.length ∧ content.getD 7 0 ∈ supported_car_types) :
    ∃ t e, (car = true → car_table (content.getD 7 0) = some (t, e)) ∧
      load_image g car xex (open_file content fails) =
        if 128 * 1024 - load_offset xex < (payload car content).length then
          ({ cart_ram := store_bytes g.cart_ram (load_offset xex)
                ((payload car content).take (128 * 1024 - load_offset xex)),
             errorBuf := "Cart file/XEX too big (>128k)" }, none)
        else
          classify { cart_ram := store_bytes g.cart_ram (load_offset xex) (payload car content),
                     errorBuf := "Can't read file" } car xex t e
            (payload car content).length := by
  cases car with
  | false =>
    exact ⟨CART_TYPE_NONE, 0, fun h => absurd h (by decide),
      load_image_other g xex content fails hf⟩
  | true =>
    obtain ⟨h16, hmem⟩ := hhdr rfl
    cases htab : car_table (content.getD 7 0) with
    | none => exact absurd hmem ((car_table_none_iff _).1 htab)
    | some r =>
      obtain ⟨t, e⟩ := r
      exact ⟨t, e, fun _ => rfl, load_image_car g xex content fails hf h16 t e htab⟩

/-- When `load_file` answers "too big": exactly when the payload is longer than the room
left in the cartridge RAM, 131072 bytes less the 4 bytes kept for the length of an XEX
file. -/
theorem load_too_big_iff (g : Loader) (filename : String) (content : List Nat)
    (fails : Nat → Bool) (hf : ∀ k, fails k = false)
    (hhdr : has_ext filename ".CAR" = true →
      16 ≤ content.length ∧ content.getD 7 0 ∈ supported_car_types) :
    ((load_file g filename true (some (open_file content fails))).2 = CART_TYPE_NONE ∧
      (load_file g filename true (some (open_file content fails))).1.errorBuf =
        "Cart file/XEX too big (>128k)") ↔
    128 * 1024 - load_offset (has_ext filename ".XEX") <
      (payload (has_ext filename ".CAR") content).length := by
  obtain ⟨he, hn⟩ := load_file_errorBuf g filename (open_file content fails)
  obtain ⟨t, e, _, hl⟩ := load_image_healthy g (has_ext filename ".CAR")
    (has_ext filename ".XEX") content fails hf hhdr
  rw [he, hn, hl]
  by_cases hbig : 128 * 1024 - load_offset (has_ext filename ".XEX") <
      (payload (has_ext filename ".CAR") content).length
  · rw [if_pos hbig]
    exact ⟨fun _ => hbig, fun _ => ⟨Or.inl rfl, rfl⟩⟩
  · rw [if_neg hbig]
    refine ⟨fun h => ?_, fun h => absurd h hbig⟩
    exfalso
    rcases classify_errorBuf
      { cart_ram := store_bytes g.cart_ram (load_offset (has_ext filename ".XEX"))
          (payload (has_ext filename ".CAR") content),
        errorBuf := "Can't read file" }
      (has_ext filename ".CAR") (has_ext filename ".XEX") t e
      (payload (has_ext filename ".CAR") content).length with h1 | h1 | h1
    · rw [h1] at h
      have h2 : "Can't read file" = "Cart file/XEX too big (>128k)" := h.2
      exact absurd h2 (by decide)
    · rw [h1] at h; exact absurd h.2 (by decide)
    · rw [h1] at h; exact absurd h.2 (by decide)

/-- C15, counterexample. An XEX file of 131070 bytes, which is not longer than 131072
bytes, is rejected as too big. -/
theorem xex_below_cap_rejected :
    (load_file loader_boot "DEMO.XEX" true
      (some (open_file (List.replicate 131070 0x60) never_fails))).2 = CART_TYPE_NONE ∧
    (load_file loader_boot "DEMO.XEX" true
      (some (open_file (List.replicate 131070 0x60) never_fails))).1.errorBuf =
        "Cart file/XEX too big (>128k)" ∧
    (List.replicate 131070 0x60).length ≤ 131072 := by
  have e1 : has_ext "DEMO.XEX" ".XEX" = true := by decide
  have e2 : has_ext "DEMO.XEX" ".CAR" = false := by decide
  have hoff : load_offset true = 4 := rfl
  have hpay : ∀ c, payload false c = c := fun _ => rfl
  have h := (load_too_big_iff loader_boot "DEMO.XEX" (List.replicate 131070 0x60) never_fails
    (fun _ => rfl) (fun hc => absurd (hc.symm.trans e2) (by decide))).2
    (by rw [e1, e2, hoff, hpay, List.length_replicate]; omega)
  exact ⟨h.1, h.2, by rw [List.length_replicate]; omega⟩

/-- C15, amended (the 128 KiB cap). On a disk on which no call fails, for a raw ROM, an XEX
file, or a CAR file with a readable header of a supported type, `load_file` returns
`CART_TYPE_NONE` with the "too big" error exactly when the payload (the body of a CAR
file, the whole of any other file) is longer than the room in the cartridge RAM: 131072
bytes for a CAR body and a raw ROM, 131068 bytes for an XEX file, whose first four bytes of
RAM hold its length. -/
theorem load_cap (g : Loader) (filename : String) (content : List Nat)
    (fails : Nat → Bool) (hf : ∀ k, fails k = false)
    (hhdr : has_ext filename ".CAR" = true →
      16 ≤ content.length ∧ content.getD 7 0 ∈ supported_car_types) :
    (((load_file g filename true (some (open_file content fails))).2 = CART_TYPE_NONE ∧
      (load_file g filename true (some (open_file content fails))).1.errorBuf =
        "Cart file/XEX too big (>128k)") ↔
      (if has_ext filename ".XEX" = true then 131068 else 131072) <
        (if has_ext filename ".CAR" = true then content.drop 16 else content).length) := by
  have h := load_too_big_iff g filename content fails hf hhdr
  unfold load_offset payload at h
  rw [h]
  by_cases hx : has_ext filename ".XEX" = true
  · rw [if_pos hx, if_pos hx]
  · rw [if_neg hx, if_neg hx]

theorem load_cap_witness :
    ((load_file loader_boot "GAME.ROM" true
        (some (open_file (List.replicate 131073 0xEA) never_fails))).2 = CART_TYPE_NONE ∧
      (load_file loader_boot "GAME.ROM" true
        (some (open_file (List.replicate 131073 0xEA) never_fails))).1.errorBuf =
          "Cart file/XEX too big (>128k)") :=
  (load_cap loader_boot "GAME.ROM" (List.replicate 131073 0xEA) never_fails (fun _ => rfl)
    (fun hc => absurd hc (by decide))).2
    (by
      rw [if_neg (by decide), if_neg (by decide), List.length_replicate]
      omega)

theorem classify_raw (g : Loader) (t e size : Nat) :
    classify g false false t e size =
      if size = 8192 then (g, some CART_TYPE_8K)
      else if size = 16384 then (g, some CART_TYPE_16K)
      else if size = 32768 then (g, some CART_TYPE_XEGS_32K)
      else if size = 65536 then (g, some CART_TYPE_XEGS_64K)
      else if size = 131072 then (g, some CART_TYPE_XEGS_128K)
      else ({ g with errorBuf := "Unsupported ROM size " }, none) := rfl

/-- C16 (raw ROM, guess by size). For a file that is neither `.CAR` nor `.XEX`, of `n`
bytes, on a disk on which no call fails, `load_file` returns `CART_TYPE_8K`,
`CART_TYPE_16K`, `CART_TYPE_XEGS_32K`, `CART_TYPE_XEGS_64K`, `CART_TYPE_XEGS_128K` for
`n` = 8192, 16384, 32768, 65536, 131072 and `CART_TYPE_NONE` for every other `n`; when it
does not return `CART_TYPE_NONE`, `cart_ram[i]` is byte `i` of the file for `i < n`. -/
theorem raw_rom_guess (g : Loader) (filename : String) (content : List Nat)
    (fails : Nat → Bool) (hcar : has_ext filename ".CAR" = false)
    (hxex : has_ext filename ".XEX" = false) (hf : ∀ k, fails k = false) :
    (load_file g filename true (some (open_file content fails))).2 =
      (if content.length = 8192 then CART_TYPE_8K
       else if content.length = 16384 then CART_TYPE_16K
       else if content.length = 32768 then CART_TYPE_XEGS_32K
       else if content.length = 65536 then CART_TYPE_XEGS_64K
       else if content.length = 131072 then CART_TYPE_XEGS_128K
       else CART_TYPE_NONE) ∧
    ((load_file g filename true (some (open_file content fails))).2 ≠ CART_TYPE_NONE →
      ∀ i, i < content.length →
        (load_file g filename true (some (open_file content fails))).1.cart_ram i =
          content.getD i 0) := by
  rw [load_file_open, hcar, hxex, load_image_other g false content fails hf]
  have hoff : load_offset false = 0 := rfl
  rw [hoff]
  have hram : ∀ k, k ≠ CART_TYPE_4K → k ≠ CART_TYPE_2K → k ≠ CART_TYPE_BLIZZARD_4K →
      ∀ i, i < content.length →
        small_cart_layout (store_bytes g.cart_ram 0 content) k i = content.getD i 0 := by
    intro k h1 h2 h3 i hi
    rw [small_cart_layout_other _ k h1 h2 h3]
    have := store_bytes_in g.cart_ram 0 content i hi
    rw [Nat.zero_add] at this
    exact this
  by_cases hbig : 128 * 1024 - 0 < content.length
  · rw [if_pos hbig, if_neg (by omega), if_neg (by omega), if_neg (by omega),
      if_neg (by omega), if_neg (by omega)]
    exact ⟨rfl, fun h => absurd rfl h⟩
  · rw [if_neg hbig, classify_raw]
    by_cases h1 : content.length = 8192
    · rw [if_pos h1, if_pos h1]
      exact ⟨rfl, fun _ => hram CART_TYPE_8K (by decide) (by decide) (by decide)⟩
    rw [if_neg h1, if_neg h1]
    by_cases h2 : content.length = 16384
    · rw [if_pos h2, if_pos h2]
      exact ⟨rfl, fun _ => hram CART_TYPE_16K (by decide) (by decide) (by decide)⟩
    rw [if_neg h2, if_neg h2]
    by_cases h3 : content.length = 32768
    · rw [if_pos h3, if_pos h3]
      exact ⟨rfl, fun _ => hram CART_TYPE_XEGS_32K (by decide) (by decide) (by decide)⟩
    rw [if_neg h3, if_neg h3]
    by_cases h4 : content.length = 65536
    · rw [if_pos h4, if_pos h4]
      exact ⟨rfl, fun _ => hram CART_TYPE_XEGS_64K (by decide) (by decide) (by decide)⟩
    rw [if_neg h4, if_neg h4]
    by_cases h5 : content.length = 131072
    · rw [if_pos h5, if_pos h5]
      exact ⟨rfl, fun _ => hram CART_TYPE_XEGS_128K (by decide) (by decide) (by decide)⟩
    rw [if_neg h5, if_neg h5]
    exact ⟨rfl, fun h => absurd rfl h⟩

theorem raw_rom_guess_witness :
    (load_file loader_boot "GAME.ROM" true
      (some (open_file (List.replicate 8192 0xEA) never_fails))).2 = CART_TYPE_8K ∧
    (load_file loader_boot "GAME.ROM" true
      (some (open_file (List.replicate 8192 0xEA) never_fails))).1.cart_ram 0 = 0xEA ∧
    (load_file loader_boot "GAME.ROM" true
      (some (open_file (List.replicate 12000 0xEA) never_fails))).2 = CART_TYPE_NONE := by
  have h1 := raw_rom_guess loader_boot "GAME.ROM" (List.replicate 8192 0xEA) never_fails
    (by decide) (by decide) (fun _ => rfl)
  have h2 := raw_rom_guess loader_boot "GAME.ROM" (List.replicate 12000 0xEA) never_fails
    (by decide) (by decide) (fun _ => rfl)
  rw [List.length_replicate] at h1 h2
  rw [if_pos rfl] at h1
  rw [if_neg (by omega), if_neg (by omega), if_neg (by omega), if_neg (by omega),
    if_neg (by omega)] at h2
  have h0 := h1.2 (by rw [h1.1]; decide) 0 (by omega)
  rw [getD_replicate_zero 8192 0xEA (by omega)] at h0
  exact ⟨h1.1, h0, h2.1⟩

theorem small_cart_layout_4k (ram : Nat → Nat) :
    small_cart_layout ram CART_TYPE_4K =
      memset_ram (memcpy_ram ram 4096 0 4096) 0 0xFF 4096 := rfl

theorem small_cart_layout_2k (ram : Nat → Nat) :
    small_cart_layout ram CART_TYPE_2K =
      memset_ram (memcpy_ram ram 6144 0 6144) 0 0xFF 6144 := rfl

theorem small_cart_layout_blizzard (ram : Nat → Nat) :
    small_cart_layout ram CART_TYPE_BLIZZARD_4K = memcpy_ram ram 4096 0 4096 := rfl

/-- What a successful `load_file` on a CAR file leaves: the header names a supported type,
the body has the expected size, the mapper kind of the type is returned, and `cart_ram` is
the body followed by the special cases for small cartridges. -/
theorem car_loaded (g : Loader) (filename : String) (content : List Nat) (fails : Nat → Bool)
    (hcar : has_ext filename ".CAR" = true)
    (hok : (load_file g filename true (some (open_file content fails))).2 ≠ CART_TYPE_NONE) :
    ∃ t e, car_table (content.getD 7 0) = some (t, e) ∧ (content.drop 16).length = e ∧
      load_file g filename true (some (open_file content fails)) =
        ({ cart_ram := small_cart_layout (store_bytes g.cart_ram 0 (content.drop 16)) t,
           errorBuf := "Can't read file" }, t) := by
  obtain ⟨g1, k, hl, hfile⟩ := load_file_some g filename _ hok
  rw [hcar, has_ext_car_not_xex filename hcar] at hl
  obtain ⟨t, e, htab, _, hcls⟩ := load_image_some g true false content fails k g1 hl
  have hoff : load_offset false = 0 := rfl
  have hpay : payload true content = content.drop 16 := rfl
  rw [hoff, hpay, classify_car] at hcls
  by_cases hsz : (content.drop 16).length = e
  · rw [if_neg (not_not.2 hsz)] at hcls
    simp only [Prod.mk.injEq, Option.some.injEq] at hcls
    obtain ⟨hg1, hk⟩ := hcls
    refine ⟨t, e, (htab rfl).2, hsz, ?_⟩
    rw [hfile, ← hk, ← hg1]
  · rw [if_pos hsz] at hcls
    simp only [Prod.mk.injEq] at hcls
    exact absurd hcls.2 (by simp)

/-- A CAR file of a supported type with a body of the expected size, on a disk on which
no call fails, is accepted. -/
theorem car_accepted (g : Loader) (filename : String) (t : Nat) (body : List Nat)
    (fails : Nat → Bool) (hcar : has_ext filename ".CAR" = true) (hf : ∀ k, fails k = false)
    (kind : Nat) (htab : car_table t = some (kind, body.length)) :
    (load_file g filename true (some (open_file (car_header t ++ body) fails))).2 = kind := by
  have hexp := (car_table_some t kind body.length htab).2.2.2
  rw [load_file_open, hcar, has_ext_car_not_xex filename hcar,
    load_image_car g false _ fails hf (car_file_length t body) kind body.length
      (by rw [car_file_type]; exact htab),
    car_file_body]
  have hoff : load_offset false = 0 := rfl
  rw [hoff, if_neg (by omega), classify_car, if_neg (not_not.2 rfl)]

/-- C17 (layout of small cartridges after the load). After `load_file` succeeds on a CAR
file: for type 58 (4K) `cart_ram[0..4095]` is all `0xFF` and `cart_ram[4096+i]` is
`body[i]` for `i < 4096`; for type 57 (2K) `cart_ram[0..6143]` is all `0xFF` and
`cart_ram[6144+i]` is `body[i]` for `i < 2048`; for type 46 (Blizzard 4K) `cart_ram[i]` and
`cart_ram[4096+i]` are both `body[i]` for `i < 4096`. -/
theorem small_cart_post_load (g : Loader) (filename : String) (content : List Nat)
    (fails : Nat → Bool) (hcar : has_ext filename ".CAR" = true)
    (hok : (load_file g filename true (some (open_file content fails))).2 ≠ CART_TYPE_NONE) :
    (content.getD 7 0 = 58 →
      (∀ i, i < 4096 →
        (load_file g filename true (some (open_file content fails))).1.cart_ram i = 0xFF) ∧
      ∀ i, i < 4096 →
        (load_file g filename true (some (open_file content fails))).1.cart_ram (4096 + i) =
          (content.drop 16).getD i 0) ∧
    (content.getD 7 0 = 57 →
      (∀ i, i < 6144 →
        (load_file g filename true (some (open_file content fails))).1.cart_ram i = 0xFF) ∧
      ∀ i, i < 2048 →
        (load_file g filename true (some (open_file content fails))).1.cart_ram (6144 + i) =
          (content.drop 16).getD i 0) ∧
    (content.getD 7 0 = 46 →
      ∀ i, i < 4096 →
        (load_file g filename true (some (open_file content fails))).1.cart_ram i =
          (content.drop 16).getD i 0 ∧
        (load_file g filename true (some (open_file content fails))).1.cart_ram (4096 + i) =
          (content.drop 16).getD i 0) := by
  obtain ⟨t, e, htab, hsz, hfile⟩ := car_loaded g filename content fails hcar hok
  rw [hfile]
  have hbody : ∀ i, i < e →
      store_bytes g.cart_ram 0 (content.drop 16) i = (content.drop 16).getD i 0 := by
    intro i hi
    have := store_bytes_in g.cart_ram 0 (content.drop 16) i (by omega)
    rw [Nat.zero_add] at this
    exact this
  refine ⟨fun h58 => ?_, fun h57 => ?_, fun h46 => ?_⟩
  · rw [h58] at htab
    have hte : some (t, e) = some (CART_TYPE_4K, 4096) := htab.symm.trans (by decide)
    simp only [Option.some.injEq, Prod.mk.injEq] at hte
    obtain ⟨rfl, rfl⟩ := hte
    refine ⟨fun i hi => ?_, fun i hi => ?_⟩
    · show small_cart_layout _ CART_TYPE_4K i = 0xFF
      rw [small_cart_layout_4k]
      unfold memset_ram
      rw [if_pos ⟨by omega, by omega⟩]
    · show small_cart_layout _ CART_TYPE_4K (4096 + i) = _
      rw [small_cart_layout_4k]
      unfold memset_ram memcpy_ram
      rw [if_neg (by omega), if_pos ⟨by omega, by omega⟩, Nat.add_sub_cancel_left,
        Nat.zero_add]
      exact hbody i hi
  · rw [h57] at htab
    have hte : some (t, e) = some (CART_TYPE_2K, 2048) := htab.symm.trans (by decide)
    simp only [Option.some.injEq, Prod.mk.injEq] at hte
    obtain ⟨rfl, rfl⟩ := hte
    refine ⟨fun i hi => ?_, fun i hi => ?_⟩
    · show small_cart_layout _ CART_TYPE_2K i = 0xFF
      rw [small_cart_layout_2k]
      unfold memset_ram
      rw [if_pos ⟨by omega, by omega⟩]
    · show small_cart_layout _ CART_TYPE_2K (6144 + i) = _
      rw [small_cart_layout_2k]
      unfold memset_ram memcpy_ram
      rw [if_neg (by omega), if_pos ⟨by omega, by omega⟩, Nat.add_sub_cancel_left,
        Nat.zero_add]
      exact hbody i hi
  · rw [h46] at htab
    have hte : some (t, e) = some (CART_TYPE_BLIZZARD_4K, 4096) :=
      htab.symm.trans (by decide)
    simp only [Option.some.injEq, Prod.mk.injEq] at hte
    obtain ⟨rfl, rfl⟩ := hte
    intro i hi
    constructor
    · show small_cart_layout _ CART_TYPE_BLIZZARD_4K i = _
      rw [small_cart_layout_blizzard]
      unfold memcpy_ram
      rw [if_neg (by omega)]
      exact hbody i hi
    · show small_cart_layout _ CART_TYPE_BLIZZARD_4K (4096 + i) = _
      rw [small_cart_layout_blizzard]
      unfold memcpy_ram
      rw [if_pos ⟨by omega, by omega⟩, Nat.add_sub_cancel_left, Nat.zero_add]
      exact hbody i hi

theorem small_cart_post_load_witness :
    (load_file loader_boot "TINY.CAR" true
      (some (open_file (car_header 58 ++ List.replicate 4096 0xEA) never_fails))).1.cart_ram 0 =
        0xFF ∧
    (load_file loader_boot "TINY.CAR" true
      (some (open_file (car_header 58 ++ List.replicate 4096 0xEA) never_fails))).1.cart_ram
        (4096 + 0) = 0xEA := by
  have hok : (load_file loader_boot "TINY.CAR" true
      (some (open_file (car_header 58 ++ List.replicate 4096 0xEA) never_fails))).2 ≠
        CART_TYPE_NONE := by
    rw [car_accepted loader_boot "TINY.CAR" 58 (List.replicate 4096 0xEA) never_fails
      (by decide) (fun _ => rfl) CART_TYPE_4K (by rw [List.length_replicate]; decide)]
    decide
  have h := (small_cart_post_load loader_boot "TINY.CAR"
    (car_header 58 ++ List.replicate 4096 0xEA) never_fails (by decide) hok).1
    (car_file_type 58 _)
  have h2 := h.2 0 (by omega)
  rw [car_file_body, getD_replicate_zero 4096 0xEA (by omega)] at h2
  exact ⟨h.1 0 (by omega), h2⟩

/-! ## ATR disk images -/

theorem int32_nat (n : Nat) (h : n < 2 ^ 31) : int32 (n : Int) = n := by
  unfold int32
  omega

theorem to_fsize_int32_nat (n : Nat) (h : n < 2 ^ 32) : to_fsize (int32 (n : Int)) = n := by
  unfold to_fsize int32
  omega

theorem write_atr_offset_eq (secSize sector page : Nat) :
    write_atr_offset secSize sector page = read_atr_offset secSize sector page := rfl

/-- The value that `offset` has before the wrap to 32 bits is the offset of the
specification. -/
theorem read_atr_offset_int32 (secSize sector page : Nat) (hs : 1 ≤ sector) :
    read_atr_offset secSize sector page =
      int32 ((atr_byte_offset secSize sector page : Nat) : Int) := by
  unfold read_atr_offset atr_byte_offset
  by_cases h3 : sector ≤ 3
  · rw [if_pos h3, if_pos h3]
    congr 1
    push_cast [Nat.cast_sub hs]
    ring
  · rw [if_neg h3, if_neg h3]
    congr 1
    push_cast [Nat.cast_sub (by omega : 4 ≤ sector)]
    ring

theorem atr_byte_offset_lt (secSize sector page : Nat) (hs16 : sector < 65536)
    (hp : page < 256) (hS : secSize < 65536) : atr_byte_offset secSize sector page < 2 ^ 32 := by
  unfold atr_byte_offset
  split
  · omega
  · have hprod : (sector - 4) * secSize ≤ 65531 * 65535 :=
      Nat.mul_le_mul (by omega) (by omega)
    omega

theorem atr_byte_offset_pos (secSize sector page : Nat) :
    16 ≤ atr_byte_offset secSize sector page := by
  unfold atr_byte_offset
  split <;> omega

/-- The calls that `read_atr_sector` makes on the file: none, or first a seek to the
position computed from `offset`. -/
theorem read_atr_ops (m : MountedATR) (sector page : Nat) (buf : List Nat) :
    (read_atr_sector m sector page buf).1.fil.ops = m.fil.ops ∨
    ∃ rest, (read_atr_sector m sector page buf).1.fil.ops =
      m.fil.ops ++ FileOp.lseek (to_fsize (read_atr_offset m.secSize sector page)) :: rest := by
  unfold read_atr_sector
  by_cases h1 : m.path = ""
  · rw [if_pos h1]; exact Or.inl rfl
  rw [if_neg h1]
  by_cases h2 : sector = 0
  · rw [if_pos h2]; exact Or.inl rfl
  rw [if_neg h2]
  by_cases h3 : read_atr_offset m.secSize sector page > m.filesize - 128
  · rw [if_pos h3]; exact Or.inl rfl
  rw [if_neg h3]
  right
  by_cases hf1 : m.fil.fails m.fil.ops.length = true
  · simp only [f_lseek, hf1, if_true]
    exact ⟨[], rfl⟩
  · simp only [f_lseek, hf1, Bool.false_eq_true, if_false]
    by_cases hf2 : m.fil.fails (m.fil.ops ++
        [FileOp.lseek (to_fsize (read_atr_offset m.secSize sector page))]).length = true
    · simp only [f_read, hf2, if_true]
      exact ⟨[FileOp.read 128], by simp⟩
    · simp only [f_read, hf2, Bool.false_eq_true, if_false]
      exact ⟨[FileOp.read 128], by simp⟩

/-- The calls that `write_atr_sector` makes on the file: none, or first a seek to the
position computed from `offset`. -/
theorem write_atr_ops (m : MountedATR) (sector page : Nat) (buf : List Nat) :
    (write_atr_sector m sector page buf).1.fil.ops = m.fil.ops ∨
    ∃ rest, (write_atr_sector m sector page buf).1.fil.ops =
      m.fil.ops ++ FileOp.lseek (to_fsize (write_atr_offset m.secSize sector page)) :: rest := by
  unfold write_atr_sector
  by_cases h1 : m.path = ""
  · rw [if_pos h1]; exact Or.inl rfl
  rw [if_neg h1]
  by_cases h2 : sector = 0
  · rw [if_pos h2]; exact Or.inl rfl
  rw [if_neg h2]
  by_cases h3 : write_atr_offset m.secSize sector page > m.filesize - 128
  · rw [if_pos h3]; exact Or.inl rfl
  rw [if_neg h3]
  right
  by_cases hf1 : m.fil.fails m.fil.ops.length = true
  · simp only [f_lseek, hf1, if_true]
    exact ⟨[], rfl⟩
  · simp only [f_lseek, hf1, Bool.false_eq_true, if_false]
    by_cases hf2 : m.fil.fails (m.fil.ops ++
        [FileOp.lseek (to_fsize (write_atr_offset m.secSize sector page))]).length = true
    · simp only [f_write, hf2, if_true]
      exact ⟨[FileOp.write ((List.range 128).map (fun k => buf.getD k 0)).length], by simp⟩
    · simp only [f_write, hf2, Bool.false_eq_true, if_false]
      by_cases hf3 : m.fil.fails (m.fil.ops ++
          [FileOp.lseek (to_fsize (write_atr_offset m.secSize sector page))] ++
          [FileOp.write ((List.range 128).map (fun k => buf.getD k 0)).length]).length = true
      · simp only [f_sync, hf3, if_true]
        exact ⟨[FileOp.write ((List.range 128).map (fun k => buf.getD k 0)).length,
          FileOp.sync], by simp⟩
      · simp only [f_sync, hf3, Bool.false_eq_true, if_false]
        exact ⟨[FileOp.write ((List.range 128).map (fun k => buf.getD k 0)).length,
          FileOp.sync], by simp⟩

/-- A read inside the image, on a disk on which no call fails: a seek to the offset, a
read of 128 bytes, the result 0. -/
theorem read_atr_in_bounds (m : MountedATR) (sector page : Nat) (buf : List Nat)
    (hm : m.path ≠ "") (hs : 1 ≤ sector) (hf : ∀ k, m.fil.fails k = false)
    (hsize : m.filesize = m.fil.size) (hint : m.filesize < 2 ^ 31)
    (hin : ((atr_byte_offset m.secSize sector page : Nat) : Int) ≤ m.filesize - 128) :
    read_atr_sector m sector page buf =
      ({ m with fil := { m.fil with
            fptr := atr_byte_offset m.secSize sector page + 128
            ops := m.fil.ops ++ [FileOp.lseek (atr_byte_offset m.secSize sector page),
              FileOp.read 128] } },
        (List.range 128).map
            (fun k => m.fil.data (atr_byte_offset m.secSize sector page + k)) ++
          buf.drop 128, 0) := by
  have h31 : atr_byte_offset m.secSize sector page < 2 ^ 31 := by omega
  have hoff : read_atr_offset m.secSize sector page =
      ((atr_byte_offset m.secSize sector page : Nat) : Int) := by
    rw [read_atr_offset_int32 _ _ _ hs]
    exact int32_nat _ h31
  have hpos : to_fsize (read_atr_offset m.secSize sector page) =
      atr_byte_offset m.secSize sector page := by
    rw [read_atr_offset_int32 _ _ _ hs]
    exact to_fsize_int32_nat _ (by omega)
  have hfit : atr_byte_offset m.secSize sector page + 128 ≤ m.fil.size := by omega
  unfold read_atr_sector
  rw [if_neg hm, if_neg (by omega), hpos, if_neg (by rw [hoff]; omega)]
  have hmax : max m.fil.size (atr_byte_offset m.secSize sector page) = m.fil.size :=
    Nat.max_eq_left (by omega)
  have hmin : min 128 (m.fil.size - atr_byte_offset m.secSize sector page) = 128 :=
    Nat.min_eq_left (by omega)
  simp only [f_lseek, f_read, hf, Bool.false_eq_true, if_false, hmax, hmin, List.length_map,
    List.length_range, ne_eq, not_true_eq_false, List.append_assoc, List.singleton_append]

/-- A write inside the image, on a disk on which no call fails: a seek to the offset, a
write of the first 128 bytes of the buffer, a sync, the result 0. -/
theorem write_atr_in_bounds (m : MountedATR) (sector page : Nat) (buf : List Nat)
    (hm : m.path ≠ "") (hs : 1 ≤ sector) (hf : ∀ k, m.fil.fails k = false)
    (hsize : m.filesize = m.fil.size) (hint : m.filesize < 2 ^ 31)
    (hin : ((atr_byte_offset m.secSize sector page : Nat) : Int) ≤ m.filesize - 128) :
    write_atr_sector m sector page buf =
      ({ m with fil := { m.fil with
            data := fun k =>
              if atr_byte_offset m.secSize sector page ≤ k ∧
                  k < atr_byte_offset m.secSize sector page + 128
              then ((List.range 128).map (fun j => buf.getD j 0)).getD
                (k - atr_byte_offset m.secSize sector page) 0
              else m.fil.data k
            fptr := atr_byte_offset m.secSize sector page + 128
            ops := m.fil.ops ++ [FileOp.lseek (atr_byte_offset m.secSize sector page),
              FileOp.write 128, FileOp.sync] } }, 0) := by
  have h31 : atr_byte_offset m.secSize sector page < 2 ^ 31 := by omega
  have hoff : write_atr_offset m.secSize sector page =
      ((atr_byte_offset m.secSize sector page : Nat) : Int) := by
    rw [write_atr_offset_eq, read_atr_offset_int32 _ _ _ hs]
    exact int32_nat _ h31
  have hpos : to_fsize (write_atr_offset m.secSize sector page) =
      atr_byte_offset m.secSize sector page := by
    rw [write_atr_offset_eq, read_atr_offset_int32 _ _ _ hs]
    exact to_fsize_int32_nat _ (by omega)
  have hfit : atr_byte_offset m.secSize sector page + 128 ≤ m.fil.size := by omega
  unfold write_atr_sector
  rw [if_neg hm, if_neg (by omega), hpos, if_neg (by rw [hoff]; omega)]
  have hmax : max m.fil.size (atr_byte_offset m.secSize sector page) = m.fil.size :=
    Nat.max_eq_left (by omega)
  have hmax2 : max m.fil.size (atr_byte_offset m.secSize sector page + 128) = m.fil.size :=
    Nat.max_eq_left hfit
  simp only [f_lseek, f_write, f_sync, hf, Bool.false_eq_true, if_false, hmax, hmax2,
    List.length_map, List.length_range, ne_eq, not_true_eq_false, List.append_assoc,
    List.singleton_append, List.cons_append, List.nil_append]

theorem atr_demo_filesize (secSize : Nat) (content : List Nat) :
    (atr_demo secSize content).filesize = content.length := rfl

theorem atr_demo_size (secSize : Nat) (content : List Nat) :
    (atr_demo secSize content).filesize = (atr_demo secSize content).fil.size := rfl

/-- C20 (ATR round trip). With an ATR mounted, the file being a byte array of the recorded
size on which no call fails: for every sector `s ≥ 1` and page `p` whose byte offset is at
most `filesize - 128`, `write_atr_sector(s, p, buf)` returns 0 and a following
`read_atr_sector(s, p, out)` returns 0 with the 128 bytes of `out` equal to those of
`buf`. -/
theorem atr_round_trip (m : MountedATR) (sector page : Nat) (buf out : List Nat)
    (hm : m.path ≠ "") (hs : 1 ≤ sector) (hf : ∀ k, m.fil.fails k = false)
    (hsize : m.filesize = m.fil.size) (hint : m.filesize < 2 ^ 31)
    (hbuf : buf.length = 128) (hout : out.length = 128)
    (hin : ((atr_byte_offset m.secSize sector page : Nat) : Int) ≤ m.filesize - 128) :
    (write_atr_sector m sector page buf).2 = 0 ∧
    (read_atr_sector (write_atr_sector m sector page buf).1 sector page out).2.2 = 0 ∧
    (read_atr_sector (write_atr_sector m sector page buf).1 sector page out).2.1 = buf := by
  have hw := write_atr_in_bounds m sector page buf hm hs hf hsize hint hin
  have hr := read_atr_in_bounds (write_atr_sector m sector page buf).1 sector page out
    (by rw [hw]; exact hm) hs (by rw [hw]; exact hf) (by rw [hw]; exact hsize)
    (by rw [hw]; exact hint) (by rw [hw]; exact hin)
  rw [hr]
  refine ⟨by rw [hw], rfl, ?_⟩
  rw [hw]
  simp only []
  rw [List.drop_of_length_le (by omega), List.append_nil]
  refine Eq.trans ?_ (list_eq_map_getD buf 128 hbuf)
  apply List.map_congr_left
  intro k hk
  rw [List.mem_range] at hk
  rw [if_pos ⟨by omega, by omega⟩, Nat.add_sub_cancel_left, List.getD_eq_getElem?_getD,
    List.getElem?_map, List.getElem?_range hk]
  rfl

theorem atr_round_trip_witness :
    (write_atr_sector (atr_demo 256 (List.replicate 1000 7)) 5 1 (List.replicate 128 1)).2 = 0 ∧
    (read_atr_sector
      (write_atr_sector (atr_demo 256 (List.replicate 1000 7)) 5 1 (List.replicate 128 1)).1
      5 1 (List.replicate 128 0)).2.1 = List.replicate 128 1 := by
  have h := atr_round_trip (atr_demo 256 (List.replicate 1000 7)) 5 1 (List.replicate 128 1)
    (List.replicate 128 0) (by decide) (by omega) (fun _ => rfl) (atr_demo_size _ _)
    (by rw [atr_demo_filesize, List.length_replicate]; norm_num)
    (List.length_replicate _ _) (List.length_replicate _ _)
    (by
      rw [atr_demo_filesize, List.length_replicate,
        show atr_byte_offset (atr_demo 256 (List.replicate 1000 7)).secSize 5 1 = 784 from rfl]
      norm_num)
  exact ⟨h.1, h.2.2⟩

/-- The checks of `read_atr_sector` and `write_atr_sector` in terms of the value of the
variable `offset`: nothing mounted gives 1; sector 0 gives 2; an `offset` above
`filesize - 128` gives a zeroed buffer and 0 for a read, 2 for a write; none of these
makes a call on the file. -/
theorem atr_checks (m : MountedATR) (sector page : Nat) (buf : List Nat) :
    (m.path = "" →
      read_atr_sector m sector page buf = (m, buf, 1) ∧
      write_atr_sector m sector page buf = (m, 1)) ∧
    (m.path ≠ "" →
      read_atr_sector m 0 page buf = (m, buf, 2) ∧ write_atr_sector m 0 page buf = (m, 2)) ∧
    (m.path ≠ "" → sector ≠ 0 → read_atr_offset m.secSize sector page > m.filesize - 128 →
      read_atr_sector m sector page buf = (m, List.replicate 128 0 ++ buf.drop 128, 0) ∧
      write_atr_sector m sector page buf = (m, 2)) := by
  refine ⟨fun h => ?_, fun h => ?_, fun h1 h2 h3 => ?_⟩
  · unfold read_atr_sector write_atr_sector
    rw [if_pos h, if_pos h]
    exact ⟨rfl, rfl⟩
  · unfold read_atr_sector write_atr_sector
    rw [if_neg h, if_neg h, if_pos rfl, if_pos rfl]
    exact ⟨rfl, rfl⟩
  · unfold read_atr_sector write_atr_sector
    rw [if_neg h1, if_neg h1, if_neg h2, if_neg h2, if_pos h3,
      if_pos (by rw [write_atr_offset_eq]; exact h3)]
    exact ⟨rfl, rfl⟩

set_option maxRecDepth 4000 in
/-- C19, the failing input. An image of 144 bytes whose header gives the sector size
65535 is mounted; sector 65535, page 0 has the byte offset 4294574485, far beyond
`filesize - 128 = 16`. The product in `offset` overflows `int`, `offset` is negative and
passes the check: the read seeks and reads in the file and returns 2, not 0 with a zeroed
buffer, and the write seeks in the file as well. -/
theorem atr_overflow_passes_check :
    atr_byte_offset 65535 65535 0 = 4294574485 ∧
    (atr_demo 65535 (List.replicate 144 0)).filesize - 128 = 16 ∧
    read_atr_offset 65535 65535 0 = -392811 ∧
    write_atr_offset 65535 65535 0 = -392811 ∧
    (read_atr_sector (atr_demo 65535 (List.replicate 144 0)) 65535 0
      (List.replicate 128 1)).2.2 = 2 ∧
    (read_atr_sector (atr_demo 65535 (List.replicate 144 0)) 65535 0
      (List.replicate 128 1)).1.fil.ops = [FileOp.lseek 4294574485, FileOp.read 128] ∧
    (write_atr_sector (atr_demo 65535 (List.replicate 144 0)) 65535 0
      (List.replicate 128 1)).1.fil.ops.head? = some (FileOp.lseek 4294574485) := by
  refine ⟨by decide, by decide, by decide, by decide, by decide, by decide, by decide⟩

/-! ## The allocator, path by path -/

/-- After a format at power-on and one write, sector 15 is open with seven free
sub-slots. -/
theorem first_write_cursor (l : Nat) (hl : l < 30716) (buf : List Nat) :
    (flash_fs_write_FAT_sector (flash_fs_create boot) l buf).write_sector_bitmap = 254 ∧
    (flash_fs_write_FAT_sector (flash_fs_create boot) l buf).write_sector = 15 := by
  have hE : sectors (flash_fs_create boot).fs_map l = 0 := by
    rw [(flash_fs_create_spec boot).1]
    exact create_map_sectors _ l hl
  have hws : (flash_fs_create boot).write_sector = 0 := (flash_fs_create_spec boot).2.2.2.2.1
  have hssp : (flash_fs_create boot).search_start_pos = 0 :=
    (flash_fs_create_spec boot).2.2.2.2.2.2.1
  have hfresh := openedFresh_of_first (flash_fs_create boot) (Or.inl hws) 15 (by decide)
    (by rw [hssp, create_boot_used]; rfl)
    (fun j hj => by
      rw [hssp, create_boot_used, if_pos (by omega)]
      decide)
  rw [hssp] at hfresh
  obtain ⟨_, _, _, _, _, f6, f7, _, _⟩ := hfresh
  obtain ⟨_, _, _, g4, g5, _, _⟩ := flash_fs_write_FAT_sector_fields (flash_fs_create boot) l buf
  rw [g4, g5, release_previous_of_unmapped _ _ hE, f6, f7]
  exact ⟨rfl, by decide⟩

/-- C29, counterexample. Format at power-on, write logical sector 5 once and format again:
`write_sector_bitmap` is still `0xFE`, not zero, but `init_used_bitmap` has reset
`write_sector` to 0. The allocator then searches: it erases physical sector 15 and hands
out sub-slot 0 of it, not the lowest set bit (bit 1) of the bitmap it was entered with. -/
theorem open_bitmap_without_open_sector :
    (flash_fs_create one_write_demo).write_sector_bitmap = 254 ∧
    (flash_fs_create one_write_demo).write_sector = 0 ∧
    (getNextWriteSector (flash_fs_create one_write_demo)).1.trace =
      (flash_fs_create one_write_demo).trace ++ [FlashOp.erase 15] ∧
    (getNextWriteSector (flash_fs_create one_write_demo)).2 = makeMapEntry 15 0 ∧
    (getNextWriteSector (flash_fs_create one_write_demo)).1.write_sector_bitmap = 254 := by
  obtain ⟨_, _, _, c4, c5, c6, c7, _⟩ := flash_fs_create_spec one_write_demo
  have hb : one_write_demo.write_sector_bitmap = 254 := by
    unfold one_write_demo
    exact (first_write_cursor 5 (by decide) _).1
  have hp : one_write_demo.search_start_pos = 15 := by
    unfold one_write_demo
    exact (first_write 5 (by decide) _).2
  have h15 : (0 + 15) % 3840 = 15 := by decide
  have hfresh := openedFresh_of_first (flash_fs_create one_write_demo) (Or.inl c5) 0
    (by decide)
    (by rw [c7, hp, h15, c4 15]; rfl)
    (fun j hj => absurd hj (by omega))
  rw [c7, hp, h15] at hfresh
  obtain ⟨_, _, _, _, f5, _, f7, _, _, f10⟩ := hfresh
  exact ⟨c6.trans hb, c5, f10, f5, f7⟩

/-- C29, amended (allocation from the open sector). Whenever `write_sector != 0` and
`write_sector_bitmap != 0` (a byte), `getNextWriteSector` issues no flash command and
leaves the flash unchanged, returns the map entry made of `write_sector` and `k`, the
lowest-index bit set in `write_sector_bitmap`, clears exactly that bit of
`write_sector_bitmap`, and keeps `write_sector`; for a sector number below 8192 the entry
decodes to `(write_sector, k)`. -/
theorem open_sector_allocation (s : FS) (hws : s.write_sector ≠ 0)
    (hne : s.write_sector_bitmap ≠ 0) (hbyte : s.write_sector_bitmap < 256) :
    ∃ k, k < 8 ∧ s.write_sector_bitmap.testBit k = true ∧
      (∀ j, j < k → s.write_sector_bitmap.testBit j = false) ∧
      (getNextWriteSector s).2 = makeMapEntry s.write_sector k ∧
      (s.write_sector < 8192 → getMapSector (getNextWriteSector s).2 = s.write_sector ∧
        getMapOffset (getNextWriteSector s).2 = k) ∧
      (∀ j, (getNextWriteSector s).1.write_sector_bitmap.testBit j =
        (s.write_sector_bitmap.testBit j && !decide (k = j))) ∧
      (getNextWriteSector s).1.write_sector = s.write_sector ∧
      (getNextWriteSector s).1.trace = s.trace ∧
      (getNextWriteSector s).1.flash = s.flash := by
  have e0 := getNextWriteSector_of_open s (fun h => h.elim hws hne)
  obtain ⟨t1, _, _, _, t5, _, t7, t8, t9⟩ := take_free_slot_spec s
  rw [← e0] at t1 t5 t7 t8 t9
  obtain ⟨b1, b2, b3⟩ := lowest_bit s.write_sector_bitmap hbyte hne
  refine ⟨_, b1, b2, b3, t9, ?_, ?_, t5, t7, t1⟩
  · intro hlt
    rw [t9]
    exact ⟨getMapSector_makeMapEntry hlt b1, getMapOffset_makeMapEntry hlt b1⟩
  · intro j
    rw [t8]
    by_cases hj : j < 32
    · exact testBit_clear _ _ j hj
    · rw [Nat.testBit_and, byte_testBit_high hbyte (by omega)]
      rfl

theorem open_sector_allocation_witness :
    ∃ k, k < 8 ∧ (6 : Nat).testBit k = true ∧
      (∀ j, j < k → (6 : Nat).testBit j = false) ∧
      (getNextWriteSector { boot with write_sector := 20, write_sector_bitmap := 6 }).2 =
        makeMapEntry 20 k ∧
      (getNextWriteSector { boot with write_sector := 20, write_sector_bitmap := 6 }).1.trace
        = [] :=
  (open_sector_allocation { boot with write_sector := 20, write_sector_bitmap := 6 }
    (by decide) (by decide) (by decide)).imp
    (fun _ h => ⟨h.1, h.2.1, h.2.2.1, h.2.2.2.1, h.2.2.2.2.2.2.2.1⟩)

/-- C30 (allocation of a new sector). When no sector is open or the open sector has no
free sub-slot, and some physical sector has `used_bitmap` byte 0, `getNextWriteSector`
takes the sector `p = (search_start_pos + i) mod 3840` for the least `i` below 3840 whose
byte is 0: it erases `p` and issues no other flash command, so no partially used sector is
erased; it returns sub-slot 0 of `p`, leaves `write_sector = p`,
`write_sector_bitmap = 0xFE` and `search_start_pos = p`. -/
theorem new_sector_allocation (s : FS)
    (hopen : s.write_sector = 0 ∨ s.write_sector_bitmap = 0)
    (hfree : ∃ q, q < 3840 ∧ s.used_bitmap q = 0) :
    ∃ i, i < 3840 ∧ s.used_bitmap ((i + s.search_start_pos) % 3840) = 0 ∧
      (∀ j, j < i → s.used_bitmap ((j + s.search_start_pos) % 3840) ≠ 0) ∧
      (getNextWriteSector s).2 = makeMapEntry ((i + s.search_start_pos) % 3840) 0 ∧
      getMapSector (getNextWriteSector s).2 = (i + s.search_start_pos) % 3840 ∧
      getMapOffset (getNextWriteSector s).2 = 0 ∧
      (getNextWriteSector s).1.write_sector = (i + s.search_start_pos) % 3840 ∧
      (getNextWriteSector s).1.write_sector_bitmap = 0xFE ∧
      (getNextWriteSector s).1.search_start_pos = (i + s.search_start_pos) % 3840 ∧
      (getNextWriteSector s).1.trace =
        s.trace ++ [FlashOp.erase ((i + s.search_start_pos) % 3840)] ∧
      (∀ a, (getNextWriteSector s).1.flash a =
        if 4096 * ((i + s.search_start_pos) % 3840) ≤ a ∧
          a < 4096 * ((i + s.search_start_pos) % 3840) + 4096 then 255 else s.flash a) ∧
      ∀ q, FlashOp.erase q ∈ [FlashOp.erase ((i + s.search_start_pos) % 3840)] →
        s.used_bitmap q = 0 := by
  classical
  obtain ⟨q, hq, hq0⟩ := hfree
  obtain ⟨j0, hj0, hj0q⟩ := circ_surj s.search_start_pos q hq
  have hex : ∃ i, i < 3840 ∧ s.used_bitmap ((i + s.search_start_pos) % 3840) = 0 :=
    ⟨j0, hj0, by rw [hj0q]; exact hq0⟩
  obtain ⟨hi, hz⟩ := Nat.find_spec hex
  have hmin : ∀ j, j < Nat.find hex →
      s.used_bitmap ((j + s.search_start_pos) % 3840) ≠ 0 := by
    intro j hj h0
    exact Nat.find_min hex hj ⟨by omega, h0⟩
  obtain ⟨_, hp, _, _, f5, f6, f7, f8, f9, f10⟩ :=
    openedFresh_of_first s hopen (Nat.find hex) hi hz hmin
  refine ⟨Nat.find hex, hi, hz, hmin, f5, ?_, ?_, f6, f7, f8, f10, f9, ?_⟩
  · rw [f5]
    exact getMapSector_makeMapEntry (by omega) (by decide)
  · rw [f5]
    exact getMapOffset_makeMapEntry (by omega) (by decide)
  · intro q' hq'
    rw [List.mem_singleton] at hq'
    cases hq'
    exact hz

theorem new_sector_allocation_witness :
    (boot.write_sector = 0 ∨ boot.write_sector_bitmap = 0) ∧
    ∃ i, i < 3840 ∧
      (getNextWriteSector boot).2 = makeMapEntry ((i + boot.search_start_pos) % 3840) 0 ∧
      (getNextWriteSector boot).1.write_sector_bitmap = 0xFE :=
  ⟨Or.inl rfl,
    (new_sector_allocation boot (Or.inl rfl) ⟨0, by decide, rfl⟩).imp
      (fun _ h => ⟨h.1, h.2.2.2.1, h.2.2.2.2.2.2.2.1⟩)⟩
/-! ## The cartridge bus -/

theorem and_or_eq_zero (x a b : Nat) : x &&& (a ||| b) = 0 ↔ x &&& a = 0 ∧ x &&& b = 0 := by
  rw [Nat.and_or_distrib_left]
  constructor
  · intro h
    constructor
    · apply Nat.eq_of_testBit_eq
      intro j
      have := congrArg (fun v => Nat.testBit v j) h
      simp only [Nat.testBit_or, Nat.zero_testBit, Bool.or_eq_false_iff] at this
      rw [this.1, Nat.zero_testBit]
    · apply Nat.eq_of_testBit_eq
      intro j
      have := congrArg (fun v => Nat.testBit v j) h
      simp only [Nat.testBit_or, Nat.zero_testBit, Bool.or_eq_false_iff] at this
      rw [this.2, Nat.zero_testBit]
  · rintro ⟨h1, h2⟩
    rw [h1, h2]
    rfl

/-- A write to the control page: `!(pins & CCTL_RW_GPIO_MASK)` holds exactly when CCTL and
R/W are both low. -/
theorem cctl_rw_low (pins : Nat) :
    pins &&& CCTL_RW_GPIO_MASK = 0 ↔
      pins &&& CCTL_GPIO_MASK = 0 ∧ pins &&& RW_GPIO_MASK = 0 := by
  have h : CCTL_RW_GPIO_MASK = CCTL_GPIO_MASK ||| RW_GPIO_MASK := by decide
  rw [h]
  exact and_or_eq_zero _ _ _

/-- The low byte of the 13-bit address is the low byte of the GPIO word. -/
theorem addr_low_byte (c : Cycle) : c.addr &&& 0xFF = c.pins &&& 0xFF := by
  unfold Cycle.addr
  rw [Nat.and_assoc]
  rfl

theorem testBit_seven (j : Nat) : (7 : Nat).testBit j = decide (j < 3) := by
  have h : (7 : Nat) = 2 ^ 3 - 1 := by norm_num
  rw [h, Nat.testBit_two_pow_sub_one]

/-- The C expression `(~addr) & 0x7` is `7 - (addr & 7)`. -/
theorem bnot_and_seven (x : Nat) : bnot32 x &&& 0x7 = 7 - (x &&& 7) := by
  have h1 : bnot32 x &&& 0x7 = bnot32 (x &&& 7) &&& 0x7 := by
    apply Nat.eq_of_testBit_eq
    intro j
    simp only [Nat.testBit_and, testBit_bnot32, testBit_seven]
    by_cases hj : j < 3
    · have hj32 : j < 32 := by omega
      simp [hj, hj32]
    · simp [hj]
  have h2 : x &&& 7 < 8 := lt_of_le_of_lt Nat.and_le_right (by norm_num)
  rw [h1]
  generalize x &&& 7 = y at h2
  interval_cases y <;> decide
/-- C27, counterexample. `emulate_OSS_B` and `emulate_OSS_A` start with `RD5_HIGH;
RD4_LOW;`: on entry RD4 is low and RD5 is high, not RD4 high and RD5 low. -/
theorem oss_entry_levels :
    Emulator.OSS_B.entry.RD4 = false ∧ Emulator.OSS_B.entry.RD5 = true ∧
    (Emulator.OSS_A true).entry.RD4 = false ∧ (Emulator.OSS_A true).entry.RD5 = true ∧
    (Emulator.OSS_A false).entry.RD4 = false ∧ (Emulator.OSS_A false).entry.RD5 = true ∧
    emulate_cartridge CART_TYPE_OSS_16K_TYPE_B = Emulator.OSS_B ∧
    emulate_cartridge CART_TYPE_OSS_16K_034M = Emulator.OSS_A true ∧
    emulate_cartridge CART_TYPE_OSS_16K_043M = Emulator.OSS_A false :=
  ⟨rfl, rfl, rfl, rfl, rfl, rfl, by decide, by decide, by decide⟩

/-- C27, amended (initial RD4/RD5 levels). On entry each emulator drives RD4/RD5 to:
Standard 8K L/H, Standard 16K H/H, XEGS and SW-XEGS H/H, MegaCart H/H, Bounty Bob H/H,
Atarimax L/H, Williams L/H, OSS type B L/H, OSS 034M/043M L/H, SIC L/H, SDX L/H,
Diamond/Express L/H, Blizzard 16K H/H, Turbosoft L/H, Atrax L/H, Microcalc L/H,
Phoenix L/H, Adawliah L/H, XEX loader L/L (`true` is high). -/
theorem initial_rd_levels :
    (Emulator.standard_8k.entry.RD4 = false ∧ Emulator.standard_8k.entry.RD5 = true) ∧
    (Emulator.standard_16k.entry.RD4 = true ∧ Emulator.standard_16k.entry.RD5 = true) ∧
    (∀ switchable,
      ((Emulator.XEGS_32k switchable).entry.RD4 = true ∧
        (Emulator.XEGS_32k switchable).entry.RD5 = true) ∧
      ((Emulator.XEGS_64k switchable).entry.RD4 = true ∧
        (Emulator.XEGS_64k switchable).entry.RD5 = true) ∧
      ((Emulator.XEGS_128k switchable).entry.RD4 = true ∧
        (Emulator.XEGS_128k switchable).entry.RD5 = true)) ∧
    (∀ size, (Emulator.megacart size).entry.RD4 = true ∧
      (Emulator.megacart size).entry.RD5 = true) ∧
    (Emulator.bounty_bob.entry.RD4 = true ∧ Emulator.bounty_bob.entry.RD5 = true) ∧
    (Emulator.atarimax_128k.entry.RD4 = false ∧ Emulator.atarimax_128k.entry.RD5 = true) ∧
    (Emulator.williams.entry.RD4 = false ∧ Emulator.williams.entry.RD5 = true) ∧
    (Emulator.OSS_B.entry.RD4 = false ∧ Emulator.OSS_B.entry.RD5 = true) ∧
    (∀ is034M, (Emulator.OSS_A is034M).entry.RD4 = false ∧
      (Emulator.OSS_A is034M).entry.RD5 = true) ∧
    (Emulator.SIC.entry.RD4 = false ∧ Emulator.SIC.entry.RD5 = true) ∧
    (∀ size, (Emulator.SDX size).entry.RD4 = false ∧ (Emulator.SDX size).entry.RD5 = true) ∧
    (∀ cctlAddr, (Emulator.diamond_express cctlAddr).entry.RD4 = false ∧
      (Emulator.diamond_express cctlAddr).entry.RD5 = true) ∧
    (Emulator.blizzard.entry.RD4 = true ∧ Emulator.blizzard.entry.RD5 = true) ∧
    (∀ size, (Emulator.turbosoft size).entry.RD4 = false ∧
      (Emulator.turbosoft size).entry.RD5 = true) ∧
    (Emulator.atrax.entry.RD4 = false ∧ Emulator.atrax.entry.RD5 = true) ∧
    (Emulator.microcalc.entry.RD4 = false ∧ Emulator.microcalc.entry.RD5 = true) ∧
    (Emulator.phoenix_8k.entry.RD4 = false ∧ Emulator.phoenix_8k.entry.RD5 = true) ∧
    (Emulator.adawliah_32k.entry.RD4 = false ∧ Emulator.adawliah_32k.entry.RD5 = true) ∧
    (Emulator.XEX_loader.entry.RD4 = false ∧ Emulator.XEX_loader.entry.RD5 = false) :=
  ⟨⟨rfl, rfl⟩, ⟨rfl, rfl⟩, fun _ => ⟨⟨rfl, rfl⟩, ⟨rfl, rfl⟩, ⟨rfl, rfl⟩⟩, fun _ => ⟨rfl, rfl⟩,
    ⟨rfl, rfl⟩, ⟨rfl, rfl⟩, ⟨rfl, rfl⟩, ⟨rfl, rfl⟩, fun _ => ⟨rfl, rfl⟩, ⟨rfl, rfl⟩,
    fun _ => ⟨rfl, rfl⟩, fun _ => ⟨rfl, rfl⟩, ⟨rfl, rfl⟩, fun _ => ⟨rfl, rfl⟩, ⟨rfl, rfl⟩,
    ⟨rfl, rfl⟩, ⟨rfl, rfl⟩, ⟨rfl, rfl⟩, ⟨rfl, rfl⟩⟩

/-! ## SpartaDOS X -/

/-- What a turn of `emulate_SDX` does on an access to the control page that is not taken
for a read of the S5 window. -/
theorem emulate_SDX_cctl (size : Nat) (s : Mapper) (c : Cycle)
    (h5 : ¬ (c.pins &&& S5_GPIO_MASK = 0 ∧ s.rd5_high = true))
    (hc : c.pins &&& CCTL_GPIO_MASK = 0) :
    (c.addr &&& 0xF0 = 0xE0 → emulate_SDX size s c =
      (({ s with ptr := (if size = 64 then 0 else 65536) + (bnot32 c.addr &&& 0x7) * 8192 }).set_rd5
        (c.addr &&& 0x8 == 0), Drive.idle)) ∧
    (size = 128 → c.addr &&& 0xF0 = 0xF0 → emulate_SDX size s c =
      (({ s with ptr := 0 + (bnot32 c.addr &&& 0x7) * 8192 }).set_rd5 (c.addr &&& 0x8 == 0),
        Drive.idle)) ∧
    (c.addr &&& 0xF0 ≠ 0xE0 → ¬ (size = 128 ∧ c.addr &&& 0xF0 = 0xF0) →
      emulate_SDX size s c = (s, Drive.idle)) := by
  unfold emulate_SDX
  rw [if_neg h5, if_pos hc]
  refine ⟨fun hE => ?_, fun h128 hF => ?_, fun hE hF => ?_⟩
  · have hF : ¬ (size = 128 ∧ c.addr &&& 0xF0 = 0xF0) := by
      rintro ⟨_, h⟩
      rw [hE] at h
      exact absurd h (by decide)
    simp only []
    rw [if_neg hF, if_pos hE]
  · have hE : ¬ (c.addr &&& 0xF0 = 0xE0) := by
      intro h
      rw [hF] at h
      exact absurd h (by decide)
    simp only []
    rw [if_pos (⟨h128, hF⟩ : size = 128 ∧ c.addr &&& 0xF0 = 0xF0), if_neg hE]
  · simp only []
    rw [if_neg hF, if_neg hE]

/-- C26, counterexample. In `emulate_SDX(128)` an access to `$D5E0` (address low byte
`0xE0`, so `a & 7 = 0` and `a & 8 = 0`) makes `ramPtr = cart_ram + 65536 + 7 * 8192`: bank 7
of the upper 64 KiB, not bank 0 of the lower 64 KiB; an access to `$D5F0` makes
`ramPtr = cart_ram + 7 * 8192`, in the lower 64 KiB; and in `emulate_SDX(64)` an access to
`$D5E0` selects bank 7, not bank 0. -/
theorem sdx_bank_inverted :
    (emulate_SDX 128 (Emulator.SDX 128).entry { pins := 0x03C000E0, last := 0 }).1.ptr =
      65536 + 7 * 8192 ∧
    (emulate_SDX 128 (Emulator.SDX 128).entry { pins := 0x03C000F0, last := 0 }).1.ptr =
      7 * 8192 ∧
    (emulate_SDX 64 (Emulator.SDX 64).entry { pins := 0x03C000E0, last := 0 }).1.ptr =
      7 * 8192 ∧
    (emulate_SDX 128 (Emulator.SDX 128).entry { pins := 0x03C000E0, last := 0 }).1.rd5_high =
      true ∧
    ({ pins := 0x03C000E0, last := 0 } : Cycle).addr = 0xE0 ∧
    ({ pins := 0x03C000F0, last := 0 } : Cycle).addr = 0xF0 ∧
    ({ pins := 0x03C000E0, last := 0 } : Cycle).pins &&& CCTL_GPIO_MASK = 0 := by
  decide

/-- C26, amended (SDX bank select). In `emulate_SDX`, an access to the control page at
address `a` with `(a & 0xF0) == 0xE0` selects the lower 64 KiB of `cart_ram` for the 64K
cartridge and the upper 64 KiB for the 128K cartridge, and (128K only) an access with
`(a & 0xF0) == 0xF0` selects the lower 64 KiB; in both cases the 8 KiB bank within that
half is `(~a) & 7`, that is `7 - (a & 7)`, and the cart is disabled (RD5 low,
`rd5_high` false) iff `a & 8` is set. An access at any other address changes nothing, and
an enabled S5 read at `a` drives `ramPtr[a]`. -/
theorem sdx_bank_select (size : Nat) (s : Mapper) (c : Cycle) (hc : c.is_cctl) :
    (c.addr &&& 0xF0 = 0xE0 →
      (emulate_SDX size s c).1.ptr =
        (if size = 64 then 0 else 65536) + 8192 * (7 - (c.addr &&& 7)) ∧
      (emulate_SDX size s c).1.RD5 = (c.addr &&& 0x8 == 0) ∧
      (emulate_SDX size s c).1.rd5_high = (c.addr &&& 0x8 == 0)) ∧
    (size = 128 → c.addr &&& 0xF0 = 0xF0 →
      (emulate_SDX size s c).1.ptr = 8192 * (7 - (c.addr &&& 7)) ∧
      (emulate_SDX size s c).1.RD5 = (c.addr &&& 0x8 == 0) ∧
      (emulate_SDX size s c).1.rd5_high = (c.addr &&& 0x8 == 0)) ∧
    (c.addr &&& 0xF0 ≠ 0xE0 → ¬ (size = 128 ∧ c.addr &&& 0xF0 = 0xF0) →
      (emulate_SDX size s c).1 = s) ∧
    (emulate_SDX size s c).2 = Drive.idle ∧
    (emulate_SDX size s c).1.RD4 = s.RD4 ∧
    ∀ r : Cycle, r.pins &&& S5_GPIO_MASK = 0 → (emulate_SDX size s c).1.rd5_high = true →
      emulate_SDX size (emulate_SDX size s c).1 r =
        ((emulate_SDX size s c).1, Drive.ram ((emulate_SDX size s c).1.ptr + r.addr)) := by
  obtain ⟨hcc, _, hs5⟩ := hc
  obtain ⟨k1, k2, k3⟩ := emulate_SDX_cctl size s c (fun h => hs5 h.1) hcc
  refine ⟨fun hE => ?_, fun h128 hF => ?_, fun hE hF => ?_, ?_, ?_, fun r hr hen => ?_⟩
  · rw [k1 hE]
    refine ⟨?_, rfl, rfl⟩
    show (if size = 64 then 0 else 65536) + (bnot32 c.addr &&& 0x7) * 8192 = _
    rw [bnot_and_seven, Nat.mul_comm]
  · rw [k2 h128 hF]
    refine ⟨?_, rfl, rfl⟩
    show 0 + (bnot32 c.addr &&& 0x7) * 8192 = _
    rw [bnot_and_seven, Nat.mul_comm, Nat.zero_add]
  · rw [k3 hE hF]
  · by_cases hE : c.addr &&& 0xF0 = 0xE0
    · rw [k1 hE]
    · by_cases hF : size = 128 ∧ c.addr &&& 0xF0 = 0xF0
      · rw [k2 hF.1 hF.2]
      · rw [k3 hE hF]
  · by_cases hE : c.addr &&& 0xF0 = 0xE0
    · rw [k1 hE]; rfl
    · by_cases hF : size = 128 ∧ c.addr &&& 0xF0 = 0xF0
      · rw [k2 hF.1 hF.2]; rfl
      · rw [k3 hE hF]
  · generalize (emulate_SDX size s c).1 = s1 at hen
    unfold emulate_SDX
    rw [if_pos ⟨hr, hen⟩]

theorem sdx_bank_select_witness :
    (emulate_SDX 128 (Emulator.SDX 128).entry { pins := 0x03C000E3, last := 0 }).1.ptr =
      (if (128 : Nat) = 64 then 0 else 65536) + 8192 * (7 -
        (({ pins := 0x03C000E3, last := 0 } : Cycle).addr &&& 7)) :=
  ((sdx_bank_select 128 (Emulator.SDX 128).entry { pins := 0x03C000E3, last := 0 }
    (by decide)).1 (by decide)).1
/-! ## XEGS -/

theorem set_rd_fields (s : Mapper) (b : Bool) :
    (s.set_rd4 b).RD4 = b ∧ (s.set_rd4 b).rd4_high = b ∧ (s.set_rd4 b).RD5 = s.RD5 ∧
    (s.set_rd4 b).rd5_high = s.rd5_high ∧ (s.set_rd4 b).ptr = s.ptr ∧
    (s.set_rd4 b).bank = s.bank ∧
    (s.set_rd5 b).RD5 = b ∧ (s.set_rd5 b).rd5_high = b ∧ (s.set_rd5 b).RD4 = s.RD4 ∧
    (s.set_rd5 b).rd4_high = s.rd4_high ∧ (s.set_rd5 b).ptr = s.ptr ∧
    (s.set_rd5 b).bank = s.bank :=
  ⟨rfl, rfl, rfl, rfl, rfl, rfl, rfl, rfl, rfl, rfl, rfl, rfl⟩

/-- A run of turns none of which changes the locals. -/
theorem run_of_frame (e : Emulator) (s : Mapper) (cs : List Cycle)
    (h : ∀ c, c ∈ cs → (e.turn s c).1 = s) : e.run s cs = s := by
  unfold Emulator.run
  induction cs with
  | nil => rfl
  | cons c cs ih =>
    rw [List.foldl_cons, h c (List.mem_cons_self _ _)]
    exact ih (fun c' hc' => h c' (List.mem_cons_of_mem _ hc'))

theorem run_cons (e : Emulator) (s : Mapper) (c : Cycle) (cs : List Cycle) :
    e.run s (c :: cs) = e.run (e.turn s c).1 cs := rfl

/-- An invariant of every turn holds after every run. -/
theorem run_invariant (e : Emulator) (P : Mapper → Prop)
    (hstep : ∀ s c, P s → P (e.turn s c).1) (s : Mapper) (hs : P s) (cs : List Cycle) :
    P (e.run s cs) := by
  induction cs generalizing s with
  | nil => exact hs
  | cons c cs ih =>
    rw [run_cons]
    exact ih _ (hstep s c hs)

/-- A write to the control page in an XEGS emulator. -/
theorem emulate_XEGS_write (fixed mask : Nat) (switchable : Bool) (s : Mapper) (w : Cycle)
    (hw : w.is_cctl) (hrw : w.pins &&& RW_GPIO_MASK = 0) :
    emulate_XEGS fixed mask switchable s w =
      (if switchable = true then
        (({ s with ptr := 8192 * (w.data &&& mask) }).set_rd4 (w.data &&& 0x80 == 0)).set_rd5
          (w.data &&& 0x80 == 0)
      else { s with ptr := 8192 * (w.data &&& mask) }, Drive.idle) := by
  obtain ⟨h1, h2, h3⟩ := hw
  unfold emulate_XEGS
  rw [if_neg (fun h => h2 h.1), if_neg (fun h => h3 h.1),
    if_pos ((cctl_rw_low _).2 ⟨h1, hrw⟩)]
  simp only []
  cases switchable
  · rfl
  · rw [if_pos rfl, if_pos rfl]
    by_cases hd : w.data &&& 0x80 = 0
    · rw [if_neg (not_not.2 hd), beq_iff_eq.2 hd]
    · rw [if_pos hd, beq_eq_false_iff_ne.2 hd]

/-- A turn that is not a write to the control page changes no local of an XEGS
emulator. -/
theorem emulate_XEGS_frame (fixed mask : Nat) (switchable : Bool) (s : Mapper) (c : Cycle)
    (hc : c.pins &&& CCTL_RW_GPIO_MASK ≠ 0) : (emulate_XEGS fixed mask switchable s c).1 = s := by
  unfold emulate_XEGS
  split_ifs <;> rfl

theorem emulate_XEGS_s4 (fixed mask : Nat) (switchable : Bool) (s : Mapper) (r : Cycle)
    (hr : r.is_s4) :
    emulate_XEGS fixed mask switchable s r =
      (s, if s.rd4_high = true then Drive.ram (s.ptr + r.addr) else Drive.idle) := by
  obtain ⟨h1, h2, h3⟩ := hr
  have h4 : ¬ r.pins &&& CCTL_RW_GPIO_MASK = 0 := fun h => h3 ((cctl_rw_low _).1 h).1
  unfold emulate_XEGS
  by_cases hf : s.rd4_high = true
  · rw [if_pos ⟨h1, hf⟩, if_pos hf]
  · rw [if_neg (fun h => hf h.2), if_neg (fun h => h2 h.1), if_neg h4, if_neg hf]

theorem emulate_XEGS_s5 (fixed mask : Nat) (switchable : Bool) (s : Mapper) (r : Cycle)
    (hr : r.is_s5) :
    emulate_XEGS fixed mask switchable s r =
      (s, if s.rd5_high = true then Drive.ram (fixed ||| r.addr) else Drive.idle) := by
  obtain ⟨h1, h2, h3⟩ := hr
  have h4 : ¬ r.pins &&& CCTL_RW_GPIO_MASK = 0 := fun h => h3 ((cctl_rw_low _).1 h).1
  unfold emulate_XEGS
  by_cases hf : s.rd5_high = true
  · rw [if_neg (fun h => h2 h.1), if_pos ⟨h1, hf⟩, if_pos hf]
  · rw [if_neg (fun h => h2 h.1), if_neg (fun h => hf h.2), if_neg h4, if_neg hf]

/-- When not switchable, no turn of an XEGS emulator changes RD4, RD5 or the flags. -/
theorem emulate_XEGS_fixed_levels (fixed mask : Nat) (s : Mapper) (c : Cycle) :
    (emulate_XEGS fixed mask false s c).1.RD4 = s.RD4 ∧
    (emulate_XEGS fixed mask false s c).1.RD5 = s.RD5 ∧
    (emulate_XEGS fixed mask false s c).1.rd4_high = s.rd4_high ∧
    (emulate_XEGS fixed mask false s c).1.rd5_high = s.rd5_high := by
  unfold emulate_XEGS
  simp only [Bool.false_eq_true, if_false]
  split_ifs <;> exact ⟨rfl, rfl, rfl, rfl⟩
theorem xegsBanking_of (e : Bool → Emulator) (fixed mask : Nat)
    (hturn : ∀ switchable, (e switchable).turn = emulate_XEGS fixed mask switchable)
    (hentry : (e false).entry = entry_levels true true) : XEGSBanking e fixed mask := by
  refine ⟨?_, ?_, ?_⟩
  · intro switchable s w cs hw hrw hcs
    have hrun : (e switchable).run s (w :: cs) = ((e switchable).turn s w).1 := by
      rw [run_cons]
      apply run_of_frame
      intro c hc
      rw [hturn]
      exact emulate_XEGS_frame _ _ _ _ _ (hcs c hc)
    have hw' := emulate_XEGS_write fixed mask switchable s w hw hrw
    refine ⟨?_, hrun, ?_, ?_, ?_, ?_⟩
    · rw [hturn, hw']
    · rw [hturn, hw']
      cases switchable <;> rfl
    · intro hsw
      rw [hturn, hw', if_pos hsw]
      exact ⟨rfl, rfl, rfl, rfl⟩
    · intro hsw
      rw [hturn, hw', if_neg (by rw [hsw]; decide)]
      exact ⟨rfl, rfl, rfl, rfl⟩
    · intro r
      have hp : ((e switchable).turn s w).1.ptr = 8192 * (w.data &&& mask) := by
        rw [hturn, hw']
        cases switchable <;> rfl
      rw [hrun]
      constructor
      · intro hr
        rw [← hp]
        generalize ((e switchable).turn s w).1 = s1
        rw [hturn]
        exact emulate_XEGS_s4 _ _ _ _ _ hr
      · intro hr
        generalize ((e switchable).turn s w).1 = s1
        rw [hturn]
        exact emulate_XEGS_s5 _ _ _ _ _ hr
  · intro s c
    rw [hturn]
    exact emulate_XEGS_fixed_levels fixed mask s c
  · intro cs r
    have hinv := run_invariant (e false)
      (fun s => s.RD4 = true ∧ s.RD5 = true ∧ s.rd4_high = true ∧ s.rd5_high = true)
      (fun s c hs => by
        rw [hturn]
        obtain ⟨f1, f2, f3, f4⟩ := emulate_XEGS_fixed_levels fixed mask s c
        exact ⟨f1.trans hs.1, f2.trans hs.2.1, f3.trans hs.2.2.1, f4.trans hs.2.2.2⟩)
      (e false).entry (by rw [hentry]; exact ⟨rfl, rfl, rfl, rfl⟩) cs
    refine ⟨hinv.1, hinv.2.1, fun hr => ?_⟩
    obtain ⟨_, _, _, h5⟩ := hinv
    generalize (e false).run (e false).entry cs = s1 at h5
    rw [hturn, emulate_XEGS_s5 _ _ _ _ _ hr, if_pos h5]

/-- C25, counterexample. In the switchable `emulate_XEGS_32k`, after a write of the byte
`0x80` to the control page the cart is disabled, and a read of the S5 window (S5 low; S4,
CCTL and R/W high) drives nothing: the last 8 KiB bank is not driven "always". -/
theorem xegs_disabled_read_unanswered :
    ({ pins := 0x03400000, last := 0x03500000 } : Cycle).is_cctl ∧
    ({ pins := 0x03400000, last := 0x03500000 } : Cycle).pins &&& RW_GPIO_MASK = 0 ∧
    ({ pins := 0x03400000, last := 0x03500000 } : Cycle).data = 0x80 ∧
    ({ pins := 0x01E00000, last := 0x01E00000 } : Cycle).is_s5 ∧
    (emulate_XEGS_32k true
      (emulate_XEGS_32k true (Emulator.XEGS_32k true).entry
        { pins := 0x03400000, last := 0x03500000 }).1
      { pins := 0x01E00000, last := 0x01E00000 }).2 = Drive.idle := by
  decide

/-- C25, amended (XEGS banking). In `emulate_XEGS_32k/64k/128k`, after a write of the
data byte `d` to the control page an S4 read at the 13-bit address `a` drives
`cart_ram[8192*(d & mask) + a]` with `mask = 3, 7, 15` respectively and an S5 read drives
the last 8 KiB bank (`cart_ram[0x6000|a]`, `[0xE000|a]`, `[0x1E000|a]`) whenever the cart
is enabled, and nothing is driven while it is disabled; when switchable, RD4 and RD5 are
both low (cart disabled) exactly when the last written `d` has bit `0x80` set; when not
switchable, no write ever changes RD4/RD5, the cart stays enabled and every S5 read drives
the last bank. -/
theorem xegs_banking :
    XEGSBanking Emulator.XEGS_32k 0x6000 3 ∧ XEGSBanking Emulator.XEGS_64k 0xE000 7 ∧
    XEGSBanking Emulator.XEGS_128k 0x1E000 15 :=
  ⟨xegsBanking_of _ _ _ (fun _ => rfl) rfl, xegsBanking_of _ _ _ (fun _ => rfl) rfl,
    xegsBanking_of _ _ _ (fun _ => rfl) rfl⟩
/-! ## The command channel -/

/-- A turn of `emulate_boot_rom` leaves the loop exactly on a write to `$D5DF`, with the
byte written. -/
theorem boot_rom_turn_cmd (d : Nat → Nat) (c : Cycle) :
    (boot_rom_turn d c).2.2 = if c.is_command = true then some c.data else none := by
  unfold boot_rom_turn Cycle.is_command
  by_cases h1 : c.pins &&& CCTL_GPIO_MASK = 0
  · by_cases h2 : c.pins &&& RW_GPIO_MASK = 0
    · by_cases h3 : c.pins &&& 0xFF = 0xDF
      · simp [h1, h2, h3]
      · simp [h1, h2, h3]
    · simp [h1, h2]
  · by_cases h5 : c.pins &&& S5_GPIO_MASK = 0
    · simp [h1, h5]
    · simp [h1, h5]

theorem boot_rom_loop_cons (rd4 rd5 : Bool) (d : Nat → Nat) (c : Cycle) (cs : List Cycle) :
    boot_rom_loop rd4 rd5 d (c :: cs) =
      if c.is_command = true then
        { RD4 := rd4, RD5 := rd5, cart_d5xx := (boot_rom_turn d c).1,
          driven := [(boot_rom_turn d c).2.1], cmd := some c.data, rest := cs }
      else
        { boot_rom_loop rd4 rd5 (boot_rom_turn d c).1 cs with
          driven := (boot_rom_turn d c).2.1 :: (boot_rom_loop rd4 rd5 (boot_rom_turn d c).1 cs).driven } := by
  have h := boot_rom_turn_cmd d c
  rw [boot_rom_loop]
  rcases hr : boot_rom_turn d c with ⟨d1, dr, v⟩
  rw [hr] at h
  by_cases hc : c.is_command = true
  · rw [if_pos hc] at h
    simp only [] at h
    rw [if_pos hc, h]
  · rw [if_neg hc] at h
    simp only [] at h
    rw [if_neg hc, h]

/-- While no turn writes to `$D5DF` the loop of `emulate_boot_rom` goes on: every turn is
consumed and nothing is returned. -/
theorem boot_rom_loop_running (rd4 rd5 : Bool) (d : Nat → Nat) (cs : List Cycle)
    (h : ∀ c, c ∈ cs → c.is_command = false) :
    (boot_rom_loop rd4 rd5 d cs).cmd = none ∧ (boot_rom_loop rd4 rd5 d cs).rest = [] ∧
    (boot_rom_loop rd4 rd5 d cs).driven.length = cs.length ∧
    (boot_rom_loop rd4 rd5 d cs).cart_d5xx = cs.foldl (fun d c => (boot_rom_turn d c).1) d ∧
    (boot_rom_loop rd4 rd5 d cs).RD4 = rd4 ∧ (boot_rom_loop rd4 rd5 d cs).RD5 = rd5 := by
  induction cs generalizing d with
  | nil => exact ⟨rfl, rfl, rfl, rfl, rfl, rfl⟩
  | cons c cs ih =>
    have hc : ¬ c.is_command = true := by
      rw [h c (List.mem_cons_self _ _)]
      decide
    obtain ⟨i1, i2, i3, i4, i5, i6⟩ :=
      ih (boot_rom_turn d c).1 (fun c' hc' => h c' (List.mem_cons_of_mem _ hc'))
    rw [boot_rom_loop_cons, if_neg hc]
    refine ⟨i1, i2, ?_, i4, i5, i6⟩
    show ((boot_rom_turn d c).2.1 :: _).length = _
    rw [List.length_cons, List.length_cons, i3]

/-- The loop of `emulate_boot_rom` ends at the first turn that writes to `$D5DF`. -/
theorem boot_rom_loop_returns (rd4 rd5 : Bool) (d : Nat → Nat) (pre : List Cycle) (w : Cycle)
    (post : List Cycle) (h : ∀ c, c ∈ pre → c.is_command = false)
    (hw : w.is_command = true) :
    (boot_rom_loop rd4 rd5 d (pre ++ w :: post)).cmd = some w.data ∧
    (boot_rom_loop rd4 rd5 d (pre ++ w :: post)).rest = post ∧
    (boot_rom_loop rd4 rd5 d (pre ++ w :: post)).driven.length = pre.length + 1 ∧
    (boot_rom_loop rd4 rd5 d (pre ++ w :: post)).cart_d5xx =
      store (boot_rom_loop rd4 rd5 d pre).cart_d5xx 0xDF w.data := by
  induction pre generalizing d with
  | nil =>
    rw [List.nil_append, boot_rom_loop_cons, if_pos hw]
    refine ⟨rfl, rfl, rfl, ?_⟩
    show (boot_rom_turn d w).1 = store d 0xDF w.data
    unfold Cycle.is_command at hw
    simp only [Bool.and_eq_true, beq_iff_eq] at hw
    unfold boot_rom_turn
    rw [if_pos hw.1.1, if_neg (not_not.2 hw.1.2), hw.2]
  | cons c cs ih =>
    have hc : ¬ c.is_command = true := by
      rw [h c (List.mem_cons_self _ _)]
      decide
    obtain ⟨i1, i2, i3, i4⟩ :=
      ih (boot_rom_turn d c).1 (fun c' hc' => h c' (List.mem_cons_of_mem _ hc'))
    rw [List.cons_append, boot_rom_loop_cons, if_neg hc, boot_rom_loop_cons, if_neg hc]
    refine ⟨i1, i2, ?_, i4⟩
    show ((boot_rom_turn d c).2.1 :: _).length = _
    rw [List.length_cons, List.length_cons, i3]

/-- C24 (command channel). On entry `emulate_boot_rom` sets `cart_d5xx[0]` to `0x11` and
changes no other register. On a turn with CCTL low, a read at address `a` drives
`cart_d5xx[a & 0xFF]`, changes no register and does not return; a write of the byte `d` at
address `a` stores `d` in `cart_d5xx[a & 0xFF]`, changes no other register and drives
nothing. The function returns exactly on the first write whose address low byte is
`0xDF`: while no such write has occurred every turn is consumed and nothing is returned,
and at the first one the function returns the byte written, which is then the content of
`cart_d5xx[0xDF]`, and the turns after it are not consumed. -/
theorem command_channel (atrMode : Bool) (d : Nat → Nat) :
    (emulate_boot_rom atrMode d []).cart_d5xx = store d 0 0x11 ∧
    (∀ (regs : Nat → Nat) (c : Cycle), c.pins &&& CCTL_GPIO_MASK = 0 →
      c.pins &&& RW_GPIO_MASK ≠ 0 →
      boot_rom_turn regs c = (regs, Drive.d5xx (c.addr &&& 0xFF), none)) ∧
    (∀ (regs : Nat → Nat) (c : Cycle), c.pins &&& CCTL_GPIO_MASK = 0 →
      c.pins &&& RW_GPIO_MASK = 0 →
      (boot_rom_turn regs c).1 (c.addr &&& 0xFF) = c.data ∧
      (∀ k, k ≠ c.addr &&& 0xFF → (boot_rom_turn regs c).1 k = regs k) ∧
      (boot_rom_turn regs c).2.1 = Drive.idle ∧
      (boot_rom_turn regs c).2.2 = if c.addr &&& 0xFF = 0xDF then some c.data else none) ∧
    (∀ (c : Cycle), c.is_command = true ↔
      (c.pins &&& CCTL_GPIO_MASK = 0 ∧ c.pins &&& RW_GPIO_MASK = 0 ∧
        c.addr &&& 0xFF = 0xDF)) ∧
    (∀ (cs : List Cycle), (∀ c, c ∈ cs → c.is_command = false) →
      (emulate_boot_rom atrMode d cs).cmd = none ∧ (emulate_boot_rom atrMode d cs).rest = [] ∧
      (emulate_boot_rom atrMode d cs).driven.length = cs.length) ∧
    ∀ (pre : List Cycle) (w : Cycle) (post : List Cycle),
      (∀ c, c ∈ pre → c.is_command = false) → w.is_command = true →
      (emulate_boot_rom atrMode d (pre ++ w :: post)).cmd = some w.data ∧
      (emulate_boot_rom atrMode d (pre ++ w :: post)).rest = post ∧
      (emulate_boot_rom atrMode d (pre ++ w :: post)).driven.length = pre.length + 1 ∧
      (emulate_boot_rom atrMode d (pre ++ w :: post)).cart_d5xx 0xDF = w.data ∧
      ∀ k, k ≠ 0xDF → (emulate_boot_rom atrMode d (pre ++ w :: post)).cart_d5xx k =
        (emulate_boot_rom atrMode d pre).cart_d5xx k := by
  refine ⟨rfl, ?_, ?_, ?_, ?_, ?_⟩
  · intro regs c h1 h2
    unfold boot_rom_turn
    rw [if_pos h1, if_pos h2]
  · intro regs c h1 h2
    have hturn : boot_rom_turn regs c = (store regs (c.pins &&& 0xFF) c.data, Drive.idle,
        if c.pins &&& 0xFF = 0xDF then some c.data else none) := by
      unfold boot_rom_turn
      rw [if_pos h1, if_neg (not_not.2 h2)]
    rw [hturn, addr_low_byte]
    refine ⟨?_, ?_, rfl, rfl⟩
    · show store regs (c.pins &&& 0xFF) c.data (c.pins &&& 0xFF) = c.data
      unfold store
      rw [if_pos rfl]
    · intro k hk
      show store regs (c.pins &&& 0xFF) c.data k = regs k
      unfold store
      rw [if_neg hk]
  · intro c
    rw [addr_low_byte]
    unfold Cycle.is_command
    simp only [Bool.and_eq_true, beq_iff_eq, and_assoc]
  · intro cs h
    obtain ⟨r1, r2, r3, _⟩ := boot_rom_loop_running false (!atrMode) (store d 0x00 0x11) cs h
    exact ⟨r1, r2, r3⟩
  · intro pre w post h hw
    obtain ⟨r1, r2, r3, r4⟩ :=
      boot_rom_loop_returns false (!atrMode) (store d 0x00 0x11) pre w post h hw
    refine ⟨r1, r2, r3, ?_, ?_⟩
    · unfold emulate_boot_rom
      rw [r4]
      unfold store
      rw [if_pos rfl]
    · intro k hk
      unfold emulate_boot_rom
      rw [r4]
      show store _ 0xDF w.data k = _
      unfold store
      rw [if_neg hk]
/-! ## No response while disabled -/

/-- An emulator that declares `rd5_high` answers a read of the S5 window only when the
flag is set. -/
theorem turn_s5_guard (e : Emulator) (h : e.tracks_rd5 = true) (s : Mapper) (c : Cycle)
    (hc : c.is_s5) (hd : (e.turn s c).2 ≠ Drive.idle) : s.rd5_high = true := by
  obtain ⟨h1, h2, h3⟩ := hc
  have h4 : ¬ c.pins &&& CCTL_RW_GPIO_MASK = 0 := fun h => h3 ((cctl_rw_low _).1 h).1
  by_contra hf
  apply hd
  cases e <;> first
    | (exfalso; revert h; simp [Emulator.tracks_rd5]; done)
    | (simp only [Emulator.turn, emulate_XEGS_32k, emulate_XEGS_64k, emulate_XEGS_128k,
        emulate_XEGS, emulate_atarimax_128k, emulate_williams, emulate_OSS_B, emulate_OSS_A,
        emulate_megacart, emulate_SIC, emulate_SDX, emulate_diamond_express,
        emulate_blizzard, emulate_turbosoft, emulate_atrax, emulate_microcalc,
        emulate_phoenix_8k, emulate_adawliah_32k]
       split_ifs <;> first | rfl | (exfalso; simp_all))

/-- An emulator that declares `rd4_high` answers a read of the S4 window only when the
flag is set. -/
theorem turn_s4_guard (e : Emulator) (h : e.tracks_rd4 = true) (s : Mapper) (c : Cycle)
    (hc : c.is_s4) (hd : (e.turn s c).2 ≠ Drive.idle) : s.rd4_high = true := by
  obtain ⟨h1, h2, h3⟩ := hc
  have h4 : ¬ c.pins &&& CCTL_RW_GPIO_MASK = 0 := fun h => h3 ((cctl_rw_low _).1 h).1
  by_contra hf
  apply hd
  cases e <;> first
    | (exfalso; revert h; simp [Emulator.tracks_rd4]; done)
    | (simp only [Emulator.turn, emulate_XEGS_32k, emulate_XEGS_64k, emulate_XEGS_128k,
        emulate_XEGS, emulate_megacart, emulate_SIC, emulate_blizzard]
       split_ifs <;> first | rfl | (exfalso; simp_all))

/-- An emulator that declares `rd5_high` but not `rd4_high` never answers a read of the S4
window. -/
theorem turn_s4_unanswered (e : Emulator) (h5 : e.tracks_rd5 = true)
    (h4 : e.tracks_rd4 = false) (s : Mapper) (c : Cycle) (hc : c.is_s4) :
    (e.turn s c).2 = Drive.idle := by
  obtain ⟨h1, h2, h3⟩ := hc
  cases e <;> first
    | (exfalso; revert h5; simp [Emulator.tracks_rd5]; done)
    | (exfalso; revert h4; simp [Emulator.tracks_rd4]; done)
    | (simp only [Emulator.turn, emulate_atarimax_128k, emulate_williams, emulate_OSS_B,
        emulate_OSS_A, emulate_SDX, emulate_diamond_express, emulate_turbosoft, emulate_atrax,
        emulate_microcalc, emulate_phoenix_8k, emulate_adawliah_32k]
       split_ifs <;> first | rfl | (exfalso; simp_all))

/-- Only an access to the control page changes the flags and the levels of RD4 and RD5. -/
theorem turn_flags_frame (e : Emulator) (s : Mapper) (c : Cycle)
    (hc : c.pins &&& CCTL_GPIO_MASK ≠ 0) :
    (e.turn s c).1.rd4_high = s.rd4_high ∧ (e.turn s c).1.rd5_high = s.rd5_high ∧
    (e.turn s c).1.RD4 = s.RD4 ∧ (e.turn s c).1.RD5 = s.RD5 := by
  have h4 : ¬ c.pins &&& CCTL_RW_GPIO_MASK = 0 := fun h => hc ((cctl_rw_low _).1 h).1
  cases e <;>
    (simp only [Emulator.turn, emulate_standard_8k, emulate_standard_16k, emulate_XEGS_32k,
        emulate_XEGS_64k, emulate_XEGS_128k, emulate_XEGS, emulate_bounty_bob,
        emulate_atarimax_128k, emulate_williams, emulate_OSS_B, emulate_OSS_A,
        emulate_megacart, emulate_SIC, emulate_SDX, emulate_diamond_express,
        emulate_blizzard, emulate_turbosoft, emulate_atrax, emulate_microcalc,
        emulate_phoenix_8k, emulate_adawliah_32k, feed_XEX_loader]
     first
      | exact ⟨trivial, trivial, trivial, trivial⟩
      | (split_ifs <;> exact ⟨rfl, rfl, rfl, rfl⟩))

/-- Every turn keeps each flag equal to the level of its line. -/
theorem turn_levels (e : Emulator) (s : Mapper) (c : Cycle)
    (h : s.RD4 = s.rd4_high ∧ s.RD5 = s.rd5_high) :
    (e.turn s c).1.RD4 = (e.turn s c).1.rd4_high ∧
    (e.turn s c).1.RD5 = (e.turn s c).1.rd5_high := by
  obtain ⟨h1, h2⟩ := h
  cases e <;>
    (simp only [Emulator.turn, emulate_standard_8k, emulate_standard_16k, emulate_XEGS_32k,
        emulate_XEGS_64k, emulate_XEGS_128k, emulate_XEGS, emulate_bounty_bob,
        emulate_atarimax_128k, emulate_williams, emulate_OSS_B, emulate_OSS_A,
        emulate_megacart, emulate_SIC, emulate_SDX, emulate_diamond_express,
        emulate_blizzard, emulate_turbosoft, emulate_atrax, emulate_microcalc,
        emulate_phoenix_8k, emulate_adawliah_32k, feed_XEX_loader]
     first
      | exact ⟨h1, h2⟩
      | (split_ifs <;> exact ⟨by first | exact h1 | rfl, by first | exact h2 | rfl⟩))

/-- A run without an access to the control page changes neither flag. -/
theorem run_flags_frame (e : Emulator) (s : Mapper) (cs : List Cycle)
    (h : ∀ c, c ∈ cs → c.pins &&& CCTL_GPIO_MASK ≠ 0) :
    (e.run s cs).rd4_high = s.rd4_high ∧ (e.run s cs).rd5_high = s.rd5_high := by
  induction cs generalizing s with
  | nil => exact ⟨rfl, rfl⟩
  | cons c cs ih =>
    obtain ⟨f1, f2, _, _⟩ := turn_flags_frame e s c (h c (List.mem_cons_self _ _))
    obtain ⟨i1, i2⟩ := ih (e.turn s c).1 (fun c' hc' => h c' (List.mem_cons_of_mem _ hc'))
    rw [run_cons]
    exact ⟨i1.trans f1, i2.trans f2⟩

/-- Once `emulate_blizzard` has cleared the two flags they stay clear. -/
theorem emulate_blizzard_stays (s : Mapper) (c : Cycle)
    (h : s.rd4_high = false ∧ s.rd5_high = false) :
    (emulate_blizzard s c).1.rd4_high = false ∧ (emulate_blizzard s c).1.rd5_high = false := by
  unfold emulate_blizzard
  split_ifs <;> first | exact h | exact ⟨rfl, rfl⟩

/-- Once `emulate_phoenix_8k` has cleared the flag it stays clear. -/
theorem emulate_phoenix_8k_stays (s : Mapper) (c : Cycle) (h : s.rd5_high = false) :
    (emulate_phoenix_8k s c).1.rd5_high = false := by
  unfold emulate_phoenix_8k
  split_ifs <;> first | exact h | rfl

/-- C28 (no response while disabled). In every emulator that declares `rd4_high`
(resp. `rd5_high`), in every state and for every turn, an access to the S4 (resp. S5)
window is answered only if the flag is set; an emulator that declares only `rd5_high`
never answers an access to the S4 window. In every state reached from entry the level of
RD4 (resp. RD5) is the value of the flag. Only an access to the control page changes a
flag, so once a flag is cleared no access to that window is answered in any run of turns
that contains no access to the control page. In `emulate_blizzard` and
`emulate_phoenix_8k` every access to the control page clears the flags, and once cleared
they stay clear in every run: no access to the windows is answered again. -/
theorem no_response_while_disabled :
    (∀ (e : Emulator) (s : Mapper) (c : Cycle),
      (e.tracks_rd4 = true → c.is_s4 → (e.turn s c).2 ≠ Drive.idle → s.rd4_high = true) ∧
      (e.tracks_rd5 = true → c.is_s5 → (e.turn s c).2 ≠ Drive.idle → s.rd5_high = true) ∧
      (e.tracks_rd5 = true → e.tracks_rd4 = false → c.is_s4 →
        (e.turn s c).2 = Drive.idle) ∧
      (c.pins &&& CCTL_GPIO_MASK ≠ 0 →
        (e.turn s c).1.rd4_high = s.rd4_high ∧ (e.turn s c).1.rd5_high = s.rd5_high)) ∧
    (∀ (e : Emulator) (cycles : List Cycle),
      (e.run e.entry cycles).RD4 = (e.run e.entry cycles).rd4_high ∧
      (e.run e.entry cycles).RD5 = (e.run e.entry cycles).rd5_high) ∧
    (∀ (e : Emulator) (s : Mapper) (cycles : List Cycle) (r : Cycle),
      (∀ c, c ∈ cycles → c.pins &&& CCTL_GPIO_MASK ≠ 0) →
      (e.tracks_rd4 = true → s.rd4_high = false → r.is_s4 →
        (e.turn (e.run s cycles) r).2 = Drive.idle) ∧
      (e.tracks_rd5 = true → s.rd5_high = false → r.is_s5 →
        (e.turn (e.run s cycles) r).2 = Drive.idle)) ∧
    (∀ (s : Mapper) (c : Cycle), c.is_cctl →
      (emulate_blizzard s c).1.rd4_high = false ∧ (emulate_blizzard s c).1.rd5_high = false ∧
      (emulate_blizzard s c).1.RD4 = false ∧ (emulate_blizzard s c).1.RD5 = false ∧
      (emulate_phoenix_8k s c).1.rd5_high = false ∧ (emulate_phoenix_8k s c).1.RD5 = false) ∧
    (∀ (s : Mapper) (cycles : List Cycle) (r : Cycle),
      s.rd4_high = false → s.rd5_high = false → r.is_s4 ∨ r.is_s5 →
      (Emulator.blizzard.turn (Emulator.blizzard.run s cycles) r).2 = Drive.idle) ∧
    ∀ (s : Mapper) (cycles : List Cycle) (r : Cycle),
      s.rd5_high = false → r.is_s4 ∨ r.is_s5 →
      (Emulator.phoenix_8k.turn (Emulator.phoenix_8k.run s cycles) r).2 = Drive.idle := by
  refine ⟨fun e s c => ⟨fun h hc hd => turn_s4_guard e h s c hc hd,
      fun h hc hd => turn_s5_guard e h s c hc hd,
      fun h5 h4 hc => turn_s4_unanswered e h5 h4 s c hc,
      fun hc => ⟨(turn_flags_frame e s c hc).1, (turn_flags_frame e s c hc).2.1⟩⟩,
    fun e cycles => ?_, fun e s cycles r hcs => ⟨fun h4 hs hr => ?_, fun h5 hs hr => ?_⟩,
    fun s c hc => ?_, fun s cycles r h4 h5 hr => ?_, fun s cycles r h5 hr => ?_⟩
  · exact run_invariant e (fun s => s.RD4 = s.rd4_high ∧ s.RD5 = s.rd5_high)
      (fun s c hs => turn_levels e s c hs) e.entry (by cases e <;> exact ⟨rfl, rfl⟩) cycles
  · by_contra hd
    have := turn_s4_guard e h4 _ r hr hd
    rw [(run_flags_frame e s cycles hcs).1, hs] at this
    exact absurd this (by decide)
  · by_contra hd
    have := turn_s5_guard e h5 _ r hr hd
    rw [(run_flags_frame e s cycles hcs).2, hs] at this
    exact absurd this (by decide)
  · obtain ⟨h1, h2, h3⟩ := hc
    unfold emulate_blizzard emulate_phoenix_8k
    rw [if_neg (fun h => h2 h.1), if_neg (fun h => h3 h.1), if_pos h1,
      if_neg (fun h => h3 h.1), if_pos h1]
    exact ⟨rfl, rfl, rfl, rfl, rfl, rfl⟩
  · have hinv := run_invariant Emulator.blizzard
      (fun s => s.rd4_high = false ∧ s.rd5_high = false)
      (fun s c hs => emulate_blizzard_stays s c hs) s ⟨h4, h5⟩ cycles
    by_contra hd
    rcases hr with hr | hr
    · have := turn_s4_guard Emulator.blizzard rfl _ r hr hd
      rw [hinv.1] at this
      exact absurd this (by decide)
    · have := turn_s5_guard Emulator.blizzard rfl _ r hr hd
      rw [hinv.2] at this
      exact absurd this (by decide)
  · have hinv := run_invariant Emulator.phoenix_8k (fun s => s.rd5_high = false)
      (fun s c hs => emulate_phoenix_8k_stays s c hs) s h5 cycles
    rcases hr with hr | hr
    · exact turn_s4_unanswered Emulator.phoenix_8k rfl rfl _ r hr
    · by_contra hd
      have := turn_s5_guard Emulator.phoenix_8k rfl _ r hr hd
      rw [hinv] at this
      exact absurd this (by decide)
/-! ## The current path -/

/-- The loop of `CART_CMD_UP_DIR` stops at the last `'/'`. -/
theorem up_dir_len_stops (p s : List Char) (hs : '/' ∉ s) (k : Nat) (hk : k ≤ s.length) :
    up_dir_len (p ++ '/' :: s) (p.length + 1 + k) = p.length := by
  induction k with
  | zero =>
    show up_dir_len (p ++ '/' :: s) (p.length + 1) = p.length
    rw [up_dir_len, List.getD_eq_getElem?_getD, List.getElem?_append_right (le_refl _),
      Nat.sub_self]
    simp
  | succ k ih =>
    have hlt : k < s.length := hk
    show up_dir_len (p ++ '/' :: s) (p.length + 1 + k + 1) = p.length
    rw [up_dir_len, List.getD_eq_getElem?_getD,
      List.getElem?_append_right (by omega : p.length ≤ p.length + 1 + k)]
    have hidx : p.length + 1 + k - p.length = k + 1 := by omega
    rw [hidx, List.getElem?_cons_succ, List.getElem?_eq_getElem hlt]
    have hne : s[k] ≠ '/' := fun h => hs (h ▸ List.getElem_mem hlt)
    simp only [Option.getD_some, ne_eq, hne, not_false_eq_true, if_true]
    exact ih (le_of_lt hlt)

/-- On a path without `'/'` the loop of `CART_CMD_UP_DIR` runs down to 0. -/
theorem up_dir_len_none (s : List Char) (hs : '/' ∉ s) (k : Nat) (hk : k ≤ s.length) :
    up_dir_len s k = 0 := by
  induction k with
  | zero => rfl
  | succ k ih =>
    have hlt : k < s.length := hk
    rw [up_dir_len, List.getD_eq_getElem?_getD, List.getElem?_eq_getElem hlt]
    have hne : s[k] ≠ '/' := fun h => hs (h ▸ List.getElem_mem hlt)
    simp only [Option.getD_some, ne_eq, hne, not_false_eq_true, if_true]
    exact ih (le_of_lt hlt)

/-- C23 (UP_DIR). If `curPath` is `p ++ "/" ++ s` where `s` contains no `'/'`, the command
UP_DIR leaves `curPath = p`; on the empty path, and on any path without `'/'`, it leaves
the empty path. Consequently UP_DIR undoes OPEN_ITEM on a directory entry whose short
name `s` contains no `'/'`: OPEN_ITEM appends `"/"` and `s`, which succeeds whenever the
result fits the 256 bytes of `curPath`, and UP_DIR then gives back the path before. -/
theorem up_dir_undoes_open_item (p s : List Char) (hs : '/' ∉ s) :
    cmd_up_dir (p ++ ['/'] ++ s) = p ∧
    cmd_up_dir [] = [] ∧
    cmd_up_dir s = [] ∧
    (p.length + 1 + s.length < 256 → cmd_open_item_dir p s = some (p ++ ['/'] ++ s)) ∧
    ∀ q, cmd_open_item_dir p s = some q → cmd_up_dir q = p := by
  have h1 : cmd_up_dir (p ++ ['/'] ++ s) = p := by
    unfold cmd_up_dir
    have hlen : (p ++ ['/'] ++ s).length = p.length + 1 + s.length := by
      simp only [List.length_append, List.length_singleton]
    rw [hlen, List.append_assoc, List.singleton_append,
      up_dir_len_stops p s hs s.length (le_refl _), List.take_left']
    rfl
  refine ⟨h1, rfl, ?_, ?_, ?_⟩
  · unfold cmd_up_dir
    rw [up_dir_len_none s hs s.length (le_refl _)]
    rfl
  · intro hfit
    unfold cmd_open_item_dir
    rw [if_pos hfit]
  · intro q hq
    unfold cmd_open_item_dir at hq
    split_ifs at hq
    cases hq
    exact h1

theorem up_dir_undoes_open_item_witness :
    '/' ∉ ['G', 'A', 'M', 'E', 'S'] ∧
    cmd_up_dir (['/', 'A'] ++ ['/'] ++ ['G', 'A', 'M', 'E', 'S']) = ['/', 'A'] ∧
    cmd_open_item_dir ['/', 'A'] ['G', 'A', 'M', 'E', 'S'] =
      some (['/', 'A'] ++ ['/'] ++ ['G', 'A', 'M', 'E', 'S']) :=
  ⟨by decide,
    (up_dir_undoes_open_item ['/', 'A'] ['G', 'A', 'M', 'E', 'S'] (by decide)).1,
    (up_dir_undoes_open_item ['/', 'A'] ['G', 'A', 'M', 'E', 'S'] (by decide)).2.2.2.1
      (by decide)⟩
/-! ## Directory listing -/

theorem tolower_eq_zero (n : Nat) : tolower n = 0 ↔ n = 0 := by
  unfold tolower
  split_ifs with h
  · constructor
    · intro h'
      exact h'.elim
    · intro h'
      omega
  · exact Iff.rfl

/-- On C strings `strcasecmp` returns 0 exactly when the two strings are equal ignoring
case. -/
theorem strcasecmp_eq_zero_iff (a b : List Char) (ha : IsCString a) (hb : IsCString b) :
    strcasecmp a b = 0 ↔ strlwr a = strlwr b := by
  induction a generalizing b with
  | nil =>
    cases b with
    | nil => simp [strcasecmp, strlwr]
    | cons y ys =>
      have hy : tolower y.toNat ≠ 0 := fun h =>
        hb y (List.mem_cons_self _ _) ((tolower_eq_zero _).1 h)
      simp only [strcasecmp, strlwr, List.map_nil, List.map_cons]
      constructor
      · intro h
        omega
      · intro h
        exact absurd h (by simp)
  | cons x xs ih =>
    have hx : tolower x.toNat ≠ 0 := fun h =>
      ha x (List.mem_cons_self _ _) ((tolower_eq_zero _).1 h)
    cases b with
    | nil =>
      simp only [strcasecmp, strlwr, List.map_nil, List.map_cons]
      constructor
      · intro h
        omega
      · intro h
        exact absurd h (by simp)
    | cons y ys =>
      have ih' := ih ys (fun c hc => ha c (List.mem_cons_of_mem _ hc))
        (fun c hc => hb c (List.mem_cons_of_mem _ hc))
      simp only [strcasecmp]
      by_cases hxy : tolower x.toNat = tolower y.toNat
      · rw [if_pos hxy, ih']
        simp only [strlwr, List.map_cons, List.cons.injEq, hxy, true_and]
      · rw [if_neg hxy]
        simp only [strlwr, List.map_cons, List.cons.injEq, hxy, false_and, iff_false]
        omega

theorem strrchr_none (s : List Char) (c : Char) : strrchr s c = none ↔ c ∉ s := by
  induction s with
  | nil => simp [strrchr]
  | cons x xs ih =>
    rw [strrchr]
    cases h : strrchr xs c with
    | some i =>
      have : ¬ c ∉ xs := fun hc => by
        rw [ih.2 hc] at h
        exact absurd h (by simp)
      simp only [List.mem_cons, not_or]
      constructor
      · intro h'
        exact absurd h' (by simp)
      · intro h'
        exact absurd h'.2 this
    | none =>
      have hc : c ∉ xs := ih.1 h
      by_cases hx : x = c
      · simp [hx]
      · simp only [hx, if_false, List.mem_cons, not_or, true_iff]
        exact ⟨fun h' => hx h'.symm, hc⟩

/-- The last occurrence: `strrchr` finds the `c` after which no `c` follows. -/
theorem strrchr_last (stem ext : List Char) (c : Char) (h : c ∉ ext) :
    strrchr (stem ++ c :: ext) c = some stem.length := by
  induction stem with
  | nil =>
    rw [List.nil_append, strrchr, (strrchr_none ext c).2 h]
    simp
  | cons x xs ih =>
    rw [List.cons_append, strrchr, ih]
    rfl

theorem strrchr_some (s : List Char) (c : Char) (i : Nat) (h : strrchr s c = some i) :
    s = s.take i ++ c :: s.drop (i + 1) ∧ c ∉ s.drop (i + 1) ∧ (s.take i).length = i := by
  induction s generalizing i with
  | nil => simp [strrchr] at h
  | cons x xs ih =>
    rw [strrchr] at h
    cases h' : strrchr xs c with
    | some j =>
      rw [h'] at h
      simp only [Option.some.injEq] at h
      subst h
      obtain ⟨i1, i2, i3⟩ := ih j h'
      refine ⟨?_, ?_, ?_⟩
      · rw [List.take_succ_cons, List.drop_succ_cons, List.cons_append, ← i1]
      · rw [List.drop_succ_cons]
        exact i2
      · rw [List.take_succ_cons, List.length_cons, i3]
    | none =>
      rw [h'] at h
      by_cases hx : x = c
      · rw [if_pos hx] at h
        simp only [Option.some.injEq] at h
        subst h
        subst hx
        refine ⟨rfl, ?_, rfl⟩
        rw [List.drop_succ_cons, List.drop_zero]
        exact (strrchr_none xs x).1 h'
      · rw [if_neg hx] at h
        exact absurd h (by simp)

/-- The extension of a name with a stem: the text after the last `'.'`. -/
theorem get_filename_ext_of_stem (stem ext : List Char) (hstem : stem ≠ [])
    (hext : '.' ∉ ext) : get_filename_ext (stem ++ '.' :: ext) = ext := by
  unfold get_filename_ext
  rw [strrchr_last stem ext '.' hext]
  cases stem with
  | nil => exact absurd rfl hstem
  | cons x xs =>
    simp only [List.length_cons]
    rw [List.cons_append, List.drop_succ_cons]
    have : xs.length + 1 = (xs ++ ['.']).length := by simp
    rw [show xs ++ '.' :: ext = (xs ++ ['.']) ++ ext by simp, this, List.drop_left]

/-- A name whose extension is not empty has a stem. -/
theorem stem_of_get_filename_ext (name : List Char) (h : get_filename_ext name ≠ []) :
    ∃ stem, name = stem ++ '.' :: get_filename_ext name ∧ stem ≠ [] ∧
      '.' ∉ get_filename_ext name := by
  unfold get_filename_ext at h ⊢
  cases hs : strrchr name '.' with
  | none => rw [hs] at h; exact absurd rfl h
  | some i =>
    cases i with
    | zero => rw [hs] at h; exact absurd rfl h
    | succ j =>
      obtain ⟨s1, s2, s3⟩ := strrchr_some name '.' (j + 1) hs
      refine ⟨name.take (j + 1), s1, ?_, s2⟩
      intro h0
      rw [h0] at s3
      exact absurd s3 (by simp)
theorem isCString_exts :
    IsCString ['C', 'A', 'R'] ∧ IsCString ['R', 'O', 'M'] ∧ IsCString ['X', 'E', 'X'] ∧
    IsCString ['A', 'T', 'R'] := by
  unfold IsCString
  decide

theorem strcasecmp_nil_ne (x : Char) (xs : List Char) (hx : x.toNat ≠ 0) :
    strcasecmp [] (x :: xs) ≠ 0 := by
  have h : tolower x.toNat ≠ 0 := fun h => hx ((tolower_eq_zero _).1 h)
  simp only [strcasecmp]
  omega

/-- On C strings `is_valid_file` is the extension test of the specification. -/
theorem is_valid_file_iff (name : List Char) (hc : IsCString name) :
    is_valid_file name = true ↔ HasListedExtension name := by
  obtain ⟨c1, c2, c3, c4⟩ := isCString_exts
  constructor
  · intro h
    have hne : get_filename_ext name ≠ [] := by
      intro h0
      unfold is_valid_file at h
      rw [h0] at h
      revert h
      decide
    obtain ⟨stem, hname, hstem, hdot⟩ := stem_of_get_filename_ext name hne
    have hce : IsCString (get_filename_ext name) := by
      intro c hcmem
      apply hc c
      rw [hname]
      exact List.mem_append_right _ (List.mem_cons_of_mem _ hcmem)
    refine ⟨stem, get_filename_ext name, hname, hstem, hdot, ?_⟩
    unfold is_valid_file at h
    simp only [Bool.or_eq_true, beq_iff_eq] at h
    rcases h with ((h | h) | h) | h
    · exact Or.inl ((strcasecmp_eq_zero_iff _ _ hce c1).1 h)
    · exact Or.inr (Or.inl ((strcasecmp_eq_zero_iff _ _ hce c2).1 h))
    · exact Or.inr (Or.inr (Or.inl ((strcasecmp_eq_zero_iff _ _ hce c3).1 h)))
    · exact Or.inr (Or.inr (Or.inr ((strcasecmp_eq_zero_iff _ _ hce c4).1 h)))
  · rintro ⟨stem, ext, hname, hstem, hdot, h⟩
    have hce : IsCString ext := by
      intro c hcmem
      apply hc c
      rw [hname]
      exact List.mem_append_right _ (List.mem_cons_of_mem _ hcmem)
    unfold is_valid_file
    rw [hname, get_filename_ext_of_stem stem ext hstem hdot]
    simp only [Bool.or_eq_true, beq_iff_eq]
    rcases h with h | h | h | h
    · exact Or.inl (Or.inl (Or.inl ((strcasecmp_eq_zero_iff _ _ hce c1).2 h)))
    · exact Or.inl (Or.inl (Or.inr ((strcasecmp_eq_zero_iff _ _ hce c2).2 h)))
    · exact Or.inl (Or.inr ((strcasecmp_eq_zero_iff _ _ hce c3).2 h))
    · exact Or.inr ((strcasecmp_eq_zero_iff _ _ hce c4).2 h)

/-- Every record that the loop of `read_directory` adds comes from an entry that is
neither hidden nor system and is a directory or passes `is_valid_file`. -/
theorem read_directory_loop_mem (P : DIR_ENTRY → Prop) (l : List FILINFO)
    (hP : ∀ fno, fno ∈ l → fno.hidden = false → fno.system = false →
      (fno.directory = true ∨ is_valid_file fno.fname = true) →
      P (dir_record fno (if fno.directory = true then 1 else 0) []))
    (dst : List DIR_ENTRY) (hdst : ∀ e, e ∈ dst → P e) :
    ∀ e, e ∈ read_directory_loop l dst → P e := by
  induction l generalizing dst with
  | nil => exact hdst
  | cons fno rest ih =>
    have ih' := ih (fun f hf => hP f (List.mem_cons_of_mem _ hf))
    rw [read_directory_loop]
    by_cases h1 : ¬ dst.length < 255
    · rw [if_pos h1]
      exact hdst
    rw [if_neg h1]
    by_cases h2 : fno.fname = []
    · rw [if_pos h2]
      exact hdst
    rw [if_neg h2]
    by_cases h3 : (fno.hidden || fno.system) = true
    · rw [if_pos h3]
      exact ih' dst hdst
    rw [if_neg h3]
    by_cases h4 : fno.directory = false ∧ is_valid_file fno.fname = false
    · rw [if_pos h4]
      exact ih' dst hdst
    rw [if_neg h4]
    apply ih'
    intro e he
    rw [List.mem_append, List.mem_singleton] at he
    rcases he with he | he
    · exact hdst e he
    · rw [he]
      simp only [Bool.or_eq_true, not_or, Bool.not_eq_true] at h3
      apply hP fno (List.mem_cons_self _ _) h3.1 h3.2
      by_cases hd : fno.directory = true
      · exact Or.inl hd
      · right
        by_contra hv
        exact h4 ⟨by simpa using hd, by simpa using hv⟩

theorem qsort_mem (dst : List DIR_ENTRY) (e : DIR_ENTRY) : e ∈ qsort dst ↔ e ∈ dst :=
  (List.perm_insertionSort _ dst).mem_iff

/-- C21 (directory filter). Every record that `read_directory` emits comes from an entry
of the directory that is not hidden and not system, and that is either a subdirectory or
a file accepted by `is_valid_file`; on C strings `is_valid_file` accepts exactly the names
that contain a `'.'` that is not their first character and whose text after the last `'.'`
equals CAR, ROM, XEX or ATR ignoring case, so no file with any other extension, or none,
is emitted. -/
theorem directory_filter (g : Listing) (mount_ok : Bool) (dir : Option DIR)
    (hc : ∀ d, dir = some d → ∀ fno, fno ∈ d.entries → IsCString fno.fname)
    (e : DIR_ENTRY) (he : e ∈ (read_directory g mount_ok dir).1.entries) :
    (∃ d fno, dir = some d ∧ fno ∈ d.entries ∧
      e = dir_record fno (if fno.directory = true then 1 else 0) [] ∧
      fno.hidden = false ∧ fno.system = false ∧
      (fno.directory = true ∨
        (fno.directory = false ∧ is_valid_file fno.fname = true ∧
          HasListedExtension fno.fname))) ∧
    ∀ name, IsCString name → (is_valid_file name = true ↔ HasListedExtension name) := by
  refine ⟨?_, is_valid_file_iff⟩
  unfold read_directory at he
  cases mount_ok with
  | false => exact absurd he (by simp)
  | true =>
    cases dir with
    | none =>
      rw [if_pos rfl] at he
      exact absurd he (by simp [qsort])
    | some d =>
      rw [if_pos rfl] at he
      have he' : e ∈ read_directory_loop d.entries [] := (qsort_mem _ e).1 he
      exact read_directory_loop_mem
        (fun e => ∃ d' fno, some d = some d' ∧ fno ∈ d'.entries ∧
          e = dir_record fno (if fno.directory = true then 1 else 0) [] ∧
          fno.hidden = false ∧ fno.system = false ∧
          (fno.directory = true ∨
            (fno.directory = false ∧ is_valid_file fno.fname = true ∧
              HasListedExtension fno.fname)))
        d.entries
        (fun fno hf h1 h2 h3 => ⟨d, fno, rfl, hf, rfl, h1, h2, by
          by_cases hd : fno.directory = true
          · exact Or.inl hd
          · have hv : is_valid_file fno.fname = true := h3.resolve_left hd
            exact Or.inr ⟨by simpa using hd, hv,
              (is_valid_file_iff _ (hc d rfl fno hf)).1 hv⟩⟩)
        [] (fun e h => absurd h (by simp)) e he'

theorem directory_filter_witness :
    (read_directory { entries := [], errorBuf := "" } true (some demo_dir)).1.entries.map
        (fun e => (e.isDir, e.long_filename)) =
      [(1, ['D', 'e', 'm', 'o', 's']), (0, ['a', '.', 'b', '.', 'R', 'O', 'M']),
        (0, ['g', 'a', 'm', 'e', '.', 'X', 'e', 'x'])] ∧
    HasListedExtension ['g', 'a', 'm', 'e', '.', 'X', 'e', 'x'] :=
  ⟨by decide,
    ((directory_filter { entries := [], errorBuf := "" } true (some demo_dir)
      (fun d hd => by
        cases hd
        unfold IsCString
        decide)
      (dir_record demo_file 0 [])
      (by decide)).2 ['g', 'a', 'm', 'e', '.', 'X', 'e', 'x']
        (by unfold IsCString; decide)).1 (by decide)⟩
/-! ## Search -/

/-- The function `entry_compare` puts an entry with a nonzero `isDir` before one with
`isDir == 0`, whatever the names. -/
theorem entry_compare_score (e1 e0 : DIR_ENTRY) (h1 : e1.isDir ≠ 0) (h0 : e0.isDir = 0) :
    entry_compare e1 e0 = -1 ∧ entry_compare e0 e1 = 1 := by
  unfold entry_compare
  rw [if_pos ⟨h1, h0⟩, if_neg (fun h => h1 h.2), if_pos ⟨h0, h1⟩]
  exact ⟨rfl, rfl⟩

/-- C35 (dirty-block formula). For every logical sector `l < 30716`, the index that
`flash_fs_write_FAT_sector` sets in `fs_map_needs_written`, 0 if `l < 2044` and
`1 + (l - 2044) / 2048` otherwise, equals `(8 + 2 * l) / 4096`; both bytes of the map
entry of `l`, at `8 + 2 * l` and `8 + 2 * l + 1` after the 8-byte header, lie in the
4 KiB block with that index, which is at most 14; the sector map occupies
`8 + 2 * 30716 = 15 * 4096` bytes. The write changes no other byte of the map and sets the
flag of that block. -/
theorem dirty_block_layout (l : Nat) (hl : l < 30716) :
    dirty_index l = (if l < 2044 then 0 else 1 + (l - 2044) / 2048) ∧
    dirty_index l = (8 + 2 * l) / 4096 ∧
    (8 + 2 * l + 1) / 4096 = dirty_index l ∧
    4096 * dirty_index l ≤ 8 + 2 * l ∧ 8 + 2 * l + 1 < 4096 * dirty_index l + 4096 ∧
    dirty_index l ≤ 14 ∧
    8 + 2 * NUM_FAT_SECTORS = 15 * 4096 ∧
    ∀ (s : FS) (buf : List Nat),
      (∀ k, k ≠ 8 + 2 * l → k ≠ 8 + 2 * l + 1 →
        (flash_fs_write_FAT_sector s l buf).fs_map k = s.fs_map k) ∧
      (flash_fs_write_FAT_sector s l buf).fs_map_needs_written (dirty_index l) = true ∧
      ∀ i, i ≠ dirty_index l →
        (flash_fs_write_FAT_sector s l buf).fs_map_needs_written i =
          s.fs_map_needs_written i := by
  have he := dirty_index_eq l
  refine ⟨rfl, he, ?_, ?_, ?_, ?_, rfl, fun s buf => ⟨fun k h1 h2 => ?_, ?_, fun i hi => ?_⟩⟩
  · rw [he]; omega
  · rw [he]; omega
  · rw [he]; omega
  · rw [he]; omega
  · obtain ⟨g1, _⟩ := flash_fs_write_FAT_sector_fields s l buf
    rw [g1, set_sectors_apply_other _ _ _ _ h1 h2, (getNextWriteSector_frame _).1,
      (release_previous_frame s l).2.1]
  · rw [write_flags, if_pos rfl]
  · rw [write_flags, if_neg hi]

theorem dirty_block_layout_witness :
    dirty_index 30715 = (8 + 2 * 30715) / 4096 ∧ dirty_index 30715 ≤ 14 ∧
    dirty_index 2043 = 0 ∧ dirty_index 2044 = 1 :=
  ⟨(dirty_block_layout 30715 (by omega)).2.1, (dirty_block_layout 30715 (by omega)).2.2.2.2.2.1,
    by decide, by decide⟩

/-! ## Adawliah and Microcalc -/

/-- A turn of `emulate_adawliah_32k` keeps the bank below 4 and the cart enabled. -/
theorem emulate_adawliah_32k_inv (s : Mapper) (c : Cycle)
    (h : s.bank < 4 ∧ s.rd5_high = true ∧ s.RD5 = true) :
    (emulate_adawliah_32k s c).1.bank < 4 ∧ (emulate_adawliah_32k s c).1.rd5_high = true ∧
    (emulate_adawliah_32k s c).1.RD5 = true := by
  have hb : (s.bank + 1) &&& 3 = (s.bank + 1) % 4 := Nat.and_pow_two_sub_one_eq_mod _ 2
  have hne : ((s.bank + 1) &&& 3 != 4) = true := by
    rw [hb]
    simp only [bne_iff_ne, ne_eq]
    omega
  unfold emulate_adawliah_32k
  by_cases h1 : c.pins &&& S5_GPIO_MASK = 0 ∧ s.rd5_high = true
  · rw [if_pos h1]
    exact h
  rw [if_neg h1]
  by_cases h2 : c.pins &&& CCTL_GPIO_MASK = 0
  · rw [if_pos h2, hne]
    refine ⟨?_, rfl, rfl⟩
    show (s.bank + 1) &&& 3 < 4
    rw [hb]
    omega
  · rw [if_neg h2]
    exact h

/-- C32 (Adawliah 32K). Every access to the control page sets `bank` to
`(bank + 1) mod 4`, re-executes `RD5_HIGH; rd5_high = true;` and drives nothing; in every
state reached from entry `bank` is in 0..3, so the branch guarded by `bank == 4` is never
taken, `rd5_high` is true and RD5 is high; every read of the S5 window is then served,
from `cart_ram[8192 * bank + a]`. -/
theorem adawliah_never_disabled :
    (∀ (s : Mapper) (c : Cycle), c.is_cctl →
      (emulate_adawliah_32k s c).1.bank = (s.bank + 1) % 4 ∧
      (emulate_adawliah_32k s c).1.rd5_high = true ∧
      (emulate_adawliah_32k s c).1.RD5 = true ∧
      (emulate_adawliah_32k s c).2 = Drive.idle) ∧
    (∀ cycles : List Cycle,
      (Emulator.adawliah_32k.run Emulator.adawliah_32k.entry cycles).bank < 4 ∧
      (Emulator.adawliah_32k.run Emulator.adawliah_32k.entry cycles).bank ≠ 4 ∧
      (Emulator.adawliah_32k.run Emulator.adawliah_32k.entry cycles).rd5_high = true ∧
      (Emulator.adawliah_32k.run Emulator.adawliah_32k.entry cycles).RD5 = true) ∧
    ∀ (cycles : List Cycle) (r : Cycle), r.pins &&& S5_GPIO_MASK = 0 →
      (Emulator.adawliah_32k.turn
          (Emulator.adawliah_32k.run Emulator.adawliah_32k.entry cycles) r).2 =
        Drive.ram (8192 *
          (Emulator.adawliah_32k.run Emulator.adawliah_32k.entry cycles).bank + r.addr) := by
  have hinv : ∀ cycles : List Cycle,
      (Emulator.adawliah_32k.run Emulator.adawliah_32k.entry cycles).bank < 4 ∧
      (Emulator.adawliah_32k.run Emulator.adawliah_32k.entry cycles).rd5_high = true ∧
      (Emulator.adawliah_32k.run Emulator.adawliah_32k.entry cycles).RD5 = true :=
    fun cycles => run_invariant Emulator.adawliah_32k
      (fun s => s.bank < 4 ∧ s.rd5_high = true ∧ s.RD5 = true)
      (fun s c hs => emulate_adawliah_32k_inv s c hs) _ ⟨by decide, rfl, rfl⟩ cycles
  refine ⟨fun s c hc => ?_, fun cycles => ?_, fun cycles r hr => ?_⟩
  · obtain ⟨h1, _, h3⟩ := hc
    have hb : (s.bank + 1) &&& 3 = (s.bank + 1) % 4 := Nat.and_pow_two_sub_one_eq_mod _ 2
    have hne : ((s.bank + 1) &&& 3 != 4) = true := by
      rw [hb]
      simp only [bne_iff_ne, ne_eq]
      omega
    unfold emulate_adawliah_32k
    rw [if_neg (fun h => h3 h.1), if_pos h1, hne]
    exact ⟨hb, rfl, rfl, rfl⟩
  · obtain ⟨i1, i2, i3⟩ := hinv cycles
    exact ⟨i1, by omega, i2, i3⟩
  · obtain ⟨_, i2, _⟩ := hinv cycles
    show (emulate_adawliah_32k _ r).2 = _
    unfold emulate_adawliah_32k
    rw [if_pos ⟨hr, i2⟩]

/-- The number of turns of a run that access the control page. -/
theorem countP_cons_cctl (c : Cycle) (cs : List Cycle) :
    (c :: cs).countP (fun c => c.pins &&& CCTL_GPIO_MASK == 0) =
      cs.countP (fun c => c.pins &&& CCTL_GPIO_MASK == 0) +
        (if c.pins &&& CCTL_GPIO_MASK = 0 then 1 else 0) := by
  rw [List.countP_cons]
  by_cases h : c.pins &&& CCTL_GPIO_MASK = 0
  · simp [h]
  · simp [h]

/-- A turn of `emulate_microcalc` keeps the bank below 5, and the cart disabled exactly in
bank 4. -/
theorem emulate_microcalc_inv (s : Mapper) (c : Cycle)
    (h : s.bank < 5 ∧ (s.rd5_high = false ↔ s.bank = 4) ∧ s.RD5 = s.rd5_high) :
    (emulate_microcalc s c).1.bank < 5 ∧
    ((emulate_microcalc s c).1.rd5_high = false ↔ (emulate_microcalc s c).1.bank = 4) ∧
    (emulate_microcalc s c).1.RD5 = (emulate_microcalc s c).1.rd5_high := by
  unfold emulate_microcalc
  by_cases h1 : c.pins &&& S5_GPIO_MASK = 0 ∧ s.rd5_high = true
  · rw [if_pos h1]
    exact h
  rw [if_neg h1]
  by_cases h2 : c.pins &&& CCTL_GPIO_MASK = 0
  · rw [if_pos h2]
    refine ⟨Nat.mod_lt _ (by decide), ?_, rfl⟩
    show ((s.bank + 1) % 5 != 4) = false ↔ (s.bank + 1) % 5 = 4
    simp
  · rw [if_neg h2]
    exact h

/-- An access to the control page, with S5 high, steps the bank of `emulate_microcalc`;
a turn with CCTL high leaves it. -/
theorem emulate_microcalc_bank (s : Mapper) (c : Cycle)
    (hc : c.pins &&& CCTL_GPIO_MASK = 0 → c.pins &&& S5_GPIO_MASK ≠ 0) :
    (emulate_microcalc s c).1.bank =
      (s.bank + (if c.pins &&& CCTL_GPIO_MASK = 0 then 1 else 0)) % 5 ∨
    (c.pins &&& CCTL_GPIO_MASK ≠ 0 ∧ (emulate_microcalc s c).1.bank = s.bank) := by
  unfold emulate_microcalc
  by_cases h2 : c.pins &&& CCTL_GPIO_MASK = 0
  · left
    rw [if_neg (fun h => hc h2 h.1), if_pos h2, if_pos h2]
    rfl
  · right
    refine ⟨h2, ?_⟩
    by_cases h1 : c.pins &&& S5_GPIO_MASK = 0 ∧ s.rd5_high = true
    · rw [if_pos h1]
    · rw [if_neg h1, if_neg h2]
theorem emulate_microcalc_step (s : Mapper) (c : Cycle) (hb : s.bank < 5)
    (hc : c.pins &&& CCTL_GPIO_MASK = 0 → c.pins &&& S5_GPIO_MASK ≠ 0) :
    (emulate_microcalc s c).1.bank =
      (s.bank + (if c.pins &&& CCTL_GPIO_MASK = 0 then 1 else 0)) % 5 := by
  rcases emulate_microcalc_bank s c hc with h | ⟨h1, h2⟩
  · exact h
  · rw [h2, if_neg h1, Nat.add_zero, Nat.mod_eq_of_lt hb]

/-- The bank of `emulate_microcalc` after a run counts the accesses to the control page
modulo 5. -/
theorem microcalc_run_bank (cycles : List Cycle) (s : Mapper) (hb : s.bank < 5)
    (hc : ∀ c, c ∈ cycles → c.pins &&& CCTL_GPIO_MASK = 0 → c.pins &&& S5_GPIO_MASK ≠ 0) :
    (Emulator.microcalc.run s cycles).bank =
      (s.bank + cycles.countP (fun c => c.pins &&& CCTL_GPIO_MASK == 0)) % 5 := by
  induction cycles generalizing s with
  | nil =>
    show s.bank = (s.bank + 0) % 5
    rw [Nat.add_zero, Nat.mod_eq_of_lt hb]
  | cons c cs ih =>
    have hstep := emulate_microcalc_step s c hb (hc c (List.mem_cons_self _ _))
    have hb' : (emulate_microcalc s c).1.bank < 5 := by
      rw [hstep]
      exact Nat.mod_lt _ (by decide)
    rw [run_cons, countP_cons_cctl]
    show (Emulator.microcalc.run (emulate_microcalc s c).1 cs).bank = _
    rw [ih _ hb' (fun c' hc' => hc c' (List.mem_cons_of_mem _ hc')), hstep]
    omega

/-- C33 (Microcalc). After a run from entry in which `k` turns access the control page
(CCTL low, with S5 high as on the bus), `bank == k mod 5`. In every state reached from
entry the cart is disabled (`rd5_high` false, RD5 low) if and only if `bank == 4`; hence
every byte served on a read of the S5 window comes from a bank in 0..3, at a `cart_ram`
offset below 32768. -/
theorem microcalc_banks :
    (∀ cycles : List Cycle,
      (∀ c, c ∈ cycles → c.pins &&& CCTL_GPIO_MASK = 0 → c.pins &&& S5_GPIO_MASK ≠ 0) →
      (Emulator.microcalc.run Emulator.microcalc.entry cycles).bank =
        cycles.countP (fun c => c.pins &&& CCTL_GPIO_MASK == 0) % 5) ∧
    (∀ cycles : List Cycle,
      ((Emulator.microcalc.run Emulator.microcalc.entry cycles).rd5_high = false ↔
        (Emulator.microcalc.run Emulator.microcalc.entry cycles).bank = 4) ∧
      (Emulator.microcalc.run Emulator.microcalc.entry cycles).RD5 =
        (Emulator.microcalc.run Emulator.microcalc.entry cycles).rd5_high ∧
      (Emulator.microcalc.run Emulator.microcalc.entry cycles).bank < 5) ∧
    ∀ (cycles : List Cycle) (r : Cycle) (i : Nat),
      (Emulator.microcalc.turn (Emulator.microcalc.run Emulator.microcalc.entry cycles) r).2 =
        Drive.ram i →
      (Emulator.microcalc.run Emulator.microcalc.entry cycles).bank < 4 ∧
      i = 8192 * (Emulator.microcalc.run Emulator.microcalc.entry cycles).bank + r.addr ∧
      i < 32768 := by
  have hinv : ∀ cycles : List Cycle,
      (Emulator.microcalc.run Emulator.microcalc.entry cycles).bank < 5 ∧
      ((Emulator.microcalc.run Emulator.microcalc.entry cycles).rd5_high = false ↔
        (Emulator.microcalc.run Emulator.microcalc.entry cycles).bank = 4) ∧
      (Emulator.microcalc.run Emulator.microcalc.entry cycles).RD5 =
        (Emulator.microcalc.run Emulator.microcalc.entry cycles).rd5_high :=
    fun cycles => run_invariant Emulator.microcalc
      (fun s => s.bank < 5 ∧ (s.rd5_high = false ↔ s.bank = 4) ∧ s.RD5 = s.rd5_high)
      (fun s c hs => emulate_microcalc_inv s c hs) _
      ⟨by decide, by decide, rfl⟩ cycles
  refine ⟨fun cycles hc => ?_, fun cycles => ?_, fun cycles r i hd => ?_⟩
  · have h := microcalc_run_bank cycles Emulator.microcalc.entry (by decide) hc
    rw [h]
    show (0 + _) % 5 = _
    rw [Nat.zero_add]
  · obtain ⟨i1, i2, i3⟩ := hinv cycles
    exact ⟨i2, i3, i1⟩
  · obtain ⟨i1, i2, _⟩ := hinv cycles
    generalize Emulator.microcalc.run Emulator.microcalc.entry cycles = s at hd i1 i2
    have haddr : r.addr < 8192 := lt_of_le_of_lt Nat.and_le_right (by decide)
    change (emulate_microcalc s r).2 = Drive.ram i at hd
    unfold emulate_microcalc at hd
    by_cases h1 : r.pins &&& S5_GPIO_MASK = 0 ∧ s.rd5_high = true
    · rw [if_pos h1] at hd
      have hi : 8192 * s.bank + r.addr = i := by
        simpa using hd
      have hb4 : s.bank ≠ 4 := by
        intro h4
        have := i2.2 h4
        rw [h1.2] at this
        exact absurd this (by decide)
      refine ⟨by omega, hi.symm, by omega⟩
    · rw [if_neg h1] at hd
      split_ifs at hd
/-! ## The order of the directory -/

theorem strcasecmp_swap (a b : List Char) : strcasecmp a b = -strcasecmp b a := by
  induction a generalizing b with
  | nil =>
    cases b with
    | nil => simp [strcasecmp]
    | cons y ys =>
      simp only [strcasecmp]
      omega
  | cons x xs ih =>
    cases b with
    | nil =>
      simp only [strcasecmp]
      omega
    | cons y ys =>
      simp only [strcasecmp]
      by_cases h : tolower x.toNat = tolower y.toNat
      · rw [if_pos h, if_pos h.symm]
        exact ih ys
      · rw [if_neg h, if_neg (fun h' => h h'.symm)]
        omega

/-- On C strings the order given by `strcasecmp` is transitive. -/
theorem strcasecmp_trans (a b c : List Char) (ha : IsCString a) (hb : IsCString b)
    (h1 : strcasecmp a b ≤ 0) (h2 : strcasecmp b c ≤ 0) : strcasecmp a c ≤ 0 := by
  induction a generalizing b c with
  | nil =>
    cases c with
    | nil => simp [strcasecmp]
    | cons z zs =>
      simp only [strcasecmp]
      omega
  | cons x xs ih =>
    have hx : tolower x.toNat ≠ 0 := fun h =>
      ha x (List.mem_cons_self _ _) ((tolower_eq_zero _).1 h)
    cases b with
    | nil =>
      simp only [strcasecmp] at h1
      omega
    | cons y ys =>
      have hy : tolower y.toNat ≠ 0 := fun h =>
        hb y (List.mem_cons_self _ _) ((tolower_eq_zero _).1 h)
      cases c with
      | nil =>
        simp only [strcasecmp] at h2
        omega
      | cons z zs =>
        simp only [strcasecmp] at h1 h2 ⊢
        by_cases hxy : tolower x.toNat = tolower y.toNat
        · rw [if_pos hxy] at h1
          by_cases hyz : tolower y.toNat = tolower z.toNat
          · rw [if_pos hyz] at h2
            rw [if_pos (hxy.trans hyz)]
            exact ih ys zs (fun c hc => ha c (List.mem_cons_of_mem _ hc))
              (fun c hc => hb c (List.mem_cons_of_mem _ hc)) h1 h2
          · rw [if_neg hyz] at h2
            rw [if_neg (by omega)]
            omega
        · rw [if_neg hxy] at h1
          by_cases hyz : tolower y.toNat = tolower z.toNat
          · rw [if_pos hyz] at h2
            rw [if_neg (by omega)]
            omega
          · rw [if_neg hyz] at h2
            rw [if_neg (by omega)]
            omega

/-- C31 (directory ordering). For all entries `a`, `b`, `c` whose long names are C
strings: `entry_compare(a, b)` is negative (it is `-1`) when `a` is a directory and `b`
is not, and positive the other way round; between two directories or two files it is
`strcasecmp` of the long names; `sign(entry_compare(a, b)) == -sign(entry_compare(b, a))`;
and `entry_compare(a, b) <= 0` and `entry_compare(b, c) <= 0` imply
`entry_compare(a, c) <= 0`. -/
theorem directory_ordering (a b c : DIR_ENTRY) (ha : IsCString a.long_filename)
    (hb : IsCString b.long_filename) :
    (a.isDir ≠ 0 → b.isDir = 0 → entry_compare a b = -1 ∧ entry_compare b a = 1) ∧
    ((a.isDir ≠ 0 ↔ b.isDir ≠ 0) →
      entry_compare a b = strcasecmp a.long_filename b.long_filename) ∧
    (entry_compare a b = 0 ↔
      ((a.isDir ≠ 0 ↔ b.isDir ≠ 0) ∧ strlwr a.long_filename = strlwr b.long_filename)) ∧
    Int.sign (entry_compare a b) = -Int.sign (entry_compare b a) ∧
    (entry_compare a b ≤ 0 → entry_compare b c ≤ 0 → entry_compare a c ≤ 0) := by
  have hswap : entry_compare a b = -entry_compare b a := by
    unfold entry_compare
    by_cases hda : a.isDir = 0 <;> by_cases hdb : b.isDir = 0
    · simp only [hda, hdb, ne_eq, not_true_eq_false, false_and, and_false, if_false]
      exact strcasecmp_swap _ _
    · simp [hda, hdb]
    · simp [hda, hdb]
    · simp only [hda, hdb, ne_eq, not_false_eq_true, true_and, false_and, and_false, if_false]
      exact strcasecmp_swap _ _
  refine ⟨fun h1 h0 => entry_compare_score a b h1 h0, fun hsame => ?_, ?_, ?_, ?_⟩
  · unfold entry_compare
    rw [if_neg (fun h => hsame.1 h.1 h.2), if_neg (fun h => hsame.2 h.2 h.1)]
  · unfold entry_compare
    by_cases hda : a.isDir = 0 <;> by_cases hdb : b.isDir = 0
    · simp only [hda, hdb, ne_eq, not_true_eq_false, false_and, and_false, if_false, true_and]
      exact strcasecmp_eq_zero_iff _ _ ha hb
    · simp [hda, hdb]
    · simp [hda, hdb]
    · simp only [hda, hdb, ne_eq, not_false_eq_true, true_and, false_and, and_false, if_false,
        and_true]
      exact strcasecmp_eq_zero_iff _ _ ha hb
  · rw [hswap, Int.sign_neg]
  · unfold entry_compare
    by_cases hda : a.isDir = 0 <;> by_cases hdb : b.isDir = 0 <;> by_cases hdc : c.isDir = 0 <;>
      simp only [hda, hdb, hdc, ne_eq, not_true_eq_false, not_false_eq_true, true_and,
        false_and, and_false, and_true, and_self, if_false, if_true] <;>
      first
        | exact strcasecmp_trans _ _ _ ha hb
        | (intro h1 h2; omega)

theorem directory_ordering_witness :
    IsCString (dir_record { demo_file with directory := true } 1 []).long_filename ∧
    IsCString (dir_record demo_file 0 []).long_filename ∧
    entry_compare (dir_record { demo_file with directory := true } 1 [])
      (dir_record demo_file 0 []) = -1 ∧
    entry_compare (dir_record demo_file 0 [])
      (dir_record { demo_file with directory := true } 1 []) = 1 :=
  ⟨by unfold IsCString; decide, by unfold IsCString; decide,
    (directory_ordering (dir_record { demo_file with directory := true } 1 [])
      (dir_record demo_file 0 []) (dir_record demo_file 0 [])
      (by unfold IsCString; decide) (by unfold IsCString; decide)).1 (by decide) (by decide)⟩
/-! ## Dispatch -/

theorem classify_kind (g g1 : Loader) (car xex : Bool) (t e size k : Nat)
    (h : classify g car xex t e size = (g1, some k)) :
    (car = true ∧ k = t) ∨ k = CART_TYPE_XEX ∨ (1 ≤ k ∧ k ≤ 5) := by
  cases car
  · cases xex
    · rw [classify_raw] at h
      right; right
      split_ifs at h <;> simp only [Prod.mk.injEq, Option.some.injEq, reduceCtorEq,
        and_false] at h <;> (rw [← h.2]; decide)
    · rw [classify_xex] at h
      simp only [Prod.mk.injEq, Option.some.injEq] at h
      exact Or.inr (Or.inl h.2.symm)
  · rw [classify_car] at h
    split_ifs at h
    · simp only [Prod.mk.injEq, reduceCtorEq, and_false] at h
    · simp only [Prod.mk.injEq, Option.some.injEq] at h
      exact Or.inl ⟨rfl, h.2.symm⟩

theorem read_image_kind (g g1 : Loader) (car xex : Bool) (f : FIL) (t e k : Nat)
    (h : read_image g car xex f t e = (g1, some k)) :
    (car = true ∧ k = t) ∨ k = CART_TYPE_XEX ∨ (1 ≤ k ∧ k ≤ 5) := by
  unfold read_image at h
  simp only [] at h
  repeat' first
    | exact classify_kind _ _ _ _ _ _ _ _ h
    | (exfalso; simp only [Prod.mk.injEq, reduceCtorEq, and_false] at h)
    | split at h

theorem load_image_kind (g g1 : Loader) (car xex : Bool) (fil : FIL) (k : Nat)
    (h : load_image g car xex fil = (g1, some k)) :
    (∃ b e, car_table b = some (k, e)) ∨ k = CART_TYPE_XEX ∨ (1 ≤ k ∧ k ≤ 5) := by
  unfold load_image at h
  split at h
  · simp only [Prod.mk.injEq, reduceCtorEq, and_false] at h
  · rename_i fil1 t e hh
    rcases read_image_kind _ _ _ _ _ _ _ _ h with ⟨hc, hk⟩ | h' | h'
    · left
      subst hc
      unfold read_car_header at hh
      rw [if_pos rfl] at hh
      split at hh
      · simp only [reduceCtorEq] at hh
      · split_ifs at hh
        split at hh
        · rename_i ct es hct
          simp only [Except.ok.injEq, Prod.mk.injEq] at hh
          exact ⟨_, es, by rw [hct, hk, hh.2.1]⟩
        · simp only [reduceCtorEq] at hh
    · exact Or.inr (Or.inl h')
    · exact Or.inr (Or.inr h')

/-- The values that `load_file` returns: `CART_TYPE_NONE`, a mapper kind of the CAR table,
one of the five kinds guessed from the size of a raw ROM, or `CART_TYPE_XEX`. -/
theorem load_file_kind (g : Loader) (filename : String) (mount_ok : Bool)
    (file : Option FIL) :
    (load_file g filename mount_ok file).2 = CART_TYPE_NONE ∨
    (∃ b e, car_table b = some ((load_file g filename mount_ok file).2, e)) ∨
    (load_file g filename mount_ok file).2 = CART_TYPE_XEX ∨
    (1 ≤ (load_file g filename mount_ok file).2 ∧
      (load_file g filename mount_ok file).2 ≤ 5) := by
  by_cases h0 : (load_file g filename mount_ok file).2 = CART_TYPE_NONE
  · exact Or.inl h0
  · right
    cases mount_ok
    · exact absurd rfl h0
    · cases file with
      | none => exact absurd rfl h0
      | some fil =>
        obtain ⟨g1, k, hl, hf⟩ := load_file_some g filename fil h0
        rw [hf]
        exact load_image_kind _ _ _ _ _ _ hl

theorem emulate_cartridge_concrete (t : Nat) (h : (1 ≤ t ∧ t ≤ 34) ∨ t = CART_TYPE_XEX) :
    emulate_cartridge t ≠ Emulator.no_cartridge := by
  rcases h with ⟨h1, h2⟩ | h
  · interval_cases t <;> decide
  · subst h
    decide

theorem emulate_cartridge_none (t : Nat) (h0 : t = 0 ∨ (35 ≤ t ∧ t ≠ 255)) :
    emulate_cartridge t = Emulator.no_cartridge := by
  unfold emulate_cartridge
  simp only [CART_TYPE_8K, CART_TYPE_16K, CART_TYPE_XEGS_32K, CART_TYPE_XEGS_64K,
    CART_TYPE_XEGS_128K, CART_TYPE_SW_XEGS_32K, CART_TYPE_SW_XEGS_64K, CART_TYPE_SW_XEGS_128K,
    CART_TYPE_MEGACART_16K, CART_TYPE_MEGACART_32K, CART_TYPE_MEGACART_64K,
    CART_TYPE_MEGACART_128K, CART_TYPE_BOUNTY_BOB, CART_TYPE_ATARIMAX_1MBIT,
    CART_TYPE_WILLIAMS_64K, CART_TYPE_OSS_16K_TYPE_B, CART_TYPE_OSS_8K, CART_TYPE_OSS_16K_034M,
    CART_TYPE_OSS_16K_043M, CART_TYPE_SIC_128K, CART_TYPE_SDX_64K, CART_TYPE_SDX_128K,
    CART_TYPE_DIAMOND_64K, CART_TYPE_EXPRESS_64K, CART_TYPE_BLIZZARD_16K, CART_TYPE_4K,
    CART_TYPE_TURBOSOFT_64K, CART_TYPE_TURBOSOFT_128K, CART_TYPE_ATRAX_128K,
    CART_TYPE_MICROCALC, CART_TYPE_2K, CART_TYPE_PHOENIX_8K, CART_TYPE_BLIZZARD_4K,
    CART_TYPE_ADAWLIAH_32k, CART_TYPE_XEX]
  repeat rw [if_neg (by omega)]

/-- C40 (dispatch totality). Every value other than 0 that `load_file` returns is the
mapper kind of a supported CAR type, one of the five raw-ROM kinds or `CART_TYPE_XEX`, lies
in 1..34 or is 255, and is matched by a branch of `emulate_cartridge` that starts an
emulator; each mapper kind of the CAR table is matched so. A cart type reaches the final
branch exactly when it is 0 or is at least 35 and not 255, as `CART_TYPE_ATR` (254) is;
that branch pulls RD4 and RD5 low and drives nothing in any turn. -/
theorem dispatch_total (g : Loader) (filename : String) (mount_ok : Bool)
    (file : Option FIL) :
    ((load_file g filename mount_ok file).2 ≠ CART_TYPE_NONE →
      ((∃ b e, car_table b = some ((load_file g filename mount_ok file).2, e)) ∨
        (load_file g filename mount_ok file).2 = CART_TYPE_XEX ∨
        (1 ≤ (load_file g filename mount_ok file).2 ∧
          (load_file g filename mount_ok file).2 ≤ 5)) ∧
      ((1 ≤ (load_file g filename mount_ok file).2 ∧
          (load_file g filename mount_ok file).2 ≤ 34) ∨
        (load_file g filename mount_ok file).2 = 255) ∧
      emulate_cartridge (load_file g filename mount_ok file).2 ≠ Emulator.no_cartridge) ∧
    (∀ b kind e, car_table b = some (kind, e) →
      emulate_cartridge kind ≠ Emulator.no_cartridge) ∧
    (∀ t, emulate_cartridge t = Emulator.no_cartridge ↔ (t = 0 ∨ (35 ≤ t ∧ t ≠ 255))) ∧
    emulate_cartridge CART_TYPE_NONE = Emulator.no_cartridge ∧
    emulate_cartridge CART_TYPE_ATR = Emulator.no_cartridge ∧
    Emulator.no_cartridge.entry = entry_levels false false ∧
    (∀ s c, Emulator.no_cartridge.turn s c = (s, Drive.idle)) := by
  have hrange : ∀ t, ((∃ b e, car_table b = some (t, e)) ∨ t = CART_TYPE_XEX ∨
      (1 ≤ t ∧ t ≤ 5)) → (1 ≤ t ∧ t ≤ 34) ∨ t = 255 := by
    intro t ht
    rcases ht with ⟨b, e, hb⟩ | ht | ht
    · have := car_table_some b t e hb
      simp only [CART_TYPE_NONE] at this
      omega
    · exact Or.inr ht
    · omega
  refine ⟨fun h0 => ?_, fun b kind e hb => ?_, fun t => ⟨fun ht => ?_, ?_⟩, by decide,
    by decide, rfl, fun s c => rfl⟩
  · rcases load_file_kind g filename mount_ok file with h | h
    · exact absurd h h0
    · exact ⟨h, hrange _ h, emulate_cartridge_concrete _ (hrange _ h)⟩
  · exact emulate_cartridge_concrete _ (hrange _ (Or.inl ⟨b, e, hb⟩))
  · by_contra hn
    exact emulate_cartridge_concrete t (by show (1 ≤ t ∧ t ≤ 34) ∨ t = 255; omega) ht
  · exact emulate_cartridge_none t
/-! ## The part of `cart_ram` that the emulators read -/

theorem addr_lt (c : Cycle) : c.addr < 8192 := by
  have h : c.addr ≤ 0x1FFF := Nat.and_le_right
  omega

theorem data_lt (c : Cycle) : c.data < 256 := by
  unfold Cycle.data
  have h : c.last &&& DATA_GPIO_MASK ≤ 0x1FE000 := Nat.and_le_right
  rw [Nat.shiftRight_eq_div_pow]
  have : (2 : Nat) ^ 13 = 8192 := by norm_num
  omega

theorem and_4096_zero (a : Nat) (ha : a < 8192) (h : a &&& 0x1000 = 0) : a < 4096 := by
  by_contra hn
  have ht : (a &&& 0x1000).testBit 12 = true := by
    rw [Nat.testBit_and, Nat.testBit_to_div_mod, Nat.testBit_to_div_mod]
    have : a / 4096 % 2 = 1 := by omega
    simp [this]
  rw [h, Nat.zero_testBit] at ht
  exact absurd ht (by decide)

theorem or_lt (a b n : Nat) (ha : a < 2 ^ n) (hb : b < 2 ^ n) : a ||| b < 2 ^ n :=
  Nat.or_lt_two_pow ha hb

theorem emulate_XEGS_bounded (fixed mask L : Nat) (sw : Bool) (s : Mapper) (c : Cycle)
    (hf : fixed ||| c.addr < L) (hL : 8192 * (mask + 1) ≤ L) (h : s.ptr ≤ 8192 * mask) :
    (emulate_XEGS fixed mask sw s c).1.ptr ≤ 8192 * mask ∧
    ∀ i, (emulate_XEGS fixed mask sw s c).2 = Drive.ram i → i < L := by
  have ha := addr_lt c
  have hm : c.data &&& mask ≤ mask := Nat.and_le_right
  unfold emulate_XEGS
  simp only []
  split_ifs <;>
    simp only [Mapper.set_rd4, Mapper.set_rd5, Drive.ram.injEq, reduceCtorEq, false_implies,
      implies_true, and_true, forall_eq'] <;> omega

theorem turn_bounded_banked (s : Mapper) (c : Cycle) :
    (s.bank ≤ 7 → (emulate_williams s c).1.bank ≤ 7 ∧
      ∀ i, (emulate_williams s c).2 = Drive.ram i → i < 65536) ∧
    (s.bank ≤ 15 → (emulate_atrax s c).1.bank ≤ 15 ∧
      ∀ i, (emulate_atrax s c).2 = Drive.ram i → i < 131072) ∧
    (s.bank ≤ 3 → (emulate_adawliah_32k s c).1.bank ≤ 3 ∧
      ∀ i, (emulate_adawliah_32k s c).2 = Drive.ram i → i < 32768) ∧
    (∀ i, (emulate_atarimax_128k s c).2 = Drive.ram i → i < 131072) ∧
    (∀ size, s.bank ≤ turbosoft_bank_mask size →
      (emulate_turbosoft size s c).1.bank ≤ turbosoft_bank_mask size ∧
      ∀ i, (emulate_turbosoft size s c).2 = Drive.ram i →
        i < 8192 * (turbosoft_bank_mask size + 1)) := by
  have ha := addr_lt c
  have h1 : c.addr &&& 7 ≤ 7 := Nat.and_le_right
  have h2 : c.data &&& 0xF ≤ 0xF := Nat.and_le_right
  have h3 : (s.bank + 1) &&& 3 ≤ 3 := Nat.and_le_right
  have h4 : s.bank &&& 0xF ≤ 0xF := Nat.and_le_right
  have h5 : ∀ size, c.addr &&& turbosoft_bank_mask size ≤ turbosoft_bank_mask size :=
    fun _ => Nat.and_le_right
  refine ⟨fun h => ?_, fun h => ?_, fun h => ?_, ?_, fun size h => ?_⟩
  · unfold emulate_williams
    split_ifs <;>
      simp only [Mapper.set_rd5, Drive.ram.injEq, reduceCtorEq, false_implies,
        implies_true, and_true, forall_eq'] <;> omega
  · unfold emulate_atrax
    split_ifs <;>
      simp only [Mapper.set_rd5, Drive.ram.injEq, reduceCtorEq, false_implies,
        implies_true, and_true, forall_eq'] <;> omega
  · unfold emulate_adawliah_32k
    split_ifs <;>
      simp only [Mapper.set_rd5, Drive.ram.injEq, reduceCtorEq, false_implies,
        implies_true, and_true, forall_eq'] <;> omega
  · unfold emulate_atarimax_128k
    split_ifs <;>
      simp only [Mapper.set_rd5, Drive.ram.injEq, reduceCtorEq, false_implies,
        implies_true, and_true, forall_eq']
    omega
  · have := h5 size
    unfold emulate_turbosoft
    split_ifs <;>
      simp only [Mapper.set_rd5, Drive.ram.injEq, reduceCtorEq, false_implies,
        implies_true, and_true, forall_eq'] <;> omega

theorem turn_bounded_fixed (s : Mapper) (c : Cycle) :
    (∀ i, (emulate_standard_8k s c).2 = Drive.ram i → i < 8192) ∧
    (∀ i, (emulate_standard_16k s c).2 = Drive.ram i → i < 16384) ∧
    (∀ i, (emulate_blizzard s c).2 = Drive.ram i → i < 16384) ∧
    (∀ i, (emulate_phoenix_8k s c).2 = Drive.ram i → i < 8192) := by
  have ha := addr_lt c
  have h1 : 0x2000 ||| c.addr < 2 ^ 14 := or_lt _ _ 14 (by norm_num) (by norm_num; omega)
  norm_num at h1
  refine ⟨?_, ?_, ?_, ?_⟩
  · unfold emulate_standard_8k
    split_ifs <;>
      simp only [Drive.ram.injEq, reduceCtorEq, false_implies, implies_true, forall_eq']
    omega
  · unfold emulate_standard_16k
    split_ifs <;>
      simp only [Drive.ram.injEq, reduceCtorEq, false_implies, implies_true, forall_eq'] <;>
      omega
  · unfold emulate_blizzard
    split_ifs <;>
      simp only [Drive.ram.injEq, reduceCtorEq, false_implies, implies_true, forall_eq'] <;>
      omega
  · unfold emulate_phoenix_8k
    split_ifs <;>
      simp only [Drive.ram.injEq, reduceCtorEq, false_implies, implies_true, forall_eq']
    omega

theorem emulate_bounty_bob_bounded (s : Mapper) (c : Cycle)
    (h : s.ptr ≤ 0x3000 ∧ s.ptr2 ≤ 0x7000) :
    ((emulate_bounty_bob s c).1.ptr ≤ 0x3000 ∧ (emulate_bounty_bob s c).1.ptr2 ≤ 0x7000) ∧
    ∀ i, (emulate_bounty_bob s c).2 = Drive.ram i → i < 40960 := by
  have ha := addr_lt c
  have h1 : c.addr &&& 0xFFF ≤ 0xFFF := Nat.and_le_right
  have h2 : 2 ^ 13 * 4 + c.addr = 2 ^ 13 * 4 ||| c.addr :=
    Nat.mul_add_lt_is_or (show c.addr < 2 ^ 13 by norm_num; omega) 4
  norm_num at h2
  obtain ⟨hp, hp2⟩ := h
  unfold emulate_bounty_bob
  split_ifs <;>
    simp only [Drive.ram.injEq, reduceCtorEq, false_implies, implies_true, forall_eq',
      and_true] <;> omega

theorem emulate_OSS_bounded (s : Mapper) (c : Cycle) :
    (s.bank ≤ 3 → (emulate_OSS_B s c).1.bank ≤ 3 ∧
      ∀ i, (emulate_OSS_B s c).2 = Drive.ram i → i < 16384) ∧
    (∀ is034M, s.bank ≤ 2 → (emulate_OSS_A is034M s c).1.bank ≤ 2 ∧
      ∀ i, (emulate_OSS_A is034M s c).2 = Drive.ram i → i < 16384) := by
  have ha := addr_lt c
  have h1 : c.addr &&& 0xFFF ≤ 0xFFF := Nat.and_le_right
  have h2 : c.addr ||| 0x2000 < 2 ^ 14 := or_lt _ _ 14 (by norm_num; omega) (by norm_num)
  norm_num at h2
  have h3 := and_4096_zero c.addr ha
  refine ⟨fun h => ?_, fun is034M h => ?_⟩
  · unfold emulate_OSS_B
    simp only []
    split_ifs <;>
      simp only [Mapper.set_rd5, Drive.ram.injEq, reduceCtorEq, false_implies, implies_true,
        forall_eq', and_true] <;> omega
  · unfold emulate_OSS_A
    simp only []
    split_ifs <;>
      simp only [Mapper.set_rd5, Drive.ram.injEq, reduceCtorEq, false_implies, implies_true,
        forall_eq', and_true] <;> omega

theorem turn_bounded_ptr (s : Mapper) (c : Cycle) :
    (∀ size, s.ptr ≤ 16384 * megacart_bank_mask size →
      (emulate_megacart size s c).1.ptr ≤ 16384 * megacart_bank_mask size ∧
      ∀ i, (emulate_megacart size s c).2 = Drive.ram i →
        i < 16384 * (megacart_bank_mask size + 1)) ∧
    (s.ptr ≤ 16384 * 7 → (emulate_SIC s c).1.ptr ≤ 16384 * 7 ∧
      ∀ i, (emulate_SIC s c).2 = Drive.ram i → i < 131072) ∧
    (∀ size, s.ptr ≤ (if size = 64 then 0 else 65536) + 7 * 8192 →
      (emulate_SDX size s c).1.ptr ≤ (if size = 64 then 0 else 65536) + 7 * 8192 ∧
      ∀ i, (emulate_SDX size s c).2 = Drive.ram i →
        i < (if size = 64 then 65536 else 131072)) ∧
    (∀ cctlAddr, s.ptr ≤ 7 * 8192 → (emulate_diamond_express cctlAddr s c).1.ptr ≤ 7 * 8192 ∧
      ∀ i, (emulate_diamond_express cctlAddr s c).2 = Drive.ram i → i < 65536) := by
  have ha := addr_lt c
  have h1 : c.addr ||| 0x2000 < 2 ^ 14 := or_lt _ _ 14 (by norm_num; omega) (by norm_num)
  norm_num at h1
  have h2 : ∀ size, c.data &&& megacart_bank_mask size &&& 7 ≤ megacart_bank_mask size :=
    fun _ => Nat.le_trans Nat.and_le_left Nat.and_le_right
  have h3 : c.data &&& 7 ≤ 7 := Nat.and_le_right
  have h4 : bnot32 c.addr &&& 7 ≤ 7 := Nat.and_le_right
  refine ⟨fun size h => ?_, fun h => ?_, fun size h => ?_, fun cctlAddr h => ?_⟩
  · have := h2 size
    unfold emulate_megacart
    simp only []
    split_ifs <;>
      simp only [Mapper.set_rd4, Mapper.set_rd5, Drive.ram.injEq, reduceCtorEq, false_implies,
        implies_true, forall_eq', and_true] <;> omega
  · unfold emulate_SIC
    simp only []
    split_ifs <;>
      simp only [Mapper.set_rd4, Mapper.set_rd5, Drive.ram.injEq, reduceCtorEq, false_implies,
        implies_true, forall_eq', and_true] <;> omega
  · unfold emulate_SDX
    simp only []
    by_cases h64 : size = 64
    · subst h64
      simp only [if_true] at h ⊢
      split_ifs <;>
        simp only [Mapper.set_rd5, Drive.ram.injEq, reduceCtorEq, false_implies,
          implies_true, forall_eq', and_true] <;> omega
    · simp only [if_neg h64] at h ⊢
      split_ifs <;>
        simp only [Mapper.set_rd5, Drive.ram.injEq, reduceCtorEq, false_implies,
          implies_true, forall_eq', and_true] <;> omega
  · unfold emulate_diamond_express
    split_ifs <;>
      simp only [Mapper.set_rd5, Drive.ram.injEq, reduceCtorEq, false_implies,
        implies_true, forall_eq', and_true] <;> omega

theorem turn_bounded_counter (s : Mapper) (c : Cycle) :
    (s.bank ≤ 4 ∧ (s.rd5_high = true → s.bank ≤ 3) →
      ((emulate_microcalc s c).1.bank ≤ 4 ∧
        ((emulate_microcalc s c).1.rd5_high = true → (emulate_microcalc s c).1.bank ≤ 3)) ∧
      ∀ i, (emulate_microcalc s c).2 = Drive.ram i → i < 32768) ∧
    (s.ptr ≤ 256 * 511 → (feed_XEX_loader s c).1.ptr ≤ 256 * 511 ∧
      ∀ i, (feed_XEX_loader s c).2 = Drive.ram i → i < 131072) := by
  have ha := addr_lt c
  have h1 : c.addr &&& 0xFF ≤ 0xFF := Nat.and_le_right
  have h2 : ∀ b : Nat, b &&& 0x01FF ≤ 0x01FF := fun _ => Nat.and_le_right
  have h3 : (s.bank + 1) % 5 < 5 := Nat.mod_lt _ (by decide)
  refine ⟨fun h => ?_, fun h => ?_⟩
  · obtain ⟨hb, hr⟩ := h
    unfold emulate_microcalc
    by_cases hs : c.pins &&& S5_GPIO_MASK = 0 ∧ s.rd5_high = true
    · rw [if_pos hs]
      have := hr hs.2
      refine ⟨⟨hb, hr⟩, fun i hi => ?_⟩
      simp only [Drive.ram.injEq] at hi
      omega
    · rw [if_neg hs]
      by_cases hc : c.pins &&& CCTL_GPIO_MASK = 0
      · rw [if_pos hc]
        refine ⟨⟨?_, ?_⟩, fun i hi => by simp only [reduceCtorEq] at hi⟩
        · show (s.bank + 1) % 5 ≤ 4
          omega
        · show ((s.bank + 1) % 5 != 4) = true → (s.bank + 1) % 5 ≤ 3
          simp only [bne_iff_ne, ne_eq]
          omega
      · rw [if_neg hc]
        exact ⟨⟨hb, hr⟩, fun i hi => by simp only [reduceCtorEq] at hi⟩
  · unfold feed_XEX_loader
    simp only []
    have h4 := h2 ((s.bank &&& 0xFF00) ||| c.data)
    have h5 := h2 ((s.bank &&& 0x00FF) ||| ((c.data <<< 8) &&& 0xFF00))
    have h6 := h2 s.bank
    split_ifs <;>
      simp only [Drive.ram.injEq, reduceCtorEq, false_implies, implies_true, forall_eq',
        and_true] <;> omega

/-- One turn of an emulator keeps the bound on its locals and reads `cart_ram` only below
the size of its window. -/
theorem turn_bounded (e : Emulator) (s : Mapper) (c : Cycle) (h : e.Bounded s) :
    e.Bounded (e.turn s c).1 ∧ ∀ i, (e.turn s c).2 = Drive.ram i → i < e.window := by
  have ha := addr_lt c
  cases e with
  | standard_8k => exact ⟨trivial, (turn_bounded_fixed s c).1⟩
  | standard_16k => exact ⟨trivial, (turn_bounded_fixed s c).2.1⟩
  | XEGS_32k sw =>
    exact emulate_XEGS_bounded 0x6000 3 32768 sw s c
      (by have := or_lt 0x6000 c.addr 15 (by norm_num) (by norm_num; omega); norm_num at this
          exact this) (by norm_num) h
  | XEGS_64k sw =>
    exact emulate_XEGS_bounded 0xE000 7 65536 sw s c
      (by have := or_lt 0xE000 c.addr 16 (by norm_num) (by norm_num; omega); norm_num at this
          exact this) (by norm_num) h
  | XEGS_128k sw =>
    exact emulate_XEGS_bounded 0x1E000 0xF 131072 sw s c
      (by have := or_lt 0x1E000 c.addr 17 (by norm_num) (by norm_num; omega); norm_num at this
          exact this) (by norm_num) h
  | bounty_bob => exact emulate_bounty_bob_bounded s c h
  | atarimax_128k => exact ⟨trivial, (turn_bounded_banked s c).2.2.2.1⟩
  | williams => exact (turn_bounded_banked s c).1 h
  | OSS_B => exact (emulate_OSS_bounded s c).1 h
  | OSS_A is034M => exact (emulate_OSS_bounded s c).2 is034M h
  | megacart size => exact (turn_bounded_ptr s c).1 size h
  | SIC => exact (turn_bounded_ptr s c).2.1 h
  | SDX size => exact (turn_bounded_ptr s c).2.2.1 size h
  | diamond_express cctlAddr => exact (turn_bounded_ptr s c).2.2.2 cctlAddr h
  | blizzard => exact ⟨trivial, (turn_bounded_fixed s c).2.2.1⟩
  | turbosoft size => exact (turn_bounded_banked s c).2.2.2.2 size h
  | atrax => exact (turn_bounded_banked s c).2.1 h
  | microcalc => exact (turn_bounded_counter s c).1 h
  | phoenix_8k => exact ⟨trivial, (turn_bounded_fixed s c).2.2.2⟩
  | adawliah_32k => exact (turn_bounded_banked s c).2.2.1 h
  | XEX_loader => exact (turn_bounded_counter s c).2 h
  | no_cartridge => exact ⟨trivial, fun i hi => by simp [Emulator.turn] at hi⟩

theorem entry_bounded (e : Emulator) : e.Bounded e.entry := by
  cases e <;> simp [Emulator.Bounded, Emulator.entry, entry_levels]

theorem window_le (e : Emulator) : e.window ≤ 131072 := by
  cases e <;> simp only [Emulator.window, megacart_bank_mask, turbosoft_bank_mask] <;>
    first | omega | (split_ifs <;> omega)

theorem run_bounded (e : Emulator) (cycles : List Cycle) : e.Bounded (e.run e.entry cycles) :=
  run_invariant e e.Bounded (fun s c hs => (turn_bounded e s c hs).1) _ (entry_bounded e) _

/-- C38 (mapper reads stay inside the cartridge RAM buffer). For every emulator that
`emulate_cartridge` can start, `feed_XEX_loader` among them, with any argument, every
sequence of turns `cycles` from its entry and every further turn `c`: the address of a turn
is below 8192 and its data byte below 256, and an index `i` at which the turn reads
`cart_ram` is below 131072. -/
theorem cart_ram_reads_in_bounds (e : Emulator) (cycles : List Cycle) (c : Cycle) (i : Nat) :
    c.addr < 8192 ∧ c.data < 256 ∧
    ((e.turn (e.run e.entry cycles) c).2 = Drive.ram i → i < 131072) :=
  ⟨addr_lt c, data_lt c, fun hi =>
    Nat.lt_of_lt_of_le ((turn_bounded e _ c (run_bounded e cycles)).2 i hi) (window_le e)⟩

theorem car_table_window (b : Nat)
    (hb : b ≠ 22 ∧ b ≠ 44 ∧ b ≠ 46 ∧ b ≠ 57 ∧ b ≠ 58) :
    (car_table b).all
      (fun r => decide ((emulate_cartridge r.1).window ≤ r.2)) = true := by
  by_cases h70 : b < 70
  · obtain ⟨h1, h2, h3, h4, h5⟩ := hb
    interval_cases b <;> first | decide | omega
  · rw [car_table_big b (by omega)]
    rfl

/-- C39 (mapper reads and the loaded image). CAR type 22 is loaded with an expected size
of 32768 bytes and is run by `emulate_williams`; after an access to `$D504` the read of
`$A000` is served from `cart_ram[32768]`. CAR type 44 is loaded with an expected size of
8192 bytes and is run by `emulate_OSS_B`; after an access to `$D501` the read of `$A000`
is served from `cart_ram[12288]`. For every other supported CAR type except 46, 57 and 58
every index at which the emulator of that type reads `cart_ram` is below the expected
size. -/
theorem reads_beyond_image :
    car_table 22 = some (CART_TYPE_WILLIAMS_64K, 32768) ∧
    emulate_cartridge CART_TYPE_WILLIAMS_64K = Emulator.williams ∧
    (Emulator.williams.turn (Emulator.williams.run Emulator.williams.entry [cctl_access 4])
      (s5_read 0)).2 = Drive.ram 32768 ∧
    car_table 44 = some (CART_TYPE_OSS_8K, 8192) ∧
    emulate_cartridge CART_TYPE_OSS_8K = Emulator.OSS_B ∧
    (Emulator.OSS_B.turn (Emulator.OSS_B.run Emulator.OSS_B.entry [cctl_access 1])
      (s5_read 0)).2 = Drive.ram 12288 ∧
    (∀ b kind expectedSize, car_table b = some (kind, expectedSize) →
      b ≠ 22 ∧ b ≠ 44 ∧ b ≠ 46 ∧ b ≠ 57 ∧ b ≠ 58 →
      ∀ cycles c i,
        ((emulate_cartridge kind).turn
          ((emulate_cartridge kind).run (emulate_cartridge kind).entry cycles) c).2 =
            Drive.ram i → i < expectedSize) := by
  refine ⟨by decide, by decide, by decide, by decide, by decide, by decide, ?_⟩
  intro b kind expectedSize hb hne cycles c i hi
  have hw := car_table_window b hne
  rw [hb] at hw
  simp only [Option.all_some, decide_eq_true_eq] at hw
  exact Nat.lt_of_lt_of_le ((turn_bounded _ _ c (run_bounded _ cycles)).2 i hi) hw
/-! ## The logical sectors that the block adapter passes on -/

theorem read_fold_calls (sector : Nat) (l : List Nat) (acc : Disk × (Nat → Nat)) :
    (l.foldl (fatfs_disk_read_step sector) acc).1.calls =
      acc.1.calls ++ l.map (fun i => FtlCall.read (loop_sector sector i)) := by
  induction l generalizing acc with
  | nil => simp
  | cons i l ih =>
    rw [List.foldl_cons, ih]
    simp [fatfs_disk_read_step]

theorem fatfs_disk_read_calls (d : Disk) (buff : Nat → Nat) (sector count : Nat)
    (hm : d.flashfs_is_mounted = true) (hs : sector < 30716) :
    (fatfs_disk_read d buff sector count).2.2 = DRESULT.RES_OK ∧
    (fatfs_disk_read d buff sector count).1.calls =
      d.calls ++ (List.range count).map (fun i => FtlCall.read (loop_sector sector i)) := by
  unfold fatfs_disk_read
  rw [if_neg (by rw [hm]; decide), if_neg (by show ¬ sector ≥ 30716; omega)]
  exact ⟨rfl, read_fold_calls sector _ _⟩

theorem loop_sector_lt (sector i count : Nat) (hi : i < count) (h : sector + count ≤ 30716) :
    loop_sector sector i = sector + i ∧ loop_sector sector i < 30716 := by
  unfold loop_sector
  have h1 : (sector + i) % 2 ^ 32 = sector + i := Nat.mod_eq_of_lt (by norm_num; omega)
  have h2 : (sector + i) % 65536 = sector + i := Nat.mod_eq_of_lt (by omega)
  rw [h1, h2]
  exact ⟨rfl, by omega⟩

theorem write_loop_succ (buff : Nat → Nat) (sector : Nat) (n i : Nat) (d : Disk) :
    fatfs_disk_write_loop buff sector (n + 1) i d =
      if flash_fs_verify_FAT_sector
          (flash_fs_write_FAT_sector d.fs (loop_sector sector i)
            ((List.range 512).map (fun k => buff (i * SECTOR_SIZE + k))))
          (loop_sector sector i)
          ((List.range 512).map (fun k => buff (i * SECTOR_SIZE + k))) = false then
        ({ d with
            fs := flash_fs_write_FAT_sector d.fs (loop_sector sector i)
              ((List.range 512).map (fun k => buff (i * SECTOR_SIZE + k)))
            calls := d.calls ++
              [FtlCall.write (loop_sector sector i), FtlCall.verify (loop_sector sector i)] },
          DRESULT.RES_ERROR)
      else
        fatfs_disk_write_loop buff sector n (i + 1)
          { d with
            fs := flash_fs_write_FAT_sector d.fs (loop_sector sector i)
              ((List.range 512).map (fun k => buff (i * SECTOR_SIZE + k)))
            calls := d.calls ++
              [FtlCall.write (loop_sector sector i), FtlCall.verify (loop_sector sector i)] } :=
  rfl

theorem write_loop_calls (buff : Nat → Nat) (sector : Nat) (n i : Nat) (d : Disk)
    (call : FtlCall) (h : call ∈ (fatfs_disk_write_loop buff sector n i d).1.calls) :
    call ∈ d.calls ∨ ∃ j, i ≤ j ∧ j < i + n ∧
      (call = FtlCall.write (loop_sector sector j) ∨
        call = FtlCall.verify (loop_sector sector j)) := by
  induction n generalizing i d with
  | zero => exact Or.inl h
  | succ n ih =>
    rw [write_loop_succ] at h
    have hstep : ∀ c, c ∈ d.calls ++
        [FtlCall.write (loop_sector sector i), FtlCall.verify (loop_sector sector i)] →
        c ∈ d.calls ∨ ∃ j, i ≤ j ∧ j < i + (n + 1) ∧
          (c = FtlCall.write (loop_sector sector j) ∨
            c = FtlCall.verify (loop_sector sector j)) := by
      intro c hc
      rw [List.mem_append] at hc
      rcases hc with hc | hc
      · exact Or.inl hc
      · right
        refine ⟨i, le_refl _, by omega, ?_⟩
        simpa using hc
    split_ifs at h
    · exact hstep call h
    · rcases ih (i + 1) _ h with h' | ⟨j, h1, h2, h3⟩
      · exact hstep call h'
      · exact Or.inr ⟨j, by omega, by omega, h3⟩

/-- The first sector of a write on a freshly formatted device verifies. -/
theorem fresh_write_verifies (l : Nat) (hl : l < 30716) (payload : List Nat)
    (hp : payload.length = 512) :
    flash_fs_verify_FAT_sector (flash_fs_write_FAT_sector (flash_fs_create boot) l payload)
      l payload = true := by
  have hroom : HasRoom (flash_fs_create boot) l :=
    has_room_of_card _ (create_good boot) l (by rw [mapped_create]; simp)
  have hrt := (write_good _ (create_good boot) l hl payload hroom).2.2.2.2.1 hp
  unfold flash_fs_verify_FAT_sector
  simp only []
  rw [hrt, list_eq_map_getD payload 512 hp]
  simp

/-- C36 (sectors passed on by the block adapter). On a freshly formatted, mounted device
the call `fatfs_disk_read(buf, 30715, 2)` returns `RES_OK` and passes the logical sectors
30715 and 30716 to `flash_fs_read_FAT_sector`, and the call
`fatfs_disk_write(buf, 30715, 2)` passes 30715 and then 30716 to
`flash_fs_write_FAT_sector` and `flash_fs_verify_FAT_sector`. For a request with
`sector + count <= 30716` on a mounted adapter every logical sector passed on is below
30716. -/
theorem sector_beyond_disk_passed_on :
    (fatfs_disk_read fresh_disk (fun _ => 0) 30715 2).2.2 = DRESULT.RES_OK ∧
    (fatfs_disk_read fresh_disk (fun _ => 0) 30715 2).1.calls =
      [FtlCall.read 30715, FtlCall.read 30716] ∧
    (fatfs_disk_write fresh_disk (fun _ => 0) 30715 2).1.calls =
      [FtlCall.write 30715, FtlCall.verify 30715, FtlCall.write 30716,
        FtlCall.verify 30716] ∧
    (∀ d buff sector count call, d.flashfs_is_mounted = true → sector + count ≤ 30716 →
      (call ∈ (fatfs_disk_read d buff sector count).1.calls ∨
        call ∈ (fatfs_disk_write d buff sector count).1.calls) →
      call ∈ d.calls ∨ ∃ l, l < 30716 ∧
        (call = FtlCall.read l ∨ call = FtlCall.write l ∨ call = FtlCall.verify l)) := by
  refine ⟨?_, ?_, ?_, ?_⟩
  · exact (fatfs_disk_read_calls fresh_disk _ 30715 2 rfl (by omega)).1
  · rw [(fatfs_disk_read_calls fresh_disk _ 30715 2 rfl (by omega)).2]
    decide
  · unfold fatfs_disk_write
    rw [if_neg (by decide), if_neg (by decide)]
    have hv := fresh_write_verifies 30715 (by omega)
      ((List.range 512).map (fun k => (fun _ => 0 : Nat → Nat) (0 * SECTOR_SIZE + k)))
      (by rw [List.length_map, List.length_range])
    have h0 : loop_sector 30715 0 = 30715 := by decide
    have h1 : loop_sector 30715 (0 + 1) = 30716 := by decide
    rw [write_loop_succ, h0, show fresh_disk.fs = flash_fs_create boot from rfl, hv,
      if_neg (by decide), write_loop_succ, h1]
    split_ifs <;> rfl
  · intro d buff sector count call hm hsc hcall
    by_cases hs : sector < 30716
    · rcases hcall with hcall | hcall
      · rw [(fatfs_disk_read_calls d buff sector count hm hs).2, List.mem_append] at hcall
        rcases hcall with hcall | hcall
        · exact Or.inl hcall
        · rw [List.mem_map] at hcall
          obtain ⟨i, hi, he⟩ := hcall
          rw [List.mem_range] at hi
          exact Or.inr ⟨_, (loop_sector_lt sector i count hi hsc).2, Or.inl he.symm⟩
      · unfold fatfs_disk_write at hcall
        rw [if_neg (by rw [hm]; decide), if_neg (by show ¬ sector ≥ 30716; omega)] at hcall
        rcases write_loop_calls buff sector count 0 d call hcall with h | ⟨j, _, hj, h⟩
        · exact Or.inl h
        · have hlt := (loop_sector_lt sector j count (by omega) hsc).2
          rcases h with h | h
          · exact Or.inr ⟨_, hlt, Or.inr (Or.inl h)⟩
          · exact Or.inr ⟨_, hlt, Or.inr (Or.inr h)⟩
    · have hge : sector ≥ SECTOR_NUM := by show sector ≥ 30716; omega
      unfold fatfs_disk_read fatfs_disk_write at hcall
      rw [if_neg (by rw [hm]; decide), if_pos hge, if_neg (by rw [hm]; decide),
        if_pos hge] at hcall
      exact Or.inl (hcall.elim id id)
/-! ## The allocator on a full data region -/

theorem range_writes_fst (n : Nat) (g : Nat → List Nat) :
    (((List.range n).map (fun l => (l, g l))).map Prod.fst).toFinset = Finset.range n := by
  rw [List.map_map]
  have h : (Prod.fst ∘ fun l => (l, g l)) = (id : Nat → Nat) := rfl
  rw [h, List.map_id]
  ext k
  rw [List.mem_toFinset, List.mem_range, Finset.mem_range]

/-- When the logical sectors 0 .. 30599 all have a slot, every byte of `used_bitmap` is
`0xFF`. -/
theorem filled_bitmap (s : FS) (hg : Good s)
    (hmapped : ∀ l, l < 30600 → sectors s.fs_map l ≠ 0) :
    ∀ q, q < 3840 → s.used_bitmap q = 255 := by
  have hmem : ∀ l, l ∈ Finset.range 30600 → sectors s.fs_map l ∈ Finset.Ico 120 30720 := by
    intro l hl
    rw [Finset.mem_range] at hl
    rw [Finset.mem_Ico]
    rcases hg.entry_range l (by omega) with h0 | h1
    · exact absurd h0 (hmapped l hl)
    · exact h1
  have hinj : Set.InjOn (fun l => sectors s.fs_map l) (Finset.range 30600 : Finset Nat) := by
    intro a ha b hb hab
    rw [Finset.mem_coe, Finset.mem_range] at ha hb
    exact hg.entry_inj a b (by omega) (by omega) (hmapped a ha) hab
  have hsub : (Finset.range 30600).image (fun l => sectors s.fs_map l) ⊆
      Finset.Ico 120 30720 := by
    intro e he
    rw [Finset.mem_image] at he
    obtain ⟨l, hl, rfl⟩ := he
    exact hmem l hl
  have hcard : (Finset.Ico 120 30720).card ≤
      ((Finset.range 30600).image (fun l => sectors s.fs_map l)).card := by
    rw [Finset.card_image_of_injOn hinj, Finset.card_range]
    simp
  have heq := Finset.eq_of_subset_of_card_le hsub hcard
  intro q hq
  by_cases hq15 : q < 15
  · exact hg.used_meta q hq15
  · rw [byte_eq_255_iff (hg.used_byte q hq)]
    intro j hj
    rw [hg.used_iff q j (by omega) hq hj]
    have he : 8 * q + j ∈ (Finset.range 30600).image (fun l => sectors s.fs_map l) := by
      rw [heq, Finset.mem_Ico]
      omega
    rw [Finset.mem_image] at he
    obtain ⟨l, hl, hle⟩ := he
    rw [Finset.mem_range] at hl
    exact ⟨l, by omega, hle⟩

/-- When every byte of `used_bitmap` is `0xFF`, the allocator takes its fourth path. -/
theorem noFreeSlot_of_full (s : FS) (hg : Good s)
    (hfull : ∀ q, q < 3840 → s.used_bitmap q = 255) : NoFreeSlot s := by
  have hbit : ∀ q o, q < 3840 → o < 8 → (s.used_bitmap q).testBit o = true := by
    intro q o hq ho
    rw [hfull q hq, testBit_255]
    simp [ho]
  rcases (getNextWriteSector_cases s (fun h => (hg.cursor h).2.2.1) hg.used_byte).2 with
    ⟨o, h⟩ | ⟨p, h⟩ | ⟨p, o, h⟩ | h
  · exfalso
    obtain ⟨hw, _, ho, hb, _⟩ := h
    obtain ⟨_, hw2, _, hc⟩ := hg.cursor hw
    have := (hc o ho hb).1
    rw [hbit _ o hw2 ho] at this
    exact absurd this (by decide)
  · exfalso
    obtain ⟨_, hp, _, hz, _⟩ := h
    rw [hfull p hp] at hz
    exact absurd hz (by decide)
  · exfalso
    obtain ⟨_, _, hp, _, hne, _⟩ := h
    exact hne (hfull p hp)
  · exact h

theorem full_writes_spec :
    Reachable (write_all (flash_fs_create boot) full_writes) ∧
    Good (write_all (flash_fs_create boot) full_writes) ∧
    (∀ l, l < 30600 → sectors (write_all (flash_fs_create boot) full_writes).fs_map l ≠ 0) ∧
    sectors (write_all (flash_fs_create boot) full_writes).fs_map 30600 = 0 := by
  have hlt : ∀ w, w ∈ full_writes → w.1 < 30716 ∧ w.2.length = 512 := by
    intro w hw
    unfold full_writes at hw
    rw [List.mem_map] at hw
    obtain ⟨k, hk, hkw⟩ := hw
    rw [List.mem_range] at hk
    rw [← hkw]
    refine ⟨by show k < 30716; omega, ?_⟩
    show (fill_payload k).length = 512
    unfold fill_payload
    rw [List.length_append, List.length_replicate]
    rfl
  have hfst : (full_writes.map Prod.fst).toFinset = Finset.range 30600 := by
    unfold full_writes
    exact range_writes_fst 30600 fill_payload
  have hm : ∀ l, l < 30716 → flash_fs_read_FAT_sector (flash_fs_create boot) l = blank_disk l := by
    intro l hl
    apply read_unmapped
    rw [(flash_fs_create_spec boot).1]
    exact create_map_sectors _ l hl
  obtain ⟨h1, h2, h3⟩ := write_all_good full_writes (flash_fs_create boot) (create_good boot)
    blank_disk hm hlt
    (by rw [mapped_create, Finset.empty_union, hfst, Finset.card_range])
  refine ⟨write_all_reachable _ (Reachable.create boot) full_writes (fun w hw => (hlt w hw).1),
    h1, fun l hl h0 => ?_, ?_⟩
  · have hr := h2 l (by omega)
    rw [read_unmapped _ l h0] at hr
    have hmodel : model_all blank_disk full_writes l = fill_payload l := by
      unfold full_writes
      rw [model_all_range, if_pos hl]
    rw [hmodel] at hr
    exact fill_payload_ne_zero l hr.symm
  · by_contra hne
    have hin : 30600 ∈ mapped (write_all (flash_fs_create boot) full_writes) :=
      (mem_mapped _ _).2 ⟨by omega, hne⟩
    have := h3 hin
    rw [mapped_create, Finset.empty_union, hfst, Finset.mem_range] at this
    omega

/-- C34 (the allocator when the data region is full). After a format and one write to each
of the logical sectors 0 .. 30599, a state reachable by writes below 30716: every byte of
`used_bitmap` is `0xFF`, so no sub-slot of any sector has a clear bit; logical sector 30600
has no slot, so a write to it releases nothing and calls `getNextWriteSector` in this
state; the search for a sector with `used_bitmap != 0xFF` fails, and the entry returned is
built from offset 8 and names no slot whose bit was clear. The data region has
`3825 * 8 = 30600` slots, fewer than the 30716 logical sectors. -/
theorem allocator_without_free_slot :
    Reachable (write_all (flash_fs_create boot) full_writes) ∧
    (∀ q, q < 3840 → (write_all (flash_fs_create boot) full_writes).used_bitmap q = 255) ∧
    sectors (write_all (flash_fs_create boot) full_writes).fs_map 30600 = 0 ∧
    release_previous (write_all (flash_fs_create boot) full_writes) 30600 =
      write_all (flash_fs_create boot) full_writes ∧
    NoFreeSlot (write_all (flash_fs_create boot) full_writes) ∧
    (¬ ∃ p o, p < 3840 ∧ o < 8 ∧
      (getNextWriteSector (write_all (flash_fs_create boot) full_writes)).2 = 8 * p + o ∧
      ((write_all (flash_fs_create boot) full_writes).used_bitmap p).testBit o = false) ∧
    (3840 - 15) * 8 = 30600 ∧ 30600 < NUM_FAT_SECTORS := by
  obtain ⟨hr, hg, hmapped, h0⟩ := full_writes_spec
  have hfull := filled_bitmap _ hg hmapped
  refine ⟨hr, hfull, h0, ?_, noFreeSlot_of_full _ hg hfull, ?_, by decide, by decide⟩
  · unfold release_previous
    simp only []
    rw [if_neg (not_not.2 h0)]
  · rintro ⟨p, o, hp, ho, _, hb⟩
    rw [hfull p hp, testBit_255] at hb
    simp [ho] at hb
/-! ## ATR pages do not overlap -/

theorem atr_byte_offset_le (secSize sector page : Nat) (hs16 : sector < 65536)
    (hp : page < 256) (hS : secSize < 65536) :
    atr_byte_offset secSize sector page ≤ 4294607125 := by
  unfold atr_byte_offset
  split
  · omega
  · have hprod : (sector - 4) * secSize ≤ 65531 * 65535 :=
      Nat.mul_le_mul (by omega) (by omega)
    omega

/-- The offsets of two addresses in lexicographic order are at least 128 bytes apart. -/
theorem atr_offset_gap (n s p s' p' : Nat) (hs : 1 ≤ s)
    (hp : if s ≤ 3 then p = 0 else p < n)
    (hp' : if s' ≤ 3 then p' = 0 else p' < n)
    (h : s < s' ∨ (s = s' ∧ p < p')) :
    atr_byte_offset (128 * n) s p + 128 ≤ atr_byte_offset (128 * n) s' p' := by
  unfold atr_byte_offset
  have e1 : (s - 4) * (128 * n) = 128 * ((s - 4) * n) := Nat.mul_left_comm _ _ _
  have e2 : (s' - 4) * (128 * n) = 128 * ((s' - 4) * n) := Nat.mul_left_comm _ _ _
  rw [e1, e2]
  by_cases h3 : s ≤ 3
  · rw [if_pos h3] at hp
    rw [if_pos h3]
    by_cases h3' : s' ≤ 3
    · rw [if_pos h3'] at hp'
      rw [if_pos h3']
      omega
    · rw [if_neg h3']
      omega
  · rw [if_neg h3] at hp
    rw [if_neg h3]
    have h3' : ¬ s' ≤ 3 := by omega
    rw [if_neg h3'] at hp'
    rw [if_neg h3']
    rcases h with hlt | ⟨heq, hlt⟩
    · have hm : (s - 4 + 1) * n ≤ (s' - 4) * n := Nat.mul_le_mul_right n (by omega)
      rw [Nat.add_mul, Nat.one_mul] at hm
      omega
    · subst heq
      omega

/-- The function `write_atr_sector` changes no byte of the file outside the 128 bytes at
the position it seeks to, does not shorten the file and leaves the other fields of
`mountedATRs[0]` as they are. -/
theorem write_atr_frame (m : MountedATR) (sector page : Nat) (buf : List Nat) :
    (write_atr_sector m sector page buf).1.path = m.path ∧
    (write_atr_sector m sector page buf).1.secSize = m.secSize ∧
    (write_atr_sector m sector page buf).1.filesize = m.filesize ∧
    (write_atr_sector m sector page buf).1.fil.fails = m.fil.fails ∧
    m.fil.size ≤ (write_atr_sector m sector page buf).1.fil.size ∧
    ∀ k, (k < to_fsize (write_atr_offset m.secSize sector page) ∨
        to_fsize (write_atr_offset m.secSize sector page) + 128 ≤ k) →
      (write_atr_sector m sector page buf).1.fil.data k = m.fil.data k := by
  unfold write_atr_sector
  by_cases h1 : m.path = ""
  · rw [if_pos h1]
    exact ⟨rfl, rfl, rfl, rfl, le_refl _, fun _ _ => rfl⟩
  rw [if_neg h1]
  by_cases h2 : sector = 0
  · rw [if_pos h2]
    exact ⟨rfl, rfl, rfl, rfl, le_refl _, fun _ _ => rfl⟩
  rw [if_neg h2]
  by_cases h3 : write_atr_offset m.secSize sector page > m.filesize - 128
  · rw [if_pos h3]
    exact ⟨rfl, rfl, rfl, rfl, le_refl _, fun _ _ => rfl⟩
  rw [if_neg h3]
  unfold f_lseek
  by_cases f1 : m.fil.fails m.fil.ops.length = true
  · rw [if_pos f1]
    exact ⟨rfl, rfl, rfl, rfl, le_refl _, fun _ _ => rfl⟩
  rw [if_neg f1]
  simp only []
  unfold f_write
  simp only []
  split_ifs with f2
  · exact ⟨rfl, rfl, rfl, rfl, Nat.le_max_left _ _, fun _ _ => rfl⟩
  · unfold f_sync
    simp only [List.length_map, List.length_range]
    have hsz : m.fil.size ≤ max (max m.fil.size
        (to_fsize (write_atr_offset m.secSize sector page)))
        (to_fsize (write_atr_offset m.secSize sector page) + 128) :=
      Nat.le_trans (Nat.le_max_left _ _) (Nat.le_max_left _ _)
    split_ifs <;>
      exact ⟨rfl, rfl, rfl, rfl, hsz, fun k hk => if_neg (by omega)⟩

/-- The result of `read_atr_sector` on a disk on which no call fails. -/
theorem read_atr_result (m : MountedATR) (sector page : Nat) (out : List Nat)
    (hf : ∀ k, m.fil.fails k = false) :
    ((m.path = "" ∨ sector = 0) → (read_atr_sector m sector page out).2.2 ≠ 0) ∧
    (m.path ≠ "" → sector ≠ 0 → read_atr_offset m.secSize sector page > m.filesize - 128 →
      (read_atr_sector m sector page out).2 = (List.replicate 128 0 ++ out.drop 128, 0)) ∧
    (m.path ≠ "" → sector ≠ 0 →
      ¬ read_atr_offset m.secSize sector page > m.filesize - 128 →
      (read_atr_sector m sector page out).2 =
        ((List.range (min 128 (max m.fil.size (to_fsize (read_atr_offset m.secSize sector page)) -
              to_fsize (read_atr_offset m.secSize sector page)))).map
            (fun k => m.fil.data (to_fsize (read_atr_offset m.secSize sector page) + k)) ++
          out.drop (min 128 (max m.fil.size
            (to_fsize (read_atr_offset m.secSize sector page)) -
              to_fsize (read_atr_offset m.secSize sector page))),
          if min 128 (max m.fil.size (to_fsize (read_atr_offset m.secSize sector page)) -
              to_fsize (read_atr_offset m.secSize sector page)) ≠ 128 then 2 else 0)) := by
  unfold read_atr_sector
  refine ⟨fun h => ?_, fun h1 h2 h3 => ?_, fun h1 h2 h3 => ?_⟩
  · by_cases h1 : m.path = ""
    · rw [if_pos h1]
      show (1 : Nat) ≠ 0
      decide
    · rw [if_neg h1, if_pos (h.resolve_left h1)]
      show (2 : Nat) ≠ 0
      decide
  · rw [if_neg h1, if_neg h2, if_pos h3]
  · rw [if_neg h1, if_neg h2, if_neg h3]
    simp only [f_lseek, f_read, hf, Bool.false_eq_true, if_false, List.length_map,
      List.length_range]

/-- A read that returned 0 returns 0 with the same bytes after a write elsewhere: the
write changes no byte of the 128 that the read takes and does not shorten the file. -/
theorem read_after_write_elsewhere (m : MountedATR) (s p s' p' : Nat) (buf out : List Nat)
    (hf : ∀ k, m.fil.fails k = false)
    (hgap : to_fsize (read_atr_offset m.secSize s' p') + 128 ≤
        to_fsize (write_atr_offset m.secSize s p) ∨
      to_fsize (write_atr_offset m.secSize s p) + 128 ≤
        to_fsize (read_atr_offset m.secSize s' p'))
    (h0 : (read_atr_sector m s' p' out).2.2 = 0) :
    (read_atr_sector (write_atr_sector m s p buf).1 s' p' out).2.2 = 0 ∧
    (read_atr_sector (write_atr_sector m s p buf).1 s' p' out).2.1 =
      (read_atr_sector m s' p' out).2.1 := by
  obtain ⟨w1, w2, w3, w4, w5, w6⟩ := write_atr_frame m s p buf
  have hf' : ∀ k, (write_atr_sector m s p buf).1.fil.fails k = false := by
    intro k
    rw [w4]
    exact hf k
  obtain ⟨r1, r2, r3⟩ := read_atr_result m s' p' out hf
  obtain ⟨_, r2', r3'⟩ := read_atr_result (write_atr_sector m s p buf).1 s' p' out hf'
  rw [w1, w2, w3] at r2' r3'
  have h1 : m.path ≠ "" := fun h => r1 (Or.inl h) h0
  have h2 : s' ≠ 0 := fun h => r1 (Or.inr h) h0
  by_cases h3 : read_atr_offset m.secSize s' p' > m.filesize - 128
  · rw [r2' h1 h2 h3, r2 h1 h2 h3]
    exact ⟨rfl, rfl⟩
  · have e := r3 h1 h2 h3
    have e' := r3' h1 h2 h3
    rw [e] at h0
    have hlen : min 128 (max m.fil.size (to_fsize (read_atr_offset m.secSize s' p')) -
        to_fsize (read_atr_offset m.secSize s' p')) = 128 := by
      by_contra hne
      simp only [if_pos hne] at h0
      exact absurd h0 (by decide)
    have hlen' : min 128 (max (write_atr_sector m s p buf).1.fil.size
        (to_fsize (read_atr_offset m.secSize s' p')) -
        to_fsize (read_atr_offset m.secSize s' p')) = 128 := by
      omega
    rw [hlen] at e
    rw [hlen'] at e'
    rw [e, e']
    refine ⟨by simp, ?_⟩
    show _ ++ _ = _ ++ _
    congr 1
    apply List.map_congr_left
    intro k hk
    rw [List.mem_range] at hk
    exact w6 _ (by omega)

/-- C37 (ATR pages do not overlap). For a mounted ATR whose header sector size `S` is a
multiple of 128, and two distinct addresses `(s, p)` and `(s', p')` with sector
numbers from 1 on, the page being 0 for the sectors 1..3 and below `S / 128` from sector 4
on: the byte offsets differ by at least 128, they are the positions that
`read_atr_sector` and `write_atr_sector` seek to, and the values of the variable `offset`
differ by at least 128 as well; `write_atr_sector` at `(s, p)` changes none of the 128
bytes of the file at the offset of `(s', p')`; and on a disk on which no call fails, a
`read_atr_sector` at `(s', p')` that returns 0 returns 0 with the same 128 bytes after the
write. -/
theorem atr_pages_disjoint (m : MountedATR) (s p s' p' : Nat) (buf out : List Nat)
    (hdiv : 128 ∣ m.secSize) (hS : m.secSize < 65536)
    (hs : 1 ≤ s) (hs16 : s < 65536) (hp8 : p < 256)
    (hp : if s ≤ 3 then p = 0 else p < m.secSize / 128)
    (hs' : 1 ≤ s') (hs16' : s' < 65536) (hp8' : p' < 256)
    (hp' : if s' ≤ 3 then p' = 0 else p' < m.secSize / 128)
    (hne : (s, p) ≠ (s', p')) :
    (atr_byte_offset m.secSize s p + 128 ≤ atr_byte_offset m.secSize s' p' ∨
      atr_byte_offset m.secSize s' p' + 128 ≤ atr_byte_offset m.secSize s p) ∧
    (to_fsize (write_atr_offset m.secSize s p) = atr_byte_offset m.secSize s p ∧
      to_fsize (read_atr_offset m.secSize s' p') = atr_byte_offset m.secSize s' p') ∧
    (write_atr_offset m.secSize s p + 128 ≤ read_atr_offset m.secSize s' p' ∨
      read_atr_offset m.secSize s' p' + 128 ≤ write_atr_offset m.secSize s p) ∧
    (∀ k, k < 128 →
      (write_atr_sector m s p buf).1.fil.data (atr_byte_offset m.secSize s' p' + k) =
        m.fil.data (atr_byte_offset m.secSize s' p' + k)) ∧
    ((∀ k, m.fil.fails k = false) → (read_atr_sector m s' p' out).2.2 = 0 →
      (read_atr_sector (write_atr_sector m s p buf).1 s' p' out).2.2 = 0 ∧
      (read_atr_sector (write_atr_sector m s p buf).1 s' p' out).2.1 =
        (read_atr_sector m s' p' out).2.1) := by
  obtain ⟨n, hn⟩ := hdiv
  have hdivn : m.secSize / 128 = n := by
    rw [hn]
    exact Nat.mul_div_cancel_left n (by decide)
  rw [hdivn] at hp hp'
  have hgap : atr_byte_offset m.secSize s p + 128 ≤ atr_byte_offset m.secSize s' p' ∨
      atr_byte_offset m.secSize s' p' + 128 ≤ atr_byte_offset m.secSize s p := by
    rw [hn]
    have hlex : (s < s' ∨ (s = s' ∧ p < p')) ∨ (s' < s ∨ (s' = s ∧ p' < p)) := by
      by_contra hcon
      apply hne
      have h1 : s = s' := by omega
      have h2 : p = p' := by omega
      rw [h1, h2]
    rcases hlex with h | h
    · exact Or.inl (atr_offset_gap n s p s' p' hs hp hp' h)
    · exact Or.inr (atr_offset_gap n s' p' s p hs' hp' hp h)
  have ha := atr_byte_offset_le m.secSize s p hs16 hp8 hS
  have hb := atr_byte_offset_le m.secSize s' p' hs16' hp8' hS
  have ha16 := atr_byte_offset_pos m.secSize s p
  have hb16 := atr_byte_offset_pos m.secSize s' p'
  have hwa : to_fsize (write_atr_offset m.secSize s p) = atr_byte_offset m.secSize s p := by
    rw [write_atr_offset_eq, read_atr_offset_int32 _ _ _ hs]
    exact to_fsize_int32_nat _ (by omega)
  have hrb : to_fsize (read_atr_offset m.secSize s' p') = atr_byte_offset m.secSize s' p' := by
    rw [read_atr_offset_int32 _ _ _ hs']
    exact to_fsize_int32_nat _ (by omega)
  refine ⟨hgap, ⟨hwa, hrb⟩, ?_, fun k hk => ?_, fun hf h0 => ?_⟩
  · rw [write_atr_offset_eq, read_atr_offset_int32 _ _ _ hs, read_atr_offset_int32 _ _ _ hs']
    unfold int32
    omega
  · apply (write_atr_frame m s p buf).2.2.2.2.2
    rw [hwa]
    omega
  · exact read_after_write_elsewhere m s p s' p' buf out hf (by rw [hwa, hrb]; omega) h0

theorem atr_pages_disjoint_witness :
    (atr_byte_offset 256 5 0 + 128 ≤ atr_byte_offset 256 5 1 ∨
      atr_byte_offset 256 5 1 + 128 ≤ atr_byte_offset 256 5 0) ∧
    atr_byte_offset 256 5 0 = 656 ∧ atr_byte_offset 256 5 1 = 784 :=
  ⟨(atr_pages_disjoint (atr_demo 256 (List.replicate 1000 7)) 5 0 5 1 [] []
      ⟨2, rfl⟩ (by decide) (by decide) (by decide) (by decide) (by decide) (by decide)
      (by decide) (by decide) (by decide) (by decide)).1,
    by decide, by decide⟩

/-! ## Mount and the bounds of `used_bitmap` -/

theorem wellFormed_storesInBounds (m : Nat → Nat) (h : WellFormedMap m) : StoresInBounds m := by
  intro l hl hne
  rcases h.1 l hl with h0 | ⟨_, h2⟩
  · exact absurd h0 hne
  · rw [(entry_slot h2).1]
    show sectors m l / 8 < 3840
    omega

theorem create_stores_in_bounds (s0 : FS) : StoresInBounds (flash_fs_create s0).flash := by
  intro l hl hne
  exfalso
  apply hne
  rw [← create_map_sectors s0.fs_map l hl]
  apply sectors_congr _ _ l hl
  intro k hk
  rw [(flash_fs_create_spec s0).2.2.1 k, if_pos hk]

theorem torn_image_magic : (List.range 8).map torn_image = MAGIC_8_BYTES := by
  rfl

/-- With every store inside the array, `flash_fs_mount` changes no byte behind
`used_bitmap`. -/
theorem mount_used_behind (s : FS) (hm : (List.range 8).map s.flash = MAGIC_8_BYTES)
    (hb : StoresInBounds (flash_fs_mount s).1.fs_map) (p : Nat) (hp : NUM_FLASH_SECTORS ≤ p) :
    (flash_fs_mount s).1.used_bitmap p = s.used_bitmap p := by
  have h3 := (load_fs_map_fold
    (load_fs_map_block { s with fs_map_needs_written :=
      fun i => if i < 15 then false else s.fs_map_needs_written i } 0) 14).2.2.1
  rw [flash_fs_mount_ok s hm] at hb ⊢
  unfold init_used_bitmap at hb ⊢
  dsimp only at hb ⊢
  rw [mark_used_untouched _ _ _ p (fun l hl hne he => by
    have := hb l hl hne
    omega)]
  have h15 : ¬ p < 15 := by
    have : NUM_FLASH_SECTORS = 3840 := rfl
    omega
  rw [if_neg h15, if_neg (by omega), h3]
  rfl

/-- C4, counterexample. At power-on with the flash `torn_image`, `flash_fs_mount` returns 0;
the map entry of logical sector 2044, the first one of metadata sector 1, is `0xFFFF`,
which names physical sector 8191, and `init_used_bitmap` sets bit 7 of `used_bitmap[8191]`,
4351 bytes behind the end of the 3840-byte array. -/
theorem mount_stores_outside_bitmap :
    (flash_fs_mount { boot with flash := torn_image }).2 = 0 ∧
    sectors (flash_fs_mount { boot with flash := torn_image }).1.fs_map 2044 = 0xFFFF ∧
    getMapSector 0xFFFF = 8191 ∧ getMapOffset 0xFFFF = 7 ∧
    NUM_FLASH_SECTORS ≤ 8191 ∧
    ¬ StoresInBounds (flash_fs_mount { boot with flash := torn_image }).1.fs_map ∧
    boot.used_bitmap 8191 = 0 ∧
    ((flash_fs_mount { boot with flash := torn_image }).1.used_bitmap 8191).testBit 7 =
      true := by
  obtain ⟨_, _, _, _, _, m6, m7⟩ := flash_fs_mount_spec { boot with flash := torn_image }
  have hrc := m6.2 torn_image_magic
  obtain ⟨n1, _, n3⟩ := m7 hrc
  have hE : sectors (flash_fs_mount { boot with flash := torn_image }).1.fs_map 2044 =
      0xFFFF := by
    unfold sectors
    rw [n1, n1, if_pos (by decide), if_pos (by decide)]
    show torn_image 4096 + 256 * torn_image 4097 = 65535
    unfold torn_image
    rw [if_neg (by decide), if_neg (by decide), if_neg (by decide), if_neg (by decide)]
  have hsec : getMapSector 0xFFFF = 8191 := by decide
  have hoff : getMapOffset 0xFFFF = 7 := by decide
  refine ⟨hrc, hE, hsec, hoff, by decide, ?_, rfl, ?_⟩
  · intro h
    have := h 2044 (by decide) (by rw [hE]; decide)
    rw [hE, hsec] at this
    exact absurd this (by decide)
  · rw [n3]
    unfold init_used_bitmap
    dsimp only
    rw [mark_used_testBit]
    right
    exact ⟨2044, by decide, by rw [hE]; decide, by rw [hE, hsec], by rw [hE, hoff]⟩

/-- C4, amended (mount). For a flash image in which, when the magic is present, every
nonzero map entry names a physical sector below 3840: `flash_fs_mount` returns 0 exactly
when the first 8 bytes of metadata sector 0 are the magic "RHE!FS30", so it returns
non-zero on erased flash. Whenever it returns 0, the dirty flags 0..14 are clear, the RAM
map holds the bytes of the 15 metadata sectors, every store of `init_used_bitmap` is
inside `used_bitmap`, no byte behind the array is changed, and `used_bitmap` is the bitmap
that `init_used_bitmap` rebuilds from that map: bit `j` of byte `p` is set exactly for the
metadata sectors and for the slots named by a nonzero map entry. -/
theorem mount_contract (s : FS)
    (hin : (List.range 8).map s.flash = MAGIC_8_BYTES → StoresInBounds s.flash) :
    ((flash_fs_mount s).2 = 0 ↔ (List.range 8).map s.flash = MAGIC_8_BYTES) ∧
    ((∀ a, s.flash a = 0xFF) → (flash_fs_mount s).2 ≠ 0) ∧
    ((flash_fs_mount s).2 = 0 →
      (∀ i, i < 15 → (flash_fs_mount s).1.fs_map_needs_written i = false) ∧
      (∀ k, k < 61440 → (flash_fs_mount s).1.fs_map k = (flash_fs_mount s).1.flash k) ∧
      StoresInBounds (flash_fs_mount s).1.fs_map ∧
      (∀ p, NUM_FLASH_SECTORS ≤ p → (flash_fs_mount s).1.used_bitmap p = s.used_bitmap p) ∧
      (flash_fs_mount s).1.used_bitmap = (init_used_bitmap (flash_fs_mount s).1).used_bitmap ∧
      ∀ p j, p < 3840 →
        (((flash_fs_mount s).1.used_bitmap p).testBit j = true ↔
          RebuiltBit (flash_fs_mount s).1.fs_map p j)) := by
  obtain ⟨m1, _, _, _, m5, m6, m7⟩ := flash_fs_mount_spec s
  refine ⟨m6, ?_, ?_⟩
  · intro h hrc
    exact magic_not_erased s.flash h (m6.1 hrc)
  · intro hrc
    obtain ⟨n1, _, n3⟩ := m7 hrc
    have hE : ∀ l, l < 30716 → sectors (flash_fs_mount s).1.fs_map l = sectors s.flash l := by
      intro l hl
      apply sectors_congr _ _ l hl
      intro k hk
      rw [n1 k, if_pos hk]
    have hb : StoresInBounds (flash_fs_mount s).1.fs_map := by
      intro l hl hne
      rw [hE l hl] at hne ⊢
      exact hin (m6.1 hrc) l hl hne
    refine ⟨m5, ?_, hb, ?_, n3, ?_⟩
    · intro k hk
      rw [n1 k, if_pos hk, m1]
    · intro p hp
      exact mount_used_behind s (m6.1 hrc) hb p hp
    · intro p j hp
      rw [n3]
      exact init_used_bitmap_testBit _ p j hp

theorem mount_contract_witness :
    (flash_fs_mount boot).2 ≠ 0 ∧
    (flash_fs_mount (flash_fs_sync one_write_demo)).2 = 0 ∧
    (∀ i, i < 15 →
      (flash_fs_mount (flash_fs_sync one_write_demo)).1.fs_map_needs_written i = false) ∧
    StoresInBounds (flash_fs_mount (flash_fs_sync one_write_demo)).1.fs_map ∧
    (((flash_fs_mount (flash_fs_sync one_write_demo)).1.used_bitmap 15).testBit 0 = true ↔
      RebuiltBit (flash_fs_mount (flash_fs_sync one_write_demo)).1.fs_map 15 0) := by
  have h1 : ReachableWithin one_write_demo :=
    ReachableWithin.write 5 _ (ReachableWithin.create boot) (by decide)
      (withinCapacity_create boot 5)
  obtain ⟨hg, hm⟩ := reachableWithin_inv h1
  obtain ⟨hrc, hwf, _⟩ := remount_good one_write_demo hg hm (flash_fs_sync one_write_demo) rfl
  have hc := (mount_contract (flash_fs_sync one_write_demo)
    (fun _ => wellFormed_storesInBounds _ hwf)).2.2 hrc
  exact ⟨(mount_contract boot (fun h => absurd h (magic_not_erased _ (fun _ => rfl)))).2.1
      (fun _ => rfl),
    hrc, hc.1, hc.2.2.1, hc.2.2.2.2.2 15 0 (by decide)⟩
/-- When the checks of `read_atr_sector` and `write_atr_sector` pass, both functions call
`f_lseek` with the position computed from `offset`, whatever the disk reports. -/
theorem atr_seek_made (m : MountedATR) (sector page : Nat) (buf : List Nat)
    (h1 : m.path ≠ "") (h2 : sector ≠ 0)
    (h3 : ¬ read_atr_offset m.secSize sector page > m.filesize - 128) :
    (∃ rest, (read_atr_sector m sector page buf).1.fil.ops =
      m.fil.ops ++ FileOp.lseek (to_fsize (read_atr_offset m.secSize sector page)) :: rest) ∧
    ∃ rest, (write_atr_sector m sector page buf).1.fil.ops =
      m.fil.ops ++ FileOp.lseek (to_fsize (write_atr_offset m.secSize sector page)) :: rest := by
  constructor
  · unfold read_atr_sector
    rw [if_neg h1, if_neg h2, if_neg h3]
    by_cases hf1 : m.fil.fails m.fil.ops.length = true
    · simp only [f_lseek, hf1, if_true]
      exact ⟨[], rfl⟩
    · simp only [f_lseek, hf1, Bool.false_eq_true, if_false]
      by_cases hf2 : m.fil.fails (m.fil.ops ++
          [FileOp.lseek (to_fsize (read_atr_offset m.secSize sector page))]).length = true
      · simp only [f_read, hf2, if_true]
        exact ⟨[FileOp.read 128], by simp⟩
      · simp only [f_read, hf2, Bool.false_eq_true, if_false]
        exact ⟨[FileOp.read 128], by simp⟩
  · unfold write_atr_sector
    rw [if_neg h1, if_neg h2, if_neg (by rw [write_atr_offset_eq]; exact h3)]
    by_cases hf1 : m.fil.fails m.fil.ops.length = true
    · simp only [f_lseek, hf1, if_true]
      exact ⟨[], rfl⟩
    · simp only [f_lseek, hf1, Bool.false_eq_true, if_false]
      by_cases hf2 : m.fil.fails (m.fil.ops ++
          [FileOp.lseek (to_fsize (write_atr_offset m.secSize sector page))]).length = true
      · simp only [f_write, hf2, if_true]
        exact ⟨[FileOp.write ((List.range 128).map (fun k => buf.getD k 0)).length], by simp⟩
      · simp only [f_write, hf2, Bool.false_eq_true, if_false]
        by_cases hf3 : m.fil.fails (m.fil.ops ++
            [FileOp.lseek (to_fsize (write_atr_offset m.secSize sector page))] ++
            [FileOp.write ((List.range 128).map (fun k => buf.getD k 0)).length]).length = true
        · simp only [f_sync, hf3, if_true]
          exact ⟨[FileOp.write ((List.range 128).map (fun k => buf.getD k 0)).length,
            FileOp.sync], by simp⟩
        · simp only [f_sync, hf3, Bool.false_eq_true, if_false]
          exact ⟨[FileOp.write ((List.range 128).map (fun k => buf.getD k 0)).length,
            FileOp.sync], by simp⟩

/-- C18 (ATR offset formula). For a mounted ATR with header sector size `S`, a sector
number `1 ≤ sector < 65536` and a page below 256, let `off` be `16 + (sector-1)*128` when
`sector ≤ 3` (the page is ignored) and `16 + 3*128 + (sector-4)*S + page*128` when
`sector ≥ 4`. Whenever `read_atr_sector` or `write_atr_sector` makes a call on the file,
the first call is a seek to `off`, the same for both, and the variable `offset` of both
functions has the value `off` whenever that is below `2^31`. When `off` is at most
`filesize - 128`, both functions make that seek, whatever the disk reports; and on a disk
on which no call fails, the read then takes its 128 bytes from the file positions
`off .. off + 127` and returns 0, and the write puts the first 128 bytes of the buffer at
the positions `off .. off + 127`, changes no other byte of the file, syncs and
returns 0. -/
theorem atr_offset_formula (m : MountedATR) (sector page : Nat) (buf : List Nat)
    (hs : 1 ≤ sector) (hs16 : sector < 65536) (hp : page < 256) (hS : m.secSize < 65536) :
    ((read_atr_sector m sector page buf).1.fil.ops = m.fil.ops ∨
      ∃ rest, (read_atr_sector m sector page buf).1.fil.ops =
        m.fil.ops ++ FileOp.lseek (atr_byte_offset m.secSize sector page) :: rest) ∧
    ((write_atr_sector m sector page buf).1.fil.ops = m.fil.ops ∨
      ∃ rest, (write_atr_sector m sector page buf).1.fil.ops =
        m.fil.ops ++ FileOp.lseek (atr_byte_offset m.secSize sector page) :: rest) ∧
    (atr_byte_offset m.secSize sector page < 2 ^ 31 →
      read_atr_offset m.secSize sector page = atr_byte_offset m.secSize sector page ∧
      write_atr_offset m.secSize sector page = atr_byte_offset m.secSize sector page) ∧
    atr_byte_offset m.secSize sector page =
      (if sector ≤ 3 then 16 + (sector - 1) * 128
       else 16 + 3 * 128 + (sector - 4) * m.secSize + page * 128) ∧
    (m.path ≠ "" → m.filesize < 2 ^ 31 →
      ((atr_byte_offset m.secSize sector page : Nat) : Int) ≤ m.filesize - 128 →
      (∃ rest, (read_atr_sector m sector page buf).1.fil.ops =
        m.fil.ops ++ FileOp.lseek (atr_byte_offset m.secSize sector page) :: rest) ∧
      (∃ rest, (write_atr_sector m sector page buf).1.fil.ops =
        m.fil.ops ++ FileOp.lseek (atr_byte_offset m.secSize sector page) :: rest) ∧
      ((∀ k, m.fil.fails k = false) → m.filesize = m.fil.size →
        (read_atr_sector m sector page buf).2.2 = 0 ∧
        (read_atr_sector m sector page buf).1.fil.ops =
          m.fil.ops ++ [FileOp.lseek (atr_byte_offset m.secSize sector page),
            FileOp.read 128] ∧
        (read_atr_sector m sector page buf).2.1 =
          (List.range 128).map
              (fun k => m.fil.data (atr_byte_offset m.secSize sector page + k)) ++
            buf.drop 128 ∧
        (write_atr_sector m sector page buf).2 = 0 ∧
        (write_atr_sector m sector page buf).1.fil.ops =
          m.fil.ops ++ [FileOp.lseek (atr_byte_offset m.secSize sector page),
            FileOp.write 128, FileOp.sync] ∧
        (∀ k, k < 128 →
          (write_atr_sector m sector page buf).1.fil.data
            (atr_byte_offset m.secSize sector page + k) = buf.getD k 0) ∧
        ∀ a, (a < atr_byte_offset m.secSize sector page ∨
            atr_byte_offset m.secSize sector page + 128 ≤ a) →
          (write_atr_sector m sector page buf).1.fil.data a = m.fil.data a)) := by
  have hlt := atr_byte_offset_lt m.secSize sector page hs16 hp hS
  have hpos : to_fsize (read_atr_offset m.secSize sector page) =
      atr_byte_offset m.secSize sector page := by
    rw [read_atr_offset_int32 _ _ _ hs]
    exact to_fsize_int32_nat _ hlt
  have hr := read_atr_ops m sector page buf
  have hw := write_atr_ops m sector page buf
  rw [write_atr_offset_eq] at hw
  rw [hpos] at hr hw
  refine ⟨hr, hw, fun h31 => ?_, rfl, fun hm hint hin => ?_⟩
  · rw [write_atr_offset_eq, read_atr_offset_int32 _ _ _ hs]
    exact ⟨int32_nat _ h31, int32_nat _ h31⟩
  · have h31 : atr_byte_offset m.secSize sector page < 2 ^ 31 := by omega
    have hoff : read_atr_offset m.secSize sector page =
        ((atr_byte_offset m.secSize sector page : Nat) : Int) := by
      rw [read_atr_offset_int32 _ _ _ hs]
      exact int32_nat _ h31
    have hmade := atr_seek_made m sector page buf hm (by omega) (by rw [hoff]; omega)
    rw [write_atr_offset_eq, hpos] at hmade
    refine ⟨hmade.1, hmade.2, fun hf hsize => ?_⟩
    have e1 := read_atr_in_bounds m sector page buf hm hs hf hsize hint hin
    have e2 := write_atr_in_bounds m sector page buf hm hs hf hsize hint hin
    rw [e1, e2]
    refine ⟨rfl, rfl, rfl, rfl, rfl, fun k hk => ?_, fun a ha => ?_⟩
    · show (if _ then _ else _) = _
      rw [if_pos ⟨by omega, by omega⟩, Nat.add_sub_cancel_left, getD_map_range _ hk]
    · show (if _ then _ else _) = _
      rw [if_neg (by omega)]

theorem atr_offset_formula_witness :
    atr_byte_offset 256 5 1 = 784 ∧
    read_atr_offset 256 5 1 = 784 ∧ write_atr_offset 256 5 1 = 784 ∧
    (read_atr_sector (atr_demo 256 (List.replicate 1000 7)) 5 1
      (List.replicate 128 0)).1.fil.ops = [FileOp.lseek 784, FileOp.read 128] ∧
    (read_atr_sector (atr_demo 256 (List.replicate 1000 7)) 5 1
      (List.replicate 128 0)).2.2 = 0 ∧
    (write_atr_sector (atr_demo 256 (List.replicate 1000 7)) 5 1
      (List.replicate 128 1)).1.fil.ops =
        [FileOp.lseek 784, FileOp.write 128, FileOp.sync] ∧
    (write_atr_sector (atr_demo 256 (List.replicate 1000 7)) 5 1
      (List.replicate 128 1)).1.fil.data 784 = 1 ∧
    (write_atr_sector (atr_demo 256 (List.replicate 1000 7)) 5 1
      (List.replicate 128 1)).1.fil.data 783 =
        (atr_demo 256 (List.replicate 1000 7)).fil.data 783 := by
  have h784 : atr_byte_offset (atr_demo 256 (List.replicate 1000 7)).secSize 5 1 = 784 := rfl
  have hin : ((atr_byte_offset (atr_demo 256 (List.replicate 1000 7)).secSize 5 1 : Nat) :
      Int) ≤ (atr_demo 256 (List.replicate 1000 7)).filesize - 128 := by
    rw [h784, atr_demo_filesize, List.length_replicate]
    norm_num
  have hint : (atr_demo 256 (List.replicate 1000 7)).filesize < 2 ^ 31 := by
    rw [atr_demo_filesize, List.length_replicate]
    norm_num
  obtain ⟨_, _, h3, _, h5⟩ := atr_offset_formula (atr_demo 256 (List.replicate 1000 7)) 5 1
    (List.replicate 128 0) (by omega) (by omega) (by omega) (by decide)
  obtain ⟨_, _, _, _, w5⟩ := atr_offset_formula (atr_demo 256 (List.replicate 1000 7)) 5 1
    (List.replicate 128 1) (by omega) (by omega) (by omega) (by decide)
  obtain ⟨r1, r2, _⟩ := (h5 (by decide) hint hin).2.2 (fun _ => rfl) (atr_demo_size _ _)
  obtain ⟨_, _, _, w1, w2, w3, w4⟩ :=
    (w5 (by decide) hint hin).2.2 (fun _ => rfl) (atr_demo_size _ _)
  have h := h3 (by rw [h784]; norm_num)
  rw [h784] at h r2 w2 w3 w4
  have hw3 := w3 0 (by omega)
  rw [Nat.add_zero, getD_replicate_zero 128 1 (by omega)] at hw3
  exact ⟨h784, h.1, h.2, r2, r1, w2, hw3, w4 783 (Or.inl (by omega))⟩
/-! ## Search: every matching file is recorded -/

theorem map_bitmap_invariant_witness :
    MapBitmapInvariant one_write_demo ∧
    MapBitmapInvariant (flash_fs_mount (flash_fs_sync one_write_demo)).1 :=
  ⟨map_bitmap_invariant one_write_demo one_write_demo_reachable,
    map_bitmap_invariant (flash_fs_mount (flash_fs_sync one_write_demo)).1 reuse_demo_reachable⟩

theorem sync_contract_witness :
    SyncContract one_write_demo ∧
    SyncContract (flash_fs_mount (flash_fs_sync one_write_demo)).1 :=
  ⟨sync_contract one_write_demo (Or.inr one_write_demo_reachable),
    sync_contract (flash_fs_mount (flash_fs_sync one_write_demo)).1
      (Or.inr reuse_demo_reachable)⟩

end A8PicoCart
